import Mathlib

/-!
# GlusterFS iobuf pool (`libglusterfs/src/iobuf.c`)

A shallow embedding of the size-classed I/O buffer pool.

Modelling conventions

* Heap objects are named by natural numbers.  An arena object is found through
  `iobuf_pool.mem`; a list head (`struct list_head`) is the list of the object
  names linked on it, head first.
* `list_del` on a node unlinks it from whichever list holds it, `list_add`
  links at the head, `list_add_tail` at the tail.
* `int` counters are integers, `size_t` values are naturals; the additions that
  can wrap in `size_t` are reduced modulo `2 ^ 64`.  The 64-bit event counters
  (`alloc_cnt`, `request_misses`) are not reduced.
* The results of the system allocator (`GF_CALLOC`, `GF_MALLOC`, `mmap`) are
  inputs of the operations (`alloc_env`).
* `iobuf.h` is not part of the sources at hand: the small-allocation threshold
  `USE_IOBUF_POOL_IF_SIZE_GREATER_THAN` is a parameter `S` of the operations.
-/

namespace GlusterIobuf

/-! ## Size-class table and class lookup -/

/-- The `struct iobuf_init_config`: one size class. -/
structure iobuf_init_config where
  pagesize : Nat
  num_pages : Nat
deriving DecidableEq, Repr

/-- The class table `gf_iobuf_init_config[]`. -/
def gf_iobuf_init_config : List iobuf_init_config :=
  [⟨128, 1024⟩, ⟨512, 512⟩, ⟨2 * 1024, 512⟩, ⟨8 * 1024, 128⟩,
   ⟨32 * 1024, 64⟩, ⟨128 * 1024, 32⟩, ⟨256 * 1024, 8⟩, ⟨1 * 1024 * 1024, 2⟩]

/-- The number of fixed classes, `IOBUF_ARENA_MAX_INDEX`. -/
def IOBUF_ARENA_MAX_INDEX : Nat := gf_iobuf_init_config.length

/-- The value of `(size_t)-1`. -/
def SIZE_MAX : Nat := 2 ^ 64 - 1

/-- Field `gf_iobuf_init_config[i].pagesize`. -/
def config_pagesize (i : Nat) : Nat := (gf_iobuf_init_config.getD i ⟨0, 0⟩).pagesize

/-- Field `gf_iobuf_init_config[i].num_pages`. -/
def config_num_pages (i : Nat) : Nat := (gf_iobuf_init_config.getD i ⟨0, 0⟩).num_pages

/-- The loop of `gf_iobuf_get_arena_index`, from table position `i` on. -/
def gf_iobuf_get_arena_index_loop (page_size : Nat) : List iobuf_init_config → Nat → Int
  | [], _ => -1
  | c :: cs, i =>
    if page_size ≤ c.pagesize then (i : Int)
    else gf_iobuf_get_arena_index_loop page_size cs (i + 1)

/-- The function `gf_iobuf_get_arena_index`: first class that fits, or `-1`. -/
def gf_iobuf_get_arena_index (page_size : Nat) : Int :=
  gf_iobuf_get_arena_index_loop page_size gf_iobuf_init_config 0

/-- The loop of `gf_iobuf_get_pagesize`; `index` is the current content of `*index`. -/
def gf_iobuf_get_pagesize_loop (page_size : Nat) :
    List iobuf_init_config → Nat → Int → Nat × Int
  | [], _, index => (SIZE_MAX, index)
  | c :: cs, i, index =>
    if page_size ≤ c.pagesize then (c.pagesize, (i : Int))
    else gf_iobuf_get_pagesize_loop page_size cs (i + 1) index

/-- The function `gf_iobuf_get_pagesize`: the rounded size and the new content of
`*index` (left as it was when no class fits and `(size_t)-1` is returned). -/
def gf_iobuf_get_pagesize (page_size : Nat) (index : Int) : Nat × Int :=
  gf_iobuf_get_pagesize_loop page_size gf_iobuf_init_config 0 index

/-! ## Data model -/

/-- The `struct iobuf`.  `iobuf_arena` is the back pointer (`none` is `NULL`),
`free_ptr` is `none` when `NULL`. -/
structure iobuf where
  iobuf_arena : Option Nat
  ref : Int
  ptr : Nat
  free_ptr : Option Nat
  page_size : Nat
deriving DecidableEq

/-- A zero-filled `struct iobuf`, as `GF_CALLOC` returns it. -/
def iobuf_zero : iobuf := ⟨none, 0, 0, none, 0⟩

/-- The `struct iobuf_arena`.  `iobufs` is the array of carved buffers, indexed by
slot; `passive_list` and `active_list` hold slots, head first.  The pointer to the
owning pool is left out: there is one pool. -/
structure iobuf_arena where
  page_size : Nat
  arena_size : Nat
  page_count : Nat
  mem_base : Nat
  iobufs : Nat → iobuf
  passive_list : List Nat
  active_list : List Nat
  alloc_cnt : Nat
  active_cnt : Int
  passive_cnt : Int
  max_active : Int

/-- The `struct iobuf_pool`.  `arenas`, `filled`, `purge` are the arrays of list
heads, indexed by class (`IOBUF_ARENA_MAX_INDEX` is the overflow slot); `mem` is the
heap of arena objects and `next_obj` the next unused object name. -/
structure iobuf_pool where
  arena_size : Nat
  default_page_size : Nat
  all_arenas : List Nat
  arenas : Nat → List Nat
  filled : Nat → List Nat
  purge : Nat → List Nat
  request_misses : Nat
  arena_cnt : Int
  mem : Nat → Option iobuf_arena
  next_obj : Nat

/-- What the system allocator answers during one operation: whether `GF_CALLOC` of
an arena object, of the `iobufs` array and of a stand-alone `struct iobuf` succeed,
the address `mmap` returns (`none` is `MAP_FAILED`) and the address of a data
allocation (`none` is `NULL`). -/
structure alloc_env where
  arena : Bool
  mmap : Option Nat
  iobufs : Bool
  iobuf : Bool
  data : Option Nat

/-- A value of type `struct iobuf *` that is not `NULL`: a stand-alone object (held by
value, nothing else points to it) or slot `slot` of the array of arena `arena`. -/
inductive iobuf_ptr where
  | heap (b : iobuf)
  | carved (arena : Nat) (slot : Nat)
deriving DecidableEq

/-! ## List primitives -/

/-- The `list_add`: link at the head. -/
def list_add (x : Nat) (l : List Nat) : List Nat := x :: l

/-- The `list_add_tail`: link at the tail. -/
def list_add_tail (x : Nat) (l : List Nat) : List Nat := l ++ [x]

/-- The `list_del` / `list_del_init` of an arena's `list` node: the arena leaves
whichever class list it is linked on. -/
def arena_list_del (p : iobuf_pool) (a : Nat) : iobuf_pool :=
  { p with arenas := fun i => (p.arenas i).erase a,
           filled := fun i => (p.filled i).erase a,
           purge := fun i => (p.purge i).erase a }

/-- Link arena `a` at the head of `arenas[i]`. -/
def arenas_list_add (p : iobuf_pool) (i a : Nat) : iobuf_pool :=
  { p with arenas := Function.update p.arenas i (list_add a (p.arenas i)) }

/-- Link arena `a` at the tail of `arenas[i]`. -/
def arenas_list_add_tail (p : iobuf_pool) (i a : Nat) : iobuf_pool :=
  { p with arenas := Function.update p.arenas i (list_add_tail a (p.arenas i)) }

/-- Link arena `a` at the head of `filled[i]`. -/
def filled_list_add (p : iobuf_pool) (i a : Nat) : iobuf_pool :=
  { p with filled := Function.update p.filled i (list_add a (p.filled i)) }

/-- Link arena `a` at the tail of `purge[i]`. -/
def purge_list_add_tail (p : iobuf_pool) (i a : Nat) : iobuf_pool :=
  { p with purge := Function.update p.purge i (list_add_tail a (p.purge i)) }

/-- The `list_del` / `list_del_init` of a buffer's `list` node: slot `k` leaves
whichever of the two lists of its arena it is linked on. -/
def iobuf_list_del (A : iobuf_arena) (k : Nat) : iobuf_arena :=
  { A with passive_list := A.passive_list.erase k,
           active_list := A.active_list.erase k }

/-- Store arena object `A` under name `a`. -/
def set_arena (p : iobuf_pool) (a : Nat) (A : iobuf_arena) : iobuf_pool :=
  { p with mem := Function.update p.mem a (some A) }

/-- Apply `f` to the buffer in slot `k` of arena `a`. -/
def modify_iobuf (p : iobuf_pool) (a k : Nat) (f : iobuf → iobuf) : iobuf_pool :=
  match p.mem a with
  | none => p
  | some A => set_arena p a { A with iobufs := Function.update A.iobufs k (f (A.iobufs k)) }

/-! ## Arenas -/

/-- The loop of `__iobuf_arena_init_iobufs` for arena object `self`: `n` iterations
are left, `i` is the slot and `offset` the byte offset of the next buffer. -/
def __iobuf_arena_init_iobufs_loop (self : Nat) : Nat → Nat → Nat → iobuf_arena → iobuf_arena
  | 0, _, _, A => A
  | n + 1, i, offset, A =>
    __iobuf_arena_init_iobufs_loop self n (i + 1) (offset + A.page_size)
      { A with
        iobufs := Function.update A.iobufs i
          { iobuf_zero with iobuf_arena := some self, ptr := A.mem_base + offset },
        passive_list := list_add i A.passive_list,
        passive_cnt := A.passive_cnt + 1 }

/-- The function `__iobuf_arena_init_iobufs` (the array allocation succeeded). -/
def __iobuf_arena_init_iobufs (self : Nat) (A : iobuf_arena) : iobuf_arena :=
  __iobuf_arena_init_iobufs_loop self A.page_count 0 0 { A with iobufs := fun _ => iobuf_zero }

/-- The function `__iobuf_arena_destroy`: the arena object is freed. -/
def __iobuf_arena_destroy (p : iobuf_pool) (a : Nat) : iobuf_pool :=
  { p with mem := Function.update p.mem a none }

/-- The function `__iobuf_arena_alloc`: the new arena, or `none` for `NULL`.  On the
error path after `mmap` the freed arena stays linked on `all_arenas`. -/
def __iobuf_arena_alloc (o : alloc_env) (p : iobuf_pool) (page_size : Nat)
    (num_iobufs : Nat) : Option Nat × iobuf_pool :=
  if o.arena = false then (none, p)
  else
    let a := p.next_obj
    let rounded_size := (gf_iobuf_get_pagesize page_size 0).1
    match o.mmap with
    | none => (none, p)
    | some base =>
      let A : iobuf_arena :=
        { page_size := rounded_size, arena_size := rounded_size * num_iobufs % 2 ^ 64,
          page_count := num_iobufs, mem_base := base, iobufs := fun _ => iobuf_zero,
          passive_list := [], active_list := [], alloc_cnt := 0, active_cnt := 0,
          passive_cnt := 0, max_active := 0 }
      let p1 := { p with all_arenas := list_add_tail a p.all_arenas, next_obj := p.next_obj + 1 }
      if o.iobufs = false then (none, p1)
      else
        (some a, { set_arena p1 a (__iobuf_arena_init_iobufs a A) with
                   arena_cnt := p1.arena_cnt + 1 })

/-- The function `__iobuf_arena_unprune`: unlink and return the first arena of
`purge[index]`. -/
def __iobuf_arena_unprune (p : iobuf_pool) (index : Nat) : Option Nat × iobuf_pool :=
  match p.purge index with
  | [] => (none, p)
  | a :: _ => (some a, arena_list_del p a)

/-- The function `__iobuf_pool_add_arena`. -/
def __iobuf_pool_add_arena (o : alloc_env) (p : iobuf_pool) (page_size : Nat)
    (num_pages : Nat) (index : Nat) : Option Nat × iobuf_pool :=
  let r := match __iobuf_arena_unprune p index with
    | (some a, p1) => (some a, p1)
    | (none, p1) => __iobuf_arena_alloc o p1 page_size num_pages
  match r with
  | (none, p1) => (none, p1)
  | (some a, p1) => (some a, arenas_list_add p1 index a)

/-- The function `iobuf_create_stdalloc_arena`; `ok` tells whether `GF_CALLOC`
succeeds. -/
def iobuf_create_stdalloc_arena (ok : Bool) (p : iobuf_pool) : iobuf_pool :=
  if ok = false then p
  else
    let a := p.next_obj
    let A : iobuf_arena :=
      { page_size := 0x7fffffff, arena_size := 0, page_count := 0, mem_base := 0,
        iobufs := fun _ => iobuf_zero, passive_list := [], active_list := [],
        alloc_cnt := 0, active_cnt := 0, passive_cnt := 0, max_active := 0 }
    { arenas_list_add_tail (set_arena p a A) IOBUF_ARENA_MAX_INDEX a with
      next_obj := p.next_obj + 1 }

/-- One iteration of the pre-allocation loop of `iobuf_pool_new`; the second
component is the local `arena_size`. -/
def iobuf_pool_new_step (o : Nat → alloc_env) (s : iobuf_pool × Nat) (i : Nat) :
    iobuf_pool × Nat :=
  let page_size := config_pagesize i
  let num_pages := config_num_pages i
  match __iobuf_pool_add_arena (o i) s.1 page_size num_pages i with
  | (some _, p1) => (p1, (s.2 + page_size * num_pages) % 2 ^ 64)
  | (none, p1) => (p1, s.2)

/-- The function `iobuf_pool_new`.  `pool_ok` and `stdalloc_ok` tell whether the
`GF_CALLOC` of the pool and of the overflow arena succeed, `o i` is the allocator's
answer while class `i` is set up.  `none` is `NULL`. -/
def iobuf_pool_new (pool_ok : Bool) (o : Nat → alloc_env) (stdalloc_ok : Bool) :
    Option iobuf_pool :=
  if pool_ok = false then none
  else
    let p0 : iobuf_pool :=
      { arena_size := 0, default_page_size := 128 * 1024, all_arenas := [],
        arenas := fun _ => [], filled := fun _ => [], purge := fun _ => [],
        request_misses := 0, arena_cnt := 0, mem := fun _ => none, next_obj := 0 }
    let s := (List.range IOBUF_ARENA_MAX_INDEX).foldl (iobuf_pool_new_step o) (p0, 0)
    some { iobuf_create_stdalloc_arena stdalloc_ok s.1 with arena_size := s.2 }

/-- The function `__iobuf_arena_prune`. -/
def __iobuf_arena_prune (p : iobuf_pool) (a : Nat) (index : Nat) : iobuf_pool :=
  if (p.arenas index).isEmpty then p
  else
    let p1 := arena_list_del p a
    __iobuf_arena_destroy
      { p1 with all_arenas := p1.all_arenas.erase a, arena_cnt := p1.arena_cnt - 1 } a

/-- The body of the class loop of `iobuf_pool_prune` for class `i`. -/
def iobuf_pool_prune_class (p : iobuf_pool) (i : Nat) : iobuf_pool :=
  if (p.arenas i).isEmpty then p
  else (p.purge i).foldl (fun q a => __iobuf_arena_prune q a i) p

/-- The function `iobuf_pool_prune`. -/
def iobuf_pool_prune (p : iobuf_pool) : iobuf_pool :=
  (List.range IOBUF_ARENA_MAX_INDEX).foldl iobuf_pool_prune_class p

/-! ## Hand-out -/

/-- The function `__iobuf_select_arena`: the first arena of `arenas[index]` with a
non-zero `passive_cnt`, else the result of `__iobuf_pool_add_arena`. -/
def __iobuf_select_arena (o : alloc_env) (p : iobuf_pool) (page_size : Nat)
    (index : Nat) : Option Nat × iobuf_pool :=
  match (p.arenas index).find?
      (fun a => match p.mem a with
        | some A => decide (A.passive_cnt ≠ 0)
        | none => false) with
  | some a => (some a, p)
  | none => __iobuf_pool_add_arena o p page_size (config_num_pages index) index

/-- The statements of `__iobuf_get` on the chosen arena `A` and its first passive
buffer `k`, from `list_del` to the update of `max_active`. -/
def __iobuf_get_arena (A : iobuf_arena) (k : Nat) : iobuf_arena :=
  let A1 : iobuf_arena := { iobuf_list_del A k with passive_cnt := A.passive_cnt - 1 }
  let A2 : iobuf_arena :=
    { A1 with active_list := list_add k A1.active_list, active_cnt := A1.active_cnt + 1 }
  let A3 : iobuf_arena := { A2 with alloc_cnt := A2.alloc_cnt + 1 }
  if A3.max_active < A3.active_cnt then { A3 with max_active := A3.active_cnt } else A3

/-- The function `__iobuf_get`: the arena and slot of the buffer handed out, or `none`
for `NULL`.  (Taking the first entry of an empty passive list is undefined in C; the
model answers `none` there.) -/
def __iobuf_get (o : alloc_env) (p : iobuf_pool) (page_size : Nat) (index : Nat) :
    Option (Nat × Nat) × iobuf_pool :=
  match __iobuf_select_arena o p page_size index with
  | (none, p1) => (none, p1)
  | (some a, p1) =>
    match p1.mem a with
    | none => (none, p1)
    | some A =>
      match A.passive_list with
      | [] => (none, p1)
      | k :: _ =>
        let A4 : iobuf_arena := __iobuf_get_arena A k
        let p2 : iobuf_pool :=
          if A4.passive_cnt = 0 then filled_list_add (arena_list_del p1 a) index a else p1
        let b : iobuf := { (A4.iobufs k) with page_size := page_size }
        (some (a, k), set_arena p2 a { A4 with iobufs := Function.update A4.iobufs k b })

/-- Modelled from the spec: the macro `GF_ALIGN_BUF` of a header that is not among the
sources, "compute a page-aligned pointer", `data = align_up(data, align)`: the least
multiple of `bound` that is not below `ptr`. -/
def GF_ALIGN_BUF (ptr bound : Nat) : Nat := (ptr + bound - 1) / bound * bound

/-- Modelled from the spec: the constant `GF_IOBUF_ALIGN_SIZE` of a header that is not
among the sources, "the reference uses 4096". -/
def GF_IOBUF_ALIGN_SIZE : Nat := 4096

/-- The function `iobuf_get_from_stdalloc`. -/
def iobuf_get_from_stdalloc (o : alloc_env) (p : iobuf_pool) (page_size : Nat) :
    Option iobuf :=
  let iobuf_arena := (p.arenas IOBUF_ARENA_MAX_INDEX).head?
  if o.iobuf = false then none
  else
    match o.data with
    | none => none
    | some d =>
      some { iobuf_arena := iobuf_arena, ref := 1,
             ptr := GF_ALIGN_BUF d GF_IOBUF_ALIGN_SIZE,
             free_ptr := some d, page_size := page_size }

/-- The function `iobuf_get_from_small`. -/
def iobuf_get_from_small (o : alloc_env) (page_size : Nat) : Option iobuf :=
  if o.iobuf = false then none
  else
    match o.data with
    | none => none
    | some d =>
      some { iobuf_arena := none, ref := 1, ptr := d, free_ptr := some d,
             page_size := page_size }

/-- The function `iobuf_ref`. -/
def iobuf_ref (p : iobuf_pool) (h : iobuf_ptr) : iobuf_ptr × iobuf_pool :=
  match h with
  | .heap b => (.heap { b with ref := b.ref + 1 }, p)
  | .carved a k => (h, modify_iobuf p a k (fun b => { b with ref := b.ref + 1 }))

/-- The function `iobuf_get2`, with the threshold
`USE_IOBUF_POOL_IF_SIZE_GREATER_THAN` as `S`: the buffer (`none` for `NULL`) and the
pool afterwards. -/
def iobuf_get2 (S : Nat) (o : alloc_env) (p : iobuf_pool) (page_size : Nat) :
    Option iobuf_ptr × iobuf_pool :=
  let page_size := if page_size = 0 then p.default_page_size else page_size
  if page_size ≤ S then
    ((iobuf_get_from_small o page_size).map iobuf_ptr.heap, p)
  else
    let r := gf_iobuf_get_pagesize page_size 0
    if r.1 = SIZE_MAX then
      ((iobuf_get_from_stdalloc o p page_size).map iobuf_ptr.heap,
        { p with request_misses := p.request_misses + 1 })
    else if r.2 = -1 then (none, p)
    else
      match __iobuf_get o p r.1 r.2.toNat with
      | (none, p1) => (none, p1)
      | (some (a, k), p1) => (some (.carved a k), (iobuf_ref p1 (.carved a k)).2)

/-- The two assignments at the end of `iobuf_get_page_aligned`. -/
def iobuf_align (align_size : Nat) (b : iobuf) : iobuf :=
  { b with free_ptr := if b.free_ptr.isSome then b.free_ptr else some b.ptr,
           ptr := GF_ALIGN_BUF b.ptr align_size }

/-- The function `iobuf_get_page_aligned`. -/
def iobuf_get_page_aligned (S : Nat) (o : alloc_env) (p : iobuf_pool) (page_size : Nat)
    (align_size : Nat) : Option iobuf_ptr × iobuf_pool :=
  let req_size := if page_size = 0 then p.default_page_size else page_size
  let req_size := (req_size + align_size) % 2 ^ 64
  match iobuf_get2 S o p req_size with
  | (none, p1) => (none, p1)
  | (some (.heap b), p1) => (some (.heap (iobuf_align align_size b)), p1)
  | (some (.carved a k), p1) => (some (.carved a k), modify_iobuf p1 a k (iobuf_align align_size))

/-- The function `iobuf_get`. -/
def iobuf_get (S : Nat) (o : alloc_env) (p : iobuf_pool) : Option iobuf_ptr × iobuf_pool :=
  iobuf_get2 S o p p.default_page_size

/-! ## Return -/

/-- The statements of `__iobuf_put` on arena `A` and buffer `k`, from `list_del_init`
of the buffer to the increment of `passive_cnt`. -/
def __iobuf_put_arena (A : iobuf_arena) (k : Nat) : iobuf_arena :=
  let A1 : iobuf_arena := { iobuf_list_del A k with active_cnt := A.active_cnt - 1 }
  let b := A1.iobufs k
  let A2 : iobuf_arena := match b.free_ptr with
    | some f =>
      let b1 : iobuf := { b with ptr := f, free_ptr := none }
      { A1 with iobufs := Function.update A1.iobufs k b1 }
    | none => A1
  { A2 with passive_list := list_add k A2.passive_list, passive_cnt := A2.passive_cnt + 1 }

/-- The function `__iobuf_put` for buffer `h` and arena object `a`.  A stand-alone
buffer only ever points to the overflow arena, for which the class lookup gives `-1`;
with any other arena the C code would unlink a node that was never linked, and the
model leaves the pool as it is. -/
def __iobuf_put (p : iobuf_pool) (h : iobuf_ptr) (a : Nat) : iobuf_pool :=
  match p.mem a with
  | none => p
  | some A =>
    let index := gf_iobuf_get_arena_index A.page_size
    if index = -1 then p
    else
      match h with
      | .heap _ => p
      | .carved _ k =>
        let i := index.toNat
        let p1 : iobuf_pool :=
          if A.passive_cnt = 0 then arenas_list_add_tail (arena_list_del p a) i a else p
        let A3 : iobuf_arena := __iobuf_put_arena A k
        let p2 : iobuf_pool := set_arena p1 a A3
        if A3.active_cnt = 0 then
          __iobuf_arena_prune (purge_list_add_tail (arena_list_del p2 a) i a) a i
        else p2

/-- The function `iobuf_put`. -/
def iobuf_put (p : iobuf_pool) (h : iobuf_ptr) : iobuf_pool :=
  let iobuf_arena := match h with
    | .heap b => b.iobuf_arena
    | .carved a _ => some a
  match iobuf_arena with
  | none => p
  | some a => __iobuf_put p h a

/-- The function `iobuf_unref`: the buffer after the decrement and the pool.  (On a
pointer into a destroyed arena the C code touches freed memory; the model leaves the
pool as it is.) -/
def iobuf_unref (p : iobuf_pool) (h : iobuf_ptr) : iobuf_ptr × iobuf_pool :=
  match h with
  | .heap b =>
    let b1 := { b with ref := b.ref - 1 }
    (.heap b1, if b1.ref = 0 then iobuf_put p (.heap b1) else p)
  | .carved a k =>
    match p.mem a with
    | none => (h, p)
    | some A =>
      let ref := (A.iobufs k).ref - 1
      let p1 := modify_iobuf p a k (fun b => { b with ref := b.ref - 1 })
      (h, if ref = 0 then iobuf_put p1 h else p1)

/-- The function `iobuf_size`: the macro `iobuf_pagesize` reads the field
`page_size` of the buffer. -/
def iobuf_size (p : iobuf_pool) (h : iobuf_ptr) : Nat :=
  match h with
  | .heap b => b.page_size
  | .carved a k =>
    match p.mem a with
    | none => 0
    | some A => (A.iobufs k).page_size

/-- One of the three inner loops of `iobuf_pool_destroy`, over the arenas `l` of a list:
each arena is unlinked, `arena_cnt` is decremented and the arena is destroyed. -/
def iobuf_pool_destroy_list (p : iobuf_pool) (l : List Nat) : iobuf_pool :=
  l.foldl (fun q a =>
    let q1 := arena_list_del q a
    __iobuf_arena_destroy { q1 with arena_cnt := q1.arena_cnt - 1 } a) p

/-- The body of the class loop of `iobuf_pool_destroy` for class `i`: the lists
`arenas[i]`, `purge[i]` and `filled[i]`, in this order. -/
def iobuf_pool_destroy_class (p : iobuf_pool) (i : Nat) : iobuf_pool :=
  let p1 := iobuf_pool_destroy_list p (p.arenas i)
  let p2 := iobuf_pool_destroy_list p1 (p1.purge i)
  iobuf_pool_destroy_list p2 (p2.filled i)

/-- The function `iobuf_pool_destroy`, up to the release of the mutex: the class loop
runs over `i < IOBUF_ARENA_MAX_INDEX`.  The result is the pool object just before
`GF_FREE (iobuf_pool)`; its field `mem` tells which arena objects are still
allocated. -/
def iobuf_pool_destroy (p : iobuf_pool) : iobuf_pool :=
  (List.range IOBUF_ARENA_MAX_INDEX).foldl iobuf_pool_destroy_class p

/-! ## Buffer bundles (`struct iobref`) -/

/-- The two operations on buffers that the bundle code calls, over a store `σ` of buffer
objects and buffer pointers `β`; both return the pointer and the store afterwards. -/
structure buf_ops (σ β : Type) where
  iobuf_ref : σ → β → β × σ
  iobuf_unref : σ → β → β × σ

/-- The buffer operations of the pool model. -/
def pool_ops : buf_ops iobuf_pool iobuf_ptr :=
  { iobuf_ref := iobuf_ref, iobuf_unref := iobuf_unref }

/-- The buffer operations on reference counts alone: a buffer is a name, the store maps
a name to the field `ref` of the object; `iobuf_ref` is the increment, `iobuf_unref` the
decrement (what `iobuf_put` does once the count is 0 is the subject of the pool
model). -/
def count_ops : buf_ops (Nat → Int) Nat :=
  { iobuf_ref := fun s b => (b, Function.update s b (s b + 1)),
    iobuf_unref := fun s b => (b, Function.update s b (s b - 1)) }

/-- The `struct iobref`: `iobrefs` is the array of `allocated` slots, `none` being
`NULL`. -/
structure iobref (β : Type) where
  iobrefs : List (Option β)
  allocated : Nat
  used : Nat
  ref : Int

/-- The value of `ENOMEM`. -/
def ENOMEM : Int := 12

/-- The value of `EINVAL`. -/
def EINVAL : Int := 22

/-- The function `iobref_new`; `ok` tells whether both allocations succeed. -/
def iobref_new {β : Type} (ok : Bool) : Option (iobref β) :=
  if ok = false then none
  else some { iobrefs := List.replicate 16 none, allocated := 16, used := 0, ref := 1 }

/-- The function `iobref_ref`. -/
def iobref_ref {β : Type} (X : iobref β) : iobref β := { X with ref := X.ref + 1 }

/-- The function `__iobref_grow`; `ok` tells whether `GF_REALLOC` succeeds.  The slots
below the old `allocated` keep their content, then the slots from `used` on are set to
`NULL`. -/
def __iobref_grow {β : Type} (ok : Bool) (X : iobref β) : iobref β :=
  if ok = false then X
  else
    { X with iobrefs := X.iobrefs.take X.used ++ List.replicate (X.allocated * 2 - X.used) none,
             allocated := X.allocated * 2 }

/-- The loop of `__iobref_add`: the index of the first `NULL` slot. -/
def first_null {β : Type} : List (Option β) → Option Nat
  | [] => none
  | none :: _ => some 0
  | some _ :: l => (first_null l).map (fun i => i + 1)

/-- The function `__iobref_add` (both pointers not `NULL`): the return value, the
bundle and the store afterwards. -/
def __iobref_add {σ β : Type} (ops : buf_ops σ β) (grow_ok : Bool) (s : σ) (X : iobref β)
    (b : β) : Int × iobref β × σ :=
  let X1 := if X.used = X.allocated then __iobref_grow grow_ok X else X
  if X1.used = X1.allocated then (-ENOMEM, X1, s)
  else
    match first_null X1.iobrefs with
    | none => (-ENOMEM, X1, s)
    | some i =>
      let r := ops.iobuf_ref s b
      (0, { X1 with iobrefs := X1.iobrefs.set i (some r.1), used := X1.used + 1 }, r.2)

/-- The function `iobref_add`; a `NULL` argument is `none`. -/
def iobref_add {σ β : Type} (ops : buf_ops σ β) (grow_ok : Bool) (s : σ)
    (X : Option (iobref β)) (b : Option β) : Int × Option (iobref β) × σ :=
  match X, b with
  | some X, some b =>
    let r := __iobref_add ops grow_ok s X b
    (r.1, some r.2.1, r.2.2)
  | _, _ => (-EINVAL, X, s)

/-- The loop of `iobref_destroy` over the slots: every buffer found is unreferenced. -/
def iobref_destroy_loop {σ β : Type} (ops : buf_ops σ β) : List (Option β) → σ → σ
  | [], s => s
  | none :: l, s => iobref_destroy_loop ops l s
  | some b :: l, s => iobref_destroy_loop ops l (ops.iobuf_unref s b).2

/-- The function `iobref_destroy`: the store afterwards (the bundle is freed). -/
def iobref_destroy {σ β : Type} (ops : buf_ops σ β) (s : σ) (X : iobref β) : σ :=
  iobref_destroy_loop ops X.iobrefs s

/-- The function `iobref_unref`: the bundle (`none` once it is freed) and the store. -/
def iobref_unref {σ β : Type} (ops : buf_ops σ β) (s : σ) (X : iobref β) :
    Option (iobref β) × σ :=
  let ref := X.ref - 1
  if ref = 0 then (none, iobref_destroy ops s { X with ref := ref })
  else (some { X with ref := ref }, s)

/-- The loop of `iobref_clear`: buffers are unreferenced up to the first `NULL` slot. -/
def iobref_clear_loop {σ β : Type} (ops : buf_ops σ β) : List (Option β) → σ → σ
  | [], s => s
  | none :: _, s => s
  | some b :: l, s => iobref_clear_loop ops l (ops.iobuf_unref s b).2

/-- The function `iobref_clear`. -/
def iobref_clear {σ β : Type} (ops : buf_ops σ β) (s : σ) (X : iobref β) :
    Option (iobref β) × σ :=
  iobref_unref ops (iobref_clear_loop ops X.iobrefs s) X

/-- The loop of `iobref_merge` over the slots of `from`; `grow_ok` answers every
`GF_REALLOC`. -/
def iobref_merge_loop {σ β : Type} (ops : buf_ops σ β) (grow_ok : Bool) :
    List (Option β) → Int → σ → iobref β → Int × iobref β × σ
  | [], ret, s, dst => (ret, dst, s)
  | none :: _, ret, s, dst => (ret, dst, s)
  | some b :: l, _, s, dst =>
    let r := __iobref_add ops grow_ok s dst b
    if r.1 < 0 then r else iobref_merge_loop ops grow_ok l r.1 r.2.2 r.2.1

/-- The function `iobref_merge` for two distinct bundles `dst` (the parameter `to`) and
`src` (the parameter `from`): the return value, the bundle `dst` and the store afterwards
(`src` is only read). -/
def iobref_merge {σ β : Type} (ops : buf_ops σ β) (grow_ok : Bool) (s : σ)
    (dst : iobref β) (src : iobref β) : Int × iobref β × σ :=
  iobref_merge_loop ops grow_ok src.iobrefs 0 s dst

/-- The buffers a bundle holds, in slot order. -/
def iobref_held {β : Type} (X : iobref β) : List β := X.iobrefs.filterMap id

/-- The ordering invariant of a bundle: `used` slots with buffers, then `NULL` slots up
to `allocated`. -/
def iobref_ordered {β : Type} (X : iobref β) : Prop :=
  X.used ≤ X.allocated ∧ X.iobrefs.length = X.allocated ∧
  (∀ i, i < X.used → ∃ b, X.iobrefs.get? i = some (some b)) ∧
  (∀ i, X.used ≤ i → i < X.allocated → X.iobrefs.get? i = some none)

/-- Bundle `X` holds exactly the buffers `held`, in the first slots, and every other
slot is `NULL`. -/
def iobref_shape {β : Type} (X : iobref β) (held : List β) : Prop :=
  X.iobrefs = held.map some ++ List.replicate (X.allocated - X.used) none ∧
  held.length = X.used ∧ X.used ≤ X.allocated

/-- The bundles built by `iobref_new`, `iobref_add` and `iobref_merge` (and
`iobref_ref`), with any buffers, any store and any answers of `GF_REALLOC`. -/
inductive iobref_built {σ β : Type} (ops : buf_ops σ β) : iobref β → Prop
  | new (X : iobref β) : iobref_new true = some X → iobref_built ops X
  | ref (X : iobref β) : iobref_built ops X → iobref_built ops (iobref_ref X)
  | add (X : iobref β) (grow_ok : Bool) (s : σ) (b : β) (Y : iobref β) :
      iobref_built ops X → (__iobref_add ops grow_ok s X b).2.1 = Y → iobref_built ops Y
  | merge (X F : iobref β) (grow_ok : Bool) (s : σ) (Y : iobref β) :
      iobref_built ops X → iobref_built ops F →
      (iobref_merge ops grow_ok s X F).2.1 = Y → iobref_built ops Y

/-- The calls `iobuf_ref (b)` for the buffers `b` of a list, in order: the pointers
returned and the store afterwards. -/
def ref_all {σ β : Type} (ops : buf_ops σ β) : List β → σ → List β × σ
  | [], s => ([], s)
  | b :: l, s =>
    ((ops.iobuf_ref s b).1 :: (ref_all ops l (ops.iobuf_ref s b).2).1,
      (ref_all ops l (ops.iobuf_ref s b).2).2)

/-- The calls `iobuf_unref (b)` for the buffers `b` of a list, in order: the store
afterwards. -/
def unref_all {σ β : Type} (ops : buf_ops σ β) : List β → σ → σ
  | [], s => s
  | b :: l, s => unref_all ops l (ops.iobuf_unref s b).2

/-- The calls `__iobref_add (X, b)` for the buffers `b` of a list, in order, each growth
of the array succeeding: the bundle and the store afterwards, with the list of values
returned. -/
def iobref_add_all {σ β : Type} (ops : buf_ops σ β) : List β → σ → iobref β →
    List Int × iobref β × σ
  | [], s, X => ([], X, s)
  | b :: l, s, X =>
    let r := __iobref_add ops true s X b
    let q := iobref_add_all ops l r.2.2 r.2.1
    (r.1 :: q.1, q.2.1, q.2.2)

/-! ## The copy helper -/

/-- The `struct iovec`. -/
structure iovec where
  iov_base : Nat
  iov_len : Nat
deriving DecidableEq

/-- Modelled from the spec: `iov_length` is the total length of the vectors (the copy
helper is to "compute total length"); the function is defined in a header that is not
among the sources. -/
def iov_length (iovec_src : List iovec) : Nat := (iovec_src.map iovec.iov_len).sum

/-- The macro `iobuf_ptr (iob)`, the field `ptr` of the buffer (0 for a slot of a
destroyed arena). -/
def iobuf_data_ptr (p : iobuf_pool) (h : iobuf_ptr) : Nat :=
  match h with
  | .heap b => b.ptr
  | .carved a k =>
    match p.mem a with
    | none => 0
    | some A => (A.iobufs k).ptr

/-- The field `ref` of the buffer, `GF_ATOMIC_GET (iobuf->ref)` (0 for a slot of a
destroyed arena). -/
def iobuf_refcount (p : iobuf_pool) (h : iobuf_ptr) : Int :=
  match h with
  | .heap b => b.ref
  | .carved a k =>
    match p.mem a with
    | none => 0
    | some A => (A.iobufs k).ref

/-- What `iobuf_copy` leaves behind: the return value, the out-parameters `*iobref`,
`*iobuf` and `*iov_dst`, and the pool. -/
structure iobuf_copy_result where
  ret : Int
  out_iobref : Option (iobref iobuf_ptr)
  out_iobuf : Option iobuf_ptr
  iov_dst : Option iovec
  pool : iobuf_pool

/-- The function `iobuf_copy`; `new_ok` and `grow_ok` tell whether the allocations of
`iobref_new` and `__iobref_grow` succeed.  A stand-alone buffer is a value in this
model, so `*iobuf` is given as the value of the buffer when the function returns.  The
bytes written by `iov_unload` are not part of the pool state. -/
def iobuf_copy (S : Nat) (o : alloc_env) (new_ok grow_ok : Bool) (p : iobuf_pool)
    (iovec_src : List iovec) : iobuf_copy_result :=
  let size := iov_length iovec_src
  match iobuf_get2 S o p size with
  | (none, p1) =>
    { ret := -1, out_iobref := none, out_iobuf := none, iov_dst := none, pool := p1 }
  | (some h, p1) =>
    match (iobref_new new_ok : Option (iobref iobuf_ptr)) with
    | none =>
      let u := iobuf_unref p1 h
      { ret := -1, out_iobref := none, out_iobuf := some u.1, iov_dst := none, pool := u.2 }
    | some X =>
      let r := iobref_add pool_ops grow_ok p1 (some X) (some h)
      if r.1 ≠ 0 then
        let u := iobuf_unref r.2.2 h
        let v : Option (iobref iobuf_ptr) × iobuf_pool :=
          match r.2.1 with
          | some Y => iobref_unref pool_ops u.2 Y
          | none => (none, u.2)
        { ret := -1, out_iobref := v.1, out_iobuf := some u.1, iov_dst := none,
          pool := v.2 }
      else
        let h1 := (iobuf_ref p1 h).1
        { ret := 0, out_iobref := r.2.1, out_iobuf := some h1,
          iov_dst := some { iov_base := iobuf_data_ptr r.2.2 h1, iov_len := size },
          pool := r.2.2 }

/-! ## Specification vocabulary -/

/-- Class `i` is the smallest class of the table whose page size is at least `n`. -/
def smallest_class (n i : Nat) : Prop :=
  i < IOBUF_ARENA_MAX_INDEX ∧ n ≤ config_pagesize i ∧ ∀ j, j < i → config_pagesize j < n

/-- Arena `A` has the page size and the page count of class `i`. -/
def arena_class (A : iobuf_arena) (i : Nat) : Prop :=
  A.page_size = config_pagesize i ∧ A.page_count = config_num_pages i

/-- The caller holds a reference on buffer `h`: a stand-alone buffer got from the small
or the overflow path with a positive count, or a slot of a live arena with a positive
count. -/
def holds (p : iobuf_pool) : iobuf_ptr → Prop
  | .heap b => 1 ≤ b.ref ∧
      (b.iobuf_arena = none ∨ b.iobuf_arena = (p.arenas IOBUF_ARENA_MAX_INDEX).head?)
  | .carved a k => ∃ A, p.mem a = some A ∧ k < A.page_count ∧ 1 ≤ (A.iobufs k).ref

/-- The call `iobuf_pool_new ()` returns pool `q` when the allocator answers `o i` while
class `i` is set up and `ok` for the overflow arena. -/
structure pool_new_returns (o : Nat → alloc_env) (ok : Bool) (q : iobuf_pool) : Prop where
  eq : iobuf_pool_new true o ok = some q

/-- The pool states reachable from `iobuf_pool_new` by the public operations, with any
answers of the system allocator; `iobuf_ref` and `iobuf_unref` are called by a holder of
a reference. -/
inductive Reachable (S : Nat) : iobuf_pool → Prop
  | new (o : Nat → alloc_env) (ok : Bool) (q : iobuf_pool) :
      pool_new_returns o ok q → Reachable S q
  | get2 (p : iobuf_pool) (o : alloc_env) (n : Nat) (q : iobuf_pool) :
      Reachable S p → n ≤ SIZE_MAX → (iobuf_get2 S o p n).2 = q → Reachable S q
  | get_page_aligned (p : iobuf_pool) (o : alloc_env) (n al : Nat) (q : iobuf_pool) :
      Reachable S p → n ≤ SIZE_MAX → al ≤ SIZE_MAX →
      (iobuf_get_page_aligned S o p n al).2 = q → Reachable S q
  | ref (p : iobuf_pool) (h : iobuf_ptr) (q : iobuf_pool) :
      Reachable S p → holds p h → (iobuf_ref p h).2 = q → Reachable S q
  | unref (p : iobuf_pool) (h : iobuf_ptr) (q : iobuf_pool) :
      Reachable S p → holds p h → (iobuf_unref p h).2 = q → Reachable S q
  | prune (p : iobuf_pool) (q : iobuf_pool) :
      Reachable S p → iobuf_pool_prune p = q → Reachable S q

/-- The consistency of one arena object: counters and lists agree, every slot is on one
of the two lists, passive slots have count 0 and active slots a positive count, and the
arena is of a fixed class or is the overflow arena. -/
structure arena_inv (A : iobuf_arena) : Prop where
  passive_len : A.passive_cnt = A.passive_list.length
  active_len : A.active_cnt = A.active_list.length
  passive_nodup : A.passive_list.Nodup
  active_nodup : A.active_list.Nodup
  cover : ∀ k, k < A.page_count → k ∈ A.passive_list ∨ k ∈ A.active_list
  passive_ref : ∀ k, k ∈ A.passive_list → k < A.page_count ∧ (A.iobufs k).ref = 0
  active_ref : ∀ k, k ∈ A.active_list → k < A.page_count ∧ 1 ≤ (A.iobufs k).ref
  sum : A.passive_cnt + A.active_cnt = A.page_count
  kind : (∃ i, i < IOBUF_ARENA_MAX_INDEX ∧ arena_class A i) ∨
    (A.page_size = 0x7fffffff ∧ A.page_count = 0)

/-- The consistency of the pool: what holds of the arenas on each class list, and of
every arena object. -/
structure pool_inv (p : iobuf_pool) : Prop where
  arenas_ok : ∀ i, i < IOBUF_ARENA_MAX_INDEX → ∀ a, a ∈ p.arenas i →
    ∃ A, p.mem a = some A ∧ arena_class A i ∧ 0 < A.passive_cnt
  filled_ok : ∀ i, i < IOBUF_ARENA_MAX_INDEX → ∀ a, a ∈ p.filled i →
    ∃ A, p.mem a = some A ∧ arena_class A i ∧ A.passive_cnt = 0 ∧ 0 < A.active_cnt
  purge_ok : ∀ i, i < IOBUF_ARENA_MAX_INDEX → ∀ a, a ∈ p.purge i →
    ∃ A, p.mem a = some A ∧ arena_class A i ∧ A.active_cnt = 0
  nodup : ∀ i, (p.arenas i).Nodup ∧ (p.filled i).Nodup ∧ (p.purge i).Nodup
  excl : ∀ i j, i < IOBUF_ARENA_MAX_INDEX → j < IOBUF_ARENA_MAX_INDEX →
    ∀ a, a ∈ p.arenas i → a ∉ p.purge j
  mem_ok : ∀ a A, p.mem a = some A → arena_inv A
  fresh : ∀ a, p.next_obj ≤ a → p.mem a = none

/-- Pools `p` and `q` agree on the fields that only creation and the overflow path
write: `default_page_size`, `request_misses`, `arena_size`. -/
def scalars_eq (p q : iobuf_pool) : Prop :=
  q.default_page_size = p.default_page_size ∧ q.request_misses = p.request_misses ∧
  q.arena_size = p.arena_size

/-- Class `i` of pool `q` does not have both a non-empty `arenas[i]` and a non-empty
`purge[i]`. -/
def pruned (q : iobuf_pool) (i : Nat) : Prop := q.arenas i = [] ∨ q.purge i = []

/-- The three allocations of `__iobuf_arena_alloc` all succeed with allocator answers
`e`: the arena object, the mapping and the array of buffers. -/
def alloc_succeeds (e : alloc_env) : Bool := e.arena && e.mmap.isSome && e.iobufs

/-- The classes of `l` whose pre-allocation succeeds with the answers `o`. -/
def classes_ok (o : Nat → alloc_env) (l : List Nat) : List Nat :=
  l.filter (fun i => alloc_succeeds (o i))

/-- The bytes mapped for the classes `l`: the sum of `page_size * num_pages`. -/
def classes_bytes (l : List Nat) : Nat :=
  (l.map (fun i => config_pagesize i * config_num_pages i)).sum

/-- The state of the pre-allocation loop of `iobuf_pool_new` after the classes `D`:
`s.1` is the pool and `s.2` the local `arena_size`. -/
def pool_new_inv (o : Nat → alloc_env) (D : List Nat) (s : iobuf_pool × Nat) : Prop :=
  pool_inv s.1 ∧ s.1.purge = (fun _ => []) ∧ s.1.filled = (fun _ => []) ∧
  (∀ i, i ∉ D → s.1.arenas i = []) ∧
  (∀ i, i ∈ D →
    (alloc_succeeds (o i) = true →
      ∃ a A, s.1.arenas i = [a] ∧ s.1.mem a = some A ∧ arena_class A i ∧
        A.passive_cnt = A.page_count ∧ A.active_cnt = 0) ∧
    (alloc_succeeds (o i) = false → s.1.arenas i = [])) ∧
  s.1.arena_cnt = ((classes_ok o D).length : Int) ∧
  s.2 = classes_bytes (classes_ok o D) % 2 ^ 64

/-- The state after the pre-allocation loop of `iobuf_pool_new`. -/
def pool_new_loop (o : Nat → alloc_env) : iobuf_pool × Nat :=
  (List.range IOBUF_ARENA_MAX_INDEX).foldl (iobuf_pool_new_step o)
    ({ arena_size := 0, default_page_size := 128 * 1024, all_arenas := [],
       arenas := fun _ => [], filled := fun _ => [], purge := fun _ => [],
       request_misses := 0, arena_cnt := 0, mem := fun _ => none, next_obj := 0 }, 0)

/-- The results of `n` consecutive hand-outs `__iobuf_get (pool, page_size, index)` with
no return in between, in order, and the pool afterwards. -/
def iobuf_get_n (o : alloc_env) (ps i : Nat) : Nat → iobuf_pool →
    List (Option (Nat × Nat)) × iobuf_pool
  | 0, p => ([], p)
  | n + 1, p =>
    ((__iobuf_get o p ps i).1 :: (iobuf_get_n o ps i n (__iobuf_get o p ps i).2).1,
      (iobuf_get_n o ps i n (__iobuf_get o p ps i).2).2)

/-- The buffers of arena `A` are at their carve positions: buffer `k` either points at
`mem_base + k * page_size` with no saved pointer, or is held and has that address as
its saved pointer (its data pointer was moved by `iobuf_get_page_aligned`). -/
def carve_inv (A : iobuf_arena) : Prop :=
  ∀ k, k < A.page_count →
    ((A.iobufs k).free_ptr = none ∧ (A.iobufs k).ptr = A.mem_base + k * A.page_size) ∨
    ((A.iobufs k).free_ptr = some (A.mem_base + k * A.page_size) ∧ 1 ≤ (A.iobufs k).ref)

/-- Every arena of the pool has its buffers at their carve positions. -/
def ptr_inv (p : iobuf_pool) : Prop := ∀ a A, p.mem a = some A → carve_inv A

/-- Arena `B` has the geometry of arena `A`, the same data and saved pointers, and
holds every buffer that `A` holds. -/
def slots_kept (A B : iobuf_arena) : Prop :=
  B.page_size = A.page_size ∧ B.page_count = A.page_count ∧ B.mem_base = A.mem_base ∧
  ∀ j, (B.iobufs j).ptr = (A.iobufs j).ptr ∧ (B.iobufs j).free_ptr = (A.iobufs j).free_ptr ∧
    (1 ≤ (A.iobufs j).ref → 1 ≤ (B.iobufs j).ref)

/-- Arena `A` with buffer object `s` stored in slot `k`. -/
def arena_set_iobuf (A : iobuf_arena) (k : Nat) (s : iobuf) : iobuf_arena :=
  { A with iobufs := Function.update A.iobufs k s }

/-! ## Concrete instances -/

/-- Allocator answers with every allocation succeeding: `mmap` returns `base`, a data
allocation returns `data`. -/
def env_ok (base data : Nat) : alloc_env := ⟨true, some base, true, true, some data⟩

/-- Allocator answers with every allocation failing. -/
def env_fail : alloc_env := ⟨false, none, false, false, none⟩

/-- Allocator answers for pool creation: class `i` is mapped at `(i + 1) * 2 ^ 24`. -/
def demo_new_env : Nat → alloc_env := fun i => env_ok ((i + 1) * 16777216) 0

/-- A pool without arenas (for the default of `Option.getD`). -/
def empty_pool : iobuf_pool :=
  { arena_size := 0, default_page_size := 0, all_arenas := [], arenas := fun _ => [],
    filled := fun _ => [], purge := fun _ => [], request_misses := 0, arena_cnt := 0,
    mem := fun _ => none, next_obj := 0 }

/-- The pool that `iobuf_pool_new` returns when every allocation succeeds: arenas 0 to
7 are the eight fixed classes, object 8 is the overflow arena. -/
def demo_pool : iobuf_pool := (iobuf_pool_new true demo_new_env true).getD empty_pool

/-- An arena object without buffers (for the default of `Option.getD`). -/
def empty_arena : iobuf_arena :=
  { page_size := 0, arena_size := 0, page_count := 0, mem_base := 0,
    iobufs := fun _ => iobuf_zero, passive_list := [], active_list := [], alloc_cnt := 0,
    active_cnt := 0, passive_cnt := 0, max_active := 0 }

/-- The arena object named `a` of pool `p`. -/
def arena_at (p : iobuf_pool) (a : Nat) : iobuf_arena := (p.mem a).getD empty_arena

/-- The pool after `iobuf_get2 (demo_pool, 131073)` with threshold 131072: slot 7 of
arena 6 (class 256 KiB) is handed out. -/
def demo_pool_get : iobuf_pool := (iobuf_get2 131072 (env_ok 0 0) demo_pool 131073).2

/-- The pool after `n` hand-outs of 1 MiB from pool `p` with threshold 131072, new
arenas being mapped at `2 ^ 28`. -/
def get_1m : Nat → iobuf_pool → iobuf_pool
  | 0, p => p
  | n + 1, p => get_1m n (iobuf_get2 131072 (env_ok 268435456 0) p 1048576).2

/-- The fresh pool after four hand-outs of 1 MiB: arena 7 and the new arena 9 are both
on `filled[7]`. -/
def demo_pool_filled : iobuf_pool := get_1m 4 demo_pool

/-- The pool after the two buffers of arena 9 and then one buffer of arena 7 were
returned: arena 9 is drained and held back on `purge[7]`, arena 7 is on `arenas[7]`. -/
def demo_pool_purge : iobuf_pool :=
  (iobuf_unref (iobuf_unref (iobuf_unref demo_pool_filled (.carved 9 1)).2 (.carved 9 0)).2
    (.carved 7 1)).2

/-! # Theorems -/

/-! ## Class lookup -/

theorem arena_index_eq (n : Nat) : gf_iobuf_get_arena_index n =
    if n ≤ 128 then 0 else if n ≤ 512 then 1 else if n ≤ 2048 then 2
    else if n ≤ 8192 then 3 else if n ≤ 32768 then 4 else if n ≤ 131072 then 5
    else if n ≤ 262144 then 6 else if n ≤ 1048576 then 7 else -1 := by
  simp [gf_iobuf_get_arena_index, gf_iobuf_get_arena_index_loop, gf_iobuf_init_config]

theorem pagesize_eq (n : Nat) (idx : Int) : gf_iobuf_get_pagesize n idx =
    if n ≤ 128 then (128, 0) else if n ≤ 512 then (512, 1) else if n ≤ 2048 then (2048, 2)
    else if n ≤ 8192 then (8192, 3) else if n ≤ 32768 then (32768, 4)
    else if n ≤ 131072 then (131072, 5)
    else if n ≤ 262144 then (262144, 6) else if n ≤ 1048576 then (1048576, 7)
    else (SIZE_MAX, idx) := by
  simp [gf_iobuf_get_pagesize, gf_iobuf_get_pagesize_loop, gf_iobuf_init_config]

theorem config_pagesize_vals : config_pagesize 0 = 128 ∧ config_pagesize 1 = 512 ∧
    config_pagesize 2 = 2048 ∧ config_pagesize 3 = 8192 ∧ config_pagesize 4 = 32768 ∧
    config_pagesize 5 = 131072 ∧ config_pagesize 6 = 262144 ∧ config_pagesize 7 = 1048576 := by
  decide

theorem smallest_class_of_le (n : Nat) (h : n ≤ 1048576) :
    ∃ i, smallest_class n i ∧ gf_iobuf_get_arena_index n = (i : Int) ∧
      ∀ idx, gf_iobuf_get_pagesize n idx = (config_pagesize i, (i : Int)) := by
  obtain ⟨h0, h1, h2, h3, h4, h5, h6, h7⟩ := config_pagesize_vals
  have hcases : n ≤ 128 ∨ (128 < n ∧ n ≤ 512) ∨ (512 < n ∧ n ≤ 2048) ∨ (2048 < n ∧ n ≤ 8192) ∨
      (8192 < n ∧ n ≤ 32768) ∨ (32768 < n ∧ n ≤ 131072) ∨ (131072 < n ∧ n ≤ 262144) ∨
      (262144 < n ∧ n ≤ 1048576) := by omega
  rcases hcases with c | c | c | c | c | c | c | c
  · have b : n ≤ 128 := by omega
    refine ⟨0, ⟨by decide, by omega, fun j hj => ?_⟩, ?_, fun idx => ?_⟩
    · exact absurd hj (Nat.not_lt_zero j)
    · simp [arena_index_eq, *]
    · simp [pagesize_eq, *]
  · have b : n ≤ 512 := by omega
    have a0 : ¬ n ≤ 128 := by omega
    refine ⟨1, ⟨by decide, by omega, fun j hj => ?_⟩, ?_, fun idx => ?_⟩
    · interval_cases j; omega
    · simp [arena_index_eq, *]
    · simp [pagesize_eq, *]
  · have b : n ≤ 2048 := by omega
    have a0 : ¬ n ≤ 128 := by omega
    have a1 : ¬ n ≤ 512 := by omega
    refine ⟨2, ⟨by decide, by omega, fun j hj => ?_⟩, ?_, fun idx => ?_⟩
    · interval_cases j <;> omega
    · simp [arena_index_eq, *]
    · simp [pagesize_eq, *]
  · have b : n ≤ 8192 := by omega
    have a0 : ¬ n ≤ 128 := by omega
    have a1 : ¬ n ≤ 512 := by omega
    have a2 : ¬ n ≤ 2048 := by omega
    refine ⟨3, ⟨by decide, by omega, fun j hj => ?_⟩, ?_, fun idx => ?_⟩
    · interval_cases j <;> omega
    · simp [arena_index_eq, *]
    · simp [pagesize_eq, *]
  · have b : n ≤ 32768 := by omega
    have a0 : ¬ n ≤ 128 := by omega
    have a1 : ¬ n ≤ 512 := by omega
    have a2 : ¬ n ≤ 2048 := by omega
    have a3 : ¬ n ≤ 8192 := by omega
    refine ⟨4, ⟨by decide, by omega, fun j hj => ?_⟩, ?_, fun idx => ?_⟩
    · interval_cases j <;> omega
    · simp [arena_index_eq, *]
    · simp [pagesize_eq, *]
  · have b : n ≤ 131072 := by omega
    have a0 : ¬ n ≤ 128 := by omega
    have a1 : ¬ n ≤ 512 := by omega
    have a2 : ¬ n ≤ 2048 := by omega
    have a3 : ¬ n ≤ 8192 := by omega
    have a4 : ¬ n ≤ 32768 := by omega
    refine ⟨5, ⟨by decide, by omega, fun j hj => ?_⟩, ?_, fun idx => ?_⟩
    · interval_cases j <;> omega
    · simp [arena_index_eq, *]
    · simp [pagesize_eq, *]
  · have b : n ≤ 262144 := by omega
    have a0 : ¬ n ≤ 128 := by omega
    have a1 : ¬ n ≤ 512 := by omega
    have a2 : ¬ n ≤ 2048 := by omega
    have a3 : ¬ n ≤ 8192 := by omega
    have a4 : ¬ n ≤ 32768 := by omega
    have a5 : ¬ n ≤ 131072 := by omega
    refine ⟨6, ⟨by decide, by omega, fun j hj => ?_⟩, ?_, fun idx => ?_⟩
    · interval_cases j <;> omega
    · simp [arena_index_eq, *]
    · simp [pagesize_eq, *]
  · have b : n ≤ 1048576 := by omega
    have a0 : ¬ n ≤ 128 := by omega
    have a1 : ¬ n ≤ 512 := by omega
    have a2 : ¬ n ≤ 2048 := by omega
    have a3 : ¬ n ≤ 8192 := by omega
    have a4 : ¬ n ≤ 32768 := by omega
    have a5 : ¬ n ≤ 131072 := by omega
    have a6 : ¬ n ≤ 262144 := by omega
    refine ⟨7, ⟨by decide, by omega, fun j hj => ?_⟩, ?_, fun idx => ?_⟩
    · interval_cases j <;> omega
    · simp [arena_index_eq, *]
    · simp [pagesize_eq, *]

theorem no_class_of_gt (n : Nat) (h : 1048576 < n) :
    gf_iobuf_get_arena_index n = -1 ∧ ∀ idx, gf_iobuf_get_pagesize n idx = (SIZE_MAX, idx) := by
  have a0 : ¬ n ≤ 128 := by omega
  have a1 : ¬ n ≤ 512 := by omega
  have a2 : ¬ n ≤ 2048 := by omega
  have a3 : ¬ n ≤ 8192 := by omega
  have a4 : ¬ n ≤ 32768 := by omega
  have a5 : ¬ n ≤ 131072 := by omega
  have a6 : ¬ n ≤ 262144 := by omega
  have a7 : ¬ n ≤ 1048576 := by omega
  refine ⟨?_, fun idx => ?_⟩
  · simp [arena_index_eq, *]
  · simp [pagesize_eq, *]

theorem lookup_spec (n : Nat) :
      (gf_iobuf_get_arena_index n = -1 ↔ 1048576 < n) ∧
      (∀ idx, gf_iobuf_get_pagesize n idx = (SIZE_MAX, idx) ↔ 1048576 < n) ∧
      (1048576 < n ∨ ∃ i, smallest_class n i) ∧
      (∀ i : Nat, gf_iobuf_get_arena_index n = (i : Int) ↔ smallest_class n i) ∧
      (∀ (i : Nat) (idx : Int),
        gf_iobuf_get_pagesize n idx = (config_pagesize i, (i : Int)) ↔ smallest_class n i) := by
  have hne : ∀ i, config_pagesize i ≠ SIZE_MAX := by
    intro i
    rcases Nat.lt_or_ge i 8 with h8 | h8
    · interval_cases i <;> decide
    · have : config_pagesize i = 0 := by
        unfold config_pagesize
        rw [List.getD_eq_default _ _ (by simpa [gf_iobuf_init_config] using h8)]
      rw [this]; decide
  rcases Nat.lt_or_ge 1048576 n with h | h
  · obtain ⟨hi, hp⟩ := no_class_of_gt n h
    have hns : ∀ i, ¬ smallest_class n i := by
      intro i ⟨hi8, hle, _⟩
      have : config_pagesize i ≤ 1048576 := by
        have h8 : i < 8 := hi8
        interval_cases i <;> decide
      omega
    refine ⟨by simp [hi, h], fun idx => by simp [hp, h], Or.inl h, fun i => ?_, fun i idx => ?_⟩
    · rw [hi]
      constructor
      · intro hc; omega
      · intro hc; exact absurd hc (hns i)
    · rw [hp]
      constructor
      · intro hc; exact absurd (congrArg Prod.fst hc).symm (hne i)
      · intro hc; exact absurd hc (hns i)
  · obtain ⟨i0, hs, hi, hp⟩ := smallest_class_of_le n h
    have huniq : ∀ i, smallest_class n i → i = i0 := by
      intro i ⟨_, hle, hmin⟩
      obtain ⟨_, hle0, hmin0⟩ := hs
      rcases Nat.lt_trichotomy i i0 with c | c | c
      · have := hmin0 i c; omega
      · exact c
      · have := hmin i0 c; omega
    refine ⟨?_, fun idx => ?_, Or.inr ⟨i0, hs⟩, fun i => ?_, fun i idx => ?_⟩
    · rw [hi]; constructor
      · intro hc; omega
      · intro hc; omega
    · rw [hp]; constructor
      · intro hc; exact absurd (congrArg Prod.fst hc) (hne i0)
      · intro hc; omega
    · rw [hi]; constructor
      · intro hc
        have : i = i0 := by omega
        rw [this]; exact hs
      · intro hc; rw [huniq i hc]
    · rw [hp]; constructor
      · intro hc
        have h2 := congrArg Prod.snd hc
        have : i = i0 := by simp at h2; omega
        rw [this]; exact hs
      · intro hc; rw [huniq i hc]


/-! ## Pool consistency is kept by every operation -/

theorem max_index_eq : IOBUF_ARENA_MAX_INDEX = 8 := rfl

theorem config_num_pages_vals : config_num_pages 0 = 1024 ∧ config_num_pages 1 = 512 ∧
    config_num_pages 2 = 512 ∧ config_num_pages 3 = 128 ∧ config_num_pages 4 = 64 ∧
    config_num_pages 5 = 32 ∧ config_num_pages 6 = 8 ∧ config_num_pages 7 = 2 := by
  decide

theorem config_pagesize_le (i : Nat) (h : i < IOBUF_ARENA_MAX_INDEX) :
    config_pagesize i ≤ 1048576 ∧ 0 < config_pagesize i := by
  have h8 : i < 8 := h
  obtain ⟨h0, h1, h2, h3, h4, h5, h6, h7⟩ := config_pagesize_vals
  interval_cases i <;> omega

theorem config_num_pages_pos (i : Nat) (h : i < IOBUF_ARENA_MAX_INDEX) :
    0 < config_num_pages i := by
  have h8 : i < 8 := h
  obtain ⟨h0, h1, h2, h3, h4, h5, h6, h7⟩ := config_num_pages_vals
  interval_cases i <;> omega

theorem smallest_class_self (i : Nat) (h : i < IOBUF_ARENA_MAX_INDEX) :
    smallest_class (config_pagesize i) i := by
  have h8 : i < 8 := h
  obtain ⟨h0, h1, h2, h3, h4, h5, h6, h7⟩ := config_pagesize_vals
  refine ⟨h, le_refl _, fun j hj => ?_⟩
  interval_cases i <;> interval_cases j <;> omega

theorem arena_index_config (i : Nat) (h : i < IOBUF_ARENA_MAX_INDEX) :
    gf_iobuf_get_arena_index (config_pagesize i) = (i : Int) :=
  ((lookup_spec (config_pagesize i)).2.2.2.1 i).2 (smallest_class_self i h)

theorem pagesize_config (i : Nat) (h : i < IOBUF_ARENA_MAX_INDEX) (idx : Int) :
    gf_iobuf_get_pagesize (config_pagesize i) idx = (config_pagesize i, (i : Int)) :=
  ((lookup_spec (config_pagesize i)).2.2.2.2 i idx).2 (smallest_class_self i h)


theorem pool_inv_update {p q : iobuf_pool} (a : Nat) (r : Option iobuf_arena)
    (hp : pool_inv p)
    (hmem : ∀ x, x ≠ a → q.mem x = p.mem x) (hmema : q.mem a = r)
    (hr : ∀ A, r = some A → arena_inv A)
    (hnext : p.next_obj ≤ q.next_obj) (ha : r = none ∨ a < q.next_obj)
    (har : ∀ i, i < IOBUF_ARENA_MAX_INDEX → ∀ x, x ∈ q.arenas i →
      (x ≠ a ∧ x ∈ p.arenas i) ∨
      (x = a ∧ ∃ A, r = some A ∧ arena_class A i ∧ 0 < A.passive_cnt))
    (hfi : ∀ i, i < IOBUF_ARENA_MAX_INDEX → ∀ x, x ∈ q.filled i →
      (x ≠ a ∧ x ∈ p.filled i) ∨
      (x = a ∧ ∃ A, r = some A ∧ arena_class A i ∧ A.passive_cnt = 0 ∧ 0 < A.active_cnt))
    (hpu : ∀ i, i < IOBUF_ARENA_MAX_INDEX → ∀ x, x ∈ q.purge i →
      (x ≠ a ∧ x ∈ p.purge i) ∨
      (x = a ∧ ∃ A, r = some A ∧ arena_class A i ∧ A.active_cnt = 0))
    (hnd : ∀ i, (q.arenas i).Nodup ∧ (q.filled i).Nodup ∧ (q.purge i).Nodup)
    (hex : ∀ i j, i < IOBUF_ARENA_MAX_INDEX → j < IOBUF_ARENA_MAX_INDEX →
      a ∈ q.arenas i → a ∉ q.purge j) :
    pool_inv q := by
  refine ⟨?_, ?_, ?_, hnd, ?_, ?_, ?_⟩
  · intro i hi x hx
    rcases har i hi x hx with ⟨hne, hxp⟩ | ⟨rfl, A, hA, hc⟩
    · rw [hmem x hne]; exact hp.arenas_ok i hi x hxp
    · exact ⟨A, by rw [hmema, hA], hc⟩
  · intro i hi x hx
    rcases hfi i hi x hx with ⟨hne, hxp⟩ | ⟨rfl, A, hA, hc⟩
    · rw [hmem x hne]; exact hp.filled_ok i hi x hxp
    · exact ⟨A, by rw [hmema, hA], hc⟩
  · intro i hi x hx
    rcases hpu i hi x hx with ⟨hne, hxp⟩ | ⟨rfl, A, hA, hc⟩
    · rw [hmem x hne]; exact hp.purge_ok i hi x hxp
    · exact ⟨A, by rw [hmema, hA], hc⟩
  · intro i j hi hj x hx hx2
    rcases har i hi x hx with ⟨hne, hxp⟩ | ⟨rfl, _⟩
    · rcases hpu j hj x hx2 with ⟨_, hxq⟩ | ⟨e, _⟩
      · exact hp.excl i j hi hj x hxp hxq
      · exact hne e
    · exact hex i j hi hj hx hx2
  · intro x A hx
    by_cases hxa : x = a
    · subst hxa; rw [hmema] at hx; exact hr A hx
    · rw [hmem x hxa] at hx; exact hp.mem_ok x A hx
  · intro x hx
    by_cases hxa : x = a
    · subst hxa
      rcases ha with h | h
      · rw [hmema, h]
      · omega
    · rw [hmem x hxa]; exact hp.fresh x (by omega)

/-- Membership in a list after `list_del` of `a`, for duplicate-free lists. -/
theorem mem_erase_nodup {l : List Nat} (h : l.Nodup) (a x : Nat) :
    x ∈ l.erase a ↔ x ≠ a ∧ x ∈ l :=
  h.mem_erase_iff

theorem arena_list_del_nodup {p : iobuf_pool} (hp : pool_inv p) (a i : Nat) :
    ((arena_list_del p a).arenas i).Nodup ∧ ((arena_list_del p a).filled i).Nodup ∧
    ((arena_list_del p a).purge i).Nodup :=
  ⟨(hp.nodup i).1.erase a, (hp.nodup i).2.1.erase a, (hp.nodup i).2.2.erase a⟩

/-- Destroying an arena that was unlinked from every list keeps the pool consistent. -/
theorem pool_inv_prune {p : iobuf_pool} (hp : pool_inv p) (a i : Nat) :
    pool_inv (__iobuf_arena_prune p a i) := by
  unfold __iobuf_arena_prune
  split
  · exact hp
  · refine pool_inv_update a none hp ?_ ?_ ?_ (le_refl _) (Or.inl rfl) ?_ ?_ ?_ ?_ ?_
    · intro x hx; simp [__iobuf_arena_destroy, arena_list_del, Function.update_noteq hx]
    · simp [__iobuf_arena_destroy]
    · intro A hA; cases hA
    · intro j _ x hx
      exact Or.inl ((mem_erase_nodup (hp.nodup j).1 a x).1 hx)
    · intro j _ x hx
      exact Or.inl ((mem_erase_nodup (hp.nodup j).2.1 a x).1 hx)
    · intro j _ x hx
      exact Or.inl ((mem_erase_nodup (hp.nodup j).2.2 a x).1 hx)
    · intro j; exact arena_list_del_nodup hp a j
    · intro j j2 _ _ hx
      exact absurd hx (fun hc => ((mem_erase_nodup (hp.nodup j).1 a a).1 hc).1 rfl)

theorem pool_inv_foldl_prune (i : Nat) (l : List Nat) :
    ∀ p : iobuf_pool, pool_inv p →
      pool_inv (l.foldl (fun q a => __iobuf_arena_prune q a i) p) := by
  induction l with
  | nil => intro p hp; exact hp
  | cons a l ih => intro p hp; exact ih _ (pool_inv_prune hp a i)

theorem pool_inv_prune_class {p : iobuf_pool} (hp : pool_inv p) (i : Nat) :
    pool_inv (iobuf_pool_prune_class p i) := by
  unfold iobuf_pool_prune_class
  split
  · exact hp
  · exact pool_inv_foldl_prune i _ p hp

theorem pool_inv_pool_prune {p : iobuf_pool} (hp : pool_inv p) :
    pool_inv (iobuf_pool_prune p) := by
  unfold iobuf_pool_prune
  generalize List.range IOBUF_ARENA_MAX_INDEX = l
  induction l generalizing p with
  | nil => exact hp
  | cons i l ih => exact ih (pool_inv_prune_class hp i)


/-! ### Arena-level steps -/

/-- Consistency of an arena only depends on its lists, counters, class and counts. -/
theorem arena_inv_congr {A B : iobuf_arena} (h : arena_inv A)
    (h1 : B.passive_list = A.passive_list) (h2 : B.active_list = A.active_list)
    (h3 : B.passive_cnt = A.passive_cnt) (h4 : B.active_cnt = A.active_cnt)
    (h5 : B.page_size = A.page_size) (h6 : B.page_count = A.page_count)
    (h7 : ∀ k, (B.iobufs k).ref = (A.iobufs k).ref) : arena_inv B := by
  refine ⟨?_, ?_, ?_, ?_, ?_, ?_, ?_, ?_, ?_⟩
  · rw [h1, h3]; exact h.passive_len
  · rw [h2, h4]; exact h.active_len
  · rw [h1]; exact h.passive_nodup
  · rw [h2]; exact h.active_nodup
  · rw [h1, h2, h6]; exact h.cover
  · rw [h1, h6]; intro k hk; rw [h7]; exact h.passive_ref k hk
  · rw [h2, h6]; intro k hk; rw [h7]; exact h.active_ref k hk
  · rw [h3, h4, h6]; exact h.sum
  · simpa [arena_class, h5, h6] using h.kind

theorem get_arena_fields (A : iobuf_arena) (k : Nat) :
    (__iobuf_get_arena A k).passive_list = A.passive_list.erase k ∧
    (__iobuf_get_arena A k).active_list = k :: A.active_list.erase k ∧
    (__iobuf_get_arena A k).passive_cnt = A.passive_cnt - 1 ∧
    (__iobuf_get_arena A k).active_cnt = A.active_cnt + 1 ∧
    (__iobuf_get_arena A k).page_size = A.page_size ∧
    (__iobuf_get_arena A k).page_count = A.page_count ∧
    (__iobuf_get_arena A k).iobufs = A.iobufs ∧
    (__iobuf_get_arena A k).mem_base = A.mem_base := by
  unfold __iobuf_get_arena
  simp only [iobuf_list_del, list_add]
  split <;> simp

theorem put_arena_fields (A : iobuf_arena) (k : Nat) :
    (__iobuf_put_arena A k).passive_list = k :: A.passive_list.erase k ∧
    (__iobuf_put_arena A k).active_list = A.active_list.erase k ∧
    (__iobuf_put_arena A k).passive_cnt = A.passive_cnt + 1 ∧
    (__iobuf_put_arena A k).active_cnt = A.active_cnt - 1 ∧
    (__iobuf_put_arena A k).page_size = A.page_size ∧
    (__iobuf_put_arena A k).page_count = A.page_count ∧
    (∀ j, ((__iobuf_put_arena A k).iobufs j).ref = (A.iobufs j).ref) ∧
    (__iobuf_put_arena A k).mem_base = A.mem_base := by
  unfold __iobuf_put_arena
  simp only [iobuf_list_del, list_add]
  split
  · refine ⟨rfl, rfl, rfl, rfl, rfl, rfl, ?_, rfl⟩
    intro j
    by_cases hj : j = k
    · subst hj; simp
    · simp [Function.update_noteq hj]
  · exact ⟨rfl, rfl, rfl, rfl, rfl, rfl, fun _ => rfl, rfl⟩

/-- Handing out the head `k` of the passive list and taking a reference on it keeps the
arena consistent. -/
theorem arena_inv_get {A B : iobuf_arena} (h : arena_inv A) (k : Nat) (rest : List Nat)
    (hk : A.passive_list = k :: rest)
    (h1 : B.passive_list = A.passive_list.erase k)
    (h2 : B.active_list = k :: A.active_list.erase k)
    (h3 : B.passive_cnt = A.passive_cnt - 1) (h4 : B.active_cnt = A.active_cnt + 1)
    (h5 : B.page_size = A.page_size) (h6 : B.page_count = A.page_count)
    (h7 : ∀ j, j ≠ k → (B.iobufs j).ref = (A.iobufs j).ref)
    (h8 : 1 ≤ (B.iobufs k).ref) : arena_inv B := by
  have hkp : k ∈ A.passive_list := by rw [hk]; exact List.mem_cons_self _ _
  have hka : k ∉ A.active_list := by
    intro hc
    have := (h.active_ref k hc).2
    have := (h.passive_ref k hkp).2
    omega
  have hera : A.active_list.erase k = A.active_list := List.erase_of_not_mem hka
  have hpn := h.passive_nodup
  refine ⟨?_, ?_, ?_, ?_, ?_, ?_, ?_, ?_, ?_⟩
  · rw [h1, h3, List.length_erase_of_mem hkp, h.passive_len]
    have : 0 < A.passive_list.length := List.length_pos_of_mem hkp
    omega
  · rw [h2, h4, hera, h.active_len]; simp
  · rw [h1]; exact hpn.erase k
  · rw [h2, hera]; exact List.nodup_cons.2 ⟨hka, h.active_nodup⟩
  · rw [h1, h2, h6, hera]
    intro j hj
    by_cases hjk : j = k
    · right; rw [hjk]; exact List.mem_cons_self _ _
    · rcases h.cover j hj with c | c
      · left; exact (mem_erase_nodup hpn k j).2 ⟨hjk, c⟩
      · right; exact List.mem_cons_of_mem _ c
  · rw [h1, h6]
    intro j hj
    obtain ⟨hjk, hjp⟩ := (mem_erase_nodup hpn k j).1 hj
    rw [h7 j hjk]; exact h.passive_ref j hjp
  · rw [h2, h6, hera]
    intro j hj
    rcases List.mem_cons.1 hj with c | c
    · rw [c]; exact ⟨(h.passive_ref k hkp).1, h8⟩
    · have hjk : j ≠ k := fun e => hka (e ▸ c)
      rw [h7 j hjk]; exact h.active_ref j c
  · rw [h3, h4, h6]; have := h.sum; omega
  · simpa [arena_class, h5, h6] using h.kind

/-- Returning an active buffer `k` whose count dropped to 0 keeps the arena
consistent. -/
theorem arena_inv_put {A B : iobuf_arena} (h : arena_inv A) (k : Nat)
    (hk : k ∈ A.active_list)
    (h1 : B.passive_list = k :: A.passive_list.erase k)
    (h2 : B.active_list = A.active_list.erase k)
    (h3 : B.passive_cnt = A.passive_cnt + 1) (h4 : B.active_cnt = A.active_cnt - 1)
    (h5 : B.page_size = A.page_size) (h6 : B.page_count = A.page_count)
    (h7 : ∀ j, j ≠ k → (B.iobufs j).ref = (A.iobufs j).ref)
    (h8 : (B.iobufs k).ref = 0) : arena_inv B := by
  have hkp : k ∉ A.passive_list := by
    intro hc
    have := (h.active_ref k hk).2
    have := (h.passive_ref k hc).2
    omega
  have herp : A.passive_list.erase k = A.passive_list := List.erase_of_not_mem hkp
  have han := h.active_nodup
  refine ⟨?_, ?_, ?_, ?_, ?_, ?_, ?_, ?_, ?_⟩
  · rw [h1, h3, herp, h.passive_len]; simp
  · rw [h2, h4, List.length_erase_of_mem hk, h.active_len]
    have : 0 < A.active_list.length := List.length_pos_of_mem hk
    omega
  · rw [h1, herp]; exact List.nodup_cons.2 ⟨hkp, h.passive_nodup⟩
  · rw [h2]; exact han.erase k
  · rw [h1, h2, h6, herp]
    intro j hj
    by_cases hjk : j = k
    · left; rw [hjk]; exact List.mem_cons_self _ _
    · rcases h.cover j hj with c | c
      · left; exact List.mem_cons_of_mem _ c
      · right; exact (mem_erase_nodup han k j).2 ⟨hjk, c⟩
  · rw [h1, h6, herp]
    intro j hj
    rcases List.mem_cons.1 hj with c | c
    · rw [c]; exact ⟨(h.active_ref k hk).1, h8⟩
    · have hjk : j ≠ k := fun e => hkp (e ▸ c)
      rw [h7 j hjk]; exact h.passive_ref j c
  · rw [h2, h6]
    intro j hj
    obtain ⟨hjk, hja⟩ := (mem_erase_nodup han k j).1 hj
    rw [h7 j hjk]; exact h.active_ref j hja
  · rw [h3, h4, h6]; have := h.sum; omega
  · simpa [arena_class, h5, h6] using h.kind


/-! ### Arena allocation -/

theorem init_loop_spec (self : Nat) : ∀ (n i offset : Nat) (A : iobuf_arena),
    A.passive_cnt = (i : Int) → A.passive_list.Nodup → (∀ k, k ∈ A.passive_list ↔ k < i) →
    (∀ k, (A.iobufs k).ref = 0) → A.active_list = [] → A.active_cnt = 0 →
    (__iobuf_arena_init_iobufs_loop self n i offset A).passive_cnt = ((i + n : Nat) : Int) ∧
    (__iobuf_arena_init_iobufs_loop self n i offset A).passive_list.Nodup ∧
    (∀ k, k ∈ (__iobuf_arena_init_iobufs_loop self n i offset A).passive_list ↔ k < i + n) ∧
    (∀ k, ((__iobuf_arena_init_iobufs_loop self n i offset A).iobufs k).ref = 0) ∧
    (__iobuf_arena_init_iobufs_loop self n i offset A).active_list = [] ∧
    (__iobuf_arena_init_iobufs_loop self n i offset A).active_cnt = 0 ∧
    (__iobuf_arena_init_iobufs_loop self n i offset A).page_size = A.page_size ∧
    (__iobuf_arena_init_iobufs_loop self n i offset A).page_count = A.page_count := by
  intro n
  induction n with
  | zero =>
    intro i offset A h1 h2 h3 h4 h5 h6
    exact ⟨h1, h2, h3, h4, h5, h6, rfl, rfl⟩
  | succ n ih =>
    intro i offset A h1 h2 h3 h4 h5 h6
    have hi : i ∉ A.passive_list := fun hc => Nat.lt_irrefl i ((h3 i).1 hc)
    have := ih (i + 1) (offset + A.page_size)
      { A with
        iobufs := Function.update A.iobufs i
          { iobuf_zero with iobuf_arena := some self, ptr := A.mem_base + offset },
        passive_list := list_add i A.passive_list,
        passive_cnt := A.passive_cnt + 1 } (by simp [h1]) (by
        simp only [list_add]; exact List.nodup_cons.2 ⟨hi, h2⟩) (by
        intro k; simp only [list_add, List.mem_cons, h3]; omega) (by
        intro k
        by_cases hk : k = i
        · subst hk; simp [iobuf_zero]
        · simp [Function.update_noteq hk, h4]) h5 h6
    rw [show i + (n + 1) = i + 1 + n by omega]
    exact this

theorem arena_inv_init (self : Nat) (A : iobuf_arena) (i : Nat)
    (hi : i < IOBUF_ARENA_MAX_INDEX) (hc : arena_class A i)
    (h1 : A.passive_cnt = 0) (h2 : A.passive_list = []) (h3 : A.active_list = [])
    (h4 : A.active_cnt = 0) :
    arena_inv (__iobuf_arena_init_iobufs self A) ∧
    arena_class (__iobuf_arena_init_iobufs self A) i ∧
    0 < (__iobuf_arena_init_iobufs self A).passive_cnt ∧
    (__iobuf_arena_init_iobufs self A).active_cnt = 0 := by
  unfold __iobuf_arena_init_iobufs
  obtain ⟨g1, g2, g3, g4, g5, g6, g7, g8⟩ := init_loop_spec self A.page_count 0 0
    { A with iobufs := fun _ => iobuf_zero } (by simp [h1]) (by simp [h2]) (by simp [h2])
    (by intro k; simp [iobuf_zero]) h3 h4
  simp only [Nat.zero_add] at g1 g3
  have hlen : (__iobuf_arena_init_iobufs_loop self A.page_count 0 0
      { A with iobufs := fun _ => iobuf_zero }).passive_list.length = A.page_count := by
    have := List.toFinset_card_of_nodup g2
    rw [← this]
    have h : (__iobuf_arena_init_iobufs_loop self A.page_count 0 0
      { A with iobufs := fun _ => iobuf_zero }).passive_list.toFinset =
        Finset.range A.page_count := by
      ext k; simp [g3]
    rw [h, Finset.card_range]
  have hpos : 0 < A.page_count := by rw [hc.2]; exact config_num_pages_pos i hi
  refine ⟨⟨?_, ?_, g2, ?_, ?_, ?_, ?_, ?_, ?_⟩, ⟨?_, ?_⟩, ?_, g6⟩
  · rw [g1, hlen]
  · rw [g6, g5]; rfl
  · rw [g5]; exact List.nodup_nil
  · intro k hk; left; rw [g8] at hk; exact (g3 k).2 hk
  · intro k hk; rw [g8]; exact ⟨(g3 k).1 hk, g4 k⟩
  · intro k hk; rw [g5] at hk; cases hk
  · rw [g1, g6, g8]; simp
  · left; exact ⟨i, hi, by rw [arena_class, g7, g8]; exact hc⟩
  · rw [g7]; exact hc.1
  · rw [g8]; exact hc.2
  · rw [g1]; exact_mod_cast hpos


theorem pool_inv_frame {p q : iobuf_pool} (hp : pool_inv p) (h1 : q.arenas = p.arenas)
    (h2 : q.filled = p.filled) (h3 : q.purge = p.purge) (h4 : q.mem = p.mem)
    (h5 : p.next_obj ≤ q.next_obj) : pool_inv q := by
  refine ⟨?_, ?_, ?_, ?_, ?_, ?_, ?_⟩
  · rw [h1, h4]; exact hp.arenas_ok
  · rw [h2, h4]; exact hp.filled_ok
  · rw [h3, h4]; exact hp.purge_ok
  · rw [h1, h2, h3]; exact hp.nodup
  · rw [h1, h3]; exact hp.excl
  · rw [h4]; exact hp.mem_ok
  · rw [h4]; intro a ha; exact hp.fresh a (by omega)

/-- An object name that is not in use is on none of the fixed-class lists. -/
theorem fresh_not_mem {p : iobuf_pool} (hp : pool_inv p) (a : Nat) (h : p.mem a = none)
    (i : Nat) (hi : i < IOBUF_ARENA_MAX_INDEX) :
    a ∉ p.arenas i ∧ a ∉ p.filled i ∧ a ∉ p.purge i := by
  refine ⟨fun hc => ?_, fun hc => ?_, fun hc => ?_⟩
  · obtain ⟨A, hA, _⟩ := hp.arenas_ok i hi a hc; rw [h] at hA; cases hA
  · obtain ⟨A, hA, _⟩ := hp.filled_ok i hi a hc; rw [h] at hA; cases hA
  · obtain ⟨A, hA, _⟩ := hp.purge_ok i hi a hc; rw [h] at hA; cases hA

/-- Linking at the head of `arenas[i]` an arena of class `i` with free buffers that is
on no list keeps the pool consistent. -/
theorem pool_inv_link_arenas {q : iobuf_pool} (hq : pool_inv q) (a i : Nat)
    (hi : i < IOBUF_ARENA_MAX_INDEX) (A : iobuf_arena) (hA : q.mem a = some A)
    (hc : arena_class A i) (hpos : 0 < A.passive_cnt)
    (hnot : ∀ j, j < IOBUF_ARENA_MAX_INDEX → a ∉ q.arenas j ∧ a ∉ q.filled j ∧ a ∉ q.purge j) :
    pool_inv (arenas_list_add q i a) := by
  refine pool_inv_update a (some A) hq (fun x _ => rfl) hA
    (fun B hB => by cases hB; exact hq.mem_ok a A hA) (le_refl _)
    (Or.inr (by
      by_contra hlt
      have := hq.fresh a (by simpa using hlt)
      rw [hA] at this; cases this)) ?_ ?_ ?_ ?_ ?_
  · intro j hj x hx
    by_cases hji : j = i
    · subst hji
      simp only [arenas_list_add, Function.update_same, list_add, List.mem_cons] at hx
      rcases hx with hx | hx
      · exact Or.inr ⟨hx, A, rfl, hc, hpos⟩
      · exact Or.inl ⟨fun e => (hnot j hj).1 (e ▸ hx), hx⟩
    · simp only [arenas_list_add, Function.update_noteq hji] at hx
      exact Or.inl ⟨fun e => (hnot j hj).1 (e ▸ hx), hx⟩
  · intro j hj x hx
    exact Or.inl ⟨fun e => (hnot j hj).2.1 (e ▸ hx), hx⟩
  · intro j hj x hx
    exact Or.inl ⟨fun e => (hnot j hj).2.2 (e ▸ hx), hx⟩
  · intro j
    refine ⟨?_, (hq.nodup j).2⟩
    by_cases hji : j = i
    · subst hji
      simp only [arenas_list_add, Function.update_same, list_add]
      exact List.nodup_cons.2 ⟨(hnot j hi).1, (hq.nodup j).1⟩
    · simp only [arenas_list_add, Function.update_noteq hji]; exact (hq.nodup j).1
  · intro j j2 _ hj2 _
    exact (hnot j2 hj2).2.2

theorem arena_alloc_spec {p : iobuf_pool} (hp : pool_inv p) (o : alloc_env) (i : Nat)
    (hi : i < IOBUF_ARENA_MAX_INDEX) :
    pool_inv (__iobuf_arena_alloc o p (config_pagesize i) (config_num_pages i)).2 ∧
    (__iobuf_arena_alloc o p (config_pagesize i) (config_num_pages i)).2.arenas = p.arenas ∧
    (__iobuf_arena_alloc o p (config_pagesize i) (config_num_pages i)).2.filled = p.filled ∧
    (__iobuf_arena_alloc o p (config_pagesize i) (config_num_pages i)).2.purge = p.purge ∧
    ∀ a, (__iobuf_arena_alloc o p (config_pagesize i) (config_num_pages i)).1 = some a →
      p.mem a = none ∧
      ∃ A, (__iobuf_arena_alloc o p (config_pagesize i) (config_num_pages i)).2.mem a = some A ∧
        arena_class A i ∧ 0 < A.passive_cnt ∧ A.active_cnt = 0 := by
  unfold __iobuf_arena_alloc
  by_cases h1 : o.arena = false
  · rw [if_pos h1]
    exact ⟨hp, rfl, rfl, rfl, fun a ha => by cases ha⟩
  · rw [if_neg h1]
    cases h2 : o.mmap with
    | none => exact ⟨hp, rfl, rfl, rfl, fun a ha => by cases ha⟩
    | some base =>
      by_cases h3 : o.iobufs = false
      · dsimp only
        rw [if_pos h3]
        exact ⟨pool_inv_frame hp rfl rfl rfl rfl (Nat.le_succ _), rfl, rfl, rfl,
          fun a ha => by cases ha⟩
      · dsimp only
        rw [if_neg h3]
        have hfresh : p.mem p.next_obj = none := hp.fresh _ (le_refl _)
        obtain ⟨g1, g2, g3, g4⟩ := arena_inv_init p.next_obj
          { page_size := (gf_iobuf_get_pagesize (config_pagesize i) 0).1,
            arena_size := (gf_iobuf_get_pagesize (config_pagesize i) 0).1 *
              config_num_pages i % 2 ^ 64,
            page_count := config_num_pages i, mem_base := base,
            iobufs := fun _ => iobuf_zero, passive_list := [], active_list := [],
            alloc_cnt := 0, active_cnt := 0, passive_cnt := 0, max_active := 0 } i hi
          ⟨by rw [pagesize_config i hi], rfl⟩ rfl rfl rfl rfl
        refine ⟨?_, rfl, rfl, rfl, ?_⟩
        · refine pool_inv_update p.next_obj (some (__iobuf_arena_init_iobufs p.next_obj
          { page_size := (gf_iobuf_get_pagesize (config_pagesize i) 0).1,
            arena_size := (gf_iobuf_get_pagesize (config_pagesize i) 0).1 *
              config_num_pages i % 2 ^ 64,
            page_count := config_num_pages i, mem_base := base,
            iobufs := fun _ => iobuf_zero, passive_list := [], active_list := [],
            alloc_cnt := 0, active_cnt := 0, passive_cnt := 0, max_active := 0 })) hp ?_ ?_ ?_ (Nat.le_succ _)
            (Or.inr (Nat.lt_succ_self _)) ?_ ?_ ?_ hp.nodup ?_
          · intro x hx; simp [set_arena, Function.update_noteq hx]
          · simp [set_arena]
          · intro B hB; cases hB; exact g1
          · intro j hj x hx
            exact Or.inl ⟨fun e => (fresh_not_mem hp _ hfresh j hj).1 (e ▸ hx), hx⟩
          · intro j hj x hx
            exact Or.inl ⟨fun e => (fresh_not_mem hp _ hfresh j hj).2.1 (e ▸ hx), hx⟩
          · intro j hj x hx
            exact Or.inl ⟨fun e => (fresh_not_mem hp _ hfresh j hj).2.2 (e ▸ hx), hx⟩
          · intro j j2 hj _ hx
            exact absurd hx (fresh_not_mem hp _ hfresh j hj).1
        · intro a ha
          simp only [Option.some.injEq] at ha
          subst ha
          exact ⟨hfresh, _, by simp [set_arena], g2, g3, g4⟩

theorem add_arena_spec {p : iobuf_pool} (hp : pool_inv p) (o : alloc_env) (i : Nat)
    (hi : i < IOBUF_ARENA_MAX_INDEX) :
    pool_inv (__iobuf_pool_add_arena o p (config_pagesize i) (config_num_pages i) i).2 ∧
    (∀ a, (__iobuf_pool_add_arena o p (config_pagesize i) (config_num_pages i) i).1 = some a →
      a ∈ (__iobuf_pool_add_arena o p (config_pagesize i) (config_num_pages i) i).2.arenas i) ∧
    (∀ j, j ≠ i → ∀ x,
      x ∈ (__iobuf_pool_add_arena o p (config_pagesize i) (config_num_pages i) i).2.arenas j →
      x ∈ p.arenas j) := by
  unfold __iobuf_pool_add_arena __iobuf_arena_unprune
  cases hpl : p.purge i with
  | nil =>
    dsimp only
    obtain ⟨g1, g2, g3, g4, g5⟩ := arena_alloc_spec hp o i hi
    cases hr : __iobuf_arena_alloc o p (config_pagesize i) (config_num_pages i) with
    | mk r q =>
      rw [hr] at g1 g2 g3 g4 g5
      cases r with
      | none =>
        dsimp only at g1 g2 ⊢
        exact ⟨g1, fun a ha => (by cases ha), fun j _ x hx => (by rw [g2] at hx; exact hx)⟩
      | some a =>
        dsimp only at g1 g2 g3 g4 g5 ⊢
        obtain ⟨hfr, A, hA, hc, hpos, _⟩ := g5 a rfl
        refine ⟨?_, ?_, ?_⟩
        · refine pool_inv_link_arenas g1 a i hi A hA hc hpos ?_
          intro j hj
          rw [g2, g3, g4]
          exact fresh_not_mem hp a hfr j hj
        · intro b hb; cases hb; simp [arenas_list_add, list_add]
        · intro j hj x hx
          simp only [arenas_list_add, Function.update_noteq hj] at hx
          rw [g2] at hx; exact hx
  | cons a l =>
    dsimp only
    have hap : a ∈ p.purge i := by rw [hpl]; exact List.mem_cons_self _ _
    obtain ⟨A, hA, hc, hact⟩ := hp.purge_ok i hi a hap
    have hinv := hp.mem_ok a A hA
    have hpos : 0 < A.passive_cnt := by
      have := hinv.sum
      have hn := config_num_pages_pos i hi
      rw [hc.2, hact] at this
      omega
    have hq : pool_inv (arena_list_del p a) := by
      refine pool_inv_update a (some A) hp (fun x _ => rfl) hA
        (fun B hB => by cases hB; exact hinv) (le_refl _) (Or.inr (by
          by_contra hlt
          have := hp.fresh a (by simpa using hlt)
          rw [hA] at this; cases this)) ?_ ?_ ?_ (arena_list_del_nodup hp a) ?_
      · intro j _ x hx; exact Or.inl ((mem_erase_nodup (hp.nodup j).1 a x).1 hx)
      · intro j _ x hx; exact Or.inl ((mem_erase_nodup (hp.nodup j).2.1 a x).1 hx)
      · intro j _ x hx; exact Or.inl ((mem_erase_nodup (hp.nodup j).2.2 a x).1 hx)
      · intro j j2 _ _ hx
        exact absurd hx (fun hc => ((mem_erase_nodup (hp.nodup j).1 a a).1 hc).1 rfl)
    refine ⟨?_, ?_, ?_⟩
    · refine pool_inv_link_arenas hq a i hi A hA hc hpos ?_
      intro j _
      exact ⟨fun hc => ((mem_erase_nodup (hp.nodup j).1 a a).1 hc).1 rfl,
        fun hc => ((mem_erase_nodup (hp.nodup j).2.1 a a).1 hc).1 rfl,
        fun hc => ((mem_erase_nodup (hp.nodup j).2.2 a a).1 hc).1 rfl⟩
    · intro b hb; cases hb; simp [arenas_list_add, list_add]
    · intro j hj x hx
      simp only [arenas_list_add, Function.update_noteq hj, arena_list_del] at hx
      exact List.mem_of_mem_erase hx


/-! ### Hand-out -/

theorem select_arena_spec {p : iobuf_pool} (hp : pool_inv p) (o : alloc_env) (i : Nat)
    (hi : i < IOBUF_ARENA_MAX_INDEX) :
    pool_inv (__iobuf_select_arena o p (config_pagesize i) i).2 ∧
    ∀ a, (__iobuf_select_arena o p (config_pagesize i) i).1 = some a →
      a ∈ (__iobuf_select_arena o p (config_pagesize i) i).2.arenas i := by
  unfold __iobuf_select_arena
  split
  · next a hfind =>
    exact ⟨hp, fun b hb => by cases hb; exact List.mem_of_find?_eq_some hfind⟩
  · exact ⟨(add_arena_spec hp o i hi).1, (add_arena_spec hp o i hi).2.1⟩

theorem modify_iobuf_set_arena (p : iobuf_pool) (a : Nat) (A : iobuf_arena) (k : Nat)
    (f : iobuf → iobuf) :
    modify_iobuf (set_arena p a A) a k f =
      set_arena p a { A with iobufs := Function.update A.iobufs k (f (A.iobufs k)) } := by
  simp [modify_iobuf, set_arena]

theorem pop_ref_spec {q : iobuf_pool} (hq : pool_inv q) (i : Nat)
    (hi : i < IOBUF_ARENA_MAX_INDEX) (a : Nat) (haq : a ∈ q.arenas i) (A : iobuf_arena)
    (hA : q.mem a = some A) (k : Nat) (rest : List Nat) (hpl : A.passive_list = k :: rest)
    (A6 : iobuf_arena)
    (h1 : A6.passive_list = A.passive_list.erase k)
    (h2 : A6.active_list = k :: A.active_list.erase k)
    (h3 : A6.passive_cnt = A.passive_cnt - 1) (h4 : A6.active_cnt = A.active_cnt + 1)
    (h5 : A6.page_size = A.page_size) (h6 : A6.page_count = A.page_count)
    (h7 : ∀ j, j ≠ k → (A6.iobufs j).ref = (A.iobufs j).ref)
    (h8 : (A6.iobufs k).ref = (A.iobufs k).ref + 1) :
    pool_inv (set_arena
      (if A6.passive_cnt = 0 then filled_list_add (arena_list_del q a) i a else q) a A6) ∧
    arena_class A6 i ∧ k < A6.page_count ∧ (A6.iobufs k).ref = 1 := by
  obtain ⟨B, hB, hc, hpos⟩ := hq.arenas_ok i hi a haq
  rw [hA] at hB; cases hB
  have hinv := hq.mem_ok a A hA
  have hkp : k ∈ A.passive_list := by rw [hpl]; exact List.mem_cons_self _ _
  have hk0 := (hinv.passive_ref k hkp)
  have hinv6 : arena_inv A6 :=
    arena_inv_get hinv k rest hpl h1 h2 h3 h4 h5 h6 h7 (by rw [h8, hk0.2]; decide)
  have hc6 : arena_class A6 i := ⟨by rw [h5]; exact hc.1, by rw [h6]; exact hc.2⟩
  have hlt : a < q.next_obj := by
    by_contra hlt
    have := hq.fresh a (by simpa using hlt)
    rw [hA] at this; cases this
  have hact : 0 < A6.active_cnt := by
    rw [h4, hinv.active_len]; omega
  refine ⟨?_, hc6, by rw [h6]; exact hk0.1, by rw [h8, hk0.2]; rfl⟩
  by_cases hz : A6.passive_cnt = 0
  · rw [if_pos hz]
    refine pool_inv_update a (some A6) hq ?_ ?_ ?_ (le_refl _) (Or.inr hlt) ?_ ?_ ?_ ?_ ?_
    · intro x hx; simp [set_arena, Function.update_noteq hx, arena_list_del, filled_list_add]
    · simp [set_arena]
    · intro B hB; cases hB; exact hinv6
    · intro j _ x hx
      exact Or.inl ((mem_erase_nodup (hq.nodup j).1 a x).1 hx)
    · intro j hj x hx
      by_cases hji : j = i
      · subst hji
        simp only [set_arena, arena_list_del, filled_list_add, Function.update_same, list_add,
          List.mem_cons] at hx
        rcases hx with hx | hx
        · exact Or.inr ⟨hx, A6, rfl, hc6, hz, hact⟩
        · exact Or.inl ((mem_erase_nodup (hq.nodup j).2.1 a x).1 hx)
      · simp only [set_arena, arena_list_del, filled_list_add, Function.update_noteq hji] at hx
        exact Or.inl ((mem_erase_nodup (hq.nodup j).2.1 a x).1 hx)
    · intro j _ x hx
      exact Or.inl ((mem_erase_nodup (hq.nodup j).2.2 a x).1 hx)
    · intro j
      refine ⟨(hq.nodup j).1.erase a, ?_, (hq.nodup j).2.2.erase a⟩
      by_cases hji : j = i
      · subst hji
        simp only [set_arena, arena_list_del, filled_list_add, Function.update_same, list_add]
        exact List.nodup_cons.2
          ⟨fun hc => ((mem_erase_nodup (hq.nodup j).2.1 a a).1 hc).1 rfl,
            (hq.nodup j).2.1.erase a⟩
      · simp only [set_arena, arena_list_del, filled_list_add, Function.update_noteq hji]
        exact (hq.nodup j).2.1.erase a
    · intro j j2 _ _ hx
      exact absurd hx (fun hc => ((mem_erase_nodup (hq.nodup j).1 a a).1 hc).1 rfl)
  · rw [if_neg hz]
    have hpos6 : 0 < A6.passive_cnt := by
      rw [h3] at hz ⊢; omega
    refine pool_inv_update a (some A6) hq ?_ ?_ ?_ (le_refl _) (Or.inr hlt) ?_ ?_ ?_
      hq.nodup ?_
    · intro x hx; simp [set_arena, Function.update_noteq hx]
    · simp [set_arena]
    · intro B hB; cases hB; exact hinv6
    · intro j hj x hx
      by_cases hxa : x = a
      · subst hxa
        obtain ⟨B, hB, hcj, _⟩ := hq.arenas_ok j hj x hx
        rw [hA] at hB; cases hB
        exact Or.inr ⟨rfl, A6, rfl, ⟨by rw [h5]; exact hcj.1, by rw [h6]; exact hcj.2⟩, hpos6⟩
      · exact Or.inl ⟨hxa, hx⟩
    · intro j hj x hx
      by_cases hxa : x = a
      · subst hxa
        obtain ⟨B, hB, _, hz0, _⟩ := hq.filled_ok j hj x hx
        rw [hA] at hB; cases hB
        omega
      · exact Or.inl ⟨hxa, hx⟩
    · intro j hj x hx
      by_cases hxa : x = a
      · subst hxa
        exact absurd hx (hq.excl i j hi hj x haq)
      · exact Or.inl ⟨hxa, hx⟩
    · intro j j2 hj hj2 hx
      exact hq.excl j j2 hj hj2 a hx

theorem get_ref_spec {p : iobuf_pool} (hp : pool_inv p) (o : alloc_env) (i : Nat)
    (hi : i < IOBUF_ARENA_MAX_INDEX) (r : Option (Nat × Nat)) (p1 : iobuf_pool)
    (h : __iobuf_get o p (config_pagesize i) i = (r, p1)) :
    (r = none → pool_inv p1) ∧
    ∀ a k, r = some (a, k) →
      pool_inv (iobuf_ref p1 (.carved a k)).2 ∧
      ∃ A, (iobuf_ref p1 (.carved a k)).2.mem a = some A ∧ arena_class A i ∧
        k < A.page_count ∧ (A.iobufs k).ref = 1 ∧
        (A.iobufs k).page_size = config_pagesize i := by
  unfold __iobuf_get at h
  obtain ⟨hs1, hs2⟩ := select_arena_spec hp o i hi
  cases hsel : __iobuf_select_arena o p (config_pagesize i) i with
  | mk ra q =>
    rw [hsel] at h hs1 hs2
    dsimp only at hs1 hs2
    cases ra with
    | none =>
      dsimp only at h
      cases h
      exact ⟨fun _ => hs1, fun a k hc => by cases hc⟩
    | some a =>
      dsimp only at h
      have haq := hs2 a rfl
      obtain ⟨A, hA, hc, hpos⟩ := hs1.arenas_ok i hi a haq
      rw [hA] at h
      dsimp only at h
      have hinv := hs1.mem_ok a A hA
      cases hpl : A.passive_list with
      | nil =>
        rw [hpl] at h
        dsimp only at h
        cases h
        exact ⟨fun _ => hs1, fun a k hc => by cases hc⟩
      | cons k rest =>
        rw [hpl] at h
        dsimp only at h
        obtain ⟨f1, f2, f3, f4, f5, f6, f7, _⟩ := get_arena_fields A k
        injection h with hr hp1
        subst hr hp1
        refine ⟨fun hc => (by cases hc), fun a2 k2 hc => ?_⟩
        cases hc
        simp only [iobuf_ref]
        rw [modify_iobuf_set_arena]
        simp only [Function.update_same, Function.update_idem]
        have key := pop_ref_spec hs1 i hi a haq A hA k rest hpl
          { __iobuf_get_arena A k with
            iobufs := Function.update (__iobuf_get_arena A k).iobufs k
              { ((__iobuf_get_arena A k).iobufs k) with
                page_size := config_pagesize i,
                ref := ((__iobuf_get_arena A k).iobufs k).ref + 1 } }
          f1 f2 f3 f4 f5 f6
          (fun j hj => by simp [Function.update_noteq hj, f7])
          (by simp [f7])
        refine ⟨?_, _, by simp [set_arena], key.2.1, key.2.2.1, ?_, ?_⟩
        · exact key.1
        · simpa using key.2.2.2
        · simp


theorem live_lt_next {p : iobuf_pool} (hp : pool_inv p) (a : Nat) (A : iobuf_arena)
    (hA : p.mem a = some A) : a < p.next_obj := by
  by_contra hlt
  have := hp.fresh a (by simpa using hlt)
  rw [hA] at this; cases this

/-- Unlinking an arena from its list keeps the pool consistent, and the arena is then
on no list. -/
theorem pool_inv_unlink {p : iobuf_pool} (hp : pool_inv p) (a : Nat) :
    pool_inv (arena_list_del p a) ∧
    ∀ j, a ∉ (arena_list_del p a).arenas j ∧ a ∉ (arena_list_del p a).filled j ∧
      a ∉ (arena_list_del p a).purge j := by
  have hnot : ∀ j, a ∉ (arena_list_del p a).arenas j ∧ a ∉ (arena_list_del p a).filled j ∧
      a ∉ (arena_list_del p a).purge j := fun j =>
    ⟨fun hc => ((mem_erase_nodup (hp.nodup j).1 a a).1 hc).1 rfl,
      fun hc => ((mem_erase_nodup (hp.nodup j).2.1 a a).1 hc).1 rfl,
      fun hc => ((mem_erase_nodup (hp.nodup j).2.2 a a).1 hc).1 rfl⟩
  refine ⟨?_, hnot⟩
  refine pool_inv_update a (p.mem a) hp (fun x _ => rfl) rfl
    (fun B hB => hp.mem_ok a B hB) (le_refl _) ?_ ?_ ?_ ?_ (arena_list_del_nodup hp a) ?_
  · cases hA : p.mem a with
    | none => exact Or.inl rfl
    | some A => exact Or.inr (live_lt_next hp a A hA)
  · intro j _ x hx; exact Or.inl ((mem_erase_nodup (hp.nodup j).1 a x).1 hx)
  · intro j _ x hx; exact Or.inl ((mem_erase_nodup (hp.nodup j).2.1 a x).1 hx)
  · intro j _ x hx; exact Or.inl ((mem_erase_nodup (hp.nodup j).2.2 a x).1 hx)
  · intro j j2 _ _ hx; exact absurd hx (hnot j).1

/-- Replacing an arena object that is on no fixed-class list keeps the pool
consistent. -/
theorem pool_inv_set_unlinked {q : iobuf_pool} (hq : pool_inv q) (a : Nat)
    (B : iobuf_arena) (hB : arena_inv B) (hlt : a < q.next_obj)
    (hnot : ∀ j, j < IOBUF_ARENA_MAX_INDEX →
      a ∉ q.arenas j ∧ a ∉ q.filled j ∧ a ∉ q.purge j) :
    pool_inv (set_arena q a B) := by
  refine pool_inv_update a (some B) hq ?_ ?_ ?_ (le_refl _) (Or.inr hlt) ?_ ?_ ?_ hq.nodup ?_
  · intro x hx; simp [set_arena, Function.update_noteq hx]
  · simp [set_arena]
  · intro C hC; cases hC; exact hB
  · intro j hj x hx; exact Or.inl ⟨fun e => (hnot j hj).1 (e ▸ hx), hx⟩
  · intro j hj x hx; exact Or.inl ⟨fun e => (hnot j hj).2.1 (e ▸ hx), hx⟩
  · intro j hj x hx; exact Or.inl ⟨fun e => (hnot j hj).2.2 (e ▸ hx), hx⟩
  · intro j j2 hj _ hx; exact absurd hx (hnot j hj).1

/-- Replacing an arena object by one with the same counters and class keeps the pool
consistent. -/
theorem pool_inv_set_same {p : iobuf_pool} (hp : pool_inv p) (a : Nat)
    (A B : iobuf_arena) (hA : p.mem a = some A) (hB : arena_inv B)
    (h3 : B.passive_cnt = A.passive_cnt) (h4 : B.active_cnt = A.active_cnt)
    (h5 : B.page_size = A.page_size) (h6 : B.page_count = A.page_count) :
    pool_inv (set_arena p a B) := by
  have hcl : ∀ j, arena_class A j → arena_class B j := fun j hc =>
    ⟨by rw [h5]; exact hc.1, by rw [h6]; exact hc.2⟩
  refine pool_inv_update a (some B) hp ?_ ?_ ?_ (le_refl _)
    (Or.inr (live_lt_next hp a A hA)) ?_ ?_ ?_ hp.nodup ?_
  · intro x hx; simp [set_arena, Function.update_noteq hx]
  · simp [set_arena]
  · intro C hC; cases hC; exact hB
  · intro j hj x hx
    by_cases hxa : x = a
    · subst hxa
      obtain ⟨C, hC, hcj, hpos⟩ := hp.arenas_ok j hj x hx
      rw [hA] at hC; cases hC
      exact Or.inr ⟨rfl, B, rfl, hcl j hcj, by rw [h3]; exact hpos⟩
    · exact Or.inl ⟨hxa, hx⟩
  · intro j hj x hx
    by_cases hxa : x = a
    · subst hxa
      obtain ⟨C, hC, hcj, hz, hpos⟩ := hp.filled_ok j hj x hx
      rw [hA] at hC; cases hC
      exact Or.inr ⟨rfl, B, rfl, hcl j hcj, by rw [h3]; exact hz, by rw [h4]; exact hpos⟩
    · exact Or.inl ⟨hxa, hx⟩
  · intro j hj x hx
    by_cases hxa : x = a
    · subst hxa
      obtain ⟨C, hC, hcj, hz⟩ := hp.purge_ok j hj x hx
      rw [hA] at hC; cases hC
      exact Or.inr ⟨rfl, B, rfl, hcl j hcj, by rw [h4]; exact hz⟩
    · exact Or.inl ⟨hxa, hx⟩
  · intro j j2 hj hj2 hx; exact hp.excl j j2 hj hj2 a hx

/-- Linking at the tail of `arenas[i]` an arena of class `i` with free buffers that is
on no list keeps the pool consistent. -/
theorem pool_inv_link_arenas_tail {q : iobuf_pool} (hq : pool_inv q) (a i : Nat)
    (hi : i < IOBUF_ARENA_MAX_INDEX) (A : iobuf_arena) (hA : q.mem a = some A)
    (hc : arena_class A i) (hpos : 0 < A.passive_cnt)
    (hnot : ∀ j, j < IOBUF_ARENA_MAX_INDEX → a ∉ q.arenas j ∧ a ∉ q.filled j ∧ a ∉ q.purge j) :
    pool_inv (arenas_list_add_tail q i a) := by
  refine pool_inv_update a (some A) hq (fun x _ => rfl) hA
    (fun B hB => by cases hB; exact hq.mem_ok a A hA) (le_refl _)
    (Or.inr (live_lt_next hq a A hA)) ?_ ?_ ?_ ?_ ?_
  · intro j hj x hx
    by_cases hji : j = i
    · subst hji
      simp only [arenas_list_add_tail, Function.update_same, list_add_tail,
        List.mem_append, List.mem_singleton] at hx
      rcases hx with hx | hx
      · exact Or.inl ⟨fun e => (hnot j hj).1 (e ▸ hx), hx⟩
      · exact Or.inr ⟨hx, A, rfl, hc, hpos⟩
    · simp only [arenas_list_add_tail, Function.update_noteq hji] at hx
      exact Or.inl ⟨fun e => (hnot j hj).1 (e ▸ hx), hx⟩
  · intro j hj x hx
    exact Or.inl ⟨fun e => (hnot j hj).2.1 (e ▸ hx), hx⟩
  · intro j hj x hx
    exact Or.inl ⟨fun e => (hnot j hj).2.2 (e ▸ hx), hx⟩
  · intro j
    refine ⟨?_, (hq.nodup j).2⟩
    by_cases hji : j = i
    · subst hji
      simp only [arenas_list_add_tail, Function.update_same, list_add_tail]
      exact List.Nodup.append (hq.nodup j).1 (List.nodup_singleton a)
        (by simpa using (hnot j hi).1)
    · simp only [arenas_list_add_tail, Function.update_noteq hji]; exact (hq.nodup j).1
  · intro j j2 _ hj2 _
    exact (hnot j2 hj2).2.2

/-- Linking at the tail of `purge[i]` an arena of class `i` without active buffers that
is on no list keeps the pool consistent. -/
theorem pool_inv_link_purge_tail {q : iobuf_pool} (hq : pool_inv q) (a i : Nat)
    (hi : i < IOBUF_ARENA_MAX_INDEX) (A : iobuf_arena) (hA : q.mem a = some A)
    (hc : arena_class A i) (hz : A.active_cnt = 0)
    (hnot : ∀ j, j < IOBUF_ARENA_MAX_INDEX → a ∉ q.arenas j ∧ a ∉ q.filled j ∧ a ∉ q.purge j) :
    pool_inv (purge_list_add_tail q i a) := by
  refine pool_inv_update a (some A) hq (fun x _ => rfl) hA
    (fun B hB => by cases hB; exact hq.mem_ok a A hA) (le_refl _)
    (Or.inr (live_lt_next hq a A hA)) ?_ ?_ ?_ ?_ ?_
  · intro j hj x hx
    exact Or.inl ⟨fun e => (hnot j hj).1 (e ▸ hx), hx⟩
  · intro j hj x hx
    exact Or.inl ⟨fun e => (hnot j hj).2.1 (e ▸ hx), hx⟩
  · intro j hj x hx
    by_cases hji : j = i
    · subst hji
      simp only [purge_list_add_tail, Function.update_same, list_add_tail,
        List.mem_append, List.mem_singleton] at hx
      rcases hx with hx | hx
      · exact Or.inl ⟨fun e => (hnot j hj).2.2 (e ▸ hx), hx⟩
      · exact Or.inr ⟨hx, A, rfl, hc, hz⟩
    · simp only [purge_list_add_tail, Function.update_noteq hji] at hx
      exact Or.inl ⟨fun e => (hnot j hj).2.2 (e ▸ hx), hx⟩
  · intro j
    refine ⟨(hq.nodup j).1, (hq.nodup j).2.1, ?_⟩
    by_cases hji : j = i
    · subst hji
      simp only [purge_list_add_tail, Function.update_same, list_add_tail]
      exact List.Nodup.append (hq.nodup j).2.2 (List.nodup_singleton a)
        (by simpa using (hnot j hi).2.2)
    · simp only [purge_list_add_tail, Function.update_noteq hji]; exact (hq.nodup j).2.2
  · intro j j2 hj _ hx
    exact absurd hx (hnot j hj).1


/-! ### Reference counting and return -/

theorem active_of_held {A : iobuf_arena} (h : arena_inv A) (k : Nat)
    (hk : k < A.page_count) (href : 1 ≤ (A.iobufs k).ref) :
    k ∈ A.active_list ∧ k ∉ A.passive_list := by
  have hnp : k ∉ A.passive_list := by
    intro hc
    have := (h.passive_ref k hc).2
    omega
  rcases h.cover k hk with c | c
  · exact absurd c hnp
  · exact ⟨c, hnp⟩

/-- Changing the count of a held buffer to another positive value keeps the arena
consistent. -/
theorem arena_inv_ref {A B : iobuf_arena} (h : arena_inv A) (k : Nat)
    (hk : k < A.page_count) (href : 1 ≤ (A.iobufs k).ref)
    (h1 : B.passive_list = A.passive_list) (h2 : B.active_list = A.active_list)
    (h3 : B.passive_cnt = A.passive_cnt) (h4 : B.active_cnt = A.active_cnt)
    (h5 : B.page_size = A.page_size) (h6 : B.page_count = A.page_count)
    (h7 : ∀ j, j ≠ k → (B.iobufs j).ref = (A.iobufs j).ref)
    (h8 : 1 ≤ (B.iobufs k).ref) : arena_inv B := by
  obtain ⟨hka, hkp⟩ := active_of_held h k hk href
  refine ⟨?_, ?_, ?_, ?_, ?_, ?_, ?_, ?_, ?_⟩
  · rw [h1, h3]; exact h.passive_len
  · rw [h2, h4]; exact h.active_len
  · rw [h1]; exact h.passive_nodup
  · rw [h2]; exact h.active_nodup
  · rw [h1, h2, h6]; exact h.cover
  · rw [h1, h6]; intro j hj
    have hjk : j ≠ k := fun e => hkp (e ▸ hj)
    rw [h7 j hjk]; exact h.passive_ref j hj
  · rw [h2, h6]; intro j hj
    by_cases hjk : j = k
    · rw [hjk]; exact ⟨hk, h8⟩
    · rw [h7 j hjk]; exact h.active_ref j hj
  · rw [h3, h4, h6]; exact h.sum
  · simpa [arena_class, h5, h6] using h.kind

theorem pool_inv_modify_iobuf {p : iobuf_pool} (hp : pool_inv p) (a k : Nat)
    (f : iobuf → iobuf) (hf : ∀ b, (f b).ref = b.ref) :
    pool_inv (modify_iobuf p a k f) := by
  unfold modify_iobuf
  cases hA : p.mem a with
  | none => exact hp
  | some A =>
    refine pool_inv_set_same hp a A _ hA ?_ rfl rfl rfl rfl
    refine arena_inv_congr (hp.mem_ok a A hA) rfl rfl rfl rfl rfl rfl ?_
    intro j
    by_cases hj : j = k
    · subst hj; simp [hf]
    · simp [Function.update_noteq hj]

theorem iobuf_put_heap (p : iobuf_pool) (b : iobuf) : iobuf_put p (.heap b) = p := by
  unfold iobuf_put
  dsimp only
  split
  · rfl
  · unfold __iobuf_put
    split
    · rfl
    · dsimp only
      split <;> rfl

theorem pool_inv_ref {p : iobuf_pool} (hp : pool_inv p) (h : iobuf_ptr) (hh : holds p h) :
    pool_inv (iobuf_ref p h).2 := by
  cases h with
  | heap b => exact hp
  | carved a k =>
    obtain ⟨A, hA, hk, href⟩ := hh
    simp only [iobuf_ref, modify_iobuf, hA]
    refine pool_inv_set_same hp a A _ hA ?_ rfl rfl rfl rfl
    refine arena_inv_ref (hp.mem_ok a A hA) k hk href rfl rfl rfl rfl rfl rfl ?_ ?_
    · intro j hj; simp [Function.update_noteq hj]
    · simp; omega

/-- The class of a fixed-class arena is found again by the lookup on its page size. -/
theorem arena_index_of_class {A : iobuf_arena} {i : Nat} (hi : i < IOBUF_ARENA_MAX_INDEX)
    (hc : arena_class A i) : gf_iobuf_get_arena_index A.page_size = (i : Int) := by
  rw [hc.1]; exact arena_index_config i hi

theorem class_of_held {A : iobuf_arena} (h : arena_inv A) (k : Nat) (hk : k < A.page_count) :
    ∃ i, i < IOBUF_ARENA_MAX_INDEX ∧ arena_class A i := by
  rcases h.kind with c | c
  · exact c
  · omega


theorem set_arena_set_arena (p : iobuf_pool) (a : Nat) (A B : iobuf_arena) :
    set_arena (set_arena p a A) a B = set_arena p a B := by
  simp [set_arena]

/-- The pool after `__iobuf_put` of a held buffer whose count was just decremented to
0 (arena object `A1`), seen from the consistent pool before the decrement. -/
theorem put_spec {p : iobuf_pool} (hp : pool_inv p) (a k : Nat) (A : iobuf_arena)
    (hA : p.mem a = some A) (hk : k < A.page_count) (href : 1 ≤ (A.iobufs k).ref)
    (A1 : iobuf_arena)
    (h1 : A1.passive_list = A.passive_list) (h2 : A1.active_list = A.active_list)
    (h3 : A1.passive_cnt = A.passive_cnt) (h4 : A1.active_cnt = A.active_cnt)
    (h5 : A1.page_size = A.page_size) (h6 : A1.page_count = A.page_count)
    (h7 : ∀ j, j ≠ k → (A1.iobufs j).ref = (A.iobufs j).ref)
    (h8 : (A1.iobufs k).ref = 0) :
    pool_inv (__iobuf_put (set_arena p a A1) (.carved a k) a) := by
  have hinv := hp.mem_ok a A hA
  obtain ⟨hka, hkp⟩ := active_of_held hinv k hk href
  obtain ⟨i, hi, hc⟩ := class_of_held hinv k hk
  have hlt := live_lt_next hp a A hA
  obtain ⟨f1, f2, f3, f4, f5, f6, f7, _⟩ := put_arena_fields A1 k
  have hinv3 : arena_inv (__iobuf_put_arena A1 k) :=
    arena_inv_put hinv k hka (by rw [f1, h1]) (by rw [f2, h2]) (by rw [f3, h3])
      (by rw [f4, h4]) (by rw [f5, h5]) (by rw [f6, h6])
      (fun j hj => by rw [f7, h7 j hj]) (by rw [f7, h8])
  have hc3 : arena_class (__iobuf_put_arena A1 k) i :=
    ⟨by rw [f5, h5]; exact hc.1, by rw [f6, h6]; exact hc.2⟩
  have hpos3 : 0 < (__iobuf_put_arena A1 k).passive_cnt := by
    rw [f3, h3, hinv.passive_len]; omega
  have hidx : gf_iobuf_get_arena_index A1.page_size = (i : Int) := by
    rw [h5]; exact arena_index_of_class hi hc
  have hact : 1 ≤ A.active_cnt := by
    rw [hinv.active_len]
    have : 0 < A.active_list.length := List.length_pos_of_mem hka
    omega
  unfold __iobuf_put
  have hm : (set_arena p a A1).mem a = some A1 := by simp [set_arena]
  rw [hm]
  dsimp only
  rw [hidx, if_neg (by omega), Int.toNat_ofNat]
  -- the pool after the arena object was updated
  have hp2 : pool_inv (set_arena
      (if A1.passive_cnt = 0 then
        arenas_list_add_tail (arena_list_del (set_arena p a A1) a) i a
       else set_arena p a A1) a (__iobuf_put_arena A1 k)) := by
    by_cases hz : A1.passive_cnt = 0
    · rw [if_pos hz]
      have e : set_arena (arenas_list_add_tail (arena_list_del (set_arena p a A1) a) i a) a
          (__iobuf_put_arena A1 k) =
          arenas_list_add_tail (set_arena (arena_list_del p a) a (__iobuf_put_arena A1 k))
            i a := by
        simp [set_arena, arena_list_del, arenas_list_add_tail]
      rw [e]
      obtain ⟨hu, hnot⟩ := pool_inv_unlink hp a
      have hs := pool_inv_set_unlinked hu a (__iobuf_put_arena A1 k) hinv3 hlt
        (fun j _ => hnot j)
      exact pool_inv_link_arenas_tail hs a i hi (__iobuf_put_arena A1 k)
        (by simp [set_arena]) hc3 hpos3 (fun j _ => hnot j)
    · rw [if_neg hz, set_arena_set_arena]
      have hcl : ∀ j, arena_class A j → arena_class (__iobuf_put_arena A1 k) j := fun j hcj =>
        ⟨by rw [f5, h5]; exact hcj.1, by rw [f6, h6]; exact hcj.2⟩
      refine pool_inv_update a (some (__iobuf_put_arena A1 k)) hp ?_ ?_ ?_ (le_refl _)
        (Or.inr hlt) ?_ ?_ ?_ hp.nodup ?_
      · intro x hx; simp [set_arena, Function.update_noteq hx]
      · simp [set_arena]
      · intro C hC; cases hC; exact hinv3
      · intro j hj x hx
        by_cases hxa : x = a
        · subst hxa
          obtain ⟨C, hC, hcj, _⟩ := hp.arenas_ok j hj x hx
          rw [hA] at hC; cases hC
          exact Or.inr ⟨rfl, _, rfl, hcl j hcj, hpos3⟩
        · exact Or.inl ⟨hxa, hx⟩
      · intro j hj x hx
        by_cases hxa : x = a
        · subst hxa
          obtain ⟨C, hC, _, hz0, _⟩ := hp.filled_ok j hj x hx
          rw [hA] at hC; cases hC
          rw [h3] at hz; exact absurd hz0 hz
        · exact Or.inl ⟨hxa, hx⟩
      · intro j hj x hx
        by_cases hxa : x = a
        · subst hxa
          obtain ⟨C, hC, _, hz0⟩ := hp.purge_ok j hj x hx
          rw [hA] at hC; cases hC
          omega
        · exact Or.inl ⟨hxa, hx⟩
      · intro j j2 hj hj2 hx; exact hp.excl j j2 hj hj2 a hx
  have hm2 : ∀ q : iobuf_pool, (set_arena q a (__iobuf_put_arena A1 k)).mem a =
      some (__iobuf_put_arena A1 k) := fun q => by simp [set_arena]
  by_cases hz2 : (__iobuf_put_arena A1 k).active_cnt = 0
  · rw [if_pos hz2]
    apply pool_inv_prune
    obtain ⟨hu, hnot⟩ := pool_inv_unlink hp2 a
    exact pool_inv_link_purge_tail hu a i hi (__iobuf_put_arena A1 k) (hm2 _) hc3 hz2
      (fun j _ => hnot j)
  · rw [if_neg hz2]
    exact hp2

theorem pool_inv_unref {p : iobuf_pool} (hp : pool_inv p) (h : iobuf_ptr) (hh : holds p h) :
    pool_inv (iobuf_unref p h).2 := by
  cases h with
  | heap b =>
    simp only [iobuf_unref, iobuf_put_heap, ite_self]
    exact hp
  | carved a k =>
    obtain ⟨A, hA, hk, href⟩ := hh
    simp only [iobuf_unref, hA, modify_iobuf]
    by_cases hz : (A.iobufs k).ref - 1 = 0
    · rw [if_pos hz]
      simp only [iobuf_put]
      refine put_spec hp a k A hA hk href _ rfl rfl rfl rfl rfl rfl ?_ ?_
      · intro j hj; simp [Function.update_noteq hj]
      · simpa using hz
    · rw [if_neg hz]
      refine pool_inv_set_same hp a A _ hA ?_ rfl rfl rfl rfl
      refine arena_inv_ref (hp.mem_ok a A hA) k hk href rfl rfl rfl rfl rfl rfl ?_ ?_
      · intro j hj; simp [Function.update_noteq hj]
      · simp; omega


/-! ### The public hand-out operations -/

/-- The three paths of `iobuf_get2`, `ps` being the size after the substitution of the
default for 0. -/
theorem get2_cases (S : Nat) (o : alloc_env) (p : iobuf_pool) (n ps : Nat)
    (hps : ps = if n = 0 then p.default_page_size else n) :
    (ps ≤ S ∧ iobuf_get2 S o p n = ((iobuf_get_from_small o ps).map iobuf_ptr.heap, p)) ∨
    (S < ps ∧ 1048576 < ps ∧
      iobuf_get2 S o p n = ((iobuf_get_from_stdalloc o p ps).map iobuf_ptr.heap,
        { p with request_misses := p.request_misses + 1 })) ∨
    (S < ps ∧ ∃ i, smallest_class ps i ∧
      iobuf_get2 S o p n =
        match __iobuf_get o p (config_pagesize i) i with
        | (none, p1) => (none, p1)
        | (some (a, k), p1) => (some (.carved a k), (iobuf_ref p1 (.carved a k)).2)) := by
  unfold iobuf_get2
  rw [← hps]
  dsimp only
  by_cases h1 : ps ≤ S
  · left; rw [if_pos h1]; exact ⟨h1, rfl⟩
  · right
    rw [if_neg h1]
    obtain ⟨_, l2, l3, _, l5⟩ := lookup_spec ps
    rcases l3 with hbig | ⟨i, hsc⟩
    · left
      have e := (l2 0).2 hbig
      rw [e]
      dsimp only
      rw [if_pos rfl]
      exact ⟨by omega, hbig, rfl⟩
    · right
      have e := (l5 i 0).2 hsc
      rw [e]
      dsimp only
      have hne : config_pagesize i ≠ SIZE_MAX := by
        have := (config_pagesize_le i hsc.1).1
        unfold SIZE_MAX
        omega
      rw [if_neg hne, if_neg (by omega), Int.toNat_ofNat]
      exact ⟨by omega, i, hsc, rfl⟩

theorem pool_inv_get2 {p : iobuf_pool} (hp : pool_inv p) (S : Nat) (o : alloc_env)
    (n : Nat) : pool_inv (iobuf_get2 S o p n).2 := by
  rcases get2_cases S o p n _ rfl with ⟨_, e⟩ | ⟨_, _, e⟩ | ⟨_, i, hsc, e⟩
  · rw [e]; exact hp
  · rw [e]; exact pool_inv_frame hp rfl rfl rfl rfl (le_refl _)
  · rw [e]
    cases hg : __iobuf_get o p (config_pagesize i) i with
    | mk r p1 =>
      obtain ⟨g1, g2⟩ := get_ref_spec hp o i hsc.1 r p1 hg
      cases r with
      | none => exact g1 rfl
      | some ak =>
        obtain ⟨a, k⟩ := ak
        exact (g2 a k rfl).1

theorem iobuf_align_ref (al : Nat) (b : iobuf) : (iobuf_align al b).ref = b.ref := rfl

theorem pool_inv_get_page_aligned {p : iobuf_pool} (hp : pool_inv p) (S : Nat)
    (o : alloc_env) (n al : Nat) : pool_inv (iobuf_get_page_aligned S o p n al).2 := by
  unfold iobuf_get_page_aligned
  dsimp only
  have h := pool_inv_get2 hp S o
    (((if n = 0 then p.default_page_size else n) + al) % 2 ^ 64)
  cases hg : iobuf_get2 S o p (((if n = 0 then p.default_page_size else n) + al) % 2 ^ 64) with
  | mk r p1 =>
    rw [hg] at h
    cases r with
    | none => exact h
    | some hd =>
      cases hd with
      | heap b => exact h
      | carved a k => exact pool_inv_modify_iobuf h a k _ (iobuf_align_ref al)


/-! ### Pool creation -/

theorem pool_new_step_fst (o : Nat → alloc_env) (s : iobuf_pool × Nat) (i : Nat) :
    (iobuf_pool_new_step o s i).1 =
      (__iobuf_pool_add_arena (o i) s.1 (config_pagesize i) (config_num_pages i) i).2 := by
  unfold iobuf_pool_new_step
  dsimp only
  split <;> simp_all

theorem pool_new_loop_spec (o : Nat → alloc_env) (l : List Nat)
    (hl : ∀ i, i ∈ l → i < IOBUF_ARENA_MAX_INDEX) :
    ∀ s : iobuf_pool × Nat, pool_inv s.1 → s.1.arenas IOBUF_ARENA_MAX_INDEX = [] →
      pool_inv (l.foldl (iobuf_pool_new_step o) s).1 ∧
      (l.foldl (iobuf_pool_new_step o) s).1.arenas IOBUF_ARENA_MAX_INDEX = [] := by
  induction l with
  | nil => intro s h1 h2; exact ⟨h1, h2⟩
  | cons i l ih =>
    intro s h1 h2
    have hi := hl i (List.mem_cons_self _ _)
    obtain ⟨g1, _, g3⟩ := add_arena_spec h1 (o i) i hi
    refine ih (fun j hj => hl j (List.mem_cons_of_mem _ hj)) _ ?_ ?_
    · rw [pool_new_step_fst]; exact g1
    · rw [pool_new_step_fst]
      apply List.eq_nil_iff_forall_not_mem.2
      intro x hx
      have := g3 IOBUF_ARENA_MAX_INDEX (by omega) x hx
      rw [h2] at this
      cases this

theorem pool_inv_stdalloc_arena {p : iobuf_pool} (hp : pool_inv p)
    (he : p.arenas IOBUF_ARENA_MAX_INDEX = []) (ok : Bool) :
    pool_inv (iobuf_create_stdalloc_arena ok p) := by
  unfold iobuf_create_stdalloc_arena
  by_cases h : ok = false
  · rw [if_pos h]; exact hp
  · rw [if_neg h]
    dsimp only
    have hfresh : p.mem p.next_obj = none := hp.fresh _ (le_refl _)
    refine pool_inv_update p.next_obj (some
      { page_size := 0x7fffffff, arena_size := 0, page_count := 0, mem_base := 0,
        iobufs := fun _ => iobuf_zero, passive_list := [], active_list := [],
        alloc_cnt := 0, active_cnt := 0, passive_cnt := 0, max_active := 0 }) hp ?_ ?_ ?_
      (Nat.le_succ _) (Or.inr (Nat.lt_succ_self _)) ?_ ?_ ?_ ?_ ?_
    · intro x hx
      simp [set_arena, arenas_list_add_tail, Function.update_noteq hx]
    · simp [set_arena, arenas_list_add_tail]
    · intro B hB
      cases hB
      refine ⟨rfl, rfl, List.nodup_nil, List.nodup_nil, ?_, ?_, ?_, rfl, Or.inr ⟨rfl, rfl⟩⟩
      · intro k hk; exact absurd hk (Nat.not_lt_zero k)
      · intro k hk; cases hk
      · intro k hk; cases hk
    · intro j hj x hx
      have hne : j ≠ IOBUF_ARENA_MAX_INDEX := Nat.ne_of_lt hj
      simp only [set_arena, arenas_list_add_tail, Function.update_noteq hne] at hx
      exact Or.inl ⟨fun e => (fresh_not_mem hp _ hfresh j hj).1 (e ▸ hx), hx⟩
    · intro j hj x hx
      exact Or.inl ⟨fun e => (fresh_not_mem hp _ hfresh j hj).2.1 (e ▸ hx), hx⟩
    · intro j hj x hx
      exact Or.inl ⟨fun e => (fresh_not_mem hp _ hfresh j hj).2.2 (e ▸ hx), hx⟩
    · intro j
      refine ⟨?_, (hp.nodup j).2⟩
      by_cases hji : j = IOBUF_ARENA_MAX_INDEX
      · subst hji
        simp [set_arena, arenas_list_add_tail, list_add_tail, he]
      · simp only [set_arena, arenas_list_add_tail, Function.update_noteq hji]
        exact (hp.nodup j).1
    · intro j j2 _ hj2 _
      exact (fresh_not_mem hp _ hfresh j2 hj2).2.2

theorem pool_inv_pool_new (pool_ok : Bool) (o : Nat → alloc_env) (ok : Bool)
    (q : iobuf_pool) (h : iobuf_pool_new pool_ok o ok = some q) : pool_inv q := by
  unfold iobuf_pool_new at h
  by_cases hpo : pool_ok = false
  · rw [if_pos hpo] at h; cases h
  · rw [if_neg hpo] at h
    dsimp only at h
    injection h with h
    subst h
    have h0 : pool_inv
        { arena_size := 0, default_page_size := 128 * 1024, all_arenas := [],
          arenas := fun _ => [], filled := fun _ => [], purge := fun _ => [],
          request_misses := 0, arena_cnt := 0, mem := fun _ => none, next_obj := 0 } := by
      refine ⟨?_, ?_, ?_, ?_, ?_, ?_, ?_⟩
      · intro i _ a ha; cases ha
      · intro i _ a ha; cases ha
      · intro i _ a ha; cases ha
      · intro i; exact ⟨List.nodup_nil, List.nodup_nil, List.nodup_nil⟩
      · intro i j _ _ a ha; cases ha
      · intro a A ha; cases ha
      · intro a _; rfl
    obtain ⟨g1, g2⟩ := pool_new_loop_spec o (List.range IOBUF_ARENA_MAX_INDEX)
      (fun i hi => List.mem_range.1 hi)
      ({ arena_size := 0, default_page_size := 128 * 1024, all_arenas := [],
          arenas := fun _ => [], filled := fun _ => [], purge := fun _ => [],
          request_misses := 0, arena_cnt := 0, mem := fun _ => none, next_obj := 0 }, 0)
      h0 rfl
    exact pool_inv_frame (pool_inv_stdalloc_arena g1 g2 ok) rfl rfl rfl rfl (le_refl _)

/-- Every reachable pool is consistent. -/
theorem reachable_inv {S : Nat} {p : iobuf_pool} (h : Reachable S p) : pool_inv p := by
  induction h with
  | new o ok q hq => exact pool_inv_pool_new true o ok q hq.eq
  | get2 p o n q _ _ e ih => rw [← e]; exact pool_inv_get2 ih S o n
  | get_page_aligned p o n al q _ _ _ e ih =>
    rw [← e]; exact pool_inv_get_page_aligned ih S o n al
  | ref p h q _ hh e ih => rw [← e]; exact pool_inv_ref ih h hh
  | unref p h q _ hh e ih => rw [← e]; exact pool_inv_unref ih h hh
  | prune p q _ e ih => rw [← e]; exact pool_inv_pool_prune ih


/-! ### Fields that the list operations leave alone -/

theorem modify_iobuf_scalars (p : iobuf_pool) (a k : Nat) (f : iobuf → iobuf) :
    scalars_eq p (modify_iobuf p a k f) := by
  unfold modify_iobuf
  split
  · exact ⟨rfl, rfl, rfl⟩
  · exact ⟨rfl, rfl, rfl⟩

theorem scalars_eq_trans {p q r : iobuf_pool} (h1 : scalars_eq p q) (h2 : scalars_eq q r) :
    scalars_eq p r :=
  ⟨h2.1.trans h1.1, h2.2.1.trans h1.2.1, h2.2.2.trans h1.2.2⟩

theorem prune_scalars (p : iobuf_pool) (a i : Nat) :
    scalars_eq p (__iobuf_arena_prune p a i) := by
  unfold __iobuf_arena_prune
  split
  · exact ⟨rfl, rfl, rfl⟩
  · exact ⟨rfl, rfl, rfl⟩

theorem foldl_prune_scalars (i : Nat) (l : List Nat) :
    ∀ p : iobuf_pool, scalars_eq p (l.foldl (fun q a => __iobuf_arena_prune q a i) p) := by
  induction l with
  | nil => intro p; exact ⟨rfl, rfl, rfl⟩
  | cons a l ih => intro p; exact scalars_eq_trans (prune_scalars p a i) (ih _)

theorem prune_class_scalars (p : iobuf_pool) (i : Nat) :
    scalars_eq p (iobuf_pool_prune_class p i) := by
  unfold iobuf_pool_prune_class
  split
  · exact ⟨rfl, rfl, rfl⟩
  · exact foldl_prune_scalars i _ p

theorem pool_prune_scalars (p : iobuf_pool) : scalars_eq p (iobuf_pool_prune p) := by
  unfold iobuf_pool_prune
  generalize List.range IOBUF_ARENA_MAX_INDEX = l
  induction l generalizing p with
  | nil => exact ⟨rfl, rfl, rfl⟩
  | cons i l ih => exact scalars_eq_trans (prune_class_scalars p i) (ih _)

theorem arena_alloc_scalars (o : alloc_env) (p : iobuf_pool) (ps np : Nat) :
    scalars_eq p (__iobuf_arena_alloc o p ps np).2 := by
  unfold __iobuf_arena_alloc
  split
  · exact ⟨rfl, rfl, rfl⟩
  · split
    · exact ⟨rfl, rfl, rfl⟩
    · dsimp only
      split
      · exact ⟨rfl, rfl, rfl⟩
      · exact ⟨rfl, rfl, rfl⟩

theorem add_arena_scalars (o : alloc_env) (p : iobuf_pool) (ps np i : Nat) :
    scalars_eq p (__iobuf_pool_add_arena o p ps np i).2 := by
  unfold __iobuf_pool_add_arena __iobuf_arena_unprune
  cases p.purge i with
  | nil =>
    dsimp only
    have h := arena_alloc_scalars o p ps np
    cases hr : __iobuf_arena_alloc o p ps np with
    | mk r q =>
      rw [hr] at h
      cases r with
      | none => exact h
      | some a => exact h
  | cons a l => exact ⟨rfl, rfl, rfl⟩

theorem select_arena_scalars (o : alloc_env) (p : iobuf_pool) (ps i : Nat) :
    scalars_eq p (__iobuf_select_arena o p ps i).2 := by
  unfold __iobuf_select_arena
  split
  · exact ⟨rfl, rfl, rfl⟩
  · exact add_arena_scalars o p ps _ i

theorem get_scalars (o : alloc_env) (p : iobuf_pool) (ps i : Nat) :
    scalars_eq p (__iobuf_get o p ps i).2 := by
  unfold __iobuf_get
  have h := select_arena_scalars o p ps i
  cases hs : __iobuf_select_arena o p ps i with
  | mk r q =>
    rw [hs] at h
    cases r with
    | none => exact h
    | some a =>
      dsimp only
      split
      · exact h
      · split
        · exact h
        · dsimp only
          split
          · exact scalars_eq_trans h ⟨rfl, rfl, rfl⟩
          · exact scalars_eq_trans h ⟨rfl, rfl, rfl⟩

theorem ref_scalars (p : iobuf_pool) (h : iobuf_ptr) : scalars_eq p (iobuf_ref p h).2 := by
  cases h with
  | heap b => exact ⟨rfl, rfl, rfl⟩
  | carved a k => exact modify_iobuf_scalars p a k _

theorem put_scalars (p : iobuf_pool) (h : iobuf_ptr) (a : Nat) :
    scalars_eq p (__iobuf_put p h a) := by
  unfold __iobuf_put
  split
  · exact ⟨rfl, rfl, rfl⟩
  · dsimp only
    split
    · exact ⟨rfl, rfl, rfl⟩
    · split
      · exact ⟨rfl, rfl, rfl⟩
      · split
        · refine scalars_eq_trans ?_ (prune_scalars _ _ _)
          split
          · exact ⟨rfl, rfl, rfl⟩
          · exact ⟨rfl, rfl, rfl⟩
        · split
          · exact ⟨rfl, rfl, rfl⟩
          · exact ⟨rfl, rfl, rfl⟩

theorem unref_scalars (p : iobuf_pool) (h : iobuf_ptr) :
    scalars_eq p (iobuf_unref p h).2 := by
  cases h with
  | heap b =>
    simp only [iobuf_unref, iobuf_put_heap, ite_self]
    exact ⟨rfl, rfl, rfl⟩
  | carved a k =>
    unfold iobuf_unref
    dsimp only
    split
    · exact ⟨rfl, rfl, rfl⟩
    · dsimp only
      split
      · exact scalars_eq_trans (modify_iobuf_scalars p a k _) (put_scalars _ _ _)
      · exact modify_iobuf_scalars p a k _

theorem get2_default_page_size (S : Nat) (o : alloc_env) (p : iobuf_pool) (n : Nat) :
    (iobuf_get2 S o p n).2.default_page_size = p.default_page_size := by
  rcases get2_cases S o p n _ rfl with ⟨_, e⟩ | ⟨_, _, e⟩ | ⟨_, i, _, e⟩
  · rw [e]
  · rw [e]
  · rw [e]
    have h := get_scalars o p (config_pagesize i) i
    cases hg : __iobuf_get o p (config_pagesize i) i with
    | mk r p1 =>
      rw [hg] at h
      cases r with
      | none => exact h.1
      | some ak =>
        obtain ⟨a, k⟩ := ak
        exact (scalars_eq_trans h (ref_scalars p1 _)).1

theorem get_page_aligned_default_page_size (S : Nat) (o : alloc_env) (p : iobuf_pool)
    (n al : Nat) :
    (iobuf_get_page_aligned S o p n al).2.default_page_size = p.default_page_size := by
  unfold iobuf_get_page_aligned
  dsimp only
  have h := get2_default_page_size S o p
    (((if n = 0 then p.default_page_size else n) + al) % 2 ^ 64)
  cases hg : iobuf_get2 S o p (((if n = 0 then p.default_page_size else n) + al) % 2 ^ 64) with
  | mk r p1 =>
    rw [hg] at h
    cases r with
    | none => exact h
    | some hd =>
      cases hd with
      | heap b => exact h
      | carved a k => exact (modify_iobuf_scalars p1 a k _).1.trans h

theorem pool_new_default_page_size (pool_ok : Bool) (o : Nat → alloc_env) (ok : Bool)
    (q : iobuf_pool) (h : iobuf_pool_new pool_ok o ok = some q) :
    q.default_page_size = 131072 := by
  unfold iobuf_pool_new at h
  by_cases hpo : pool_ok = false
  · rw [if_pos hpo] at h; cases h
  · rw [if_neg hpo] at h
    dsimp only at h
    injection h with h
    subst h
    have hloop : ∀ (l : List Nat) (s : iobuf_pool × Nat),
        (l.foldl (iobuf_pool_new_step o) s).1.default_page_size = s.1.default_page_size := by
      intro l
      induction l with
      | nil => intro s; rfl
      | cons i l ih =>
        intro s
        rw [List.foldl_cons, ih, pool_new_step_fst]
        exact (add_arena_scalars (o i) s.1 _ _ i).1
    have hstd : ∀ p : iobuf_pool,
        (iobuf_create_stdalloc_arena ok p).default_page_size = p.default_page_size := by
      intro p
      unfold iobuf_create_stdalloc_arena
      split <;> rfl
    dsimp only
    rw [hstd, hloop]

theorem reachable_default_page_size {S : Nat} {p : iobuf_pool} (h : Reachable S p) :
    p.default_page_size = 131072 := by
  induction h with
  | new o ok q hq => exact pool_new_default_page_size true o ok q hq.eq
  | get2 p o n q _ _ e ih => rw [← e, get2_default_page_size]; exact ih
  | get_page_aligned p o n al q _ _ _ e ih =>
    rw [← e, get_page_aligned_default_page_size]; exact ih
  | ref p h q _ _ e ih => rw [← e, (ref_scalars p h).1]; exact ih
  | unref p h q _ _ e ih => rw [← e, (unref_scalars p h).1]; exact ih
  | prune p q _ e ih => rw [← e, (pool_prune_scalars p).1]; exact ih


theorem demo_pool_new : pool_new_returns demo_new_env true demo_pool := ⟨rfl⟩

theorem demo_pool_reachable (S : Nat) : Reachable S demo_pool :=
  Reachable.new demo_new_env true demo_pool demo_pool_new

theorem demo_pool_get_reachable : Reachable 131072 demo_pool_get :=
  Reachable.get2 demo_pool (env_ok 0 0) 131073 demo_pool_get (demo_pool_reachable 131072)
    (by decide) rfl

/-- What a successful hand-out from a fixed class returns, in a reachable pool. -/
theorem get2_arena_path {S : Nat} {p : iobuf_pool} (hp : Reachable S p) (o : alloc_env)
    (n : Nat) (hS : S < n) (hn : n ≤ 1048576) (h : iobuf_ptr) (q : iobuf_pool)
    (hg : iobuf_get2 S o p n = (some h, q)) :
    ∃ a k A i, h = .carved a k ∧ q.mem a = some A ∧ smallest_class n i ∧ arena_class A i ∧
      k < A.page_count ∧ (A.iobufs k).ref = 1 ∧ (A.iobufs k).page_size = config_pagesize i ∧
      q.request_misses = p.request_misses := by
  have hn0 : n ≠ 0 := by omega
  rcases get2_cases S o p n n (by rw [if_neg hn0]) with ⟨c, _⟩ | ⟨_, c, _⟩ | ⟨_, i, hsc, e⟩
  · omega
  · omega
  · rw [e] at hg
    have hsc_frame := get_scalars o p (config_pagesize i) i
    cases hget : __iobuf_get o p (config_pagesize i) i with
    | mk r p1 =>
      rw [hget] at hg hsc_frame
      obtain ⟨_, g2⟩ := get_ref_spec (reachable_inv hp) o i hsc.1 r p1 hget
      cases r with
      | none => cases hg
      | some ak =>
        obtain ⟨a, k⟩ := ak
        dsimp only at hg
        injection hg with h1 h2
        injection h1 with h1
        subst h1 h2
        obtain ⟨_, A, hA, hc, hk, href, hps⟩ := g2 a k rfl
        exact ⟨a, k, A, i, rfl, hA, hsc, hc, hk, href, hps,
          (scalars_eq_trans hsc_frame (ref_scalars p1 _)).2.1⟩


theorem smallest_class_self_3000 : smallest_class 3000 3 := by
  obtain ⟨h0, h1, h2, h3, h4, h5, h6, h7⟩ := config_pagesize_vals
  refine ⟨by decide, by omega, fun j hj => ?_⟩
  interval_cases j <;> omega


/-! ### Carving of a fresh arena -/

theorem init_loop_carve (self : Nat) : ∀ (n i offset : Nat) (A : iobuf_arena),
    (∀ k, i ≤ k → k < i + n →
      ((__iobuf_arena_init_iobufs_loop self n i offset A).iobufs k).ptr =
        A.mem_base + offset + (k - i) * A.page_size ∧
      ((__iobuf_arena_init_iobufs_loop self n i offset A).iobufs k).iobuf_arena = some self ∧
      ((__iobuf_arena_init_iobufs_loop self n i offset A).iobufs k).free_ptr = none) ∧
    (∀ k, k < i → (__iobuf_arena_init_iobufs_loop self n i offset A).iobufs k = A.iobufs k) ∧
    (__iobuf_arena_init_iobufs_loop self n i offset A).mem_base = A.mem_base ∧
    (__iobuf_arena_init_iobufs_loop self n i offset A).arena_size = A.arena_size ∧
    (__iobuf_arena_init_iobufs_loop self n i offset A).passive_list =
      (List.range' i n).reverse ++ A.passive_list := by
  intro n
  induction n with
  | zero =>
    intro i offset A
    refine ⟨fun k h1 h2 => by omega, fun k _ => rfl, rfl, rfl, rfl⟩
  | succ n ih =>
    intro i offset A
    obtain ⟨g1, g2, g3, g4, g5⟩ := ih (i + 1) (offset + A.page_size)
      { A with
        iobufs := Function.update A.iobufs i
          { iobuf_zero with iobuf_arena := some self, ptr := A.mem_base + offset },
        passive_list := list_add i A.passive_list,
        passive_cnt := A.passive_cnt + 1 }
    refine ⟨fun k h1 h2 => ?_, fun k hk => ?_, g3, g4, ?_⟩
    · by_cases hki : k = i
      · subst hki
        have := g2 k (Nat.lt_succ_self k)
        simp only [__iobuf_arena_init_iobufs_loop]
        rw [this]
        simp [iobuf_zero]
      · have := g1 k (by omega) (by omega)
        simp only [__iobuf_arena_init_iobufs_loop]
        refine ⟨?_, this.2⟩
        rw [this.1]
        have e : k - i = (k - (i + 1)) + 1 := by omega
        rw [e, Nat.add_mul]
        dsimp only
        omega
    · have := g2 k (by omega)
      simp only [__iobuf_arena_init_iobufs_loop]
      rw [this]
      simp [Function.update_noteq (Nat.ne_of_lt hk)]
    · simp only [__iobuf_arena_init_iobufs_loop]
      rw [g5]
      simp [list_add, List.range'_succ]

theorem arena_alloc_some (o : alloc_env) (p : iobuf_pool) (ps np a : Nat)
    (h : (__iobuf_arena_alloc o p ps np).1 = some a) :
    ∃ base, o.mmap = some base ∧ a = p.next_obj ∧
      (__iobuf_arena_alloc o p ps np).2.mem a = some (__iobuf_arena_init_iobufs a
        { page_size := (gf_iobuf_get_pagesize ps 0).1,
          arena_size := (gf_iobuf_get_pagesize ps 0).1 * np % 2 ^ 64,
          page_count := np, mem_base := base, iobufs := fun _ => iobuf_zero,
          passive_list := [], active_list := [], alloc_cnt := 0, active_cnt := 0,
          passive_cnt := 0, max_active := 0 }) ∧
      (__iobuf_arena_alloc o p ps np).2.arena_cnt = p.arena_cnt + 1 ∧
      (__iobuf_arena_alloc o p ps np).2.all_arenas = p.all_arenas ++ [a] := by
  unfold __iobuf_arena_alloc at h ⊢
  by_cases h1 : o.arena = false
  · rw [if_pos h1] at h; cases h
  · rw [if_neg h1] at h ⊢
    cases h2 : o.mmap with
    | none => rw [h2] at h; cases h
    | some base =>
      rw [h2] at h
      dsimp only at h ⊢
      by_cases h3 : o.iobufs = false
      · rw [if_pos h3] at h; cases h
      · rw [if_neg h3] at h ⊢
        dsimp only at h
        injection h with h
        subst h
        exact ⟨base, rfl, rfl, by simp [set_arena], rfl, rfl⟩


/-! ## Buffer bundles -/

theorem first_null_shape {β : Type} (held : List β) (m : Nat) :
    first_null (held.map some ++ List.replicate m (none : Option β)) =
      if m = 0 then none else some held.length := by
  induction held with
  | nil =>
    cases m with
    | zero => rfl
    | succ m => rfl
  | cons b l ih =>
    show (first_null (l.map some ++ List.replicate m (none : Option β))).map (fun i => i + 1)
      = _
    rw [ih]
    by_cases hm : m = 0
    · simp [hm]
    · simp [hm]

theorem set_shape {β : Type} (held : List β) (m : Nat) (b : β) :
    (held.map some ++ List.replicate (m + 1) (none : Option β)).set held.length (some b) =
      (held ++ [b]).map some ++ List.replicate m none := by
  induction held with
  | nil => rfl
  | cons c l ih =>
    simp only [List.map_cons, List.cons_append, List.length_cons, List.set_cons_succ, ih]

theorem grow_shape {β : Type} (X : iobref β) (held : List β) (h : iobref_shape X held) :
    iobref_shape (__iobref_grow true X) held := by
  obtain ⟨h1, h2, h3⟩ := h
  unfold __iobref_grow
  rw [if_neg (by decide)]
  refine ⟨?_, h2, by dsimp only; omega⟩
  dsimp only
  rw [h1, ← h2]
  have : (held.map some ++ List.replicate (X.allocated - held.length) (none : Option β)).take
      held.length = held.map some := by
    rw [List.take_append_of_le_length (by simp)]
    rw [List.take_of_length_le (by simp)]
  rw [this]

theorem grow_false {β : Type} (X : iobref β) : __iobref_grow false X = X := rfl

theorem grow_true {β : Type} (X : iobref β) :
    __iobref_grow true X =
      { X with iobrefs := X.iobrefs.take X.used ++
                 List.replicate (X.allocated * 2 - X.used) none,
               allocated := X.allocated * 2 } := rfl

theorem add_core_shape {σ β : Type} (ops : buf_ops σ β) (s : σ) (Y : iobref β) (b : β)
    (held : List β) (h : iobref_shape Y held) (hlt : Y.used < Y.allocated) :
    (if Y.used = Y.allocated then ((-ENOMEM, Y, s) : Int × iobref β × σ)
      else
        match first_null Y.iobrefs with
        | none => (-ENOMEM, Y, s)
        | some i =>
          (0, { Y with iobrefs := Y.iobrefs.set i (some (ops.iobuf_ref s b).1),
                       used := Y.used + 1 }, (ops.iobuf_ref s b).2)) =
      (0, { Y with iobrefs := (held ++ [(ops.iobuf_ref s b).1]).map some ++
                      List.replicate (Y.allocated - (Y.used + 1)) none,
                   used := Y.used + 1 }, (ops.iobuf_ref s b).2) := by
  obtain ⟨h1, h2, h3⟩ := h
  rw [if_neg (by omega), h1, first_null_shape, if_neg (by omega)]
  dsimp only
  have e : Y.allocated - Y.used = (Y.allocated - (Y.used + 1)) + 1 := by omega
  rw [e, set_shape]

/-- The outcome of `__iobref_add` on a bundle of known shape. -/
theorem add_shape {σ β : Type} (ops : buf_ops σ β) (grow_ok : Bool) (s : σ) (X : iobref β)
    (b : β) (held : List β) (h : iobref_shape X held) :
    (X.used < X.allocated ∨ (grow_ok = true ∧ 0 < X.allocated) →
      (__iobref_add ops grow_ok s X b).1 = 0 ∧
      (__iobref_add ops grow_ok s X b).2.2 = (ops.iobuf_ref s b).2 ∧
      iobref_shape (__iobref_add ops grow_ok s X b).2.1 (held ++ [(ops.iobuf_ref s b).1]) ∧
      (__iobref_add ops grow_ok s X b).2.1.used = X.used + 1 ∧
      (__iobref_add ops grow_ok s X b).2.1.allocated =
        (if X.used = X.allocated then X.allocated * 2 else X.allocated) ∧
      (__iobref_add ops grow_ok s X b).2.1.ref = X.ref) ∧
    (X.used = X.allocated → (grow_ok = false ∨ X.allocated = 0) →
      (__iobref_add ops grow_ok s X b).1 = -ENOMEM ∧
      (__iobref_add ops grow_ok s X b).2.2 = s ∧
      (__iobref_add ops grow_ok s X b).2.1.iobrefs = X.iobrefs ∧
      (__iobref_add ops grow_ok s X b).2.1.used = X.used ∧
      (__iobref_add ops grow_ok s X b).2.1.allocated = X.allocated ∧
      (__iobref_add ops grow_ok s X b).2.1.ref = X.ref ∧
      (grow_ok = false → (__iobref_add ops grow_ok s X b).2.1 = X)) := by
  have hX := h
  obtain ⟨h1, h2, h3⟩ := h
  unfold __iobref_add
  dsimp only
  refine ⟨fun hc => ?_, fun he hc => ?_⟩
  · by_cases hu : X.used = X.allocated
    · have hg : grow_ok = true ∧ 0 < X.allocated := by
        rcases hc with c | c
        · omega
        · exact c
      rw [if_pos hu, hg.1]
      have hs := grow_shape X held hX
      have hlt : (__iobref_grow true X).used < (__iobref_grow true X).allocated := by
        rw [grow_true]; show X.used < X.allocated * 2; omega
      rw [add_core_shape ops s _ b held hs hlt]
      refine ⟨rfl, rfl, ⟨rfl, ?_, ?_⟩, rfl, ?_, rfl⟩
      · simp [h2, grow_true]
      · rw [grow_true]; show X.used + 1 ≤ X.allocated * 2; omega
      · rw [if_pos hu]; rfl
    · have hlt : X.used < X.allocated := by omega
      rw [if_neg hu, add_core_shape ops s X b held hX hlt]
      refine ⟨rfl, rfl, ⟨rfl, ?_, ?_⟩, rfl, ?_, rfl⟩
      · simp [h2]
      · show X.used + 1 ≤ X.allocated; omega
      · rw [if_neg hu]
  · rw [if_pos he]
    by_cases hg : grow_ok = false
    · subst hg
      rw [grow_false, if_pos he]
      exact ⟨rfl, rfl, rfl, rfl, rfl, rfl, fun _ => rfl⟩
    · have hgt : grow_ok = true := by cases grow_ok <;> simp_all
      subst hgt
      have c : X.allocated = 0 := by
        rcases hc with c | c
        · cases c
        · exact c
      have hu0 : X.used = 0 := by omega
      have hheld : held = [] := List.length_eq_zero.1 (by omega)
      rw [grow_true]
      dsimp only
      rw [if_pos (by omega)]
      refine ⟨rfl, rfl, ?_, rfl, ?_, rfl, fun hc => by cases hc⟩
      · dsimp only
        rw [h1, hheld, hu0, c]
        rfl
      · show X.allocated * 2 = X.allocated
        omega

theorem shape_ordered {β : Type} (X : iobref β) (held : List β) (h : iobref_shape X held) :
    iobref_ordered X := by
  obtain ⟨h1, h2, h3⟩ := h
  refine ⟨h3, ?_, ?_, ?_⟩
  · rw [h1]; simp [h2]; omega
  · intro i hi
    rw [h1]
    have hlt : i < held.length := by omega
    refine ⟨held.get ⟨i, hlt⟩, ?_⟩
    rw [List.get?_eq_getElem?, List.getElem?_append_left (by simpa using hlt)]
    simp [List.getElem?_eq_getElem hlt]
  · intro i hi hi2
    rw [h1, List.get?_eq_getElem?, List.getElem?_append_right (by simp; omega)]
    simp only [List.length_map, h2]
    rw [List.getElem?_replicate]
    rw [if_pos (by omega)]

theorem new_shape {β : Type} (X : iobref β) (h : iobref_new true = some X) :
    iobref_shape X [] ∧ X.used = 0 ∧ X.allocated = 16 ∧ X.ref = 1 ∧
      X.iobrefs = List.replicate 16 none := by
  unfold iobref_new at h
  rw [if_neg (by decide)] at h
  injection h with h
  subst h
  exact ⟨⟨rfl, rfl, Nat.zero_le _⟩, rfl, rfl, rfl, rfl⟩

theorem shape_of_fields {β : Type} (X Y : iobref β) (held : List β)
    (h : iobref_shape X held) (h1 : Y.iobrefs = X.iobrefs) (h2 : Y.used = X.used)
    (h3 : Y.allocated = X.allocated) : iobref_shape Y held := by
  unfold iobref_shape at h ⊢
  rw [h1, h2, h3]; exact h

/-- After `__iobref_add` the bundle has a shape again, whatever the outcome. -/
theorem add_keeps_shape {σ β : Type} (ops : buf_ops σ β) (grow_ok : Bool) (s : σ)
    (X : iobref β) (b : β) (held : List β) (h : iobref_shape X held) :
    ∃ held2, iobref_shape (__iobref_add ops grow_ok s X b).2.1 held2 := by
  obtain ⟨g1, g2⟩ := add_shape ops grow_ok s X b held h
  by_cases hc : X.used < X.allocated ∨ (grow_ok = true ∧ 0 < X.allocated)
  · exact ⟨_, (g1 hc).2.2.1⟩
  · have hu : X.used = X.allocated := by
      have := h.2.2
      by_contra hne
      exact hc (Or.inl (by omega))
    have hg : grow_ok = false ∨ X.allocated = 0 := by
      by_cases hg : grow_ok = false
      · exact Or.inl hg
      · right
        have hgt : grow_ok = true := by cases grow_ok <;> simp_all
        by_contra hne
        exact hc (Or.inr ⟨hgt, by omega⟩)
    obtain ⟨_, _, e1, e2, e3, _, _⟩ := g2 hu hg
    exact ⟨held, shape_of_fields X _ held h e1 e2 e3⟩

theorem merge_loop_keeps_shape {σ β : Type} (ops : buf_ops σ β) (grow_ok : Bool) :
    ∀ (L : List (Option β)) (ret : Int) (s : σ) (dst : iobref β) (held : List β),
      iobref_shape dst held →
      ∃ held2, iobref_shape (iobref_merge_loop ops grow_ok L ret s dst).2.1 held2 := by
  intro L
  induction L with
  | nil => intro ret s dst held h; exact ⟨held, h⟩
  | cons x L ih =>
    intro ret s dst held h
    cases x with
    | none => exact ⟨held, h⟩
    | some b =>
      obtain ⟨held2, h2⟩ := add_keeps_shape ops grow_ok s dst b held h
      simp only [iobref_merge_loop]
      split
      · exact ⟨held2, h2⟩
      · exact ih _ _ _ held2 h2

theorem built_shape {σ β : Type} (ops : buf_ops σ β) (X : iobref β)
    (h : iobref_built ops X) : ∃ held, iobref_shape X held := by
  induction h with
  | new X hX => exact ⟨[], (new_shape X hX).1⟩
  | ref X _ ih =>
    obtain ⟨held, h⟩ := ih
    exact ⟨held, shape_of_fields X _ held h rfl rfl rfl⟩
  | add X grow_ok s b Y _ e ih =>
    obtain ⟨held, h⟩ := ih
    rw [← e]
    exact add_keeps_shape ops grow_ok s X b held h
  | merge X F grow_ok s Y _ _ e ih _ =>
    obtain ⟨held, h⟩ := ih
    rw [← e]
    exact merge_loop_keeps_shape ops grow_ok _ _ _ _ held h


theorem held_of_shape {β : Type} (X : iobref β) (held : List β) (h : iobref_shape X held) :
    iobref_held X = held := by
  unfold iobref_held
  rw [h.1, List.filterMap_append]
  have h1 : ∀ l : List β, (l.map some).filterMap id = l := by
    intro l
    induction l with
    | nil => rfl
    | cons b l ih => simp [ih]
  have h2 : ∀ m : Nat, (List.replicate m (none : Option β)).filterMap id = [] := by
    intro m
    induction m with
    | zero => rfl
    | succ m ih => simp [List.replicate_succ, ih]
  rw [h1, h2, List.append_nil]

theorem destroy_loop_shape {σ β : Type} (ops : buf_ops σ β) (held : List β) (m : Nat) :
    ∀ s : σ, iobref_destroy_loop ops (held.map some ++ List.replicate m none) s =
      unref_all ops held s := by
  induction held with
  | nil =>
    intro s
    induction m with
    | zero => rfl
    | succ m ih => simpa [List.replicate_succ, iobref_destroy_loop] using ih
  | cons b l ih =>
    intro s
    show iobref_destroy_loop ops (l.map some ++ List.replicate m none) (ops.iobuf_unref s b).2
      = unref_all ops l (ops.iobuf_unref s b).2
    exact ih _

theorem clear_loop_shape {σ β : Type} (ops : buf_ops σ β) (held : List β) (m : Nat) :
    ∀ s : σ, iobref_clear_loop ops (held.map some ++ List.replicate m none) s =
      unref_all ops held s := by
  induction held with
  | nil =>
    intro s
    cases m with
    | zero => rfl
    | succ m => rfl
  | cons b l ih =>
    intro s
    show iobref_clear_loop ops (l.map some ++ List.replicate m none) (ops.iobuf_unref s b).2
      = unref_all ops l (ops.iobuf_unref s b).2
    exact ih _

theorem unref_all_count (l : List Nat) :
    ∀ (s : Nat → Int) (b : Nat), unref_all count_ops l s b = s b - (l.count b : Int) := by
  induction l with
  | nil => intro s b; simp [unref_all]
  | cons c l ih =>
    intro s b
    show unref_all count_ops l (Function.update s c (s c - 1)) b = _
    rw [ih]
    by_cases hb : b = c
    · subst hb
      simp
      omega
    · have hcb : ¬ c = b := fun e => hb e.symm
      simp [Function.update_noteq hb, List.count_cons, hcb]

theorem ref_all_count (l : List Nat) :
    ∀ (s : Nat → Int), (ref_all count_ops l s).1 = l ∧
      ∀ b, (ref_all count_ops l s).2 b = s b + (l.count b : Int) := by
  induction l with
  | nil => intro s; exact ⟨rfl, fun b => by simp [ref_all]⟩
  | cons c l ih =>
    intro s
    obtain ⟨h1, h2⟩ := ih (Function.update s c (s c + 1))
    refine ⟨?_, fun b => ?_⟩
    · show c :: (ref_all count_ops l (Function.update s c (s c + 1))).1 = c :: l
      rw [h1]
    · show (ref_all count_ops l (Function.update s c (s c + 1))).2 b = _
      rw [h2]
      by_cases hb : b = c
      · subst hb
        simp
        omega
      · have hcb : ¬ c = b := fun e => hb e.symm
        simp [Function.update_noteq hb, List.count_cons, hcb]

/-- With every `GF_REALLOC` succeeding, the merge loop over the slots of a bundle of shape
`more` appends to `dst` the pointers returned by `iobuf_ref` and returns 0. -/
theorem merge_loop_spec {σ β : Type} (ops : buf_ops σ β) (more : List β) (m : Nat) :
    ∀ (s : σ) (dst : iobref β) (held : List β), iobref_shape dst held → 0 < dst.allocated →
      (iobref_merge_loop ops true (more.map some ++ List.replicate m none) 0 s dst).1 = 0 ∧
      iobref_shape
        (iobref_merge_loop ops true (more.map some ++ List.replicate m none) 0 s dst).2.1
        (held ++ (ref_all ops more s).1) ∧
      (iobref_merge_loop ops true (more.map some ++ List.replicate m none) 0 s dst).2.2 =
        (ref_all ops more s).2 ∧
      (iobref_merge_loop ops true (more.map some ++ List.replicate m none) 0 s dst).2.1.ref =
        dst.ref ∧
      dst.allocated ≤
        (iobref_merge_loop ops true (more.map some ++ List.replicate m none) 0 s dst).2.1.allocated
      := by
  induction more with
  | nil =>
    intro s dst held h _
    have e : iobref_merge_loop ops true (([] : List β).map some ++ List.replicate m none) 0 s dst
        = (0, dst, s) := by
      cases m with
      | zero => rfl
      | succ m => rfl
    rw [e]
    exact ⟨rfl, by simpa [ref_all] using h, rfl, rfl, le_refl _⟩
  | cons b l ih =>
    intro s dst held h hpos
    obtain ⟨g1, _⟩ := add_shape ops true s dst b held h
    obtain ⟨a1, a2, a3, a4, a5, a6⟩ := g1 (Or.inr ⟨rfl, hpos⟩)
    have hpos2 : 0 < (__iobref_add ops true s dst b).2.1.allocated := by
      rw [a5]; split <;> omega
    have hle : dst.allocated ≤ (__iobref_add ops true s dst b).2.1.allocated := by
      rw [a5]; split <;> omega
    obtain ⟨i1, i2, i3, i4, i5⟩ := ih (ops.iobuf_ref s b).2 _ _ a3 hpos2
    have e : iobref_merge_loop ops true ((b :: l).map some ++ List.replicate m none) 0 s dst
        = iobref_merge_loop ops true (l.map some ++ List.replicate m none) 0
            (ops.iobuf_ref s b).2 (__iobref_add ops true s dst b).2.1 := by
      show (if (__iobref_add ops true s dst b).1 < 0 then __iobref_add ops true s dst b
        else iobref_merge_loop ops true (l.map some ++ List.replicate m none)
          (__iobref_add ops true s dst b).1 (__iobref_add ops true s dst b).2.2
          (__iobref_add ops true s dst b).2.1) = _
      rw [if_neg (by rw [a1]; decide), a1, a2]
    rw [e]
    refine ⟨i1, ?_, i3, by rw [i4, a6], le_trans hle i5⟩
    simpa [ref_all, List.append_assoc] using i2


theorem add_alloc_le {σ β : Type} (ops : buf_ops σ β) (grow_ok : Bool) (s : σ)
    (X : iobref β) (b : β) (held : List β) (h : iobref_shape X held) :
    X.allocated ≤ (__iobref_add ops grow_ok s X b).2.1.allocated := by
  obtain ⟨g1, g2⟩ := add_shape ops grow_ok s X b held h
  by_cases hc : X.used < X.allocated ∨ (grow_ok = true ∧ 0 < X.allocated)
  · rw [(g1 hc).2.2.2.2.1]; split <;> omega
  · have hu : X.used = X.allocated := by
      have := h.2.2
      by_contra hne
      exact hc (Or.inl (by omega))
    have hg : grow_ok = false ∨ X.allocated = 0 := by
      by_cases hg : grow_ok = false
      · exact Or.inl hg
      · right
        have hgt : grow_ok = true := by cases grow_ok <;> simp_all
        by_contra hne
        exact hc (Or.inr ⟨hgt, by omega⟩)
    obtain ⟨_, _, e1, e2, e3, _, _⟩ := g2 hu hg
    rw [e3]

theorem merge_loop_alloc_le {σ β : Type} (ops : buf_ops σ β) (grow_ok : Bool) :
    ∀ (L : List (Option β)) (ret : Int) (s : σ) (dst : iobref β) (held : List β),
      iobref_shape dst held →
      dst.allocated ≤ (iobref_merge_loop ops grow_ok L ret s dst).2.1.allocated := by
  intro L
  induction L with
  | nil => intro ret s dst held h; exact le_refl _
  | cons x L ih =>
    intro ret s dst held h
    cases x with
    | none => exact le_refl _
    | some b =>
      obtain ⟨held2, h2⟩ := add_keeps_shape ops grow_ok s dst b held h
      have hle := add_alloc_le ops grow_ok s dst b held h
      simp only [iobref_merge_loop]
      split
      · exact hle
      · exact le_trans hle (ih _ _ _ held2 h2)

/-- A bundle built by the public operations never has fewer than 16 slots. -/
theorem built_alloc {σ β : Type} (ops : buf_ops σ β) (X : iobref β)
    (h : iobref_built ops X) : 16 ≤ X.allocated := by
  induction h with
  | new X hX => rw [(new_shape X hX).2.2.1]
  | ref X _ ih => exact ih
  | add X grow_ok s b Y hb e ih =>
    obtain ⟨held, h⟩ := built_shape ops X hb
    rw [← e]
    exact le_trans ih (add_alloc_le ops grow_ok s X b held h)
  | merge X F grow_ok s Y hb _ e ih _ =>
    obtain ⟨held, h⟩ := built_shape ops X hb
    rw [← e]
    exact le_trans ih (merge_loop_alloc_le ops grow_ok _ _ _ _ held h)


theorem shape_get {β : Type} (X : iobref β) (held : List β) (h : iobref_shape X held) :
    (∀ i, i < X.used → X.iobrefs.get? i = (held.get? i).map some) ∧
    (∀ i, X.used ≤ i → i < X.allocated → X.iobrefs.get? i = some none) := by
  obtain ⟨h1, h2, h3⟩ := h
  refine ⟨fun i hi => ?_, fun i hi hi2 => ?_⟩
  · rw [h1, List.get?_eq_getElem?, List.get?_eq_getElem?,
      List.getElem?_append_left (by simp; omega)]
    simp
  · rw [h1, List.get?_eq_getElem?, List.getElem?_append_right (by simp; omega)]
    simp only [List.length_map, h2]
    rw [List.getElem?_replicate, if_pos (by omega)]


theorem add_all_spec {σ β : Type} (ops : buf_ops σ β) (bs : List β) :
    ∀ (s : σ) (X : iobref β) (held : List β) (k : Nat), iobref_shape X held →
      X.allocated = 16 * 2 ^ k → (k = 0 ∨ 16 * 2 ^ (k - 1) < X.used) →
      (∀ r ∈ (iobref_add_all ops bs s X).1, r = 0) ∧
      (iobref_add_all ops bs s X).1.length = bs.length ∧
      (iobref_add_all ops bs s X).2.1.used = X.used + bs.length ∧
      (iobref_add_all ops bs s X).2.1.ref = X.ref ∧
      (iobref_add_all ops bs s X).2.2 = (ref_all ops bs s).2 ∧
      iobref_shape (iobref_add_all ops bs s X).2.1 (held ++ (ref_all ops bs s).1) ∧
      ∃ j, (iobref_add_all ops bs s X).2.1.allocated = 16 * 2 ^ j ∧
        X.used + bs.length ≤ 16 * 2 ^ j ∧
        (j = 0 ∨ 16 * 2 ^ (j - 1) < X.used + bs.length) := by
  induction bs with
  | nil =>
    intro s X held k hs ha hk
    refine ⟨fun r hr => (by cases hr), rfl, rfl, rfl, rfl, (by simpa [ref_all] using hs),
      k, ha, ?_, ?_⟩
    · have := hs.2.2
      show X.used + 0 ≤ _
      omega
    · exact hk
  | cons b l ih =>
    intro s X held k hs ha hk
    have hp : 0 < 2 ^ k := Nat.two_pow_pos k
    obtain ⟨g1, _⟩ := add_shape ops true s X b held hs
    obtain ⟨a1, a2, a3, a4, a5, a6⟩ := g1 (Or.inr ⟨rfl, by omega⟩)
    have hle := hs.2.2
    have hstep : ∃ j, (__iobref_add ops true s X b).2.1.allocated = 16 * 2 ^ j ∧
        (j = 0 ∨ 16 * 2 ^ (j - 1) < (__iobref_add ops true s X b).2.1.used) := by
      rw [a4, a5]
      by_cases e : X.used = X.allocated
      · rw [if_pos e]
        refine ⟨k + 1, ?_, Or.inr ?_⟩
        · rw [ha, pow_succ]; omega
        · show 16 * 2 ^ k < _
          omega
      · rw [if_neg e]
        refine ⟨k, ha, ?_⟩
        rcases hk with hk | hk
        · exact Or.inl hk
        · exact Or.inr (by omega)
    obtain ⟨j, hj1, hj2⟩ := hstep
    obtain ⟨i1, i2, i3, i4, i5, i6, i7⟩ :=
      ih (ops.iobuf_ref s b).2 (__iobref_add ops true s X b).2.1 _ j a3 hj1 hj2
    have e : iobref_add_all ops (b :: l) s X =
        ((__iobref_add ops true s X b).1 ::
          (iobref_add_all ops l (ops.iobuf_ref s b).2
            (__iobref_add ops true s X b).2.1).1,
         (iobref_add_all ops l (ops.iobuf_ref s b).2
            (__iobref_add ops true s X b).2.1).2.1,
         (iobref_add_all ops l (ops.iobuf_ref s b).2
            (__iobref_add ops true s X b).2.1).2.2) := by
      rw [← a2]
      rfl
    rw [e]
    rw [a4] at i3 i7
    refine ⟨?_, ?_, ?_, ?_, ?_, ?_, ?_⟩
    · intro r hr
      rcases List.mem_cons.1 hr with hr | hr
      · rw [hr, a1]
      · exact i1 r hr
    · show _ + 1 = _ + 1
      rw [i2]
    · show _ = X.used + (l.length + 1)
      rw [i3]; omega
    · show _ = X.ref
      rw [i4, a6]
    · exact i5
    · simpa [ref_all, List.append_assoc] using i6
    · obtain ⟨j2, q1, q2, q3⟩ := i7
      refine ⟨j2, q1, ?_, ?_⟩
      · show X.used + (l.length + 1) ≤ _
        omega
      · rcases q3 with q3 | q3
        · exact Or.inl q3
        · right
          show _ < X.used + (l.length + 1)
          omega


theorem get2_refcount {p : iobuf_pool} (hp : pool_inv p) (S : Nat) (o : alloc_env)
    (n : Nat) (h : iobuf_ptr) (p1 : iobuf_pool) (hg : iobuf_get2 S o p n = (some h, p1)) :
    iobuf_refcount p1 h = 1 ∧ ∀ a k, h = .carved a k → ∃ A, p1.mem a = some A := by
  have small : ∀ ps (b : iobuf), iobuf_get_from_small o ps = some b → b.ref = 1 := by
    intro ps b hb
    unfold iobuf_get_from_small at hb
    split at hb
    · cases hb
    · split at hb
      · cases hb
      · injection hb with hb; subst hb; rfl
  have big : ∀ ps (b : iobuf), iobuf_get_from_stdalloc o p ps = some b → b.ref = 1 := by
    intro ps b hb
    unfold iobuf_get_from_stdalloc at hb
    dsimp only at hb
    split at hb
    · cases hb
    · split at hb
      · cases hb
      · injection hb with hb; subst hb; rfl
  rcases get2_cases S o p n _ rfl with ⟨_, e⟩ | ⟨_, _, e⟩ | ⟨_, i, hsc, e⟩
  · rw [e] at hg
    injection hg with h1 h2
    cases hb : iobuf_get_from_small o (if n = 0 then p.default_page_size else n) with
    | none => rw [hb] at h1; cases h1
    | some b =>
      rw [hb] at h1
      injection h1 with h1
      subst h1
      exact ⟨small _ b hb, fun a k hc => by cases hc⟩
  · rw [e] at hg
    injection hg with h1 h2
    cases hb : iobuf_get_from_stdalloc o p (if n = 0 then p.default_page_size else n) with
    | none => rw [hb] at h1; cases h1
    | some b =>
      rw [hb] at h1
      injection h1 with h1
      subst h1
      exact ⟨big _ b hb, fun a k hc => by cases hc⟩
  · rw [e] at hg
    cases hq : __iobuf_get o p (config_pagesize i) i with
    | mk r q =>
      rw [hq] at hg
      obtain ⟨_, g2⟩ := get_ref_spec hp o i hsc.1 r q hq
      cases r with
      | none => cases hg
      | some ak =>
        obtain ⟨a, k⟩ := ak
        dsimp only at hg
        injection hg with h1 h2
        injection h1 with h1
        subst h1
        subst h2
        obtain ⟨_, A, hA, _, _, hr, _⟩ := g2 a k rfl
        refine ⟨?_, fun a2 k2 hc => ?_⟩
        · unfold iobuf_refcount
          dsimp only
          rw [hA]
          exact hr
        · injection hc with c1 c2
          subst c1
          exact ⟨A, hA⟩

theorem ref_refcount (p : iobuf_pool) (h : iobuf_ptr)
    (hm : ∀ a k, h = .carved a k → ∃ A, p.mem a = some A) :
    iobuf_refcount (iobuf_ref p h).2 (iobuf_ref p h).1 = iobuf_refcount p h + 1 := by
  cases h with
  | heap b => rfl
  | carved a k =>
    obtain ⟨A, hA⟩ := hm a k rfl
    simp [iobuf_ref, iobuf_refcount, modify_iobuf, hA, set_arena]

theorem modify_iobuf_mem (p : iobuf_pool) (a k : Nat) (f : iobuf → iobuf) (A : iobuf_arena)
    (hA : p.mem a = some A) :
    ∃ A1, (modify_iobuf p a k f).mem a = some A1 ∧ A1.iobufs k = f (A.iobufs k) := by
  unfold modify_iobuf
  rw [hA]
  dsimp only [set_arena]
  rw [Function.update_same]
  exact ⟨_, rfl, by simp⟩

theorem prune_mem (Q : iobuf_pool) (a i : Nat) :
    (__iobuf_arena_prune Q a i).mem a = none ∨ (__iobuf_arena_prune Q a i).mem a = Q.mem a := by
  unfold __iobuf_arena_prune
  by_cases he : (Q.arenas i).isEmpty = true
  · rw [if_pos he]
    exact Or.inr rfl
  · rw [if_neg he]
    left
    simp [__iobuf_arena_destroy]

theorem put_mem (q : iobuf_pool) (a k : Nat) (A1 : iobuf_arena)
    (hm : q.mem a = some A1) (hz : (A1.iobufs k).ref = 0) :
    (__iobuf_put q (.carved a k) a).mem a = none ∨
    ∃ B, (__iobuf_put q (.carved a k) a).mem a = some B ∧ (B.iobufs k).ref = 0 := by
  have hz2 : ((__iobuf_put_arena A1 k).iobufs k).ref = 0 := by
    rw [(put_arena_fields A1 k).2.2.2.2.2.2.1 k, hz]
  unfold __iobuf_put
  rw [hm]
  dsimp only
  by_cases h1 : gf_iobuf_get_arena_index A1.page_size = -1
  · rw [if_pos h1]
    exact Or.inr ⟨A1, hm, hz⟩
  · rw [if_neg h1]
    by_cases h2 : (__iobuf_put_arena A1 k).active_cnt = 0
    · rw [if_pos h2]
      rcases prune_mem (purge_list_add_tail (arena_list_del (set_arena
          (if A1.passive_cnt = 0 then
            arenas_list_add_tail (arena_list_del q a)
              (gf_iobuf_get_arena_index A1.page_size).toNat a
           else q) a (__iobuf_put_arena A1 k)) a)
          (gf_iobuf_get_arena_index A1.page_size).toNat a) a
          (gf_iobuf_get_arena_index A1.page_size).toNat with e | e
      · exact Or.inl e
      · right
        refine ⟨__iobuf_put_arena A1 k, ?_, hz2⟩
        rw [e]
        simp [set_arena, purge_list_add_tail, arena_list_del]
    · rw [if_neg h2]
      right
      refine ⟨__iobuf_put_arena A1 k, ?_, hz2⟩
      simp [set_arena]

theorem put_refcount (q : iobuf_pool) (a k : Nat) (A1 : iobuf_arena)
    (hm : q.mem a = some A1) (hz : (A1.iobufs k).ref = 0) :
    iobuf_refcount (__iobuf_put q (.carved a k) a) (.carved a k) = 0 := by
  unfold iobuf_refcount
  dsimp only
  rcases put_mem q a k A1 hm hz with e | ⟨B, e, hB⟩
  · rw [e]
  · rw [e]
    exact hB

theorem unref_refcount (p : iobuf_pool) (h : iobuf_ptr) (h1 : iobuf_refcount p h = 1) :
    iobuf_refcount (iobuf_unref p h).2 (iobuf_unref p h).1 = 0 := by
  cases h with
  | heap b =>
    have hb : b.ref = 1 := h1
    simp [iobuf_unref, iobuf_refcount, hb]
  | carved a k =>
    unfold iobuf_refcount at h1
    dsimp only at h1
    cases hA : p.mem a with
    | none => rw [hA] at h1; cases h1
    | some A =>
      rw [hA] at h1
      dsimp only at h1
      obtain ⟨A1, m1, m2⟩ :=
        modify_iobuf_mem p a k (fun b => { b with ref := b.ref - 1 }) A hA
      have hz : (A1.iobufs k).ref = 0 := by rw [m2]; show (A.iobufs k).ref - 1 = 0; omega
      unfold iobuf_unref
      dsimp only
      rw [hA]
      dsimp only
      rw [h1, if_pos (by decide)]
      exact put_refcount _ a k A1 m1 hz


/-! ### Pruning twice -/

theorem prune_lists (q : iobuf_pool) (a j : Nat) :
    (__iobuf_arena_prune q a j = q) ∨
    (q.arenas j ≠ [] ∧
      (__iobuf_arena_prune q a j).arenas = (fun i => (q.arenas i).erase a) ∧
      (__iobuf_arena_prune q a j).purge = (fun i => (q.purge i).erase a)) := by
  unfold __iobuf_arena_prune
  by_cases he : (q.arenas j).isEmpty = true
  · rw [if_pos he]
    exact Or.inl rfl
  · rw [if_neg he]
    right
    refine ⟨fun hc => he (by rw [hc]; rfl), rfl, rfl⟩

/-- The inner loop of `iobuf_pool_prune` for class `i` stops changing the pool once
`arenas[i]` is empty, and otherwise removes from `purge[i]` the arenas it visits. -/
theorem foldl_prune_lists (i : Nat) (l : List Nat) :
    ∀ q : iobuf_pool,
      ((l.foldl (fun q a => __iobuf_arena_prune q a i) q).arenas i = []) ∨
      ((l.foldl (fun q a => __iobuf_arena_prune q a i) q).purge i = (q.purge i).diff l) := by
  induction l with
  | nil => intro q; exact Or.inr rfl
  | cons a l ih =>
    intro q
    rw [List.foldl_cons]
    rcases prune_lists q a i with e | ⟨hne, _, e2⟩
    · by_cases he : q.arenas i = []
      · left
        rw [e]
        clear ih e
        induction l with
        | nil => exact he
        | cons b l ih2 =>
          rw [List.foldl_cons]
          have : __iobuf_arena_prune q b i = q := by
            unfold __iobuf_arena_prune
            rw [if_pos (by rw [he]; rfl)]
          rw [this]
          exact ih2
      · exfalso
        unfold __iobuf_arena_prune at e
        rw [if_neg (by simpa using he)] at e
        have := congrArg iobuf_pool.arena_cnt e
        simp [__iobuf_arena_destroy, arena_list_del] at this
    · rcases ih (__iobuf_arena_prune q a i) with c | c
      · exact Or.inl c
      · right
        rw [c, e2, List.diff_cons]

theorem diff_self (l : List Nat) : l.diff l = [] := by
  induction l with
  | nil => rfl
  | cons a l ih => rw [List.diff_cons, List.erase_cons_head, ih]

theorem pruned_prune (q : iobuf_pool) (a j i : Nat) (h : pruned q i) :
    pruned (__iobuf_arena_prune q a j) i := by
  rcases prune_lists q a j with e | ⟨_, e1, e2⟩
  · rw [e]; exact h
  · unfold pruned
    rw [e1, e2]
    rcases h with c | c
    · left; show (q.arenas i).erase a = []; rw [c]; rfl
    · right; show (q.purge i).erase a = []; rw [c]; rfl

theorem pruned_foldl (j i : Nat) (l : List Nat) :
    ∀ q : iobuf_pool, pruned q i →
      pruned (l.foldl (fun q a => __iobuf_arena_prune q a j) q) i := by
  induction l with
  | nil => intro q h; exact h
  | cons a l ih => intro q h; exact ih _ (pruned_prune q a j i h)

theorem pruned_prune_class (q : iobuf_pool) (j i : Nat) (h : pruned q i) :
    pruned (iobuf_pool_prune_class q j) i := by
  unfold iobuf_pool_prune_class
  split
  · exact h
  · exact pruned_foldl j i _ q h

theorem prune_class_pruned (q : iobuf_pool) (i : Nat) : pruned (iobuf_pool_prune_class q i) i := by
  unfold iobuf_pool_prune_class
  by_cases he : (q.arenas i).isEmpty = true
  · rw [if_pos he]
    left
    simpa using he
  · rw [if_neg he]
    rcases foldl_prune_lists i (q.purge i) q with c | c
    · exact Or.inl c
    · right
      rw [c, diff_self]

theorem pool_prune_loop_pruned (l : List Nat) :
    ∀ q : iobuf_pool, ∀ i, (i ∈ l ∨ pruned q i) → pruned (l.foldl iobuf_pool_prune_class q) i := by
  induction l with
  | nil =>
    intro q i h
    rcases h with c | c
    · cases c
    · exact c
  | cons j l ih =>
    intro q i h
    rw [List.foldl_cons]
    apply ih
    rcases h with c | c
    · rcases List.mem_cons.1 c with c | c
      · right
        rw [c]
        exact prune_class_pruned q j
      · exact Or.inl c
    · exact Or.inr (pruned_prune_class q j i c)

theorem prune_class_fix (q : iobuf_pool) (i : Nat) (h : pruned q i) :
    iobuf_pool_prune_class q i = q := by
  unfold iobuf_pool_prune_class
  rcases h with c | c
  · rw [if_pos (by rw [c]; rfl)]
  · rw [c]
    simp

theorem pool_prune_loop_fix (l : List Nat) (q : iobuf_pool) (h : ∀ i, i ∈ l → pruned q i) :
    l.foldl iobuf_pool_prune_class q = q := by
  induction l with
  | nil => rfl
  | cons j l ih =>
    rw [List.foldl_cons, prune_class_fix q j (h j (List.mem_cons_self _ _))]
    exact ih (fun i hi => h i (List.mem_cons_of_mem _ hi))


/-! ### The last `iobuf_unref` of an arena buffer, step by step -/

theorem modify_iobuf_eq (p : iobuf_pool) (a k : Nat) (f : iobuf → iobuf) (A : iobuf_arena)
    (hA : p.mem a = some A) :
    ∃ A1 : iobuf_arena, modify_iobuf p a k f = set_arena p a A1 ∧
      A1.passive_list = A.passive_list ∧ A1.active_list = A.active_list ∧
      A1.passive_cnt = A.passive_cnt ∧ A1.active_cnt = A.active_cnt ∧
      A1.page_size = A.page_size ∧ A1.page_count = A.page_count ∧
      A1.iobufs k = f (A.iobufs k) ∧ (∀ j, j ≠ k → A1.iobufs j = A.iobufs j) := by
  unfold modify_iobuf
  rw [hA]
  exact ⟨_, rfl, rfl, rfl, rfl, rfl, rfl, rfl, by simp,
    fun j hj => by simp [Function.update_noteq hj]⟩

/-- The pool after `iobuf_unref` of a buffer with count 1 in an arena of class `i`:
`A1` is the arena with the count of the buffer at 0. -/
theorem unref_carved_eq (p : iobuf_pool) (a k : Nat) (A : iobuf_arena)
    (hA : p.mem a = some A) (hr : (A.iobufs k).ref = 1) (i : Nat)
    (hidx : gf_iobuf_get_arena_index A.page_size = (i : Int)) :
    ∃ A1 : iobuf_arena,
      A1.passive_list = A.passive_list ∧ A1.active_list = A.active_list ∧
      A1.passive_cnt = A.passive_cnt ∧ A1.active_cnt = A.active_cnt ∧
      A1.page_size = A.page_size ∧ A1.page_count = A.page_count ∧
      (A1.iobufs k).ref = 0 ∧ (A1.iobufs k).ptr = (A.iobufs k).ptr ∧
      (A1.iobufs k).free_ptr = (A.iobufs k).free_ptr ∧
      (∀ j, j ≠ k → A1.iobufs j = A.iobufs j) ∧
      (iobuf_unref p (.carved a k)).2 =
        if (__iobuf_put_arena A1 k).active_cnt = 0 then
          __iobuf_arena_prune (purge_list_add_tail (arena_list_del (set_arena
            (if A1.passive_cnt = 0 then
              arenas_list_add_tail (arena_list_del (set_arena p a A1) a) i a
             else set_arena p a A1) a (__iobuf_put_arena A1 k)) a) i a) a i
        else
          set_arena
            (if A1.passive_cnt = 0 then
              arenas_list_add_tail (arena_list_del (set_arena p a A1) a) i a
             else set_arena p a A1) a (__iobuf_put_arena A1 k) := by
  obtain ⟨A1, hm, e1, e2, e3, e4, e5, e6, e7, e8⟩ :=
    modify_iobuf_eq p a k (fun b => { b with ref := b.ref - 1 }) A hA
  refine ⟨A1, e1, e2, e3, e4, e5, e6, ?_, ?_, ?_, e8, ?_⟩
  · rw [e7]; show (A.iobufs k).ref - 1 = 0; omega
  · rw [e7]
  · rw [e7]
  · unfold iobuf_unref
    dsimp only
    rw [hA]
    dsimp only
    rw [hr, if_pos (by decide), hm]
    unfold iobuf_put
    dsimp only
    unfold __iobuf_put
    have hm2 : (set_arena p a A1).mem a = some A1 := by simp [set_arena]
    rw [hm2]
    dsimp only
    rw [e5, hidx, if_neg (by omega), Int.toNat_ofNat]

theorem select_arena_mem (o : alloc_env) (q : iobuf_pool) (ps idx a : Nat)
    (h : (__iobuf_select_arena o q ps idx).1 = some a) :
    (__iobuf_select_arena o q ps idx).2.mem a = q.mem a ∨ a = q.next_obj := by
  unfold __iobuf_select_arena at h ⊢
  split at h
  · next b hb =>
    exact Or.inl rfl
  · next hb =>
    unfold __iobuf_pool_add_arena __iobuf_arena_unprune at h ⊢
    cases hp : q.purge idx with
    | cons b l =>
      rw [hp] at h
      dsimp only at h ⊢
      exact Or.inl rfl
    | nil =>
      rw [hp] at h
      dsimp only at h ⊢
      obtain h2 | h2 : (__iobuf_arena_alloc o q ps (config_num_pages idx)).1 = none ∨
          ∃ b, (__iobuf_arena_alloc o q ps (config_num_pages idx)).1 = some b := by
        cases (__iobuf_arena_alloc o q ps (config_num_pages idx)).1 with
        | none => exact Or.inl rfl
        | some b => exact Or.inr ⟨b, rfl⟩
      · exfalso
        cases hr : __iobuf_arena_alloc o q ps (config_num_pages idx) with
        | mk r1 r2 =>
          rw [hr] at h h2
          dsimp only at h2
          subst h2
          cases h
      · obtain ⟨b, hb2⟩ := h2
        obtain ⟨_, _, e, _⟩ := arena_alloc_some o q ps (config_num_pages idx) b hb2
        cases hr : __iobuf_arena_alloc o q ps (config_num_pages idx) with
        | mk r1 r2 =>
          rw [hr] at h hb2
          dsimp only at hb2
          subst hb2
          dsimp only at h
          injection h with h
          right
          rw [← h, e]

theorem unref_next_obj (p : iobuf_pool) (h : iobuf_ptr) :
    (iobuf_unref p h).2.next_obj = p.next_obj := by
  cases h with
  | heap b =>
    unfold iobuf_unref
    dsimp only
    rw [iobuf_put_heap, ite_self]
  | carved a k =>
    unfold iobuf_unref
    dsimp only
    cases hA : p.mem a with
    | none => rfl
    | some A =>
      dsimp only
      have hm : (modify_iobuf p a k (fun b => { b with ref := b.ref - 1 })).next_obj =
          p.next_obj := by
        unfold modify_iobuf
        rw [hA]
        rfl
      split
      · unfold iobuf_put
        dsimp only
        unfold __iobuf_put
        split
        · exact hm
        · dsimp only
          split
          · exact hm
          · split
            · unfold __iobuf_arena_prune
              split
              · dsimp only [purge_list_add_tail, arena_list_del, set_arena]
                split <;> exact hm
              · dsimp only [purge_list_add_tail, arena_list_del, set_arena,
                  __iobuf_arena_destroy]
                split <;> exact hm
            · dsimp only [set_arena]
              split <;> exact hm
      · exact hm

/-- After the last `iobuf_unref` of buffer `k` of arena `a`, the arena is either
destroyed or has the buffer at the head of its passive list. -/
theorem unref_mem (p : iobuf_pool) (a k : Nat) (A : iobuf_arena)
    (hA : p.mem a = some A) (hr : (A.iobufs k).ref = 1) (i : Nat)
    (hidx : gf_iobuf_get_arena_index A.page_size = (i : Int)) :
    ((iobuf_unref p (.carved a k)).2.mem a = none ∧ A.active_cnt - 1 = 0) ∨
    ∃ B, (iobuf_unref p (.carved a k)).2.mem a = some B ∧
      B.passive_list = k :: A.passive_list.erase k ∧
      B.active_list = A.active_list.erase k ∧
      B.passive_cnt = A.passive_cnt + 1 ∧ B.active_cnt = A.active_cnt - 1 ∧
      B.page_size = A.page_size ∧ B.page_count = A.page_count ∧
      (B.iobufs k).ref = 0 ∧ (∀ j, j ≠ k → (B.iobufs j).ref = (A.iobufs j).ref) := by
  obtain ⟨A1, e1, e2, e3, e4, e5, e6, e7, _, _, e10, e⟩ := unref_carved_eq p a k A hA hr i hidx
  obtain ⟨f1, f2, f3, f4, f5, f6, f7, _⟩ := put_arena_fields A1 k
  have hB : ∀ q : iobuf_pool, q.mem a = some (__iobuf_put_arena A1 k) →
      ∃ B, q.mem a = some B ∧
        B.passive_list = k :: A.passive_list.erase k ∧
        B.active_list = A.active_list.erase k ∧
        B.passive_cnt = A.passive_cnt + 1 ∧ B.active_cnt = A.active_cnt - 1 ∧
        B.page_size = A.page_size ∧ B.page_count = A.page_count ∧
        (B.iobufs k).ref = 0 ∧ (∀ j, j ≠ k → (B.iobufs j).ref = (A.iobufs j).ref) := by
    intro q hq
    refine ⟨_, hq, by rw [f1, e1], by rw [f2, e2], by rw [f3, e3], by rw [f4, e4],
      by rw [f5, e5], by rw [f6, e6], by rw [f7, e7], fun j hj => by rw [f7, e10 j hj]⟩
  rw [e]
  by_cases hz : (__iobuf_put_arena A1 k).active_cnt = 0
  · rw [if_pos hz]
    rcases prune_mem (purge_list_add_tail (arena_list_del (set_arena
        (if A1.passive_cnt = 0 then
          arenas_list_add_tail (arena_list_del (set_arena p a A1) a) i a
         else set_arena p a A1) a (__iobuf_put_arena A1 k)) a) i a) a i with c | c
    · left
      refine ⟨c, ?_⟩
      rw [← e4, ← f4]
      exact hz
    · right
      apply hB
      rw [c]
      simp [set_arena, purge_list_add_tail, arena_list_del]
  · rw [if_neg hz]
    right
    apply hB
    simp [set_arena]


/-- The return of the last outstanding buffer `k` of an arena `a` that is linked on
`arenas[i]`: the arena is drained and moved to `purge[i]`; the pruner keeps it when it
was the only arena on `arenas[i]` and destroys it otherwise. -/
theorem unref_drain {p : iobuf_pool} (hp : pool_inv p) (i : Nat)
    (hi : i < IOBUF_ARENA_MAX_INDEX) (a k : Nat) (ha : a ∈ p.arenas i) (A : iobuf_arena)
    (hA : p.mem a = some A) (hal : A.active_list = [k]) (hr : (A.iobufs k).ref = 1) :
    (p.arenas i = [a] →
      (iobuf_unref p (.carved a k)).2.arenas i = [] ∧
      (iobuf_unref p (.carved a k)).2.purge i = p.purge i ++ [a] ∧
      (iobuf_unref p (.carved a k)).2.filled i = p.filled i ∧
      (iobuf_unref p (.carved a k)).2.arena_cnt = p.arena_cnt ∧
      (iobuf_unref p (.carved a k)).2.all_arenas = p.all_arenas ∧
      ∃ B, (iobuf_unref p (.carved a k)).2.mem a = some B ∧
        B.passive_list = k :: A.passive_list ∧ B.active_list = [] ∧
        B.passive_cnt = A.passive_cnt + 1 ∧ B.active_cnt = 0 ∧
        B.page_size = A.page_size ∧ B.page_count = A.page_count ∧ (B.iobufs k).ref = 0) ∧
    (p.arenas i ≠ [a] →
      (iobuf_unref p (.carved a k)).2.arenas i = (p.arenas i).erase a ∧
      (iobuf_unref p (.carved a k)).2.arenas i ≠ [] ∧
      (iobuf_unref p (.carved a k)).2.purge i = p.purge i ∧
      (iobuf_unref p (.carved a k)).2.filled i = p.filled i ∧
      (iobuf_unref p (.carved a k)).2.arena_cnt = p.arena_cnt - 1 ∧
      (iobuf_unref p (.carved a k)).2.all_arenas = p.all_arenas.erase a ∧
      (iobuf_unref p (.carved a k)).2.mem a = none) := by
  obtain ⟨A0, hA0, hc, hpos⟩ := hp.arenas_ok i hi a ha
  rw [hA] at hA0
  injection hA0 with hA0
  subst hA0
  have hAinv := hp.mem_ok a A hA
  have hidx := arena_index_of_class hi hc
  have hact : A.active_cnt = 1 := by rw [hAinv.active_len, hal]; rfl
  have hkp : k ∉ A.passive_list := by
    intro hc2
    have := (hAinv.passive_ref k hc2).2
    omega
  have hnf : a ∉ p.filled i := by
    intro hc2
    obtain ⟨B, hB, _, h0, _⟩ := hp.filled_ok i hi a hc2
    rw [hA] at hB
    injection hB with hB
    subst hB
    omega
  have hnp : a ∉ p.purge i := hp.excl i i hi hi a ha
  obtain ⟨nd1, _, _⟩ := hp.nodup i
  obtain ⟨A1, e1, e2, e3, e4, e5, e6, e7, _, _, e10, e⟩ := unref_carved_eq p a k A hA hr i hidx
  obtain ⟨f1, f2, f3, f4, f5, f6, f7, _⟩ := put_arena_fields A1 k
  have hz : (__iobuf_put_arena A1 k).active_cnt = 0 := by rw [f4, e4, hact]; rfl
  have hnz : ¬ A1.passive_cnt = 0 := by rw [e3]; omega
  rw [if_pos hz, if_neg hnz] at e
  rw [e]
  unfold __iobuf_arena_prune
  have hX : (purge_list_add_tail (arena_list_del (set_arena (set_arena p a A1) a
      (__iobuf_put_arena A1 k)) a) i a).arenas i = (p.arenas i).erase a := rfl
  rw [hX]
  refine ⟨fun h1 => ?_, fun h1 => ?_⟩
  · have he : (p.arenas i).erase a = [] := by rw [h1]; simp
    rw [he, if_pos List.isEmpty_nil]
    refine ⟨he, ?_, ?_, rfl, rfl, __iobuf_put_arena A1 k, ?_, ?_, ?_, ?_, hz, ?_, ?_, ?_⟩
    · simp [purge_list_add_tail, arena_list_del, set_arena, list_add_tail,
        List.erase_of_not_mem hnp]
    · simp [purge_list_add_tail, arena_list_del, set_arena, List.erase_of_not_mem hnf]
    · simp [purge_list_add_tail, arena_list_del, set_arena]
    · rw [f1, e1, List.erase_of_not_mem hkp]
    · rw [f2, e2, hal]; simp
    · rw [f3, e3]
    · rw [f5, e5]
    · rw [f6, e6]
    · rw [f7, e7]
  · have hne : (p.arenas i).erase a ≠ [] := by
      intro hc2
      have hl := List.length_erase_of_mem ha
      rw [hc2] at hl
      have h1len : (p.arenas i).length = 1 := by
        have : 0 < (p.arenas i).length := List.length_pos_of_mem ha
        simp at hl
        omega
      obtain ⟨x, hx⟩ := List.length_eq_one.1 h1len
      rw [hx] at ha
      have : a = x := by simpa using ha
      rw [hx, this] at h1
      exact h1 rfl
    rw [if_neg (by simpa using hne)]
    have hna : a ∉ (p.arenas i).erase a := fun hc2 => ((mem_erase_nodup nd1 a a).1 hc2).1 rfl
    refine ⟨?_, ?_, ?_, ?_, rfl, rfl, ?_⟩
    · simp [__iobuf_arena_destroy, purge_list_add_tail, arena_list_del, set_arena,
        List.erase_of_not_mem hna]
    · simp only [__iobuf_arena_destroy, purge_list_add_tail, arena_list_del, set_arena]
      rw [List.erase_of_not_mem hna]
      exact hne
    · simp only [__iobuf_arena_destroy, purge_list_add_tail, arena_list_del, set_arena,
        Function.update_same, list_add_tail]
      rw [List.erase_of_not_mem hnp, List.erase_append_right _ hnp]
      simp
    · simp [__iobuf_arena_destroy, purge_list_add_tail, arena_list_del, set_arena,
        List.erase_of_not_mem hnf]
    · simp [__iobuf_arena_destroy]


theorem get_1m_3_reachable : Reachable 131072 (get_1m 3 demo_pool) :=
  Reachable.get2 _ (env_ok 268435456 0) 1048576 _
    (Reachable.get2 _ (env_ok 268435456 0) 1048576 _
      (Reachable.get2 _ (env_ok 268435456 0) 1048576 _ (demo_pool_reachable 131072)
        (by decide) rfl)
      (by decide) rfl)
    (by decide) rfl


theorem smallest_class_unique {n i j : Nat} (hi : smallest_class n i) (hj : smallest_class n j) :
    i = j := by
  rcases Nat.lt_trichotomy i j with h | h | h
  · have := hj.2.2 i h
    have := hi.2.1
    omega
  · exact h
  · have := hi.2.2 j h
    have := hj.2.1
    omega

/-- A hand-out for class `i` when `arenas[i]` is empty and arena `a` is the first
arena of `purge[i]`: the arena is resurrected and its first passive buffer handed
out. -/
theorem get_resurrect (o : alloc_env) (q : iobuf_pool) (ps i a k : Nat) (rest : List Nat)
    (B : iobuf_arena) (h1 : q.arenas i = []) (h2 : q.purge i = a :: rest)
    (hB : q.mem a = some B) (hpl : B.passive_list = k :: B.passive_list.erase k)
    (hpc : B.passive_cnt - 1 ≠ 0) :
    (__iobuf_get o q ps i).1 = some (a, k) ∧
    (__iobuf_get o q ps i).2.arenas i = [a] ∧
    (__iobuf_get o q ps i).2.purge i = rest ∧
    (__iobuf_get o q ps i).2.filled i = (q.filled i).erase a ∧
    (__iobuf_get o q ps i).2.arena_cnt = q.arena_cnt ∧
    (__iobuf_get o q ps i).2.all_arenas = q.all_arenas ∧
    (__iobuf_get o q ps i).2.next_obj = q.next_obj ∧
    ∃ C, (__iobuf_get o q ps i).2.mem a = some C ∧
      C.passive_list = B.passive_list.erase k ∧ C.active_list = k :: B.active_list.erase k ∧
      C.passive_cnt = B.passive_cnt - 1 ∧ C.active_cnt = B.active_cnt + 1 := by
  obtain ⟨f1, f2, f3, f4, f5, f6, f7, _⟩ := get_arena_fields B k
  have hsel : __iobuf_select_arena o q ps i =
      (some a, arenas_list_add (arena_list_del q a) i a) := by
    unfold __iobuf_select_arena
    rw [h1]
    dsimp only [List.find?]
    unfold __iobuf_pool_add_arena __iobuf_arena_unprune
    rw [h2]
  have hm : (arenas_list_add (arena_list_del q a) i a).mem a = some B := hB
  have hg : __iobuf_get o q ps i =
      (some (a, k), set_arena (arenas_list_add (arena_list_del q a) i a) a
        { __iobuf_get_arena B k with
          iobufs := Function.update (__iobuf_get_arena B k).iobufs k
            { ((__iobuf_get_arena B k).iobufs k) with page_size := ps } }) := by
    unfold __iobuf_get
    rw [hsel]
    dsimp only
    rw [hm]
    dsimp only
    rw [hpl]
    dsimp only
    rw [f3, if_neg hpc]
  rw [hg]
  refine ⟨rfl, ?_, ?_, ?_, rfl, rfl, rfl, _, Function.update_same _ _ _, f1, f2, f3, f4⟩
  · simp [set_arena, arenas_list_add, arena_list_del, list_add, h1]
  · simp [set_arena, arenas_list_add, arena_list_del, h2]
  · simp [set_arena, arenas_list_add, arena_list_del]


/-! ### The pre-allocation loop of `iobuf_pool_new` -/

theorem arena_alloc_cases (o : alloc_env) (p : iobuf_pool) (ps np : Nat) :
    (alloc_succeeds o = false ∧ (__iobuf_arena_alloc o p ps np).1 = none ∧
      (__iobuf_arena_alloc o p ps np).2.mem = p.mem ∧
      (__iobuf_arena_alloc o p ps np).2.arena_cnt = p.arena_cnt ∧
      (__iobuf_arena_alloc o p ps np).2.arenas = p.arenas ∧
      (__iobuf_arena_alloc o p ps np).2.filled = p.filled ∧
      (__iobuf_arena_alloc o p ps np).2.purge = p.purge) ∨
    (alloc_succeeds o = true ∧ (__iobuf_arena_alloc o p ps np).1 = some p.next_obj ∧
      (∀ x, x ≠ p.next_obj → (__iobuf_arena_alloc o p ps np).2.mem x = p.mem x) ∧
      (__iobuf_arena_alloc o p ps np).2.arena_cnt = p.arena_cnt + 1 ∧
      (__iobuf_arena_alloc o p ps np).2.arenas = p.arenas ∧
      (__iobuf_arena_alloc o p ps np).2.filled = p.filled ∧
      (__iobuf_arena_alloc o p ps np).2.purge = p.purge) := by
  unfold __iobuf_arena_alloc alloc_succeeds
  by_cases h1 : o.arena = false
  · rw [if_pos h1]
    left
    simp [h1]
  · rw [if_neg h1]
    have h1t : o.arena = true := by cases h : o.arena <;> simp_all
    cases h2 : o.mmap with
    | none =>
      left
      simp [h1t]
    | some base =>
      dsimp only
      by_cases h3 : o.iobufs = false
      · rw [if_pos h3]
        left
        simp [h1t, h3]
      · rw [if_neg h3]
        have h3t : o.iobufs = true := by cases h : o.iobufs <;> simp_all
        right
        refine ⟨by simp [h1t, h3t], rfl, ?_, rfl, rfl, rfl, rfl⟩
        intro x hx
        simp [set_arena, Function.update_noteq hx]

theorem add_arena_cases (o : alloc_env) (p : iobuf_pool) (ps np i : Nat)
    (hpu : p.purge i = []) :
    (alloc_succeeds o = false ∧ (__iobuf_pool_add_arena o p ps np i).1 = none ∧
      (__iobuf_pool_add_arena o p ps np i).2.mem = p.mem ∧
      (__iobuf_pool_add_arena o p ps np i).2.arena_cnt = p.arena_cnt ∧
      (__iobuf_pool_add_arena o p ps np i).2.arenas = p.arenas ∧
      (__iobuf_pool_add_arena o p ps np i).2.filled = p.filled ∧
      (__iobuf_pool_add_arena o p ps np i).2.purge = p.purge) ∨
    (alloc_succeeds o = true ∧ (__iobuf_pool_add_arena o p ps np i).1 = some p.next_obj ∧
      (∀ x, x ≠ p.next_obj → (__iobuf_pool_add_arena o p ps np i).2.mem x = p.mem x) ∧
      (__iobuf_pool_add_arena o p ps np i).2.arena_cnt = p.arena_cnt + 1 ∧
      (__iobuf_pool_add_arena o p ps np i).2.arenas =
        Function.update p.arenas i (p.next_obj :: p.arenas i) ∧
      (__iobuf_pool_add_arena o p ps np i).2.filled = p.filled ∧
      (__iobuf_pool_add_arena o p ps np i).2.purge = p.purge ∧
      (__iobuf_pool_add_arena o p ps np i).2.mem p.next_obj =
        (__iobuf_arena_alloc o p ps np).2.mem p.next_obj ∧
      (__iobuf_arena_alloc o p ps np).1 = some p.next_obj) := by
  have e : __iobuf_pool_add_arena o p ps np i =
      match __iobuf_arena_alloc o p ps np with
      | (none, p1) => (none, p1)
      | (some a, p1) => (some a, arenas_list_add p1 i a) := by
    unfold __iobuf_pool_add_arena __iobuf_arena_unprune
    rw [hpu]
    try rfl
  rw [e]
  rcases arena_alloc_cases o p ps np with ⟨c0, c1, c2, c3, c4, c5, c6⟩ | ⟨c0, c1, c2, c3, c4, c5, c6⟩
  · left
    cases hr : __iobuf_arena_alloc o p ps np with
    | mk r q =>
      rw [hr] at c1 c2 c3 c4 c5 c6
      dsimp only at c1 c2 c3 c4 c5 c6
      subst c1
      exact ⟨c0, rfl, c2, c3, c4, c5, c6⟩
  · right
    cases hr : __iobuf_arena_alloc o p ps np with
    | mk r q =>
      rw [hr] at c1 c2 c3 c4 c5 c6
      dsimp only at c1 c2 c3 c4 c5 c6
      subst c1
      refine ⟨c0, rfl, c2, c3, ?_, c5, c6, rfl, rfl⟩
      show Function.update q.arenas i (list_add p.next_obj (q.arenas i)) = _
      rw [c4]
      rfl

theorem classes_ok_append (o : Nat → alloc_env) (D : List Nat) (i : Nat) :
    classes_ok o (D ++ [i]) =
      if alloc_succeeds (o i) = true then classes_ok o D ++ [i] else classes_ok o D := by
  unfold classes_ok
  rw [List.filter_append]
  by_cases h : alloc_succeeds (o i) = true
  · rw [if_pos h]
    simp [List.filter, h]
  · rw [if_neg h]
    simp [List.filter, h]

theorem classes_bytes_append (l : List Nat) (i : Nat) :
    classes_bytes (l ++ [i]) = classes_bytes l + config_pagesize i * config_num_pages i := by
  unfold classes_bytes
  simp

theorem pool_new_inv_step (o : Nat → alloc_env) (D : List Nat) (s : iobuf_pool × Nat)
    (i : Nat) (hi : i < IOBUF_ARENA_MAX_INDEX) (hD : i ∉ D) (h : pool_new_inv o D s) :
    pool_new_inv o (D ++ [i]) (iobuf_pool_new_step o s i) := by
  obtain ⟨i1, i2, i3, i4, i5, i6, i7⟩ := h
  have hpu : s.1.purge i = [] := by rw [i2]
  have hai : s.1.arenas i = [] := i4 i hD
  obtain ⟨g1, _, _⟩ := add_arena_spec i1 (o i) i hi
  have hfst := pool_new_step_fst o s i
  rcases add_arena_cases (o i) s.1 (config_pagesize i) (config_num_pages i) i hpu with
    ⟨c0, c1, c2, c3, c4, c5, c6⟩ | ⟨c0, c1, c2, c3, c4, c5, c6, c7, c8⟩
  · have hsnd : (iobuf_pool_new_step o s i).2 = s.2 := by
      unfold iobuf_pool_new_step
      dsimp only
      cases hr : __iobuf_pool_add_arena (o i) s.1 (config_pagesize i) (config_num_pages i) i with
      | mk r q =>
        rw [hr] at c1
        dsimp only at c1
        subst c1
        rfl
    have hne : ¬ alloc_succeeds (o i) = true := by rw [c0]; decide
    refine ⟨by rw [hfst]; exact g1, by rw [hfst, c6, i2], by rw [hfst, c5, i3], ?_, ?_, ?_, ?_⟩
    · intro j hj
      rw [hfst, c4]
      exact i4 j (fun hc => hj (List.mem_append_left _ hc))
    · intro j hj
      rw [hfst, c4, c2]
      rcases List.mem_append.1 hj with hj | hj
      · exact i5 j hj
      · have hji : j = i := by simpa using hj
        subst hji
        exact ⟨fun hc => absurd hc hne, fun _ => hai⟩
    · rw [hfst, c3, i6, classes_ok_append, if_neg hne]
    · rw [hsnd, i7, classes_ok_append, if_neg hne]
  · have hsnd : (iobuf_pool_new_step o s i).2 =
        (s.2 + config_pagesize i * config_num_pages i) % 2 ^ 64 := by
      unfold iobuf_pool_new_step
      dsimp only
      cases hr : __iobuf_pool_add_arena (o i) s.1 (config_pagesize i) (config_num_pages i) i with
      | mk r q =>
        rw [hr] at c1
        dsimp only at c1
        subst c1
        rfl
    have hinv2 : pool_inv (iobuf_pool_new_step o s i).1 := by rw [hfst]; exact g1
    refine ⟨hinv2, by rw [hfst, c6, i2], by rw [hfst, c5, i3], ?_, ?_, ?_, ?_⟩
    · intro j hj
      have hji : j ≠ i := fun hc => hj (by rw [hc]; simp)
      rw [hfst, c4, Function.update_noteq hji]
      exact i4 j (fun hc => hj (List.mem_append_left _ hc))
    · intro j hj
      rcases List.mem_append.1 hj with hj | hj
      · have hji : j ≠ i := fun hc => hD (by rw [← hc]; exact hj)
        rw [hfst, c4, Function.update_noteq hji]
        obtain ⟨k1, k2⟩ := i5 j hj
        refine ⟨fun hc => ?_, k2⟩
        obtain ⟨a, A, l1, l2, l3⟩ := k1 hc
        have hlt := live_lt_next i1 a A l2
        exact ⟨a, A, l1, by rw [c2 a (by omega)]; exact l2, l3⟩
      · have hji : j = i := by simpa using hj
        subst hji
        refine ⟨fun _ => ?_, fun hc => by rw [c0] at hc; cases hc⟩
        obtain ⟨_, _, _, _, q5⟩ := arena_alloc_spec i1 (o j) j hi
        obtain ⟨_, A, qA, qc, _, qact⟩ := q5 s.1.next_obj c8
        have hmem : (iobuf_pool_new_step o s j).1.mem s.1.next_obj = some A := by
          rw [hfst, c7]; exact qA
        have hsum := (hinv2.mem_ok _ A hmem).sum
        refine ⟨s.1.next_obj, A, ?_, hmem, qc, by omega, qact⟩
        rw [hfst, c4, Function.update_same, hai]
    · rw [hfst, c3, i6, classes_ok_append, if_pos c0]
      simp
    · rw [hsnd, i7, classes_ok_append, if_pos c0, classes_bytes_append, Nat.mod_add_mod]

theorem pool_new_inv_loop (o : Nat → alloc_env) (l : List Nat) :
    ∀ (D : List Nat) (s : iobuf_pool × Nat), (∀ i, i ∈ l → i < IOBUF_ARENA_MAX_INDEX) →
      l.Nodup → (∀ i, i ∈ l → i ∉ D) → pool_new_inv o D s →
      pool_new_inv o (D ++ l) (l.foldl (iobuf_pool_new_step o) s) := by
  induction l with
  | nil => intro D s _ _ _ h; simpa using h
  | cons i l ih =>
    intro D s h1 h2 h3 h
    rw [List.foldl_cons]
    have := ih (D ++ [i]) (iobuf_pool_new_step o s i)
      (fun j hj => h1 j (List.mem_cons_of_mem _ hj)) (List.nodup_cons.1 h2).2
      (fun j hj hc => by
        rcases List.mem_append.1 hc with hc | hc
        · exact h3 j (List.mem_cons_of_mem _ hj) hc
        · have hji : j = i := by simpa using hc
          rw [hji] at hj
          exact (List.nodup_cons.1 h2).1 hj)
      (pool_new_inv_step o D s i (h1 i (List.mem_cons_self _ _))
        (h3 i (List.mem_cons_self _ _)) h)
    simpa [List.append_assoc] using this

theorem classes_bytes_le (o : Nat → alloc_env) (l : List Nat) :
    classes_bytes (classes_ok o l) ≤ classes_bytes l := by
  unfold classes_bytes classes_ok
  exact List.Sublist.sum_le_sum ((List.filter_sublist l).map _) (fun _ _ => Nat.zero_le _)

theorem classes_bytes_all : classes_bytes (List.range IOBUF_ARENA_MAX_INDEX) = 12976128 := by
  obtain ⟨h0, h1, h2, h3, h4, h5, h6, h7⟩ := config_pagesize_vals
  obtain ⟨n0, n1, n2, n3, n4, n5, n6, n7⟩ := config_num_pages_vals
  have e : List.range IOBUF_ARENA_MAX_INDEX = [0, 1, 2, 3, 4, 5, 6, 7] := by
    rw [max_index_eq]; rfl
  rw [e]
  simp [classes_bytes, h0, h1, h2, h3, h4, h5, h6, h7, n0, n1, n2, n3, n4, n5, n6, n7]

theorem pool_new_eq (o : Nat → alloc_env) (ok : Bool) :
    iobuf_pool_new true o ok =
      some { iobuf_create_stdalloc_arena ok (pool_new_loop o).1 with
             arena_size := (pool_new_loop o).2 } := rfl

theorem pool_new_loop_inv (o : Nat → alloc_env) :
    pool_new_inv o (List.range IOBUF_ARENA_MAX_INDEX) (pool_new_loop o) := by
  have h0 : pool_new_inv o []
      ({ arena_size := 0, default_page_size := 128 * 1024, all_arenas := [],
         arenas := fun _ => [], filled := fun _ => [], purge := fun _ => [],
         request_misses := 0, arena_cnt := 0, mem := fun _ => none, next_obj := 0 }, 0) := by
    refine ⟨?_, rfl, rfl, fun _ _ => rfl, fun i hi => (by cases hi), rfl, rfl⟩
    refine ⟨?_, ?_, ?_, ?_, ?_, ?_, ?_⟩
    · intro i _ a ha; cases ha
    · intro i _ a ha; cases ha
    · intro i _ a ha; cases ha
    · intro i; exact ⟨List.nodup_nil, List.nodup_nil, List.nodup_nil⟩
    · intro i j _ _ a ha; cases ha
    · intro a A ha; cases ha
    · intro a _; rfl
  have hl := pool_new_inv_loop o (List.range IOBUF_ARENA_MAX_INDEX) [] _
    (fun i hi => List.mem_range.1 hi) (List.nodup_range _) (fun i _ hc => by cases hc) h0
  rw [List.nil_append] at hl
  exact hl


/-! ### Consecutive hand-outs from one class -/

theorem init_fresh (self : Nat) (A : iobuf_arena) (h1 : A.passive_cnt = 0)
    (h2 : A.passive_list = []) (h3 : A.active_list = []) (h4 : A.active_cnt = 0) :
    (__iobuf_arena_init_iobufs self A).passive_list = (List.range A.page_count).reverse ∧
    (__iobuf_arena_init_iobufs self A).passive_cnt = (A.page_count : Int) ∧
    (__iobuf_arena_init_iobufs self A).active_list = [] ∧
    (__iobuf_arena_init_iobufs self A).active_cnt = 0 ∧
    (__iobuf_arena_init_iobufs self A).page_size = A.page_size ∧
    (__iobuf_arena_init_iobufs self A).page_count = A.page_count ∧
    (__iobuf_arena_init_iobufs self A).mem_base = A.mem_base ∧
    (∀ k, ((__iobuf_arena_init_iobufs self A).iobufs k).ref = 0) ∧
    (∀ k, k < A.page_count →
      ((__iobuf_arena_init_iobufs self A).iobufs k).ptr = A.mem_base + k * A.page_size ∧
      ((__iobuf_arena_init_iobufs self A).iobufs k).free_ptr = none) := by
  unfold __iobuf_arena_init_iobufs
  obtain ⟨c1, _, c3, _, c5⟩ := init_loop_carve self A.page_count 0 0
    { A with iobufs := fun _ => iobuf_zero }
  obtain ⟨s1, _, _, s4, s5, s6, s7, s8⟩ := init_loop_spec self A.page_count 0 0
    { A with iobufs := fun _ => iobuf_zero } (by simp [h1]) (by simp [h2]) (by simp [h2])
    (by intro k; simp [iobuf_zero]) h3 h4
  dsimp only at c1 c3 c5 s1 s4 s5 s6 s7 s8
  simp only [Nat.zero_add, Nat.add_zero, Nat.sub_zero] at c1 c5 s1
  generalize __iobuf_arena_init_iobufs_loop self A.page_count 0 0
    { A with iobufs := fun _ => iobuf_zero } = B at c1 c3 c5 s1 s4 s5 s6 s7 s8 ⊢
  refine ⟨?_, s1, s5, s6, s7, s8, c3, s4, fun k hk => ?_⟩
  · rw [c5, h2]; simp [List.range_eq_range']
  · obtain ⟨p1, _, p3⟩ := c1 k (Nat.zero_le _) hk
    exact ⟨p1, p3⟩

/-- The hand-out from the first arena of `arenas[i]`, which has a free page. -/
theorem get_from_head (o : alloc_env) (p : iobuf_pool) (ps i a k : Nat) (rest pl : List Nat)
    (A : iobuf_arena) (h1 : p.arenas i = a :: rest) (hA : p.mem a = some A)
    (hp : A.passive_cnt ≠ 0) (hpl : A.passive_list = k :: pl) :
    (__iobuf_get o p ps i).1 = some (a, k) ∧
    (__iobuf_get o p ps i).2.arena_cnt = p.arena_cnt ∧
    (__iobuf_get o p ps i).2.all_arenas = p.all_arenas ∧
    (__iobuf_get o p ps i).2.next_obj = p.next_obj ∧
    (∀ x, x ≠ a → (__iobuf_get o p ps i).2.mem x = p.mem x) ∧
    (∃ C, (__iobuf_get o p ps i).2.mem a = some C ∧
      C.passive_list = pl ∧ C.active_list = k :: A.active_list.erase k ∧
      C.passive_cnt = A.passive_cnt - 1 ∧ C.active_cnt = A.active_cnt + 1 ∧
      C.page_size = A.page_size ∧ C.page_count = A.page_count ∧ C.mem_base = A.mem_base ∧
      (∀ j, (C.iobufs j).ref = (A.iobufs j).ref ∧ (C.iobufs j).ptr = (A.iobufs j).ptr ∧
        (C.iobufs j).free_ptr = (A.iobufs j).free_ptr)) ∧
    (A.passive_cnt - 1 ≠ 0 →
      (__iobuf_get o p ps i).2.arenas = p.arenas ∧
      (__iobuf_get o p ps i).2.filled = p.filled ∧
      (__iobuf_get o p ps i).2.purge = p.purge) ∧
    (A.passive_cnt - 1 = 0 →
      (__iobuf_get o p ps i).2.arenas = (fun j => (p.arenas j).erase a) ∧
      (__iobuf_get o p ps i).2.filled =
        Function.update (fun j => (p.filled j).erase a) i (a :: (p.filled i).erase a) ∧
      (__iobuf_get o p ps i).2.purge = (fun j => (p.purge j).erase a)) := by
  obtain ⟨f1, f2, f3, f4, f5, f6, f7, f8⟩ := get_arena_fields A k
  have hsel : __iobuf_select_arena o p ps i = (some a, p) := by
    unfold __iobuf_select_arena
    rw [h1]
    simp [List.find?, hA, hp]
  have hg : __iobuf_get o p ps i =
      (some (a, k), set_arena
        (if (__iobuf_get_arena A k).passive_cnt = 0 then
          filled_list_add (arena_list_del p a) i a else p) a
        { __iobuf_get_arena A k with
          iobufs := Function.update (__iobuf_get_arena A k).iobufs k
            { ((__iobuf_get_arena A k).iobufs k) with page_size := ps } }) := by
    unfold __iobuf_get
    rw [hsel]
    dsimp only
    rw [hA]
    dsimp only
    rw [hpl]
  rw [hg]
  have hmemx : ∀ (P : iobuf_pool) (X : iobuf_arena) (x : Nat), x ≠ a → P.mem = p.mem →
      (set_arena P a X).mem x = p.mem x := by
    intro P X x hx hP
    simp [set_arena, Function.update_noteq hx, hP]
  refine ⟨rfl, ?_, ?_, ?_, ?_, ⟨_, Function.update_same _ _ _, ?_, f2, f3, f4, f5, f6, f8, ?_⟩,
    ?_, ?_⟩
  · split <;> rfl
  · split <;> rfl
  · split <;> rfl
  · intro x hx
    split
    · exact hmemx _ _ x hx rfl
    · exact hmemx _ _ x hx rfl
  · show (__iobuf_get_arena A k).passive_list = pl
    rw [f1, hpl, List.erase_cons_head]
  · intro j
    dsimp only
    rw [f7]
    by_cases hj : j = k
    · subst hj
      simp
    · simp [Function.update_noteq hj]
  · intro hne
    rw [f3, if_neg hne]
    exact ⟨rfl, rfl, rfl⟩
  · intro he
    rw [f3, if_pos he]
    refine ⟨rfl, ?_, rfl⟩
    simp [set_arena, filled_list_add, arena_list_del, list_add]

/-- The hand-out for class `i` when `arenas[i]` and `purge[i]` are empty and the
allocator succeeds: a new arena of `np` pages is allocated and its last page handed
out. -/
theorem get_alloc (o : alloc_env) (p : iobuf_pool) (ps i np : Nat)
    (hnp : config_num_pages i = np) (h1 : p.arenas i = []) (h2 : p.purge i = [])
    (ho : alloc_succeeds o = true) (h3 : 1 < np) :
    (__iobuf_get o p ps i).1 = some (p.next_obj, np - 1) ∧
    (__iobuf_get o p ps i).2.arena_cnt = p.arena_cnt + 1 ∧
    (∀ x, x ≠ p.next_obj → (__iobuf_get o p ps i).2.mem x = p.mem x) ∧
    (∃ C, (__iobuf_get o p ps i).2.mem p.next_obj = some C ∧ C.page_count = np ∧
      C.page_size = (gf_iobuf_get_pagesize ps 0).1 ∧
      C.passive_cnt = (np : Int) - 1 ∧ C.active_cnt = 1 ∧ C.active_list = [np - 1]) ∧
    (__iobuf_get o p ps i).2.arenas i = [p.next_obj] ∧
    (∀ j, j ≠ i → (__iobuf_get o p ps i).2.arenas j = p.arenas j) ∧
    (__iobuf_get o p ps i).2.filled = p.filled ∧
    (__iobuf_get o p ps i).2.purge = p.purge := by
  subst hnp
  rcases add_arena_cases o p ps (config_num_pages i) i h2 with
    ⟨c0, _⟩ | ⟨_, c1, c2, c3, c4, c5, c6, c7, c8⟩
  · rw [ho] at c0; cases c0
  · obtain ⟨base, _, _, hmem, _, _⟩ := arena_alloc_some o p ps (config_num_pages i) _ c8
    rw [← c7] at hmem
    obtain ⟨n1, n2, n3, n4, n5, n6, _, _, _⟩ := init_fresh p.next_obj
      { page_size := (gf_iobuf_get_pagesize ps 0).1,
        arena_size := (gf_iobuf_get_pagesize ps 0).1 * config_num_pages i % 2 ^ 64,
        page_count := config_num_pages i, mem_base := base, iobufs := fun _ => iobuf_zero,
        passive_list := [], active_list := [], alloc_cnt := 0, active_cnt := 0,
        passive_cnt := 0, max_active := 0 } rfl rfl rfl rfl
    dsimp only at n1 n2 n3 n4 n5 n6
    generalize __iobuf_arena_init_iobufs p.next_obj
      { page_size := (gf_iobuf_get_pagesize ps 0).1,
        arena_size := (gf_iobuf_get_pagesize ps 0).1 * config_num_pages i % 2 ^ 64,
        page_count := config_num_pages i, mem_base := base, iobufs := fun _ => iobuf_zero,
        passive_list := [], active_list := [], alloc_cnt := 0, active_cnt := 0,
        passive_cnt := 0, max_active := 0 } = B at hmem n1 n2 n3 n4 n5 n6
    have hsel : __iobuf_select_arena o p ps i =
        __iobuf_pool_add_arena o p ps (config_num_pages i) i := by
      unfold __iobuf_select_arena
      rw [h1]
      rfl
    have hpl : B.passive_list =
        (config_num_pages i - 1) :: (List.range (config_num_pages i - 1)).reverse := by
      rw [n1]
      have e : config_num_pages i = (config_num_pages i - 1) + 1 := by omega
      conv_lhs => rw [e]
      rw [List.range_succ, List.reverse_append]
      rfl
    have hq1 : (__iobuf_pool_add_arena o p ps (config_num_pages i) i).2.arenas i =
        p.next_obj :: [] := by
      rw [c4, Function.update_same, h1]
    obtain ⟨g1, g2, _, _, g5, ⟨C, g6, g7, g8, g9, g10, g11, g12, _⟩, g13, _⟩ :=
      get_from_head o (__iobuf_pool_add_arena o p ps (config_num_pages i) i).2 ps i
        p.next_obj (config_num_pages i - 1) [] _ B hq1 hmem (by rw [n2]; omega) hpl
    have hsel2 : __iobuf_select_arena o
        (__iobuf_pool_add_arena o p ps (config_num_pages i) i).2 ps i =
        (some p.next_obj, (__iobuf_pool_add_arena o p ps (config_num_pages i) i).2) := by
      unfold __iobuf_select_arena
      rw [hq1]
      have hd : decide (B.passive_cnt ≠ 0) = true := by
        rw [n2]
        have : ((config_num_pages i : Nat) : Int) ≠ 0 := by omega
        simpa using this
      simp only [List.find?, hmem, hd]
    have hget : __iobuf_get o p ps i =
        __iobuf_get o (__iobuf_pool_add_arena o p ps (config_num_pages i) i).2 ps i := by
      unfold __iobuf_get
      rw [hsel2, hsel]
      have e : __iobuf_pool_add_arena o p ps (config_num_pages i) i =
          (some p.next_obj, (__iobuf_pool_add_arena o p ps (config_num_pages i) i).2) :=
        Prod.ext c1 rfl
      rw [e]
    obtain ⟨k1, k2, k3⟩ := g13 (by rw [n2]; omega)
    rw [hget]
    refine ⟨g1, by rw [g2, c3], fun x hx => by rw [g5 x hx, c2 x hx],
      ⟨C, g6, by rw [g12, n6], by rw [g11, n5], by rw [g9, n2], by rw [g10, n4]; rfl,
        by rw [g8, n3]; rfl⟩, by rw [k1, hq1], fun j hj => ?_, by rw [k2, c5], by rw [k3, c6]⟩
    rw [k1, c4, Function.update_noteq hj]

theorem get_n_spec (o : alloc_env) (ps i a : Nat) :
    ∀ (n m : Nat) (p : iobuf_pool) (A : iobuf_arena), p.arenas i = [a] → p.filled i = [] →
      p.purge i = [] → p.mem a = some A → A.passive_list.length = m →
      A.passive_cnt = (m : Int) → n ≤ m →
      (∀ x, x ∈ (iobuf_get_n o ps i n p).1 → ∃ k, x = some (a, k)) ∧
      (iobuf_get_n o ps i n p).1.length = n ∧
      (iobuf_get_n o ps i n p).2.arena_cnt = p.arena_cnt ∧
      (iobuf_get_n o ps i n p).2.next_obj = p.next_obj ∧
      (iobuf_get_n o ps i n p).2.purge i = [] ∧
      (∀ x, x ≠ a → (iobuf_get_n o ps i n p).2.mem x = p.mem x) ∧
      (∃ C, (iobuf_get_n o ps i n p).2.mem a = some C ∧
        C.passive_cnt = (m : Int) - n ∧ C.active_cnt = A.active_cnt + n ∧
        C.page_count = A.page_count ∧ C.page_size = A.page_size) ∧
      (n < m → (iobuf_get_n o ps i n p).2.arenas i = [a] ∧
        (iobuf_get_n o ps i n p).2.filled i = []) ∧
      (n = m → 0 < m → (iobuf_get_n o ps i n p).2.arenas i = [] ∧
        (iobuf_get_n o ps i n p).2.filled i = [a]) := by
  intro n
  induction n with
  | zero =>
    intro m p A h1 h2 h3 hA hl hc hn
    refine ⟨fun x hx => (by cases hx), rfl, rfl, rfl, h3, fun _ _ => rfl,
      ⟨A, hA, by simpa using hc, by simp, rfl, rfl⟩, fun _ => ⟨h1, h2⟩, fun h0 hpos => ?_⟩
    omega
  | succ n ih =>
    intro m p A h1 h2 h3 hA hl hc hn
    obtain ⟨k, pl, hpl⟩ : ∃ k pl, A.passive_list = k :: pl := by
      cases hq : A.passive_list with
      | nil => rw [hq] at hl; simp at hl; omega
      | cons k pl => exact ⟨k, pl, rfl⟩
    obtain ⟨g1, g2, _, g4, g5, ⟨C, g6, g7, _, g9, g10, g11, g12, _⟩, g13, g14⟩ :=
      get_from_head o p ps i a k [] pl A h1 hA (by rw [hc]; omega) hpl
    have hlen : C.passive_list.length = m - 1 := by
      rw [g7]
      rw [hpl] at hl
      simp at hl
      omega
    have e : iobuf_get_n o ps i (n + 1) p =
        ((__iobuf_get o p ps i).1 :: (iobuf_get_n o ps i n (__iobuf_get o p ps i).2).1,
          (iobuf_get_n o ps i n (__iobuf_get o p ps i).2).2) := rfl
    rw [e]
    by_cases hm : m = 1
    · -- the arena is full after this hand-out
      have hn0 : n = 0 := by omega
      subst hn0
      obtain ⟨k1, k2, k3⟩ := g14 (by rw [hc, hm]; rfl)
      have e0 : iobuf_get_n o ps i 0 (__iobuf_get o p ps i).2 = ([], (__iobuf_get o p ps i).2) :=
        rfl
      rw [e0]
      refine ⟨fun x hx => ?_, rfl, g2, g4, ?_, g5, ⟨C, g6, by rw [g9, hc]; simp, by
        rw [g10]; simp, g12, g11⟩, fun h => by omega, fun _ _ => ⟨?_, ?_⟩⟩
      · have hx2 : x = (__iobuf_get o p ps i).1 := by simpa using hx
        rw [hx2, g1]
        exact ⟨k, rfl⟩
      · show (__iobuf_get o p ps i).2.purge i = []
        rw [k3]
        show (p.purge i).erase a = []
        rw [h3]; rfl
      · show (__iobuf_get o p ps i).2.arenas i = []
        rw [k1]
        show (p.arenas i).erase a = []
        rw [h1]; simp
      · show (__iobuf_get o p ps i).2.filled i = [a]
        rw [k2, Function.update_same, h2]
        rfl
    · obtain ⟨k1, k2, k3⟩ := g13 (by rw [hc]; omega)
      obtain ⟨i1, i2, i3, i4, i5, i6, ⟨D, i7, i8, i9, i10, i11⟩, i12, i13⟩ :=
        ih (m - 1) (__iobuf_get o p ps i).2 C (by rw [k1, h1]) (by rw [k2, h2])
          (by rw [k3, h3]) g6 hlen (by rw [g9, hc]; omega) (by omega)
      refine ⟨fun x hx => ?_, ?_, by rw [i3, g2], by rw [i4, g4], i5,
        fun x hx => by rw [i6 x hx, g5 x hx],
        ⟨D, i7, by rw [i8]; push_cast; omega, by rw [i9, g10]; push_cast; omega,
          by rw [i10, g12], by rw [i11, g11]⟩,
        fun h => i12 (by omega), fun h hpos => i13 (by omega) (by omega)⟩
      · rcases List.mem_cons.1 hx with hx | hx
        · rw [hx, g1]; exact ⟨k, rfl⟩
        · exact i1 x hx
      · show (iobuf_get_n o ps i n (__iobuf_get o p ps i).2).1.length + 1 = n + 1
        rw [i2]

theorem num_pages_gt_one (i : Nat) (h : i < IOBUF_ARENA_MAX_INDEX) :
    1 < config_num_pages i := by
  have h8 : i < 8 := h
  obtain ⟨h0, h1, h2, h3, h4, h5, h6, h7⟩ := config_num_pages_vals
  interval_cases i <;> omega

/-- Class `i` of a freshly created pool whose pre-allocation for the class succeeded. -/
theorem pool_new_class (o : Nat → alloc_env) (ok : Bool) (q : iobuf_pool)
    (h : iobuf_pool_new true o ok = some q) (i : Nat) (hi : i < IOBUF_ARENA_MAX_INDEX)
    (hok : alloc_succeeds (o i) = true) :
    pool_inv q ∧ q.filled i = [] ∧ q.purge i = [] ∧
    ∃ a A, q.arenas i = [a] ∧ q.mem a = some A ∧ arena_class A i ∧
      A.passive_cnt = A.page_count ∧ A.active_cnt = 0 := by
  have hinv := pool_inv_pool_new true o ok q h
  obtain ⟨i1, i2, i3, i4, i5, i6, i7⟩ := pool_new_loop_inv o
  have hq : q = { iobuf_create_stdalloc_arena ok (pool_new_loop o).1 with
      arena_size := (pool_new_loop o).2 } :=
    Option.some.inj (h.symm.trans (pool_new_eq o ok))
  generalize pool_new_loop o = s at hq i1 i2 i3 i4 i5 i6 i7
  have hfl : q.filled = s.1.filled ∧ q.purge = s.1.purge ∧
      (∀ i, i < IOBUF_ARENA_MAX_INDEX → q.arenas i = s.1.arenas i) ∧
      (∀ a A, s.1.mem a = some A → q.mem a = some A) := by
    rw [hq]
    unfold iobuf_create_stdalloc_arena
    by_cases hok : ok = false
    · rw [if_pos hok]
      exact ⟨rfl, rfl, fun _ _ => rfl, fun _ _ hA => hA⟩
    · rw [if_neg hok]
      refine ⟨rfl, rfl, fun i hi => ?_, fun a A hA => ?_⟩
      · have hne : i ≠ IOBUF_ARENA_MAX_INDEX := by omega
        simp [arenas_list_add_tail, set_arena, Function.update_noteq hne]
      · have hlt := live_lt_next i1 a A hA
        have hne : a ≠ s.1.next_obj := by omega
        simp [arenas_list_add_tail, set_arena, Function.update_noteq hne, hA]
  obtain ⟨f1, f2, f5, f6⟩ := hfl
  obtain ⟨a, A, l1, l2, l3, l4, l5⟩ := (i5 i (List.mem_range.2 hi)).1 hok
  exact ⟨hinv, by rw [f1, i3], by rw [f2, i2], a, A, by rw [f5 i hi, l1], f6 a A l2, l3, l4, l5⟩


/-! ### Buffers stay at their carve positions -/

theorem carve_kept {A B : iobuf_arena} (h : carve_inv A) (hk : slots_kept A B) :
    carve_inv B := by
  obtain ⟨k1, k2, k3, k4⟩ := hk
  intro k hlt
  obtain ⟨p1, p2, p3⟩ := k4 k
  rw [k2] at hlt
  rw [p1, p2, k1, k3]
  rcases h k hlt with c | c
  · exact Or.inl c
  · exact Or.inr ⟨c.1, p3 c.2⟩

theorem slots_kept_refl (A : iobuf_arena) : slots_kept A A :=
  ⟨rfl, rfl, rfl, fun _ => ⟨rfl, rfl, fun h => h⟩⟩

theorem slots_kept_trans {A B C : iobuf_arena} (h1 : slots_kept A B) (h2 : slots_kept B C) :
    slots_kept A C := by
  obtain ⟨a1, a2, a3, a4⟩ := h1
  obtain ⟨b1, b2, b3, b4⟩ := h2
  refine ⟨b1.trans a1, b2.trans a2, b3.trans a3, fun j => ?_⟩
  obtain ⟨x1, x2, x3⟩ := a4 j
  obtain ⟨y1, y2, y3⟩ := b4 j
  exact ⟨y1.trans x1, y2.trans x2, fun h => y3 (x3 h)⟩

theorem ptr_inv_of_mem {p q : iobuf_pool} (hp : ptr_inv p)
    (h : ∀ x B, q.mem x = some B → (∃ A, p.mem x = some A ∧ slots_kept A B) ∨ carve_inv B) :
    ptr_inv q := by
  intro x B hB
  rcases h x B hB with ⟨A, hA, hk⟩ | c
  · exact carve_kept (hp x A hA) hk
  · exact c

theorem add_arena_mem (o : alloc_env) (p : iobuf_pool) (ps np i : Nat) (x : Nat)
    (B : iobuf_arena) (h : (__iobuf_pool_add_arena o p ps np i).2.mem x = some B) :
    p.mem x = some B ∨ (x = p.next_obj ∧ carve_inv B) := by
  cases hpu : p.purge i with
  | cons b l =>
    left
    have e : (__iobuf_pool_add_arena o p ps np i).2.mem = p.mem := by
      unfold __iobuf_pool_add_arena __iobuf_arena_unprune
      rw [hpu]
      rfl
    rw [e] at h
    exact h
  | nil =>
    rcases add_arena_cases o p ps np i hpu with
      ⟨_, _, c2, _⟩ | ⟨_, _, c2, _, _, _, _, c7, c8⟩
    · rw [c2] at h
      exact Or.inl h
    · by_cases hx : x = p.next_obj
      · right
        refine ⟨hx, ?_⟩
        subst hx
        obtain ⟨base, _, _, hmem, _, _⟩ := arena_alloc_some o p ps np _ c8
        rw [c7, hmem] at h
        injection h with h
        subst h
        obtain ⟨_, _, _, _, n5, n6, n7, _, n9⟩ := init_fresh p.next_obj
          { page_size := (gf_iobuf_get_pagesize ps 0).1,
            arena_size := (gf_iobuf_get_pagesize ps 0).1 * np % 2 ^ 64,
            page_count := np, mem_base := base, iobufs := fun _ => iobuf_zero,
            passive_list := [], active_list := [], alloc_cnt := 0, active_cnt := 0,
            passive_cnt := 0, max_active := 0 } rfl rfl rfl rfl
        intro k hk
        rw [n6] at hk
        rw [n5, n7]
        exact Or.inl ⟨(n9 k hk).2, (n9 k hk).1⟩
      · left
        rw [c2 x hx] at h
        exact h

theorem select_arena_mem_spec (o : alloc_env) (p : iobuf_pool) (ps i : Nat) (x : Nat)
    (B : iobuf_arena) (h : (__iobuf_select_arena o p ps i).2.mem x = some B) :
    p.mem x = some B ∨ (x = p.next_obj ∧ carve_inv B) := by
  unfold __iobuf_select_arena at h
  split at h
  · exact Or.inl h
  · exact add_arena_mem o p ps (config_num_pages i) i x B h

/-- What `__iobuf_get` does to the arena objects: every arena afterwards is an arena of
the pool after `__iobuf_select_arena` with the same buffer positions. -/
theorem get_mem_spec (o : alloc_env) (p : iobuf_pool) (ps i : Nat) (x : Nat)
    (B : iobuf_arena) (h : (__iobuf_get o p ps i).2.mem x = some B) :
    ∃ A, (__iobuf_select_arena o p ps i).2.mem x = some A ∧ slots_kept A B ∧
      (∀ j, (B.iobufs j).ref = (A.iobufs j).ref) := by
  unfold __iobuf_get at h
  cases hsel : __iobuf_select_arena o p ps i with
  | mk r q =>
    rw [hsel] at h
    cases r with
    | none => exact ⟨B, h, slots_kept_refl B, fun _ => rfl⟩
    | some a =>
      dsimp only at h ⊢
      cases hA : q.mem a with
      | none => rw [hA] at h; exact ⟨B, h, slots_kept_refl B, fun _ => rfl⟩
      | some A =>
        rw [hA] at h
        dsimp only at h
        cases hpl : A.passive_list with
        | nil => rw [hpl] at h; exact ⟨B, h, slots_kept_refl B, fun _ => rfl⟩
        | cons k pl =>
          rw [hpl] at h
          dsimp only at h
          obtain ⟨f1, f2, f3, f4, f5, f6, f7, f8⟩ := get_arena_fields A k
          by_cases hx : x = a
          · subst hx
            have hm : ∀ P : iobuf_pool, ∀ X : iobuf_arena, (set_arena P x X).mem x = some X :=
              fun P X => Function.update_same _ _ _
            rw [hm] at h
            injection h with h
            subst h
            refine ⟨A, hA, ⟨f5, f6, f8, fun j => ?_⟩, fun j => ?_⟩
            · dsimp only
              rw [f7]
              by_cases hj : j = k
              · subst hj
                simp
              · simp [Function.update_noteq hj]
            · dsimp only
              rw [f7]
              by_cases hj : j = k
              · subst hj
                simp
              · simp [Function.update_noteq hj]
          · have hm : ∀ P : iobuf_pool, ∀ X : iobuf_arena, P.mem = q.mem →
                (set_arena P a X).mem x = q.mem x := by
              intro P X hP
              simp [set_arena, Function.update_noteq hx, hP]
            refine ⟨B, ?_, slots_kept_refl B, fun _ => rfl⟩
            rw [← h]
            split
            · exact (hm _ _ rfl).symm
            · exact (hm _ _ rfl).symm

theorem modify_mem_spec (p : iobuf_pool) (a k : Nat) (f : iobuf → iobuf)
    (hf : ∀ A, p.mem a = some A → (f (A.iobufs k)).ptr = (A.iobufs k).ptr ∧
      (f (A.iobufs k)).free_ptr = (A.iobufs k).free_ptr ∧
      (1 ≤ (A.iobufs k).ref → 1 ≤ (f (A.iobufs k)).ref))
    (x : Nat) (B : iobuf_arena) (h : (modify_iobuf p a k f).mem x = some B) :
    ∃ A, p.mem x = some A ∧ slots_kept A B := by
  cases hA : p.mem a with
  | none =>
    have e : modify_iobuf p a k f = p := by
      unfold modify_iobuf
      rw [hA]
    rw [e] at h
    exact ⟨B, h, slots_kept_refl B⟩
  | some A =>
    obtain ⟨A1, e, _, _, _, _, e5, e6, e7, e8⟩ := modify_iobuf_eq p a k f A hA
    have e9 : A1.mem_base = A.mem_base := by
      have : set_arena p a A1 = set_arena p a
          { A with iobufs := Function.update A.iobufs k (f (A.iobufs k)) } := by
        rw [← e]
        unfold modify_iobuf
        rw [hA]
      have h2 := congrArg (fun q : iobuf_pool => q.mem a) this
      simp only [set_arena, Function.update_same] at h2
      injection h2 with h2
      rw [h2]
    rw [e] at h
    by_cases hx : x = a
    · subst hx
      have hm : (set_arena p x A1).mem x = some A1 := Function.update_same _ _ _
      rw [hm] at h
      injection h with h
      subst h
      refine ⟨A, hA, e5, e6, e9, fun j => ?_⟩
      by_cases hj : j = k
      · subst hj
        rw [e7]
        exact hf A hA
      · rw [e8 j hj]
        exact ⟨rfl, rfl, fun h => h⟩
    · have hm : (set_arena p a A1).mem x = p.mem x := by
        simp [set_arena, Function.update_noteq hx]
      rw [hm] at h
      exact ⟨B, h, slots_kept_refl B⟩

theorem ptr_inv_ref {p : iobuf_pool} (hp : ptr_inv p) (h : iobuf_ptr) :
    ptr_inv (iobuf_ref p h).2 := by
  cases h with
  | heap b => exact hp
  | carved a k =>
    apply ptr_inv_of_mem hp
    intro x B hB
    left
    exact modify_mem_spec p a k _ (fun A _ => ⟨rfl, rfl, fun h => by
      show 1 ≤ (A.iobufs k).ref + 1
      omega⟩) x B hB

theorem ptr_inv_select {p : iobuf_pool} (hp : ptr_inv p) (o : alloc_env) (ps i : Nat) :
    ptr_inv (__iobuf_select_arena o p ps i).2 := by
  intro x B hB
  rcases select_arena_mem_spec o p ps i x B hB with c | ⟨_, c⟩
  · exact hp x B c
  · exact c

theorem ptr_inv_get {p : iobuf_pool} (hp : ptr_inv p) (o : alloc_env) (ps i : Nat) :
    ptr_inv (__iobuf_get o p ps i).2 := by
  intro x B hB
  obtain ⟨A, hA, hk, _⟩ := get_mem_spec o p ps i x B hB
  exact carve_kept (ptr_inv_select hp o ps i x A hA) hk

theorem ptr_inv_get2 {p : iobuf_pool} (hp : ptr_inv p) (S : Nat) (o : alloc_env) (n : Nat) :
    ptr_inv (iobuf_get2 S o p n).2 := by
  rcases get2_cases S o p n _ rfl with ⟨_, e⟩ | ⟨_, _, e⟩ | ⟨_, i, _, e⟩
  · rw [e]; exact hp
  · rw [e]; exact hp
  · rw [e]
    have hg := ptr_inv_get hp o (config_pagesize i) i
    cases hr : __iobuf_get o p (config_pagesize i) i with
    | mk r q =>
      rw [hr] at hg
      cases r with
      | none => exact hg
      | some ak =>
        obtain ⟨a, k⟩ := ak
        exact ptr_inv_ref hg (.carved a k)

theorem ptr_inv_get_page_aligned {p : iobuf_pool} (hp : ptr_inv p) (hinv : pool_inv p)
    (S : Nat) (o : alloc_env) (n al : Nat) :
    ptr_inv (iobuf_get_page_aligned S o p n al).2 := by
  unfold iobuf_get_page_aligned
  dsimp only
  have h := ptr_inv_get2 hp S o (((if n = 0 then p.default_page_size else n) + al) % 2 ^ 64)
  cases hg : iobuf_get2 S o p (((if n = 0 then p.default_page_size else n) + al) % 2 ^ 64) with
  | mk r p1 =>
    rw [hg] at h
    cases r with
    | none => exact h
    | some hd =>
      cases hd with
      | heap b => exact h
      | carved a k =>
        obtain ⟨r1, r2⟩ := get2_refcount hinv S o _ _ p1 hg
        obtain ⟨A, hA⟩ := r2 a k rfl
        have href : (A.iobufs k).ref = 1 := by
          unfold iobuf_refcount at r1
          dsimp only at r1
          rw [hA] at r1
          exact r1
        dsimp only
        obtain ⟨A1, e, _, _, _, _, e5, e6, e7, e8⟩ :=
          modify_iobuf_eq p1 a k (iobuf_align al) A hA
        have e9 : A1.mem_base = A.mem_base := by
          have : set_arena p1 a A1 = set_arena p1 a
              { A with iobufs := Function.update A.iobufs k (iobuf_align al (A.iobufs k)) } := by
            rw [← e]
            unfold modify_iobuf
            rw [hA]
          have h2 := congrArg (fun q : iobuf_pool => q.mem a) this
          simp only [set_arena, Function.update_same] at h2
          injection h2 with h2
          rw [h2]
        rw [e]
        intro x B hB
        by_cases hx : x = a
        · subst hx
          have hm : (set_arena p1 x A1).mem x = some A1 := Function.update_same _ _ _
          rw [hm] at hB
          injection hB with hB
          subst hB
          intro j hj
          rw [e6] at hj
          rw [e5, e9]
          by_cases hjk : j = k
          · subst hjk
            rw [e7]
            right
            rcases h x A hA j hj with ⟨c1, c2⟩ | ⟨c1, c2⟩
            · refine ⟨?_, by rw [iobuf_align_ref, href]⟩
              simp [iobuf_align, c1, c2]
            · refine ⟨?_, by rw [iobuf_align_ref, href]⟩
              simp [iobuf_align, c1]
          · rw [e8 j hjk]
            exact h x A hA j hj
        · have hm : (set_arena p1 a A1).mem x = p1.mem x := by
            simp [set_arena, Function.update_noteq hx]
          rw [hm] at hB
          exact h x B hB

theorem put_arena_slots (A : iobuf_arena) (k : Nat) :
    (∀ j, j ≠ k → (__iobuf_put_arena A k).iobufs j = A.iobufs j) ∧
    ((__iobuf_put_arena A k).iobufs k).free_ptr = none ∧
    (∀ f, (A.iobufs k).free_ptr = some f → ((__iobuf_put_arena A k).iobufs k).ptr = f) ∧
    ((A.iobufs k).free_ptr = none →
      ((__iobuf_put_arena A k).iobufs k).ptr = (A.iobufs k).ptr) := by
  unfold __iobuf_put_arena
  simp only [iobuf_list_del, list_add]
  cases hf : (A.iobufs k).free_ptr with
  | none =>
    refine ⟨fun j _ => rfl, ?_, fun f hc => (by cases hc), fun _ => rfl⟩
    exact hf
  | some f =>
    refine ⟨fun j hj => ?_, ?_, fun g hg => ?_, fun hc => (by cases hc)⟩
    · simp [Function.update_noteq hj]
    · simp
    · injection hg with hg
      subst hg
      simp

theorem prune_mem_other (Q : iobuf_pool) (a i x : Nat) (B : iobuf_arena)
    (h : (__iobuf_arena_prune Q a i).mem x = some B) : Q.mem x = some B := by
  unfold __iobuf_arena_prune at h
  by_cases he : (Q.arenas i).isEmpty = true
  · rw [if_pos he] at h
    exact h
  · rw [if_neg he] at h
    by_cases hx : x = a
    · subst hx
      simp [__iobuf_arena_destroy] at h
    · simpa [__iobuf_arena_destroy, arena_list_del, Function.update_noteq hx] using h

theorem modify_iobuf_base (p : iobuf_pool) (a k : Nat) (f : iobuf → iobuf) (A : iobuf_arena)
    (hA : p.mem a = some A) :
    ∃ A1 : iobuf_arena, modify_iobuf p a k f = set_arena p a A1 ∧
      A1.passive_list = A.passive_list ∧ A1.active_list = A.active_list ∧
      A1.passive_cnt = A.passive_cnt ∧ A1.active_cnt = A.active_cnt ∧
      A1.page_size = A.page_size ∧ A1.page_count = A.page_count ∧
      A1.mem_base = A.mem_base ∧
      A1.iobufs k = f (A.iobufs k) ∧ (∀ j, j ≠ k → A1.iobufs j = A.iobufs j) := by
  unfold modify_iobuf
  rw [hA]
  exact ⟨_, rfl, rfl, rfl, rfl, rfl, rfl, rfl, rfl, by simp,
    fun j hj => by simp [Function.update_noteq hj]⟩

/-- The arena objects after the last `iobuf_unref` of buffer `k` of arena `a`: the other
arenas are as before or destroyed; arena `a`, if it is still there, has the buffer back
at its saved position with no saved pointer and count 0, the other buffers as before. -/
theorem unref_last_mem (p : iobuf_pool) (a k : Nat) (A : iobuf_arena)
    (hA : p.mem a = some A) (hr : (A.iobufs k).ref = 1) (i : Nat)
    (hidx : gf_iobuf_get_arena_index A.page_size = (i : Int)) (x : Nat) (B : iobuf_arena)
    (h : (iobuf_unref p (.carved a k)).2.mem x = some B) :
    (x ≠ a ∧ p.mem x = some B) ∨
    (x = a ∧ B.page_size = A.page_size ∧ B.page_count = A.page_count ∧
      B.mem_base = A.mem_base ∧ (∀ j, j ≠ k → B.iobufs j = A.iobufs j) ∧
      (B.iobufs k).free_ptr = none ∧ (B.iobufs k).ref = 0 ∧
      (∀ f, (A.iobufs k).free_ptr = some f → (B.iobufs k).ptr = f) ∧
      ((A.iobufs k).free_ptr = none → (B.iobufs k).ptr = (A.iobufs k).ptr)) := by
  obtain ⟨A1, hm, _, _, _, _, e5, e6, e7, e8, e9⟩ :=
    modify_iobuf_base p a k (fun b => { b with ref := b.ref - 1 }) A hA
  have e : (iobuf_unref p (.carved a k)).2 =
        if (__iobuf_put_arena A1 k).active_cnt = 0 then
          __iobuf_arena_prune (purge_list_add_tail (arena_list_del (set_arena
            (if A1.passive_cnt = 0 then
              arenas_list_add_tail (arena_list_del (set_arena p a A1) a) i a
             else set_arena p a A1) a (__iobuf_put_arena A1 k)) a) i a) a i
        else
          set_arena
            (if A1.passive_cnt = 0 then
              arenas_list_add_tail (arena_list_del (set_arena p a A1) a) i a
             else set_arena p a A1) a (__iobuf_put_arena A1 k) := by
    unfold iobuf_unref
    dsimp only
    rw [hA]
    dsimp only
    rw [hr, if_pos (by decide), hm]
    unfold iobuf_put
    dsimp only
    unfold __iobuf_put
    have hm2 : (set_arena p a A1).mem a = some A1 := by simp [set_arena]
    rw [hm2]
    dsimp only
    rw [e5, hidx, if_neg (by omega), Int.toNat_ofNat]
  obtain ⟨s1, s2, s3, s4⟩ := put_arena_slots A1 k
  obtain ⟨_, _, _, _, f5, f6, f7, f8⟩ := put_arena_fields A1 k
  have hmid : ∀ x B, (set_arena
      (if A1.passive_cnt = 0 then
        arenas_list_add_tail (arena_list_del (set_arena p a A1) a) i a
       else set_arena p a A1) a (__iobuf_put_arena A1 k)).mem x = some B →
      (x ≠ a ∧ p.mem x = some B) ∨ (x = a ∧ B = __iobuf_put_arena A1 k) := by
    intro x B hB
    by_cases hx : x = a
    · right
      subst hx
      have : ∀ P : iobuf_pool, ∀ X : iobuf_arena, (set_arena P x X).mem x = some X :=
        fun P X => Function.update_same _ _ _
      rw [this] at hB
      injection hB with hB
      exact ⟨rfl, hB.symm⟩
    · left
      refine ⟨hx, ?_⟩
      rw [← hB]
      split <;> simp [set_arena, arenas_list_add_tail, arena_list_del, Function.update_noteq hx]
  have hfin : (x ≠ a ∧ p.mem x = some B) ∨ (x = a ∧ B = __iobuf_put_arena A1 k) := by
    rw [e] at h
    by_cases hz : (__iobuf_put_arena A1 k).active_cnt = 0
    · rw [if_pos hz] at h
      have h2 := prune_mem_other _ a i x B h
      exact hmid x B h2
    · rw [if_neg hz] at h
      exact hmid x B h
  rcases hfin with c | ⟨c1, c2⟩
  · exact Or.inl c
  · right
    subst c2
    refine ⟨c1, by rw [f5, e5], by rw [f6, e6], by rw [f8, e7], fun j hj => ?_, s2, ?_,
      fun f hf => ?_, fun hf => ?_⟩
    · rw [s1 j hj, e9 j hj]
    · rw [f7, e8]
      show (A.iobufs k).ref - 1 = 0
      omega
    · apply s3
      rw [e8]
      exact hf
    · rw [s4 (by rw [e8]; exact hf), e8]

theorem ptr_inv_unref {p : iobuf_pool} (hp : ptr_inv p) (hinv : pool_inv p) (h : iobuf_ptr)
    (hh : holds p h) : ptr_inv (iobuf_unref p h).2 := by
  cases h with
  | heap b =>
    unfold iobuf_unref
    dsimp only
    rw [iobuf_put_heap, ite_self]
    exact hp
  | carved a k =>
    obtain ⟨A, hA, hk, href⟩ := hh
    by_cases h1 : (A.iobufs k).ref = 1
    · obtain ⟨i, hi, hc⟩ := class_of_held (hinv.mem_ok a A hA) k hk
      have hidx := arena_index_of_class hi hc
      intro x B hB
      rcases unref_last_mem p a k A hA h1 i hidx x B hB with ⟨_, c⟩ |
        ⟨c1, c2, c3, c4, c5, c6, _, c8, c9⟩
      · exact hp x B c
      · intro j hj
        rw [c3] at hj
        rw [c2, c4]
        by_cases hjk : j = k
        · subst hjk
          left
          refine ⟨c6, ?_⟩
          rcases hp a A hA j hj with ⟨d1, d2⟩ | ⟨d1, _⟩
          · rw [c9 d1, d2]
          · exact c8 _ d1
        · rw [c5 j hjk]
          exact hp a A hA j hj
    · apply ptr_inv_of_mem hp
      intro x B hB
      left
      have e : (iobuf_unref p (.carved a k)).2 =
          modify_iobuf p a k (fun b => { b with ref := b.ref - 1 }) := by
        unfold iobuf_unref
        dsimp only
        rw [hA]
        dsimp only
        rw [if_neg (by omega)]
      rw [e] at hB
      exact modify_mem_spec p a k _ (fun A2 hA2 => by
        rw [hA] at hA2
        injection hA2 with hA2
        subst hA2
        refine ⟨rfl, rfl, fun _ => ?_⟩
        show 1 ≤ (A.iobufs k).ref - 1
        omega) x B hB

theorem ptr_inv_prune {p : iobuf_pool} (hp : ptr_inv p) (a i : Nat) :
    ptr_inv (__iobuf_arena_prune p a i) :=
  fun x B hB => hp x B (prune_mem_other p a i x B hB)

theorem ptr_inv_pool_prune {p : iobuf_pool} (hp : ptr_inv p) : ptr_inv (iobuf_pool_prune p) := by
  unfold iobuf_pool_prune
  have hfold : ∀ (i : Nat) (l : List Nat) (q : iobuf_pool), ptr_inv q →
      ptr_inv (l.foldl (fun q a => __iobuf_arena_prune q a i) q) := by
    intro i l
    induction l with
    | nil => intro q hq; exact hq
    | cons a l ih => intro q hq; exact ih _ (ptr_inv_prune hq a i)
  have hcls : ∀ (q : iobuf_pool) (i : Nat), ptr_inv q → ptr_inv (iobuf_pool_prune_class q i) := by
    intro q i hq
    unfold iobuf_pool_prune_class
    split
    · exact hq
    · exact hfold i _ q hq
  generalize List.range IOBUF_ARENA_MAX_INDEX = l
  induction l generalizing p with
  | nil => exact hp
  | cons i l ih => exact ih (hcls p i hp)

theorem ptr_inv_pool_new (o : Nat → alloc_env) (ok : Bool) (q : iobuf_pool)
    (h : iobuf_pool_new true o ok = some q) : ptr_inv q := by
  have hq : q = { iobuf_create_stdalloc_arena ok (pool_new_loop o).1 with
      arena_size := (pool_new_loop o).2 } :=
    Option.some.inj (h.symm.trans (pool_new_eq o ok))
  have hloop : ptr_inv (pool_new_loop o).1 := by
    unfold pool_new_loop
    have hfold : ∀ (l : List Nat) (s : iobuf_pool × Nat), ptr_inv s.1 →
        ptr_inv (l.foldl (iobuf_pool_new_step o) s).1 := by
      intro l
      induction l with
      | nil => intro s hs; exact hs
      | cons i l ih =>
        intro s hs
        apply ih
        rw [pool_new_step_fst]
        intro x B hB
        rcases add_arena_mem (o i) s.1 _ _ i x B hB with c | ⟨_, c⟩
        · exact hs x B c
        · exact c
    apply hfold
    intro x B hB
    cases hB
  generalize pool_new_loop o = s at hq hloop
  rw [hq]
  unfold iobuf_create_stdalloc_arena
  by_cases hok : ok = false
  · rw [if_pos hok]
    exact hloop
  · rw [if_neg hok]
    intro x B hB
    by_cases hx : x = s.1.next_obj
    · subst hx
      simp [arenas_list_add_tail, set_arena] at hB
      subst hB
      intro k hk
      exact absurd hk (Nat.not_lt_zero k)
    · simp [arenas_list_add_tail, set_arena, Function.update_noteq hx] at hB
      exact hloop x B hB

theorem reachable_ptr {S : Nat} {p : iobuf_pool} (h : Reachable S p) : ptr_inv p := by
  induction h with
  | new o ok q hq => exact ptr_inv_pool_new o ok q hq.eq
  | get2 p o n q hp _ e ih => rw [← e]; exact ptr_inv_get2 ih S o n
  | get_page_aligned p o n al q hp _ _ e ih =>
    rw [← e]; exact ptr_inv_get_page_aligned ih (reachable_inv hp) S o n al
  | ref p h q _ _ e ih => rw [← e]; exact ptr_inv_ref ih h
  | unref p h q hp hh e ih => rw [← e]; exact ptr_inv_unref ih (reachable_inv hp) h hh
  | prune p q _ e ih => rw [← e]; exact ptr_inv_pool_prune ih


/-! ### Aligned hand-out -/

theorem align_buf_spec (x b : Nat) (hb : 0 < b) :
    GF_ALIGN_BUF x b % b = 0 ∧ x ≤ GF_ALIGN_BUF x b ∧ GF_ALIGN_BUF x b < x + b := by
  unfold GF_ALIGN_BUF
  have h1 := Nat.div_add_mod (x + b - 1) b
  have h2 := Nat.mod_lt (x + b - 1) hb
  rw [Nat.mul_comm] at h1
  refine ⟨Nat.mul_mod_left _ _, ?_, ?_⟩
  · omega
  · omega

/-- The buffer that `iobuf_get2` carves from an arena, in a reachable pool: it is at its
carve position, has no saved pointer and count 1. -/
theorem get2_slot_spec {S : Nat} {p : iobuf_pool} (hp : Reachable S p) (o : alloc_env)
    (n a k : Nat) (q : iobuf_pool) (hg : iobuf_get2 S o p n = (some (.carved a k), q)) :
    ∃ A i, q.mem a = some A ∧ arena_class A i ∧ i < IOBUF_ARENA_MAX_INDEX ∧
      smallest_class (if n = 0 then p.default_page_size else n) i ∧
      k < A.page_count ∧ (A.iobufs k).ref = 1 ∧ (A.iobufs k).free_ptr = none ∧
      (A.iobufs k).ptr = A.mem_base + k * A.page_size := by
  have hinv := reachable_inv hp
  have hptr := reachable_ptr hp
  rcases get2_cases S o p n _ rfl with ⟨_, e⟩ | ⟨_, _, e⟩ | ⟨_, i, hsc, e⟩
  · rw [e] at hg
    injection hg with h1 _
    cases hb : iobuf_get_from_small o (if n = 0 then p.default_page_size else n) with
    | none => rw [hb] at h1; cases h1
    | some b => rw [hb] at h1; cases h1
  · rw [e] at hg
    injection hg with h1 _
    cases hb : iobuf_get_from_stdalloc o p (if n = 0 then p.default_page_size else n) with
    | none => rw [hb] at h1; cases h1
    | some b => rw [hb] at h1; cases h1
  · rw [e] at hg
    have hg1 := ptr_inv_get hptr o (config_pagesize i) i
    cases hq : __iobuf_get o p (config_pagesize i) i with
    | mk r p1 =>
      rw [hq] at hg hg1
      obtain ⟨_, g2⟩ := get_ref_spec hinv o i hsc.1 r p1 hq
      cases r with
      | none => cases hg
      | some ak =>
        obtain ⟨a2, k2⟩ := ak
        dsimp only at hg
        injection hg with h1 h2
        injection h1 with h1
        injection h1 with h3 h4
        subst h3 h4 h2
        obtain ⟨_, A, hA, hc, hk, href, _⟩ := g2 a2 k2 rfl
        cases hA1 : p1.mem a2 with
        | none =>
          have : (iobuf_ref p1 (.carved a2 k2)).2 = p1 := by
            unfold iobuf_ref modify_iobuf
            dsimp only
            rw [hA1]
          rw [this, hA1] at hA
          cases hA
        | some A1 =>
          obtain ⟨A2, m0, _, _, _, _, m5, m6, m7, m8, _⟩ :=
            modify_iobuf_base p1 a2 k2 (fun b => { b with ref := b.ref + 1 }) A1 hA1
          have hA2 : (iobuf_ref p1 (.carved a2 k2)).2.mem a2 = some A2 := by
            show (modify_iobuf p1 a2 k2 (fun b => { b with ref := b.ref + 1 })).mem a2 = _
            rw [m0]
            exact Function.update_same _ _ _
          rw [hA] at hA2
          injection hA2 with hA2
          subst hA2
          have hr0 : (A1.iobufs k2).ref = 0 := by
            rw [m8] at href
            have : (A1.iobufs k2).ref + 1 = 1 := href
            omega
          rw [m6] at hk
          refine ⟨A, i, hA, hc, hsc.1, hsc, by rw [m6]; exact hk, href, ?_, ?_⟩
          · rw [m8]
            show (A1.iobufs k2).free_ptr = none
            rcases hg1 a2 A1 hA1 k2 hk with ⟨c1, _⟩ | ⟨_, c2⟩
            · exact c1
            · omega
          · rw [m8, m5, m7]
            show (A1.iobufs k2).ptr = _
            rcases hg1 a2 A1 hA1 k2 hk with ⟨_, c1⟩ | ⟨_, c2⟩
            · exact c1
            · omega


/-! ### Returning an aligned buffer -/

theorem modify_iobuf_slot (p : iobuf_pool) (a k : Nat) (f : iobuf → iobuf) (A : iobuf_arena)
    (hA : p.mem a = some A) :
    modify_iobuf p a k f = set_arena p a (arena_set_iobuf A k (f (A.iobufs k))) := by
  unfold modify_iobuf
  rw [hA]
  rfl

theorem put_set_arena (p : iobuf_pool) (a k : Nat) (Y : iobuf_arena) (i : Nat)
    (hidx : gf_iobuf_get_arena_index Y.page_size = (i : Int)) :
    __iobuf_put (set_arena p a Y) (.carved a k) a =
      if (__iobuf_put_arena Y k).active_cnt = 0 then
        __iobuf_arena_prune (purge_list_add_tail (arena_list_del (set_arena
          (if Y.passive_cnt = 0 then arenas_list_add_tail (arena_list_del p a) i a else p)
          a (__iobuf_put_arena Y k)) a) i a) a i
      else
        set_arena
          (if Y.passive_cnt = 0 then arenas_list_add_tail (arena_list_del p a) i a else p)
          a (__iobuf_put_arena Y k) := by
  unfold __iobuf_put
  have hm : (set_arena p a Y).mem a = some Y := Function.update_same _ _ _
  rw [hm]
  dsimp only
  rw [hidx, if_neg (by omega), Int.toNat_ofNat]
  have e : ∀ X : iobuf_arena,
      set_arena (if Y.passive_cnt = 0 then
          arenas_list_add_tail (arena_list_del (set_arena p a Y) a) i a
        else set_arena p a Y) a X =
      set_arena (if Y.passive_cnt = 0 then arenas_list_add_tail (arena_list_del p a) i a
        else p) a X := by
    intro X
    split
    · simp [set_arena, arenas_list_add_tail, arena_list_del]
    · simp [set_arena]
  rw [e]

theorem put_arena_slot (A : iobuf_arena) (k : Nat) (sL sR : iobuf)
    (h1 : sL.free_ptr = some sR.ptr) (h2 : sR.free_ptr = none) (h3 : sL.ref = sR.ref)
    (h4 : sL.iobuf_arena = sR.iobuf_arena) (h5 : sL.page_size = sR.page_size) :
    __iobuf_put_arena (arena_set_iobuf A k sL) k = __iobuf_put_arena (arena_set_iobuf A k sR) k := by
  unfold __iobuf_put_arena arena_set_iobuf
  simp only [iobuf_list_del, list_add, Function.update_same, h1, h2, Function.update_idem]
  congr 1
  apply congrArg
  cases sL
  cases sR
  simp_all

theorem unref_slot_eq (p : iobuf_pool) (a k : Nat) (A : iobuf_arena) (hA : p.mem a = some A)
    (hr : (A.iobufs k).ref = 1) :
    (iobuf_unref p (.carved a k)).2 =
      __iobuf_put (set_arena p a
        (arena_set_iobuf A k ((fun b : iobuf => { b with ref := b.ref - 1 }) (A.iobufs k))))
        (.carved a k) a := by
  unfold iobuf_unref
  dsimp only
  rw [hA]
  dsimp only
  have hz : (A.iobufs k).ref - 1 = 0 := by omega
  rw [if_pos hz, modify_iobuf_slot p a k _ A hA]
  rfl

theorem arena_set_iobuf_twice (A : iobuf_arena) (k : Nat) (s t : iobuf) :
    arena_set_iobuf (arena_set_iobuf A k s) k t = arena_set_iobuf A k t := by
  unfold arena_set_iobuf
  simp

/-- Unreferencing an arena buffer right after `iobuf_align` gives the pool that
unreferencing it without the alignment gives, when the buffer had no saved pointer. -/
theorem unref_align_eq (p : iobuf_pool) (a k : Nat) (A : iobuf_arena) (hA : p.mem a = some A)
    (hr : (A.iobufs k).ref = 1) (hfp : (A.iobufs k).free_ptr = none) (al i : Nat)
    (hidx : gf_iobuf_get_arena_index A.page_size = (i : Int)) :
    (iobuf_unref (modify_iobuf p a k (iobuf_align al)) (.carved a k)).2 =
      (iobuf_unref p (.carved a k)).2 := by
  have hL : (modify_iobuf p a k (iobuf_align al)).mem a =
      some (arena_set_iobuf A k (iobuf_align al (A.iobufs k))) := by
    rw [modify_iobuf_slot p a k _ A hA]
    exact Function.update_same _ _ _
  have hs : (arena_set_iobuf A k (iobuf_align al (A.iobufs k))).iobufs k =
      iobuf_align al (A.iobufs k) := Function.update_same _ _ _
  rw [unref_slot_eq _ a k _ hL (by rw [hs, iobuf_align_ref, hr]),
    unref_slot_eq p a k A hA hr, hs, modify_iobuf_slot p a k _ A hA, set_arena_set_arena,
    arena_set_iobuf_twice]
  rw [put_set_arena p a k (arena_set_iobuf A k
      ((fun b : iobuf => { b with ref := b.ref - 1 }) (iobuf_align al (A.iobufs k)))) i hidx,
    put_set_arena p a k (arena_set_iobuf A k
      ((fun b : iobuf => { b with ref := b.ref - 1 }) (A.iobufs k))) i hidx]
  have e := put_arena_slot A k
    ((fun b : iobuf => { b with ref := b.ref - 1 }) (iobuf_align al (A.iobufs k)))
    ((fun b : iobuf => { b with ref := b.ref - 1 }) (A.iobufs k))
    (by simp [iobuf_align, hfp]) hfp rfl rfl rfl
  rw [e]
  rfl

/-! # Claims -/

/-- C1: the class table is strictly ascending in page size (128, 512, 2 KiB, 8 KiB,
32 KiB, 128 KiB, 256 KiB, 1 MiB); for every request size `n` both lookups answer the
smallest class whose page size is at least `n` (its index, and for
`gf_iobuf_get_pagesize` also its page size), such a class exists unless `n` exceeds
1 MiB, and the lookups answer "no class" (`-1`, respectively `(size_t)-1` with `*index`
untouched) exactly when `n` exceeds 1 MiB. -/
theorem C1_class_lookup :
    List.Pairwise (fun a b => a < b) (gf_iobuf_init_config.map (fun c => c.pagesize)) ∧
    gf_iobuf_init_config.map (fun c => c.pagesize) =
      [128, 512, 2048, 8192, 32768, 131072, 262144, 1048576] ∧
    ∀ n : Nat,
      (gf_iobuf_get_arena_index n = -1 ↔ 1048576 < n) ∧
      (∀ idx, gf_iobuf_get_pagesize n idx = (SIZE_MAX, idx) ↔ 1048576 < n) ∧
      (1048576 < n ∨ ∃ i, smallest_class n i) ∧
      (∀ i : Nat, gf_iobuf_get_arena_index n = (i : Int) ↔ smallest_class n i) ∧
      (∀ (i : Nat) (idx : Int),
        gf_iobuf_get_pagesize n idx = (config_pagesize i, (i : Int)) ↔ smallest_class n i) :=
  ⟨by decide, by decide, lookup_spec⟩

/-- C2 (as stated, refuted): with threshold 131072 the request `iobuf_get2 (pool, 131073)`
on the freshly created pool succeeds with slot 7 of arena 6, and `iobuf_size` of that
buffer is 262144, the page size of its class, not the requested 131073. -/
theorem C2_counterexample :
    Reachable 131072 demo_pool ∧ 131072 < 131073 ∧ 131073 ≤ 1048576 ∧
    (iobuf_get2 131072 (env_ok 0 0) demo_pool 131073).1 = some (.carved 6 7) ∧
    iobuf_size (iobuf_get2 131072 (env_ok 0 0) demo_pool 131073).2 (.carved 6 7) = 262144 ∧
    iobuf_size (iobuf_get2 131072 (env_ok 0 0) demo_pool 131073).2 (.carved 6 7) ≠ 131073 :=
  ⟨demo_pool_reachable 131072, by decide, by decide, by decide, by decide, by decide⟩

/-- C2 (amended): for every size `n` with `S < n ≤ 1 MiB`, a successful
`iobuf_get2 (pool, n)` on a reachable pool returns an arena-backed buffer `B` (with count
1) whose arena is of the smallest class fitting `n`; `iobuf_size (B)` is the page size of
that class, which is the `page_size` of the arena of `B` and is at least `n`. -/
theorem C2_get2_arena_backed (S : Nat) (p : iobuf_pool) (hp : Reachable S p)
    (o : alloc_env) (n : Nat) (hS : S < n) (hn : n ≤ 1048576) (h : iobuf_ptr)
    (q : iobuf_pool) (hg : iobuf_get2 S o p n = (some h, q)) :
    ∃ a k A i, h = .carved a k ∧ q.mem a = some A ∧ k < A.page_count ∧
      smallest_class n i ∧ A.page_size = config_pagesize i ∧
      iobuf_size q h = A.page_size ∧ n ≤ A.page_size ∧ (A.iobufs k).ref = 1 := by
  obtain ⟨a, k, A, i, rfl, hA, hsc, hc, hk, href, hps, _⟩ :=
    get2_arena_path hp o n hS hn h q hg
  refine ⟨a, k, A, i, rfl, hA, hk, hsc, hc.1, ?_, ?_, href⟩
  · simp only [iobuf_size, hA, hps, hc.1]
  · rw [hc.1]; exact hsc.2.1

/-- C2 (amended), instance: the request of 131073 bytes with threshold 131072 on the
freshly created pool. -/
theorem C2_get2_arena_backed_witness :
    ∃ a k A i, iobuf_ptr.carved 6 7 = .carved a k ∧ demo_pool_get.mem a = some A ∧
      k < A.page_count ∧ smallest_class 131073 i ∧ A.page_size = config_pagesize i ∧
      iobuf_size demo_pool_get (.carved 6 7) = A.page_size ∧ 131073 ≤ A.page_size ∧
      (A.iobufs k).ref = 1 :=
  C2_get2_arena_backed 131072 demo_pool (demo_pool_reachable 131072) (env_ok 0 0) 131073
    (by decide) (by decide) (.carved 6 7) demo_pool_get rfl

/-- C3: in every pool state reachable from `iobuf_pool_new` by `iobuf_get2`,
`iobuf_get_page_aligned`, `iobuf_ref`, `iobuf_unref` and `iobuf_pool_prune`, every live
arena `A` has `passive_cnt + active_cnt = page_count`. -/
theorem C3_counters_sum (S : Nat) (p : iobuf_pool) (hp : Reachable S p) (a : Nat)
    (A : iobuf_arena) (hA : p.mem a = some A) :
    A.passive_cnt + A.active_cnt = (A.page_count : Int) :=
  ((reachable_inv hp).mem_ok a A hA).sum

/-- C3, instance: arena 6 of the pool after one hand-out from it (7 passive, 1 active,
8 pages). -/
theorem C3_counters_sum_witness :
    demo_pool_get.mem 6 = some (arena_at demo_pool_get 6) ∧
    (arena_at demo_pool_get 6).passive_cnt + (arena_at demo_pool_get 6).active_cnt =
      ((arena_at demo_pool_get 6).page_count : Int) ∧
    (arena_at demo_pool_get 6).active_cnt = 1 :=
  ⟨rfl, C3_counters_sum 131072 demo_pool_get demo_pool_get_reachable 6
    (arena_at demo_pool_get 6) rfl, by decide⟩

/-- C4: in every reachable pool state and for every fixed class `i`, every arena on
`arenas[i]` has `passive_cnt > 0`, every arena on `filled[i]` has `passive_cnt = 0` and
`active_cnt > 0`, and every arena on `purge[i]` has `active_cnt = 0`. -/
theorem C4_list_counters (S : Nat) (p : iobuf_pool) (hp : Reachable S p) (i : Nat)
    (hi : i < IOBUF_ARENA_MAX_INDEX) :
    (∀ a, a ∈ p.arenas i → ∃ A, p.mem a = some A ∧ 0 < A.passive_cnt) ∧
    (∀ a, a ∈ p.filled i → ∃ A, p.mem a = some A ∧ A.passive_cnt = 0 ∧ 0 < A.active_cnt) ∧
    (∀ a, a ∈ p.purge i → ∃ A, p.mem a = some A ∧ A.active_cnt = 0) := by
  have h := reachable_inv hp
  refine ⟨fun a ha => ?_, fun a ha => ?_, fun a ha => ?_⟩
  · obtain ⟨A, hA, _, h1⟩ := h.arenas_ok i hi a ha; exact ⟨A, hA, h1⟩
  · obtain ⟨A, hA, _, h1, h2⟩ := h.filled_ok i hi a ha; exact ⟨A, hA, h1, h2⟩
  · obtain ⟨A, hA, _, h1⟩ := h.purge_ok i hi a ha; exact ⟨A, hA, h1⟩

/-- C4, instance: class 6 of the pool after one hand-out. -/
theorem C4_list_counters_witness :
    demo_pool_get.arenas 6 = [6] ∧
    (∀ a, a ∈ demo_pool_get.arenas 6 → ∃ A, demo_pool_get.mem a = some A ∧ 0 < A.passive_cnt) ∧
    (∀ a, a ∈ demo_pool_get.filled 6 →
      ∃ A, demo_pool_get.mem a = some A ∧ A.passive_cnt = 0 ∧ 0 < A.active_cnt) ∧
    (∀ a, a ∈ demo_pool_get.purge 6 → ∃ A, demo_pool_get.mem a = some A ∧ A.active_cnt = 0) :=
  ⟨by decide, C4_list_counters 131072 demo_pool_get demo_pool_get_reachable 6 (by decide)⟩

/-- C5: in every pool state reachable with `iobuf_ref` and `iobuf_unref` only called on
buffers whose count is positive, every buffer on an arena's passive list has count 0 and
every buffer on an arena's active list has count at least 1. -/
theorem C5_refcounts (S : Nat) (p : iobuf_pool) (hp : Reachable S p) (a : Nat)
    (A : iobuf_arena) (hA : p.mem a = some A) :
    (∀ k, k ∈ A.passive_list → (A.iobufs k).ref = 0) ∧
    (∀ k, k ∈ A.active_list → 1 ≤ (A.iobufs k).ref) :=
  ⟨fun k hk => (((reachable_inv hp).mem_ok a A hA).passive_ref k hk).2,
    fun k hk => (((reachable_inv hp).mem_ok a A hA).active_ref k hk).2⟩

/-- C5, instance: arena 6 of the pool after one hand-out; slot 7 is active. -/
theorem C5_refcounts_witness :
    demo_pool_get.mem 6 = some (arena_at demo_pool_get 6) ∧
    (arena_at demo_pool_get 6).active_list = [7] ∧
    (∀ k, k ∈ (arena_at demo_pool_get 6).passive_list →
      ((arena_at demo_pool_get 6).iobufs k).ref = 0) ∧
    (∀ k, k ∈ (arena_at demo_pool_get 6).active_list →
      1 ≤ ((arena_at demo_pool_get 6).iobufs k).ref) :=
  ⟨rfl, by decide, C5_refcounts 131072 demo_pool_get demo_pool_get_reachable 6
    (arena_at demo_pool_get 6) rfl⟩

/-- C6: small-path isolation.  For every size `n` with `0 < n ≤ S` and any pool,
`iobuf_get2 (pool, n)` leaves the pool as it was; it returns a buffer whenever the two
standard allocations succeed, and a buffer it returns has no arena, count 1 and
`iobuf_size = n`; the following `iobuf_unref` of that buffer leaves the pool as it was
too. -/
theorem C6_small_path (S : Nat) (p : iobuf_pool) (o : alloc_env) (n : Nat) (h0 : 0 < n)
    (hn : n ≤ S) :
    (iobuf_get2 S o p n).2 = p ∧
    (o.iobuf = true → ∀ d, o.data = some d → (iobuf_get2 S o p n).1 ≠ none) ∧
    ∀ h, (iobuf_get2 S o p n).1 = some h →
      ∃ b, h = .heap b ∧ b.iobuf_arena = none ∧ b.ref = 1 ∧ b.page_size = n ∧
        iobuf_size p h = n ∧ (iobuf_unref p h).2 = p := by
  have hn0 : n ≠ 0 := by omega
  rcases get2_cases S o p n n (by rw [if_neg hn0]) with ⟨_, e⟩ | ⟨c, _, _⟩ | ⟨c, _⟩
  · rw [e]
    refine ⟨rfl, ?_, ?_⟩
    · intro ho d hd
      simp [iobuf_get_from_small, ho, hd]
    · intro h hh
      unfold iobuf_get_from_small at hh
      by_cases ho : o.iobuf = false
      · rw [if_pos ho] at hh; cases hh
      · rw [if_neg ho] at hh
        cases hd : o.data with
        | none => rw [hd] at hh; cases hh
        | some d =>
          rw [hd] at hh
          dsimp only [Option.map] at hh
          injection hh with hh
          subst hh
          refine ⟨_, rfl, rfl, rfl, rfl, rfl, ?_⟩
          simp only [iobuf_unref, iobuf_put_heap, ite_self]
  · omega
  · omega

/-- C6, instance: `iobuf_get2 (pool, 64)` with threshold 131072 on the fresh pool. -/
theorem C6_small_path_witness :
    0 < 64 ∧ 64 ≤ 131072 ∧
    (iobuf_get2 131072 (env_ok 0 4096) demo_pool 64).2 = demo_pool ∧
    ((env_ok 0 4096).iobuf = true → ∀ d, (env_ok 0 4096).data = some d →
      (iobuf_get2 131072 (env_ok 0 4096) demo_pool 64).1 ≠ none) ∧
    ∀ h, (iobuf_get2 131072 (env_ok 0 4096) demo_pool 64).1 = some h →
      ∃ b, h = .heap b ∧ b.iobuf_arena = none ∧ b.ref = 1 ∧ b.page_size = 64 ∧
        iobuf_size demo_pool h = 64 ∧ (iobuf_unref demo_pool h).2 = demo_pool :=
  ⟨by decide, by decide,
    C6_small_path 131072 demo_pool (env_ok 0 4096) 64 (by decide) (by decide)⟩

/-- C7: overflow boundary, for a threshold `S` below 1 MiB.  On a reachable pool,
`iobuf_get2 (pool, 1 MiB)` leaves `request_misses` unchanged and a buffer it returns is a
page of an arena of the largest fixed class (page size 1 MiB).  For every `n` above
1 MiB, `iobuf_get2 (pool, n)` changes the pool only by adding 1 to `request_misses`
(whether or not the standard allocation succeeds); it returns a buffer whenever the two
standard allocations succeed, and a buffer it returns is stand-alone, points to the
arena at the head of the overflow slot `arenas[IOBUF_ARENA_MAX_INDEX]`, has count 1 and
`iobuf_size = n`. -/
theorem C7_overflow_boundary (S : Nat) (p : iobuf_pool) (hp : Reachable S p)
    (o : alloc_env) (hS : S < 1048576) :
    ((iobuf_get2 S o p 1048576).2.request_misses = p.request_misses ∧
      ∀ h, (iobuf_get2 S o p 1048576).1 = some h →
        ∃ a k A, h = .carved a k ∧ (iobuf_get2 S o p 1048576).2.mem a = some A ∧
          k < A.page_count ∧ arena_class A 7 ∧ A.page_size = 1048576 ∧
          (A.iobufs k).ref = 1) ∧
    ∀ n, 1048576 < n →
      (iobuf_get2 S o p n).2 = { p with request_misses := p.request_misses + 1 } ∧
      (o.iobuf = true → ∀ d, o.data = some d → (iobuf_get2 S o p n).1 ≠ none) ∧
      ∀ h, (iobuf_get2 S o p n).1 = some h →
        ∃ b, h = .heap b ∧ b.iobuf_arena = (p.arenas IOBUF_ARENA_MAX_INDEX).head? ∧
          b.ref = 1 ∧ b.page_size = n ∧
          iobuf_size (iobuf_get2 S o p n).2 h = n := by
  refine ⟨?_, ?_⟩
  · rcases get2_cases S o p 1048576 1048576 (by simp) with ⟨c, _⟩ | ⟨_, c, _⟩ | ⟨_, i, hsc, e⟩
    · omega
    · omega
    · have hfr := get_scalars o p (config_pagesize i) i
      refine ⟨?_, ?_⟩
      · rw [e]
        cases hget : __iobuf_get o p (config_pagesize i) i with
        | mk r p1 =>
          rw [hget] at hfr
          cases r with
          | none => exact hfr.2.1
          | some ak =>
            obtain ⟨a, k⟩ := ak
            exact (scalars_eq_trans hfr (ref_scalars p1 _)).2.1
      · intro h hh
        cases hg : iobuf_get2 S o p 1048576 with
        | mk r q =>
          rw [hg] at hh
          dsimp only at hh
          subst hh
          obtain ⟨a, k, A, j, rfl, hA, hsj, hc, hk, href, _, _⟩ :=
            get2_arena_path hp o 1048576 hS (le_refl _) h q hg
          have hj7 : j = 7 := by
            obtain ⟨hj8, hle, _⟩ := hsj
            have h8 : j < 8 := hj8
            obtain ⟨h0, h1, h2, h3, h4, h5, h6, h7⟩ := config_pagesize_vals
            interval_cases j <;> omega
          subst hj7
          exact ⟨a, k, A, rfl, hA, hk, hc, by rw [hc.1]; exact config_pagesize_vals.2.2.2.2.2.2.2,
            href⟩
  · intro n hn
    have hn0 : n ≠ 0 := by omega
    rcases get2_cases S o p n n (by rw [if_neg hn0]) with ⟨c, _⟩ | ⟨_, _, e⟩ | ⟨_, i, hsc, _⟩
    · omega
    · rw [e]
      refine ⟨rfl, ?_, ?_⟩
      · intro ho d hd
        simp [iobuf_get_from_stdalloc, ho, hd]
      · intro h hh
        unfold iobuf_get_from_stdalloc at hh
        dsimp only at hh
        by_cases ho : o.iobuf = false
        · rw [if_pos ho] at hh; cases hh
        · rw [if_neg ho] at hh
          cases hd : o.data with
          | none => rw [hd] at hh; cases hh
          | some d =>
            rw [hd] at hh
            dsimp only [Option.map] at hh
            injection hh with hh
            subst hh
            exact ⟨_, rfl, rfl, rfl, rfl, rfl⟩
    · have := (config_pagesize_le i hsc.1).1
      have := hsc.2.1
      omega

/-- C7, instance: threshold 131072 on the fresh pool, whose overflow arena is object 8
with page size `0x7fffffff`. -/
theorem C7_overflow_boundary_witness :
    (demo_pool.arenas IOBUF_ARENA_MAX_INDEX).head? = some 8 ∧
    (arena_at demo_pool 8).page_size = 0x7fffffff ∧
    (iobuf_get2 131072 (env_ok 0 4096) demo_pool 1048576).1 = some (.carved 7 1) ∧
    (iobuf_get2 131072 (env_ok 0 4096) demo_pool 1048577).1 =
      some (.heap ⟨some 8, 1, 4096, some 4096, 1048577⟩) ∧
    (((iobuf_get2 131072 (env_ok 0 4096) demo_pool 1048576).2.request_misses =
        demo_pool.request_misses ∧
      ∀ h, (iobuf_get2 131072 (env_ok 0 4096) demo_pool 1048576).1 = some h →
        ∃ a k A, h = .carved a k ∧
          (iobuf_get2 131072 (env_ok 0 4096) demo_pool 1048576).2.mem a = some A ∧
          k < A.page_count ∧ arena_class A 7 ∧ A.page_size = 1048576 ∧
          (A.iobufs k).ref = 1) ∧
    ∀ n, 1048576 < n →
      (iobuf_get2 131072 (env_ok 0 4096) demo_pool n).2 =
        { demo_pool with request_misses := demo_pool.request_misses + 1 } ∧
      ((env_ok 0 4096).iobuf = true → ∀ d, (env_ok 0 4096).data = some d →
        (iobuf_get2 131072 (env_ok 0 4096) demo_pool n).1 ≠ none) ∧
      ∀ h, (iobuf_get2 131072 (env_ok 0 4096) demo_pool n).1 = some h →
        ∃ b, h = .heap b ∧ b.iobuf_arena = (demo_pool.arenas IOBUF_ARENA_MAX_INDEX).head? ∧
          b.ref = 1 ∧ b.page_size = n ∧
          iobuf_size (iobuf_get2 131072 (env_ok 0 4096) demo_pool n).2 h = n) :=
  ⟨by decide, by decide, by decide, by decide,
    C7_overflow_boundary 131072 demo_pool (demo_pool_reachable 131072) (env_ok 0 4096)
      (by decide)⟩

/-- C8: on a reachable pool `iobuf_get2 (pool, 0)` is `iobuf_get2 (pool,
default_page_size)`, `default_page_size` is 128 KiB = 131072, and a buffer it returns has
`iobuf_size = 131072`, whatever the threshold `S`. -/
theorem C8_default_size (S : Nat) (p : iobuf_pool) (hp : Reachable S p) (o : alloc_env) :
    iobuf_get2 S o p 0 = iobuf_get2 S o p p.default_page_size ∧
    p.default_page_size = 131072 ∧
    ∀ h, (iobuf_get2 S o p 0).1 = some h → iobuf_size (iobuf_get2 S o p 0).2 h = 131072 := by
  have hd := reachable_default_page_size hp
  refine ⟨?_, hd, ?_⟩
  · unfold iobuf_get2
    simp [hd]
  · intro h hh
    rcases get2_cases S o p 0 131072 (by simp [hd]) with ⟨_, e⟩ | ⟨_, c, _⟩ | ⟨hS, _⟩
    · rw [e] at hh ⊢
      unfold iobuf_get_from_small at hh
      by_cases ho : o.iobuf = false
      · rw [if_pos ho] at hh; cases hh
      · rw [if_neg ho] at hh
        cases hdat : o.data with
        | none => rw [hdat] at hh; cases hh
        | some d =>
          rw [hdat] at hh
          dsimp only [Option.map] at hh
          injection hh with hh
          subst hh
          rfl
    · omega
    · have e0 : iobuf_get2 S o p 0 = iobuf_get2 S o p 131072 := by
        unfold iobuf_get2
        simp [hd]
      rw [e0] at hh ⊢
      cases hg : iobuf_get2 S o p 131072 with
      | mk r q =>
        rw [hg] at hh
        dsimp only at hh
        subst hh
        obtain ⟨a, k, A, i, rfl, hA, hsc, hc, _, _, hps, _⟩ :=
          get2_arena_path hp o 131072 hS (by decide) h q hg
        have hi5 : i = 5 := by
          obtain ⟨hj8, hle, hmin⟩ := hsc
          have h8 : i < 8 := hj8
          obtain ⟨h0, h1, h2, h3, h4, h5, h6, h7⟩ := config_pagesize_vals
          interval_cases i
          · omega
          · omega
          · omega
          · omega
          · omega
          · rfl
          · have := hmin 5 (by decide); omega
          · have := hmin 5 (by decide); omega
        subst hi5
        simp only [iobuf_size, hA, hps]
        exact config_pagesize_vals.2.2.2.2.2.1

/-- C8, instance: the fresh pool with threshold 4096 (slot 31 of arena 5, class
128 KiB) and with threshold 131072 (small path). -/
theorem C8_default_size_witness :
    (iobuf_get2 4096 (env_ok 0 4096) demo_pool 0).1 = some (.carved 5 31) ∧
    (iobuf_get2 131072 (env_ok 0 4096) demo_pool 0).1 =
      some (.heap ⟨none, 1, 4096, some 4096, 131072⟩) ∧
    (iobuf_get2 4096 (env_ok 0 4096) demo_pool 0 =
      iobuf_get2 4096 (env_ok 0 4096) demo_pool demo_pool.default_page_size ∧
    demo_pool.default_page_size = 131072 ∧
    ∀ h, (iobuf_get2 4096 (env_ok 0 4096) demo_pool 0).1 = some h →
      iobuf_size (iobuf_get2 4096 (env_ok 0 4096) demo_pool 0).2 h = 131072) :=
  ⟨by decide, by decide,
    C8_default_size 4096 demo_pool (demo_pool_reachable 4096) (env_ok 0 4096)⟩

/-- C34: the class lookup done on return finds the class again.  For every request size
`n` whose smallest fitting class is `i`, `gf_iobuf_get_arena_index` of the rounded size
`gf_iobuf_get_pagesize (n)` is `i`, and rounding the rounded size again changes nothing;
an arena of class `i` is classified as `i`.  For the page size `0x7fffffff` of the
overflow arena the lookup answers `-1`, and returning a stand-alone buffer that points
to an arena with that page size leaves the whole pool (lists, counters, arena objects)
as it was. -/
theorem C34_lookup_on_return (n i : Nat) (idx : Int) (h : smallest_class n i) :
    gf_iobuf_get_arena_index (gf_iobuf_get_pagesize n idx).1 = (i : Int) ∧
    gf_iobuf_get_pagesize (gf_iobuf_get_pagesize n idx).1 idx = gf_iobuf_get_pagesize n idx ∧
    (∀ A : iobuf_arena, arena_class A i → gf_iobuf_get_arena_index A.page_size = (i : Int)) ∧
    gf_iobuf_get_arena_index 0x7fffffff = -1 ∧
    ∀ (p : iobuf_pool) (b : iobuf) (s : Nat) (A : iobuf_arena),
      b.iobuf_arena = some s → p.mem s = some A → A.page_size = 0x7fffffff →
      gf_iobuf_get_arena_index A.page_size = -1 ∧
      __iobuf_put p (.heap b) s = p ∧ iobuf_put p (.heap b) = p ∧
      (iobuf_unref p (.heap b)).2 = p := by
  have e := ((lookup_spec n).2.2.2.2 i idx).2 h
  have hneg : gf_iobuf_get_arena_index 0x7fffffff = -1 :=
    (lookup_spec 0x7fffffff).1.2 (by decide)
  refine ⟨?_, ?_, fun A hA => arena_index_of_class h.1 hA, hneg, ?_⟩
  · rw [e]; exact arena_index_config i h.1
  · rw [e]; exact pagesize_config i h.1 idx
  · intro p b s A hb hs hps
    refine ⟨by rw [hps]; exact hneg, ?_, iobuf_put_heap p b, ?_⟩
    · unfold __iobuf_put
      rw [hs]
      dsimp only
      rw [hps, hneg, if_pos rfl]
    · simp only [iobuf_unref, iobuf_put_heap, ite_self]

/-- C34, instance: a request of 3000 bytes (class 3, page size 8192). -/
theorem C34_lookup_on_return_witness :
    smallest_class 3000 3 ∧ gf_iobuf_get_pagesize 3000 0 = (8192, 3) ∧
    (arena_at demo_pool 8).page_size = 0x7fffffff ∧
    (gf_iobuf_get_arena_index (gf_iobuf_get_pagesize 3000 0).1 = ((3 : Nat) : Int) ∧
    gf_iobuf_get_pagesize (gf_iobuf_get_pagesize 3000 0).1 0 = gf_iobuf_get_pagesize 3000 0 ∧
    (∀ A : iobuf_arena, arena_class A 3 →
      gf_iobuf_get_arena_index A.page_size = ((3 : Nat) : Int)) ∧
    gf_iobuf_get_arena_index 0x7fffffff = -1 ∧
    ∀ (p : iobuf_pool) (b : iobuf) (s : Nat) (A : iobuf_arena),
      b.iobuf_arena = some s → p.mem s = some A → A.page_size = 0x7fffffff →
      gf_iobuf_get_arena_index A.page_size = -1 ∧
      __iobuf_put p (.heap b) s = p ∧ iobuf_put p (.heap b) = p ∧
      (iobuf_unref p (.heap b)).2 = p) :=
  ⟨smallest_class_self_3000, by decide, by decide,
    C34_lookup_on_return 3000 3 0 smallest_class_self_3000⟩

/-- C31: arena carving.  When `__iobuf_arena_alloc` returns a new arena for class `i`
(page size `p`, `N` pages, mapped at `mem_base`), its size is `p * N`, the buffer in slot
`k < N` has data pointer `mem_base + k * p`, no saved pointer and a back pointer to the
arena; the passive list holds exactly the `N` slots (last carved first),
`passive_cnt = N` and nothing is active; the page ranges `[ptr, ptr + p)` of distinct
slots are disjoint and lie inside `[mem_base, mem_base + arena_size)`; and every offset
`k * p` with `k ≤ N` is below `2 ^ 31`, the range of the `int` variable `offset`. -/
theorem C31_arena_carving (o : alloc_env) (p : iobuf_pool) (i : Nat)
    (hi : i < IOBUF_ARENA_MAX_INDEX) (a : Nat)
    (h : (__iobuf_arena_alloc o p (config_pagesize i) (config_num_pages i)).1 = some a) :
    ∃ A, (__iobuf_arena_alloc o p (config_pagesize i) (config_num_pages i)).2.mem a = some A ∧
      o.mmap = some A.mem_base ∧
      A.page_size = config_pagesize i ∧ A.page_count = config_num_pages i ∧
      A.arena_size = A.page_size * A.page_count ∧
      (∀ k, k < A.page_count →
        (A.iobufs k).ptr = A.mem_base + k * A.page_size ∧
        (A.iobufs k).iobuf_arena = some a ∧ (A.iobufs k).free_ptr = none ∧
        A.mem_base ≤ (A.iobufs k).ptr ∧
        (A.iobufs k).ptr + A.page_size ≤ A.mem_base + A.arena_size) ∧
      A.passive_list = (List.range A.page_count).reverse ∧
      (∀ k, k ∈ A.passive_list ↔ k < A.page_count) ∧
      A.passive_cnt = (A.page_count : Int) ∧ A.active_list = [] ∧ A.active_cnt = 0 ∧
      (∀ j k, j < A.page_count → k < A.page_count → j ≠ k →
        (A.iobufs j).ptr + A.page_size ≤ (A.iobufs k).ptr ∨
        (A.iobufs k).ptr + A.page_size ≤ (A.iobufs j).ptr) ∧
      (∀ k, k ≤ A.page_count → k * A.page_size < 2 ^ 31) := by
  obtain ⟨base, hb, ha, hmem, _, _⟩ := arena_alloc_some o p _ _ a h
  rw [pagesize_config i hi] at hmem
  dsimp only at hmem
  refine ⟨_, hmem, ?_⟩
  unfold __iobuf_arena_init_iobufs
  dsimp only
  obtain ⟨c1, _, c3, c4, c5⟩ := init_loop_carve a (config_num_pages i) 0 0
    { page_size := config_pagesize i,
      arena_size := config_pagesize i * config_num_pages i % 2 ^ 64,
      page_count := config_num_pages i, mem_base := base, iobufs := fun _ => iobuf_zero,
      passive_list := [], active_list := [], alloc_cnt := 0, active_cnt := 0,
      passive_cnt := 0, max_active := 0 }
  obtain ⟨s1, _, _, _, s5, s6, s7, s8⟩ := init_loop_spec a (config_num_pages i) 0 0
    { page_size := config_pagesize i,
      arena_size := config_pagesize i * config_num_pages i % 2 ^ 64,
      page_count := config_num_pages i, mem_base := base, iobufs := fun _ => iobuf_zero,
      passive_list := [], active_list := [], alloc_cnt := 0, active_cnt := 0,
      passive_cnt := 0, max_active := 0 } rfl List.nodup_nil (by simp)
    (by intro k; simp [iobuf_zero]) rfl rfl
  dsimp only at c1 c3 c4 c5 s1 s5 s6 s7 s8
  simp only [Nat.zero_add, Nat.add_zero, Nat.sub_zero, List.append_nil] at c1 c5 s1
  have hsize : config_pagesize i * config_num_pages i % 2 ^ 64 =
      config_pagesize i * config_num_pages i := by
    apply Nat.mod_eq_of_lt
    have h8 : i < 8 := hi
    obtain ⟨h0, h1, h2, h3, h4, h5, h6, h7⟩ := config_pagesize_vals
    obtain ⟨n0, n1, n2, n3, n4, n5, n6, n7⟩ := config_num_pages_vals
    interval_cases i <;> simp [*]
  generalize __iobuf_arena_init_iobufs_loop a (config_num_pages i) 0 0
    { page_size := config_pagesize i,
      arena_size := config_pagesize i * config_num_pages i % 2 ^ 64,
      page_count := config_num_pages i, mem_base := base, iobufs := fun _ => iobuf_zero,
      passive_list := [], active_list := [], alloc_cnt := 0, active_cnt := 0,
      passive_cnt := 0, max_active := 0 } = B at c1 c3 c4 c5 s1 s5 s6 s7 s8 ⊢
  have hptr : ∀ k, k < config_num_pages i →
      (B.iobufs k).ptr = base + k * config_pagesize i := fun k hk => (c1 k (Nat.zero_le _) hk).1
  have hmul : ∀ j k : Nat, j < k → j * config_pagesize i + config_pagesize i ≤
      k * config_pagesize i := by
    intro j k hjk
    have : (j + 1) * config_pagesize i ≤ k * config_pagesize i :=
      Nat.mul_le_mul_right _ hjk
    rw [Nat.add_mul, Nat.one_mul] at this
    exact this
  rw [s7, s8, c3, c4, hsize, s5, s6]
  refine ⟨hb.trans rfl, rfl, rfl, rfl, ?_, ?_, ?_, s1, rfl, rfl, ?_, ?_⟩
  · intro k hk
    obtain ⟨p1, p2, p3⟩ := c1 k (Nat.zero_le _) hk
    refine ⟨p1, p2, p3, by rw [p1]; omega, ?_⟩
    rw [p1]
    have := hmul k (config_num_pages i) hk
    rw [Nat.mul_comm (config_pagesize i) (config_num_pages i)]
    omega
  · rw [c5]; simp [List.range_eq_range']
  · intro k; rw [c5]; simp
  · intro j k hj hk hjk
    rw [hptr j hj, hptr k hk]
    rcases Nat.lt_or_gt_of_ne hjk with c | c
    · left; have := hmul j k c; omega
    · right; have := hmul k j c; omega
  · intro k hk
    have h8 : i < 8 := hi
    obtain ⟨h0, h1, h2, h3, h4, h5, h6, h7⟩ := config_pagesize_vals
    obtain ⟨n0, n1, n2, n3, n4, n5, n6, n7⟩ := config_num_pages_vals
    interval_cases i <;>
      simp only [h0, h1, h2, h3, h4, h5, h6, h7, n0, n1, n2, n3, n4, n5, n6, n7] at hk ⊢ <;>
      omega

/-- C31, instance: a class-7 arena (two pages of 1 MiB) mapped at 4096 in an empty
pool. -/
theorem C31_arena_carving_witness :
    (__iobuf_arena_alloc (env_ok 4096 0) empty_pool (config_pagesize 7)
      (config_num_pages 7)).1 = some 0 ∧
    (∃ A, (__iobuf_arena_alloc (env_ok 4096 0) empty_pool (config_pagesize 7) (config_num_pages 7)).2.mem 0 = some A ∧
      (env_ok 4096 0).mmap = some A.mem_base ∧
      A.page_size = config_pagesize 7 ∧ A.page_count = config_num_pages 7 ∧
      A.arena_size = A.page_size * A.page_count ∧
      (∀ k, k < A.page_count →
        (A.iobufs k).ptr = A.mem_base + k * A.page_size ∧
        (A.iobufs k).iobuf_arena = some 0 ∧ (A.iobufs k).free_ptr = none ∧
        A.mem_base ≤ (A.iobufs k).ptr ∧
        (A.iobufs k).ptr + A.page_size ≤ A.mem_base + A.arena_size) ∧
      A.passive_list = (List.range A.page_count).reverse ∧
      (∀ k, k ∈ A.passive_list ↔ k < A.page_count) ∧
      A.passive_cnt = (A.page_count : Int) ∧ A.active_list = [] ∧ A.active_cnt = 0 ∧
      (∀ j k, j < A.page_count → k < A.page_count → j ≠ k →
        (A.iobufs j).ptr + A.page_size ≤ (A.iobufs k).ptr ∨
        (A.iobufs k).ptr + A.page_size ≤ (A.iobufs j).ptr) ∧
      (∀ k, k ≤ A.page_count → k * A.page_size < 2 ^ 31)) :=
  ⟨by decide, C31_arena_carving (env_ok 4096 0) empty_pool 7 (by decide) 0 (by decide)⟩

/-- C14: bundle ordering invariant.  In every bundle built by `iobref_new`,
`iobref_add` and `iobref_merge` (no clear, no destroy), `used ≤ allocated`, the slots at
indices `[0, used)` are all non-null and the slots at `[used, allocated)` are all null;
and each successful `__iobref_add` on such a bundle stores the buffer (the pointer that
`iobuf_ref` returns) at the index equal to the previous value of `used`. -/
theorem C14_bundle_ordering {σ β : Type} (ops : buf_ops σ β) (X : iobref β)
    (h : iobref_built ops X) :
    iobref_ordered X ∧
    ∀ (grow_ok : Bool) (s : σ) (b : β), (__iobref_add ops grow_ok s X b).1 = 0 →
      (__iobref_add ops grow_ok s X b).2.1.iobrefs.get? X.used =
        some (some (ops.iobuf_ref s b).1) ∧
      iobref_ordered (__iobref_add ops grow_ok s X b).2.1 := by
  obtain ⟨held, hs⟩ := built_shape ops X h
  refine ⟨shape_ordered X held hs, fun grow_ok s b hret => ?_⟩
  obtain ⟨g1, g2⟩ := add_shape ops grow_ok s X b held hs
  by_cases hc : X.used < X.allocated ∨ (grow_ok = true ∧ 0 < X.allocated)
  · obtain ⟨_, _, hs2, _, _, _⟩ := g1 hc
    refine ⟨?_, shape_ordered _ _ hs2⟩
    rw [hs2.1, ← hs.2.1, List.get?_eq_getElem?,
      List.getElem?_append_left (by simp)]
    simp
  · have hu : X.used = X.allocated := by
      have := hs.2.2
      by_contra hne
      exact hc (Or.inl (by omega))
    have hg : grow_ok = false ∨ X.allocated = 0 := by
      by_cases hg : grow_ok = false
      · exact Or.inl hg
      · right
        have hgt : grow_ok = true := by cases grow_ok <;> simp_all
        by_contra hne
        exact hc (Or.inr ⟨hgt, by omega⟩)
    have := (g2 hu hg).1
    rw [hret] at this
    exact absurd this (by decide)

/-- C14, instance: the bundle after `iobref_new` and one `iobref_add` of buffer 5. -/
theorem C14_bundle_ordering_witness :
    (__iobref_add count_ops true (fun _ => 1)
      ⟨List.replicate 16 none, 16, 0, 1⟩ 5).2.1.iobrefs =
      some 5 :: List.replicate 15 none ∧
    (iobref_ordered (__iobref_add count_ops true (fun _ => 1)
      ⟨List.replicate 16 none, 16, 0, 1⟩ 5).2.1 ∧
    ∀ (grow_ok : Bool) (s : Nat → Int) (b : Nat),
      (__iobref_add count_ops grow_ok s (__iobref_add count_ops true (fun _ => 1)
        ⟨List.replicate 16 none, 16, 0, 1⟩ 5).2.1 b).1 = 0 →
      (__iobref_add count_ops grow_ok s (__iobref_add count_ops true (fun _ => 1)
        ⟨List.replicate 16 none, 16, 0, 1⟩ 5).2.1 b).2.1.iobrefs.get?
          (__iobref_add count_ops true (fun _ => 1)
            ⟨List.replicate 16 none, 16, 0, 1⟩ 5).2.1.used =
        some (some (count_ops.iobuf_ref s b).1) ∧
      iobref_ordered (__iobref_add count_ops grow_ok s (__iobref_add count_ops true
        (fun _ => 1) ⟨List.replicate 16 none, 16, 0, 1⟩ 5).2.1 b).2.1) :=
  ⟨by decide, C14_bundle_ordering count_ops _
    (iobref_built.add ⟨List.replicate 16 none, 16, 0, 1⟩ true (fun _ => 1) 5 _
      (iobref_built.new _ rfl) rfl)⟩

/-- C15: the contract of `iobref_add`, with buffers as names and the store their
reference counts.  On a bundle built by the public operations: if `used < allocated` or
the growth of the array succeeds, the call returns 0, `used` grows by 1, the count of
the buffer grows by 1 and no other count changes, the buffer sits in slot `used`, the
slots before it are as they were and the slots after it are `NULL`; if
`used = allocated` and the growth fails the call returns `-ENOMEM` and bundle and store
are unchanged; with a `NULL` bundle or a `NULL` buffer the call returns `-EINVAL` and
nothing changes. -/
theorem C15_add_contract (X : iobref Nat) (h : iobref_built count_ops X) (grow_ok : Bool)
    (s : Nat → Int) (b : Nat) :
    (X.used < X.allocated ∨ grow_ok = true →
      ∃ Y, iobref_add count_ops grow_ok s (some X) (some b) =
          (0, some Y, Function.update s b (s b + 1)) ∧
        Y.used = X.used + 1 ∧ Y.ref = X.ref ∧
        iobref_held Y = iobref_held X ++ [b] ∧
        (∀ i, i < X.used → Y.iobrefs.get? i = X.iobrefs.get? i) ∧
        Y.iobrefs.get? X.used = some (some b) ∧
        (∀ i, X.used < i → i < Y.allocated → Y.iobrefs.get? i = some none)) ∧
    (X.used = X.allocated → grow_ok = false →
      iobref_add count_ops grow_ok s (some X) (some b) = (-ENOMEM, some X, s)) ∧
    (∀ Z : Option (iobref Nat), iobref_add count_ops grow_ok s Z none = (-EINVAL, Z, s)) ∧
    (∀ c : Option Nat, iobref_add count_ops grow_ok s none c = (-EINVAL, none, s)) := by
  obtain ⟨held, hs⟩ := built_shape count_ops X h
  have hpos := built_alloc count_ops X h
  obtain ⟨g1, g2⟩ := add_shape count_ops grow_ok s X b held hs
  refine ⟨fun hc => ?_, fun hu hg => ?_, fun Z => ?_, fun c => ?_⟩
  · have hc2 : X.used < X.allocated ∨ (grow_ok = true ∧ 0 < X.allocated) := by
      rcases hc with c | c
      · exact Or.inl c
      · exact Or.inr ⟨c, by omega⟩
    obtain ⟨a1, a2, a3, a4, a5, a6⟩ := g1 hc2
    refine ⟨(__iobref_add count_ops grow_ok s X b).2.1, ?_, a4, a6, ?_, ?_, ?_, ?_⟩
    · show ((__iobref_add count_ops grow_ok s X b).1,
        some (__iobref_add count_ops grow_ok s X b).2.1,
        (__iobref_add count_ops grow_ok s X b).2.2) = _
      rw [a1, a2]
      rfl
    · rw [held_of_shape _ _ a3, held_of_shape _ _ hs]
      rfl
    · intro i hi
      rw [(shape_get _ _ a3).1 i (by omega), (shape_get _ _ hs).1 i hi]
      have hl : i < held.length := by rw [hs.2.1]; exact hi
      show Option.map some ((held ++ [b]).get? i) = _
      rw [List.get?_eq_getElem?, List.get?_eq_getElem?, List.getElem?_append_left hl]
    · rw [(shape_get _ _ a3).1 X.used (by omega)]
      show Option.map some ((held ++ [b]).get? X.used) = _
      rw [List.get?_eq_getElem?, List.getElem?_append_right (by rw [hs.2.1]), hs.2.1]
      simp
    · intro i hi hi2
      exact (shape_get _ _ a3).2 i (by omega) hi2
  · obtain ⟨b1, b2, _, _, _, _, b7⟩ := g2 hu (Or.inl hg)
    show ((__iobref_add count_ops grow_ok s X b).1,
        some (__iobref_add count_ops grow_ok s X b).2.1,
        (__iobref_add count_ops grow_ok s X b).2.2) = _
    rw [b1, b2, b7 hg]
  · cases Z <;> rfl
  · cases c <;> rfl

/-- C15, instance: the first add of buffer 5 to a new bundle. -/
theorem C15_add_contract_witness :
    iobref_built count_ops (⟨List.replicate 16 none, 16, 0, 1⟩ : iobref Nat) ∧
    ∃ Y, iobref_add count_ops false (fun _ => 1)
        (some ⟨List.replicate 16 none, 16, 0, 1⟩) (some 5) =
          (0, some Y, Function.update (fun _ => 1) 5 (1 + 1)) ∧
      Y.used = 0 + 1 ∧ Y.ref = 1 ∧ iobref_held Y = [] ++ [5] :=
  ⟨iobref_built.new _ rfl,
    match (C15_add_contract ⟨List.replicate 16 none, 16, 0, 1⟩ (iobref_built.new _ rfl)
      false (fun _ => 1) 5).1 (Or.inl (by decide)) with
    | ⟨Y, h1, h2, h3, h4, _⟩ => ⟨Y, h1, h2, h3, h4⟩⟩

/-- C16: `iobref_unref` of a bundle built by `iobref_new` and `iobref_add` /
`iobref_merge` calls.  When the call brings the reference count of the bundle to 0 the
bundle is freed and the count of every buffer `b` drops by the number of slots that
hold `b`, which is one slot for each successful add of `b` (C14, C15); a buffer in no
slot keeps its count.  When the count of the bundle stays above 0 the call only
decrements it: slots and store are unchanged. -/
theorem C16_unref_bundle (X : iobref Nat) (h : iobref_built count_ops X) (s : Nat → Int) :
    (X.ref = 1 →
      (iobref_unref count_ops s X).1 = none ∧
      (∀ b, (iobref_unref count_ops s X).2 b = s b - ((iobref_held X).count b : Int)) ∧
      (∀ b, b ∉ iobref_held X → (iobref_unref count_ops s X).2 b = s b)) ∧
    (1 < X.ref →
      iobref_unref count_ops s X = (some { X with ref := X.ref - 1 }, s)) ∧
    (∀ (grow_ok : Bool) (t : Nat → Int) (b : Nat), (__iobref_add count_ops grow_ok t X b).1 = 0 →
      ∀ c, (iobref_held (__iobref_add count_ops grow_ok t X b).2.1).count c =
        (iobref_held X).count c + (if c = b then 1 else 0)) := by
  obtain ⟨held, hs⟩ := built_shape count_ops X h
  have hpos := built_alloc count_ops X h
  have hd : X.ref = 1 → (iobref_unref count_ops s X).2 = unref_all count_ops held s := by
    intro hr
    unfold iobref_unref
    simp only [hr, sub_self, if_true]
    unfold iobref_destroy
    show iobref_destroy_loop count_ops X.iobrefs s = _
    rw [hs.1, destroy_loop_shape]
  refine ⟨fun hr => ⟨?_, fun b => ?_, fun b hb => ?_⟩, fun hr => ?_, fun grow_ok t b hret c => ?_⟩
  · unfold iobref_unref
    simp only [hr, sub_self, if_true]
  · rw [hd hr, unref_all_count, held_of_shape _ _ hs]
  · rw [hd hr, unref_all_count]
    rw [held_of_shape _ _ hs] at hb
    rw [List.count_eq_zero_of_not_mem hb]
    simp
  · unfold iobref_unref
    have hne : ¬ X.ref - 1 = 0 := by omega
    simp only [hne, if_false]
  · obtain ⟨g1, g2⟩ := add_shape count_ops grow_ok t X b held hs
    by_cases hc : X.used < X.allocated ∨ (grow_ok = true ∧ 0 < X.allocated)
    · obtain ⟨_, _, a3, _⟩ := g1 hc
      rw [held_of_shape _ _ a3, held_of_shape _ _ hs]
      show (held ++ [b]).count c = _
      rw [List.count_append, List.count_singleton]
      by_cases e : c = b
      · subst e; simp
      · have e2 : ¬ b = c := fun x => e x.symm
        simp [e, e2]
    · have hu : X.used = X.allocated := by
        have := hs.2.2
        by_contra hne
        exact hc (Or.inl (by omega))
      have hg : grow_ok = false ∨ X.allocated = 0 := by
        by_cases hg : grow_ok = false
        · exact Or.inl hg
        · right
          have hgt : grow_ok = true := by cases grow_ok <;> simp_all
          by_contra hne
          exact hc (Or.inr ⟨hgt, by omega⟩)
      have := (g2 hu hg).1
      rw [hret] at this
      exact absurd this (by decide)

/-- C16, instance: a bundle that got buffer 5 twice and buffer 7 once is dropped. -/
theorem C16_unref_bundle_witness :
    iobref_built count_ops
      (⟨some 5 :: some 7 :: some 5 :: List.replicate 13 none, 16, 3, 1⟩ : iobref Nat) ∧
    (iobref_unref count_ops (fun _ => 3)
        ⟨some 5 :: some 7 :: some 5 :: List.replicate 13 none, 16, 3, 1⟩).2 5 = 3 - 2 ∧
    (iobref_unref count_ops (fun _ => 3)
        ⟨some 5 :: some 7 :: some 5 :: List.replicate 13 none, 16, 3, 1⟩).2 7 = 3 - 1 ∧
    (iobref_unref count_ops (fun _ => 3)
        ⟨some 5 :: some 7 :: some 5 :: List.replicate 13 none, 16, 3, 1⟩).2 9 = 3 :=
  have hb : iobref_built count_ops
      (⟨some 5 :: some 7 :: some 5 :: List.replicate 13 none, 16, 3, 1⟩ : iobref Nat) :=
    iobref_built.add ⟨some 5 :: some 7 :: List.replicate 14 none, 16, 2, 1⟩ true
      (fun _ => 0) 5 _
      (iobref_built.add ⟨some 5 :: List.replicate 15 none, 16, 1, 1⟩ true (fun _ => 0) 7 _
        (iobref_built.add ⟨List.replicate 16 none, 16, 0, 1⟩ true (fun _ => 0) 5 _
          (iobref_built.new _ rfl) rfl) rfl) rfl
  ⟨hb, ((C16_unref_bundle _ hb (fun _ => 3)).1 rfl).2.1 5,
    ((C16_unref_bundle _ hb (fun _ => 3)).1 rfl).2.1 7,
    ((C16_unref_bundle _ hb (fun _ => 3)).1 rfl).2.2 9 (by decide)⟩

/-- C17: `iobref_merge (to, from)` for two distinct bundles built by the public
operations, every growth of the array succeeding: the call returns 0, the buffers held
by `to` afterwards are those it held before followed by those held by `from`, in the
same order and with duplicates, the reference count of `to` is unchanged, and the count
of every buffer grows by the number of slots of `from` that hold it.  The bundle `from`
is only read. -/
theorem C17_merge (dst src : iobref Nat) (hd : iobref_built count_ops dst)
    (hsrc : iobref_built count_ops src) (s : Nat → Int) :
    (iobref_merge count_ops true s dst src).1 = 0 ∧
    iobref_held (iobref_merge count_ops true s dst src).2.1 =
      iobref_held dst ++ iobref_held src ∧
    iobref_ordered (iobref_merge count_ops true s dst src).2.1 ∧
    (iobref_merge count_ops true s dst src).2.1.used = dst.used + src.used ∧
    (iobref_merge count_ops true s dst src).2.1.ref = dst.ref ∧
    ∀ b, (iobref_merge count_ops true s dst src).2.2 b =
      s b + ((iobref_held src).count b : Int) := by
  obtain ⟨hD, sD⟩ := built_shape count_ops dst hd
  obtain ⟨hS, sS⟩ := built_shape count_ops src hsrc
  have hpos := built_alloc count_ops dst hd
  have e : iobref_merge count_ops true s dst src =
      iobref_merge_loop count_ops true
        (hS.map some ++ List.replicate (src.allocated - src.used) none) 0 s dst := by
    unfold iobref_merge
    rw [sS.1]
  obtain ⟨m1, m2, m3, m4, _⟩ :=
    merge_loop_spec count_ops hS (src.allocated - src.used) s dst hD sD (by omega)
  obtain ⟨r1, r2⟩ := ref_all_count hS s
  rw [e]
  rw [r1] at m2
  refine ⟨m1, ?_, shape_ordered _ _ m2, ?_, m4, fun b => ?_⟩
  · rw [held_of_shape _ _ m2, held_of_shape _ _ sD, held_of_shape _ _ sS]
  · rw [← m2.2.1, ← sD.2.1, ← sS.2.1, List.length_append]
  · rw [m3, r2, held_of_shape _ _ sS]

/-- C17, instance: the bundles A = [1, 2] and B = [2, 3] of the specification. -/
theorem C17_merge_witness :
    iobref_built count_ops
      (⟨some 1 :: some 2 :: List.replicate 14 none, 16, 2, 1⟩ : iobref Nat) ∧
    iobref_built count_ops
      (⟨some 2 :: some 3 :: List.replicate 14 none, 16, 2, 1⟩ : iobref Nat) ∧
    iobref_held (iobref_merge count_ops true (fun _ => 1)
      ⟨some 1 :: some 2 :: List.replicate 14 none, 16, 2, 1⟩
      ⟨some 2 :: some 3 :: List.replicate 14 none, 16, 2, 1⟩).2.1 = [1, 2] ++ [2, 3] :=
  have hA : iobref_built count_ops
      (⟨some 1 :: some 2 :: List.replicate 14 none, 16, 2, 1⟩ : iobref Nat) :=
    iobref_built.add ⟨some 1 :: List.replicate 15 none, 16, 1, 1⟩ true (fun _ => 0) 2 _
      (iobref_built.add ⟨List.replicate 16 none, 16, 0, 1⟩ true (fun _ => 0) 1 _
        (iobref_built.new _ rfl) rfl) rfl
  have hB : iobref_built count_ops
      (⟨some 2 :: some 3 :: List.replicate 14 none, 16, 2, 1⟩ : iobref Nat) :=
    iobref_built.add ⟨some 2 :: List.replicate 15 none, 16, 1, 1⟩ true (fun _ => 0) 3 _
      (iobref_built.add ⟨List.replicate 16 none, 16, 0, 1⟩ true (fun _ => 0) 2 _
        (iobref_built.new _ rfl) rfl) rfl
  ⟨hA, hB, (C17_merge _ _ hA hB (fun _ => 1)).2.1⟩

/-- C28: `iobref_clear` on a bundle built by the public operations does not release
each reference exactly once.  The loop unreferences every held buffer but leaves the
pointers in their slots; when the reference count of the bundle is 1 the closing
`iobref_unref` runs `iobref_destroy`, which unreferences every slot a second time, so
the count of a buffer drops by twice the number of slots holding it.  When the count of
the bundle is above 1 every buffer count drops by the number of slots holding it and
the bundle survives with its count decremented and with all its slots still set. -/
theorem C28_clear_double_unref (X : iobref Nat) (h : iobref_built count_ops X)
    (s : Nat → Int) :
    (X.ref = 1 →
      (iobref_clear count_ops s X).1 = none ∧
      ∀ b, (iobref_clear count_ops s X).2 b = s b - 2 * ((iobref_held X).count b : Int)) ∧
    (1 < X.ref →
      (iobref_clear count_ops s X).1 = some { X with ref := X.ref - 1 } ∧
      ∀ b, (iobref_clear count_ops s X).2 b = s b - ((iobref_held X).count b : Int)) := by
  obtain ⟨held, hs⟩ := built_shape count_ops X h
  have hc : iobref_clear_loop count_ops X.iobrefs s = unref_all count_ops held s := by
    rw [hs.1, clear_loop_shape]
  refine ⟨fun hr => ?_, fun hr => ?_⟩
  · have e : iobref_clear count_ops s X =
        (none, unref_all count_ops held (unref_all count_ops held s)) := by
      unfold iobref_clear iobref_unref
      simp only [hr, sub_self, if_true]
      unfold iobref_destroy
      show (none, iobref_destroy_loop count_ops X.iobrefs _) = _
      rw [hc, hs.1, destroy_loop_shape]
    rw [e]
    refine ⟨rfl, fun b => ?_⟩
    show unref_all count_ops held (unref_all count_ops held s) b = _
    rw [unref_all_count, unref_all_count, held_of_shape _ _ hs]
    omega
  · have hne : ¬ X.ref - 1 = 0 := by omega
    have e : iobref_clear count_ops s X =
        (some { X with ref := X.ref - 1 }, unref_all count_ops held s) := by
      unfold iobref_clear iobref_unref
      simp only [hne, if_false, hc]
    rw [e]
    refine ⟨rfl, fun b => ?_⟩
    show unref_all count_ops held s b = _
    rw [unref_all_count, held_of_shape _ _ hs]

/-- C28, instance: a bundle with reference count 1 holding buffer 5 once; buffer 5 has
count 2 (the reference of its owner and that of the bundle) and ends at 0. -/
theorem C28_clear_double_unref_witness :
    iobref_built count_ops (⟨some 5 :: List.replicate 15 none, 16, 1, 1⟩ : iobref Nat) ∧
    (iobref_clear count_ops (fun _ => 2) ⟨some 5 :: List.replicate 15 none, 16, 1, 1⟩).2 5
      = 2 - 2 * 1 :=
  have hb : iobref_built count_ops
      (⟨some 5 :: List.replicate 15 none, 16, 1, 1⟩ : iobref Nat) :=
    iobref_built.add ⟨List.replicate 16 none, 16, 0, 1⟩ true (fun _ => 0) 5 _
      (iobref_built.new _ rfl) rfl
  ⟨hb, ((C28_clear_double_unref _ hb (fun _ => 2)).1 rfl).2 5⟩

/-- C29: bundle capacity.  The bundle returned by `iobref_new` has reference count 1,
`used = 0`, `allocated = 16` and 16 `NULL` slots.  After `n` calls of `__iobref_add` on
it, every growth of the array succeeding, all calls have returned 0, `used = n` and
`allocated = 16 * 2 ^ k` for the least `k` with `n ≤ 16 * 2 ^ k`; and one successful
add on a built bundle doubles `allocated` exactly when it finds `used = allocated`. -/
theorem C29_capacity {σ β : Type} (ops : buf_ops σ β) (X : iobref β)
    (hX : iobref_new true = some X) (bs : List β) (s : σ) :
    (X.ref = 1 ∧ X.used = 0 ∧ X.allocated = 16 ∧ X.iobrefs = List.replicate 16 none) ∧
    (∀ r ∈ (iobref_add_all ops bs s X).1, r = 0) ∧
    (iobref_add_all ops bs s X).1.length = bs.length ∧
    (iobref_add_all ops bs s X).2.1.used = bs.length ∧
    (∃ k, (iobref_add_all ops bs s X).2.1.allocated = 16 * 2 ^ k ∧
      bs.length ≤ 16 * 2 ^ k ∧ (k = 0 ∨ 16 * 2 ^ (k - 1) < bs.length)) ∧
    (∀ (Y : iobref β) (grow_ok : Bool) (t : σ) (b : β), iobref_built ops Y →
      (__iobref_add ops grow_ok t Y b).1 = 0 →
      (__iobref_add ops grow_ok t Y b).2.1.allocated =
        if Y.used = Y.allocated then Y.allocated * 2 else Y.allocated) := by
  obtain ⟨n1, n2, n3, n4, n5⟩ := new_shape X hX
  obtain ⟨i1, i2, i3, _, _, _, j, q1, q2, q3⟩ :=
    add_all_spec ops bs s X [] 0 n1 (by rw [n3]; rfl) (Or.inl rfl)
  rw [n2, Nat.zero_add] at i3 q2 q3
  refine ⟨⟨n4, n2, n3, n5⟩, i1, i2, i3, ⟨j, q1, q2, q3⟩, ?_⟩
  intro Y grow_ok t b hY hret
  obtain ⟨held, hs⟩ := built_shape ops Y hY
  obtain ⟨g1, g2⟩ := add_shape ops grow_ok t Y b held hs
  by_cases hc : Y.used < Y.allocated ∨ (grow_ok = true ∧ 0 < Y.allocated)
  · exact (g1 hc).2.2.2.2.1
  · have hu : Y.used = Y.allocated := by
      have := hs.2.2
      by_contra hne
      exact hc (Or.inl (by omega))
    have hg : grow_ok = false ∨ Y.allocated = 0 := by
      by_cases hg : grow_ok = false
      · exact Or.inl hg
      · right
        have hgt : grow_ok = true := by cases grow_ok <;> simp_all
        by_contra hne
        exact hc (Or.inr ⟨hgt, by omega⟩)
    have := (g2 hu hg).1
    rw [hret] at this
    exact absurd this (by decide)

/-- C29, instance: 17 adds to a new bundle leave `used = 17` and `allocated = 32`. -/
theorem C29_capacity_witness :
    iobref_new true = some (⟨List.replicate 16 none, 16, 0, 1⟩ : iobref Nat) ∧
    (iobref_add_all count_ops (List.range 17) (fun _ => 1)
      ⟨List.replicate 16 none, 16, 0, 1⟩).2.1.allocated = 32 ∧
    (iobref_add_all count_ops (List.range 17) (fun _ => 1)
      ⟨List.replicate 16 none, 16, 0, 1⟩).2.1.used = (List.range 17).length :=
  ⟨rfl, by decide,
    (C29_capacity count_ops ⟨List.replicate 16 none, 16, 0, 1⟩ rfl (List.range 17)
      (fun _ => 1)).2.2.2.1⟩

/-- C32: reference accounting of `iobuf_copy` on a reachable pool.  The call returns 0
or -1.  When it returns 0, the bundle handed back has reference count 1, `used = 1`,
the buffer handed back in its first slot and `NULL` in the 15 others, and the count of
that buffer is 2.  When it returns -1, either `iobuf_get2` gave no buffer and the pool
is the one `iobuf_get2` left, or `iobref_new` failed and the buffer got from
`iobuf_get2` was unreferenced once: its count is 0 (or its arena is gone) and the pool
is the one `iobuf_unref` left.  The call returns 0 whenever `iobuf_get2` and
`iobref_new` succeed (the add to the new bundle cannot fail). -/
theorem C32_copy_accounting (S : Nat) (o : alloc_env) (new_ok grow_ok : Bool)
    (p : iobuf_pool) (hp : Reachable S p) (iovec_src : List iovec) :
    ((iobuf_copy S o new_ok grow_ok p iovec_src).ret = 0 ∨
      (iobuf_copy S o new_ok grow_ok p iovec_src).ret = -1) ∧
    ((iobuf_copy S o new_ok grow_ok p iovec_src).ret = 0 →
      ∃ X h, (iobuf_copy S o new_ok grow_ok p iovec_src).out_iobref = some X ∧
        (iobuf_copy S o new_ok grow_ok p iovec_src).out_iobuf = some h ∧
        X.ref = 1 ∧ X.used = 1 ∧ X.iobrefs = some h :: List.replicate 15 none ∧
        iobuf_refcount (iobuf_copy S o new_ok grow_ok p iovec_src).pool h = 2) ∧
    ((iobuf_copy S o new_ok grow_ok p iovec_src).ret = -1 →
      ((iobuf_get2 S o p (iov_length iovec_src)).1 = none ∧
        (iobuf_copy S o new_ok grow_ok p iovec_src).out_iobuf = none ∧
        (iobuf_copy S o new_ok grow_ok p iovec_src).pool =
          (iobuf_get2 S o p (iov_length iovec_src)).2) ∨
      ∃ h, (iobuf_get2 S o p (iov_length iovec_src)).1 = some h ∧ new_ok = false ∧
        iobuf_refcount (iobuf_get2 S o p (iov_length iovec_src)).2 h = 1 ∧
        (iobuf_copy S o new_ok grow_ok p iovec_src).out_iobuf =
          some (iobuf_unref (iobuf_get2 S o p (iov_length iovec_src)).2 h).1 ∧
        (iobuf_copy S o new_ok grow_ok p iovec_src).pool =
          (iobuf_unref (iobuf_get2 S o p (iov_length iovec_src)).2 h).2 ∧
        iobuf_refcount (iobuf_copy S o new_ok grow_ok p iovec_src).pool
          (iobuf_unref (iobuf_get2 S o p (iov_length iovec_src)).2 h).1 = 0) ∧
    ((iobuf_get2 S o p (iov_length iovec_src)).1 ≠ none → new_ok = true →
      (iobuf_copy S o new_ok grow_ok p iovec_src).ret = 0) := by
  have hinv := reachable_inv hp
  cases hg : iobuf_get2 S o p (iov_length iovec_src) with
  | mk x p1 =>
    cases x with
    | none =>
      have e : iobuf_copy S o new_ok grow_ok p iovec_src =
          { ret := -1, out_iobref := none, out_iobuf := none, iov_dst := none, pool := p1 } := by
        unfold iobuf_copy
        dsimp only
        rw [hg]
      rw [e]
      refine ⟨Or.inr rfl, fun hc => (by cases hc), fun _ => Or.inl ⟨rfl, rfl, rfl⟩,
        fun hc => absurd rfl hc⟩
    | some h =>
      obtain ⟨r1, r2⟩ := get2_refcount hinv S o _ h p1 hg
      cases new_ok with
      | false =>
        have e : iobuf_copy S o false grow_ok p iovec_src =
            { ret := -1, out_iobref := none, out_iobuf := some (iobuf_unref p1 h).1,
              iov_dst := none, pool := (iobuf_unref p1 h).2 } := by
          unfold iobuf_copy
          dsimp only
          rw [hg]
          rfl
        rw [e]
        refine ⟨Or.inr rfl, fun hc => (by cases hc), fun _ => Or.inr ⟨h, rfl, rfl, r1, rfl, rfl, ?_⟩,
          fun _ hc => (by cases hc)⟩
        exact unref_refcount p1 h r1
      | true =>
        have e : iobuf_copy S o true grow_ok p iovec_src =
            { ret := 0,
              out_iobref := some ⟨some (iobuf_ref p1 h).1 :: List.replicate 15 none, 16, 1, 1⟩,
              out_iobuf := some (iobuf_ref p1 h).1,
              iov_dst := some { iov_base := iobuf_data_ptr (iobuf_ref p1 h).2 (iobuf_ref p1 h).1,
                                iov_len := iov_length iovec_src },
              pool := (iobuf_ref p1 h).2 } := by
          unfold iobuf_copy
          dsimp only
          rw [hg]
          rfl
        rw [e]
        refine ⟨Or.inl rfl, fun _ => ⟨_, _, rfl, rfl, rfl, rfl, rfl, ?_⟩,
          fun hc => (by cases hc), fun _ _ => rfl⟩
        show iobuf_refcount (iobuf_ref p1 h).2 (iobuf_ref p1 h).1 = 2
        rw [ref_refcount p1 h r2, r1]
        rfl

/-- C32, instance: a copy of 3000 + 1000 bytes on the fresh pool, threshold 131072. -/
theorem C32_copy_accounting_witness :
    Reachable 131072 demo_pool ∧
    (iobuf_copy 131072 (env_ok 0 4096) true true demo_pool [⟨0, 3000⟩, ⟨0, 1000⟩]).ret = 0 :=
  ⟨demo_pool_reachable 131072,
    (C32_copy_accounting 131072 (env_ok 0 4096) true true demo_pool
      (demo_pool_reachable 131072) [⟨0, 3000⟩, ⟨0, 1000⟩]).2.2.2 (by decide) rfl⟩

/-- C9: the pruning rule.  `__iobuf_arena_prune (pool, A, i)` leaves the whole pool as it
is when `arenas[i]` is empty.  When `arenas[i]` is not empty and `A` is linked on
`purge[i]` (and, being one list node, on no other list), it removes `A` from `purge[i]`
and from `all_arenas`, frees the arena object, decrements `arena_cnt` by exactly 1 and
leaves every other list, every other arena object and the other pool fields
unchanged. -/
theorem C9_prune_rule (p : iobuf_pool) (a i : Nat) (ha : a ∈ p.purge i)
    (hnd : (p.purge i).Nodup)
    (hone : ∀ j, j ≤ IOBUF_ARENA_MAX_INDEX →
      a ∉ p.arenas j ∧ a ∉ p.filled j ∧ (j ≠ i → a ∉ p.purge j)) :
    (p.arenas i = [] → __iobuf_arena_prune p a i = p) ∧
    (p.arenas i ≠ [] →
      (∀ j, j ≤ IOBUF_ARENA_MAX_INDEX →
        (__iobuf_arena_prune p a i).arenas j = p.arenas j ∧
        (__iobuf_arena_prune p a i).filled j = p.filled j ∧
        (j ≠ i → (__iobuf_arena_prune p a i).purge j = p.purge j)) ∧
      (__iobuf_arena_prune p a i).purge i = (p.purge i).erase a ∧
      a ∉ (__iobuf_arena_prune p a i).purge i ∧
      ((__iobuf_arena_prune p a i).purge i).length + 1 = (p.purge i).length ∧
      (∀ x, x ≠ a → (x ∈ (__iobuf_arena_prune p a i).purge i ↔ x ∈ p.purge i)) ∧
      (__iobuf_arena_prune p a i).all_arenas = p.all_arenas.erase a ∧
      (__iobuf_arena_prune p a i).arena_cnt = p.arena_cnt - 1 ∧
      (__iobuf_arena_prune p a i).mem a = none ∧
      (∀ x, x ≠ a → (__iobuf_arena_prune p a i).mem x = p.mem x) ∧
      scalars_eq p (__iobuf_arena_prune p a i) ∧
      (__iobuf_arena_prune p a i).next_obj = p.next_obj) := by
  refine ⟨fun he => ?_, fun hne => ?_⟩
  · unfold __iobuf_arena_prune
    rw [he]
    rfl
  · have hq : __iobuf_arena_prune p a i =
        __iobuf_arena_destroy
          { arena_list_del p a with
            all_arenas := (arena_list_del p a).all_arenas.erase a,
            arena_cnt := (arena_list_del p a).arena_cnt - 1 } a := by
      unfold __iobuf_arena_prune
      rw [if_neg (by simpa using hne)]
    rw [hq]
    refine ⟨fun j hj => ⟨?_, ?_, fun hji => ?_⟩, rfl, ?_, ?_, ?_, rfl, rfl, ?_, ?_,
      ⟨rfl, rfl, rfl⟩, rfl⟩
    · exact List.erase_of_not_mem (hone j hj).1
    · exact List.erase_of_not_mem (hone j hj).2.1
    · exact List.erase_of_not_mem ((hone j hj).2.2 hji)
    · exact fun hc => ((mem_erase_nodup hnd a a).1 hc).1 rfl
    · simp only [__iobuf_arena_destroy, arena_list_del]
      rw [List.length_erase_of_mem ha]
      have : 0 < (p.purge i).length := List.length_pos_of_mem ha
      omega
    · intro x hx
      simp only [__iobuf_arena_destroy, arena_list_del]
      rw [mem_erase_nodup hnd a x]
      exact ⟨fun h => h.2, fun h => ⟨hx, h⟩⟩
    · simp [__iobuf_arena_destroy]
    · intro x hx
      simp [__iobuf_arena_destroy, arena_list_del, Function.update_noteq hx]

/-- C9, instance: the fresh pool with one more arena object, 9, linked on `purge[7]`;
arena 7 is on `arenas[7]`. -/
theorem C9_prune_rule_witness :
    9 ∈ (purge_list_add_tail demo_pool 7 9).purge 7 ∧
    (purge_list_add_tail demo_pool 7 9).arenas 7 ≠ [] ∧
    (__iobuf_arena_prune (purge_list_add_tail demo_pool 7 9) 9 7).purge 7 =
      ((purge_list_add_tail demo_pool 7 9).purge 7).erase 9 ∧
    (__iobuf_arena_prune (purge_list_add_tail demo_pool 7 9) 9 7).arena_cnt =
      (purge_list_add_tail demo_pool 7 9).arena_cnt - 1 :=
  ⟨by decide, by decide,
    ((C9_prune_rule (purge_list_add_tail demo_pool 7 9) 9 7 (by decide) (by decide)
      (by decide)).2 (by decide)).2.1,
    ((C9_prune_rule (purge_list_add_tail demo_pool 7 9) 9 7 (by decide) (by decide)
      (by decide)).2 (by decide)).2.2.2.2.2.2.1⟩

/-- C22 (as stated, refuted): `iobuf_unref` on a buffer whose count is already 0 is not
detected.  For a stand-alone buffer with count 0 the call returns the buffer with count
-1 and the pool as it was; for slot 7 of arena 6 of the fresh pool, a passive buffer
with count 0, the count is -1 afterwards and the buffer is still on the passive list.
The function has no result but the buffer and no branch for a negative count. -/
theorem C22_counterexample :
    iobuf_unref demo_pool (.heap ⟨none, 0, 4096, some 4096, 64⟩) =
      (.heap ⟨none, -1, 4096, some 4096, 64⟩, demo_pool) ∧
    iobuf_refcount demo_pool (.carved 6 7) = 0 ∧
    iobuf_refcount (iobuf_unref demo_pool (.carved 6 7)).2 (.carved 6 7) = -1 ∧
    7 ∈ (arena_at (iobuf_unref demo_pool (.carved 6 7)).2 6).passive_list :=
  ⟨rfl, by decide, by decide, by decide⟩

/-- C22 (amended): `iobuf_unref` subtracts 1 from the count and calls `iobuf_put`
exactly when the new count is 0.  On a buffer whose count is 0 or less the count
becomes negative, `iobuf_put` is not called, and nothing else changes: a stand-alone
buffer leaves the pool as it was, a slot of a live arena differs in its count only. -/
theorem C22_unref_below_zero (p : iobuf_pool) :
    (∀ b : iobuf, b.ref ≤ 0 →
      iobuf_unref p (.heap b) = (.heap { b with ref := b.ref - 1 }, p)) ∧
    (∀ a k A, p.mem a = some A → (A.iobufs k).ref ≤ 0 →
      iobuf_unref p (.carved a k) =
        (.carved a k, modify_iobuf p a k (fun b => { b with ref := b.ref - 1 })) ∧
      iobuf_refcount (iobuf_unref p (.carved a k)).2 (.carved a k) = (A.iobufs k).ref - 1 ∧
      iobuf_refcount (iobuf_unref p (.carved a k)).2 (.carved a k) < 0) ∧
    (∀ h, (iobuf_unref p h).2 ≠ p → iobuf_refcount p h ≠ 1 →
      ∃ a k, h = .carved a k ∧
        (iobuf_unref p h).2 = modify_iobuf p a k (fun b => { b with ref := b.ref - 1 })) := by
  refine ⟨fun b hb => ?_, fun a k A hA hr => ?_, fun h hne h1 => ?_⟩
  · unfold iobuf_unref
    dsimp only
    rw [if_neg (by omega)]
  · have e : iobuf_unref p (.carved a k) =
        (.carved a k, modify_iobuf p a k (fun b => { b with ref := b.ref - 1 })) := by
      unfold iobuf_unref
      dsimp only
      rw [hA]
      dsimp only
      rw [if_neg (by omega)]
    obtain ⟨A1, m1, m2⟩ := modify_iobuf_mem p a k (fun b => { b with ref := b.ref - 1 }) A hA
    have e2 : iobuf_refcount (iobuf_unref p (.carved a k)).2 (.carved a k) =
        (A.iobufs k).ref - 1 := by
      rw [e]
      unfold iobuf_refcount
      dsimp only
      rw [m1]
      dsimp only
      rw [m2]
    refine ⟨e, e2, ?_⟩
    rw [e2]
    omega
  · cases h with
    | heap b =>
      exfalso
      apply hne
      unfold iobuf_unref
      dsimp only
      rw [iobuf_put_heap, ite_self]
    | carved a k =>
      refine ⟨a, k, rfl, ?_⟩
      unfold iobuf_refcount at h1
      dsimp only at h1
      unfold iobuf_unref at hne ⊢
      dsimp only at hne ⊢
      cases hA : p.mem a with
      | none =>
        rw [hA] at hne
        exact absurd rfl hne
      | some A =>
        rw [hA] at h1
        dsimp only at h1
        dsimp only
        rw [if_neg (by omega)]

/-- C22 (amended), instance: the stand-alone buffer with count 0. -/
theorem C22_unref_below_zero_witness :
    (0 : Int) ≤ 0 ∧
    iobuf_unref demo_pool (.heap ⟨none, 0, 4096, some 4096, 64⟩) =
      (.heap { (⟨none, 0, 4096, some 4096, 64⟩ : iobuf) with ref := 0 - 1 }, demo_pool) :=
  ⟨by decide, (C22_unref_below_zero demo_pool).1 ⟨none, 0, 4096, some 4096, 64⟩ (by decide)⟩

/-- C23 (as stated, refuted): with the threshold 131072 of the code, the requests of
130, 600 and 3000 bytes on the fresh pool are served by the small path: each returns a
stand-alone buffer without arena, not a page of the 512, 2048 or 8192 byte class, and
the pool is left as it was. -/
theorem C23_counterexample :
    Reachable 131072 demo_pool ∧
    (iobuf_get2 131072 (env_ok 0 4096) demo_pool 130).1 =
      some (.heap ⟨none, 1, 4096, some 4096, 130⟩) ∧
    (iobuf_get2 131072 (env_ok 0 4096) demo_pool 600).1 =
      some (.heap ⟨none, 1, 4096, some 4096, 600⟩) ∧
    (iobuf_get2 131072 (env_ok 0 4096) demo_pool 3000).1 =
      some (.heap ⟨none, 1, 4096, some 4096, 3000⟩) ∧
    iobuf_size demo_pool (.heap ⟨none, 1, 4096, some 4096, 130⟩) ≠ 512 :=
  ⟨demo_pool_reachable 131072, by decide, by decide, by decide, by decide⟩

/-- C23 (amended): the class lookup `gf_iobuf_get_pagesize` maps 130 to the 512 byte
class, 600 to the 2048 byte class and 3000 to the 8192 byte class.  On a reachable
pool, `iobuf_get2 (pool, n)` for one of these sizes hands out a page of that class (an
arena-backed buffer whose arena has that page size) when the threshold `S` is below
`n`; when `n ≤ S` the buffer returned is a stand-alone buffer without arena. -/
theorem C23_class_selection (S : Nat) (p : iobuf_pool) (hp : Reachable S p) (o : alloc_env) :
    (gf_iobuf_get_pagesize 130 0 = (512, 1) ∧ gf_iobuf_get_pagesize 600 0 = (2048, 2) ∧
      gf_iobuf_get_pagesize 3000 0 = (8192, 3)) ∧
    (∀ n sz, (n = 130 ∧ sz = 512) ∨ (n = 600 ∧ sz = 2048) ∨ (n = 3000 ∧ sz = 8192) →
      (S < n → ∀ h q, iobuf_get2 S o p n = (some h, q) →
        ∃ a k A, h = .carved a k ∧ q.mem a = some A ∧ k < A.page_count ∧
          A.page_size = sz ∧ iobuf_size q h = sz) ∧
      (n ≤ S → ∀ h, (iobuf_get2 S o p n).1 = some h →
        ∃ b, h = .heap b ∧ b.iobuf_arena = none ∧ b.page_size = n)) := by
  obtain ⟨h0, h1, h2, h3, h4, h5, h6, h7⟩ := config_pagesize_vals
  refine ⟨⟨by decide, by decide, by decide⟩, fun n sz hn => ⟨fun hS h q hg => ?_, fun hS h hg => ?_⟩⟩
  · have hle : n ≤ 1048576 := by
      rcases hn with ⟨e, _⟩ | ⟨e, _⟩ | ⟨e, _⟩ <;> omega
    obtain ⟨a, k, A, i, rfl, hA, hsc, hc, hk, _, hps, _⟩ :=
      get2_arena_path hp o n hS hle h q hg
    have hsz : config_pagesize i = sz := by
      obtain ⟨hi, hle2, hlt⟩ := hsc
      have hi8 : i < 8 := hi
      rcases hn with ⟨e, e2⟩ | ⟨e, e2⟩ | ⟨e, e2⟩
      · subst e e2
        interval_cases i
        · omega
        · exact h1
        all_goals exact absurd (hlt 1 (by omega)) (by omega)
      · subst e e2
        interval_cases i
        · omega
        · omega
        · exact h2
        all_goals exact absurd (hlt 2 (by omega)) (by omega)
      · subst e e2
        interval_cases i
        · omega
        · omega
        · omega
        · exact h3
        all_goals exact absurd (hlt 3 (by omega)) (by omega)
    refine ⟨a, k, A, rfl, hA, hk, by rw [hc.1, hsz], ?_⟩
    simp only [iobuf_size, hA, hps, hsz]
  · have hn0 : n ≠ 0 := by
      rcases hn with ⟨e, _⟩ | ⟨e, _⟩ | ⟨e, _⟩ <;> omega
    rcases get2_cases S o p n n (by rw [if_neg hn0]) with ⟨_, e⟩ | ⟨c, _, _⟩ | ⟨c, _⟩
    · rw [e] at hg
      unfold iobuf_get_from_small at hg
      by_cases ho : o.iobuf = false
      · rw [if_pos ho] at hg; cases hg
      · rw [if_neg ho] at hg
        cases hd : o.data with
        | none => rw [hd] at hg; cases hg
        | some d =>
          rw [hd] at hg
          dsimp only [Option.map] at hg
          injection hg with hg
          subst hg
          exact ⟨_, rfl, rfl, rfl⟩
    · omega
    · omega

set_option maxRecDepth 8192 in
/-- C23 (amended), instance: with a threshold of 100 bytes the request of 3000 bytes on
the fresh pool is slot 127 of arena 3, the 8192 byte class. -/
theorem C23_class_selection_witness :
    Reachable 100 demo_pool ∧
    ∃ a k A, iobuf_ptr.carved 3 127 = .carved a k ∧
      (iobuf_get2 100 (env_ok 0 0) demo_pool 3000).2.mem a = some A ∧ k < A.page_count ∧
      A.page_size = 8192 ∧
      iobuf_size (iobuf_get2 100 (env_ok 0 0) demo_pool 3000).2 (.carved 3 127) = 8192 :=
  ⟨demo_pool_reachable 100,
    ((C23_class_selection 100 demo_pool (demo_pool_reachable 100) (env_ok 0 0)).2 3000 8192
      (Or.inr (Or.inr ⟨rfl, rfl⟩))).1 (by decide) (.carved 3 127)
      (iobuf_get2 100 (env_ok 0 0) demo_pool 3000).2 (Prod.ext (by decide) rfl)⟩

/-- C26 (as stated, refuted): in the freshly created pool arena 6 has
`active_cnt = 0` and is linked on `arenas[6]`, not on `purge[6]`, which is empty. -/
theorem C26_counterexample :
    Reachable 131072 demo_pool ∧ demo_pool.mem 6 = some (arena_at demo_pool 6) ∧
    (arena_at demo_pool 6).active_cnt = 0 ∧ (arena_at demo_pool 6).passive_cnt = 8 ∧
    demo_pool.arenas 6 = [6] ∧ demo_pool.purge 6 = [] ∧ 6 ∉ demo_pool.purge 6 :=
  ⟨demo_pool_reachable 131072, rfl, by decide, by decide, by decide, by decide, by decide⟩

/-- C26 (amended): in every reachable pool, for an arena `A` linked on one of the three
lists of a fixed class `i`: `A` is on `filled[i]` exactly when `passive_cnt = 0`, and
then `active_cnt > 0`; if `passive_cnt > 0` and `active_cnt > 0` then `A` is on
`arenas[i]`; if `active_cnt = 0` then `A` is on `arenas[i]` (a fresh or resurrected
arena) or on `purge[i]`; and an arena on `purge[i]` has `active_cnt = 0`. -/
theorem C26_counters_and_lists (S : Nat) (p : iobuf_pool) (hp : Reachable S p) (i : Nat)
    (hi : i < IOBUF_ARENA_MAX_INDEX) (a : Nat) (A : iobuf_arena) (hA : p.mem a = some A)
    (hl : a ∈ p.arenas i ∨ a ∈ p.filled i ∨ a ∈ p.purge i) :
    (a ∈ p.filled i ↔ A.passive_cnt = 0) ∧
    (A.passive_cnt = 0 → 0 < A.active_cnt) ∧
    (0 < A.passive_cnt → 0 < A.active_cnt → a ∈ p.arenas i) ∧
    (A.active_cnt = 0 → a ∈ p.arenas i ∨ a ∈ p.purge i) ∧
    (a ∈ p.purge i → A.active_cnt = 0) ∧
    (a ∈ p.arenas i → 0 < A.passive_cnt) := by
  have hinv := reachable_inv hp
  have hA_inv := hinv.mem_ok a A hA
  have hsum := hA_inv.sum
  have hpl := hA_inv.passive_len
  have hal := hA_inv.active_len
  have f1 : a ∈ p.arenas i → 0 < A.passive_cnt := by
    intro h
    obtain ⟨B, hB, _, hpos⟩ := hinv.arenas_ok i hi a h
    rw [hA] at hB; cases hB; exact hpos
  have f2 : a ∈ p.filled i → A.passive_cnt = 0 ∧ 0 < A.active_cnt := by
    intro h
    obtain ⟨B, hB, _, h0, hpos⟩ := hinv.filled_ok i hi a h
    rw [hA] at hB; cases hB; exact ⟨h0, hpos⟩
  have f3 : a ∈ p.purge i → A.active_cnt = 0 ∧ 0 < A.passive_cnt := by
    intro h
    obtain ⟨B, hB, hc, h0⟩ := hinv.purge_ok i hi a h
    rw [hA] at hB; cases hB
    have hn := config_num_pages_pos i hi
    have := hc.2
    refine ⟨h0, ?_⟩
    omega
  refine ⟨⟨fun h => (f2 h).1, fun h => ?_⟩, fun h => ?_, fun h1 h2 => ?_, fun h => ?_,
    fun h => (f3 h).1, f1⟩
  · rcases hl with c | c | c
    · have := f1 c; omega
    · exact c
    · have := (f3 c).2; omega
  · rcases hl with c | c | c
    · have := f1 c; omega
    · exact (f2 c).2
    · have := (f3 c).2; omega
  · rcases hl with c | c | c
    · exact c
    · have := (f2 c).1; omega
    · have := (f3 c).1; omega
  · rcases hl with c | c | c
    · exact Or.inl c
    · have := (f2 c).2; omega
    · exact Or.inr c

/-- C26 (amended), instance: arena 6 of the pool after one hand-out from it. -/
theorem C26_counters_and_lists_witness :
    Reachable 131072 demo_pool_get ∧ demo_pool_get.mem 6 = some (arena_at demo_pool_get 6) ∧
    (6 ∈ demo_pool_get.arenas 6 ∨ 6 ∈ demo_pool_get.filled 6 ∨ 6 ∈ demo_pool_get.purge 6) ∧
    (0 < (arena_at demo_pool_get 6).passive_cnt → 0 < (arena_at demo_pool_get 6).active_cnt →
      6 ∈ demo_pool_get.arenas 6) :=
  ⟨demo_pool_get_reachable, rfl, by decide,
    (C26_counters_and_lists 131072 demo_pool_get demo_pool_get_reachable 6 (by decide) 6
      (arena_at demo_pool_get 6) rfl (by decide)).2.2.1⟩

/-- C20: `iobuf_pool_destroy` does not destroy the overflow arena.  On the freshly
created pool the eight class arenas 0 to 7 are destroyed and `arena_cnt` is 0
afterwards, but arena object 8, linked on `arenas[IOBUF_ARENA_MAX_INDEX]`, is still
allocated and still linked when the pool object is freed: the class loop stops before
slot `IOBUF_ARENA_MAX_INDEX`. -/
theorem C20_destroy_leaves_sentinel :
    demo_pool.arenas IOBUF_ARENA_MAX_INDEX = [8] ∧
    (∀ a, a < 8 → (demo_pool.mem a).isSome = true ∧
      ((iobuf_pool_destroy demo_pool).mem a).isNone = true) ∧
    (iobuf_pool_destroy demo_pool).arena_cnt = 0 ∧
    (∀ i, i < IOBUF_ARENA_MAX_INDEX → (iobuf_pool_destroy demo_pool).arenas i = [] ∧
      (iobuf_pool_destroy demo_pool).filled i = [] ∧
      (iobuf_pool_destroy demo_pool).purge i = []) ∧
    ((iobuf_pool_destroy demo_pool).mem 8).isSome = true ∧
    (iobuf_pool_destroy demo_pool).arenas IOBUF_ARENA_MAX_INDEX = [8] := by
  refine ⟨by decide, by decide, by decide, by decide, by decide, by decide⟩

/-- C21: `iobuf_pool_prune` is idempotent.  For every pool state `p`, pruning the pruned
pool gives the pruned pool again (all lists, `arena_cnt` and every other field), and
after one prune no fixed class has both a non-empty `arenas[i]` and a non-empty
`purge[i]`. -/
theorem C21_prune_idempotent (p : iobuf_pool) :
    iobuf_pool_prune (iobuf_pool_prune p) = iobuf_pool_prune p ∧
    ∀ i, i < IOBUF_ARENA_MAX_INDEX →
      (iobuf_pool_prune p).arenas i = [] ∨ (iobuf_pool_prune p).purge i = [] := by
  have h : ∀ i, i < IOBUF_ARENA_MAX_INDEX → pruned (iobuf_pool_prune p) i := by
    intro i hi
    unfold iobuf_pool_prune
    exact pool_prune_loop_pruned _ p i (Or.inl (List.mem_range.2 hi))
  refine ⟨?_, h⟩
  have e : iobuf_pool_prune (iobuf_pool_prune p) =
      (List.range IOBUF_ARENA_MAX_INDEX).foldl iobuf_pool_prune_class (iobuf_pool_prune p) := rfl
  rw [e]
  exact pool_prune_loop_fix _ _ (fun i hi => h i (List.mem_range.1 hi))

/-- C30: hand-out within an arena is last in, first out.  On a reachable pool let
buffer `k` of arena `a` be returned by its last `iobuf_unref` (which runs
`__iobuf_put`).  If the arena is not destroyed, the buffer is at the head of its
passive list with count 0, and a hand-out `__iobuf_get` on the resulting pool that is
served from arena `a` returns buffer `k`. -/
theorem C30_lifo (S : Nat) (p : iobuf_pool) (hp : Reachable S p) (a k : Nat)
    (A : iobuf_arena) (hA : p.mem a = some A) (hk : k < A.page_count)
    (hr : (A.iobufs k).ref = 1) :
    (∀ B, (iobuf_unref p (.carved a k)).2.mem a = some B →
      B.passive_list = k :: A.passive_list ∧ (B.iobufs k).ref = 0) ∧
    (∀ (o : alloc_env) (ps idx a2 k2 : Nat) (q2 : iobuf_pool),
      __iobuf_get o (iobuf_unref p (.carved a k)).2 ps idx = (some (a2, k2), q2) →
      a2 = a → k2 = k) := by
  have hinv := reachable_inv hp
  have hAinv := hinv.mem_ok a A hA
  obtain ⟨i, hi, hc⟩ := class_of_held hAinv k hk
  have hidx := arena_index_of_class hi hc
  obtain ⟨hka, hkp⟩ := active_of_held hAinv k hk (by omega)
  have hpl : A.passive_list.erase k = A.passive_list := List.erase_of_not_mem hkp
  have hlt := live_lt_next hinv a A hA
  have hnx := unref_next_obj p (.carved a k)
  have key : ∀ B, (iobuf_unref p (.carved a k)).2.mem a = some B →
      B.passive_list = k :: A.passive_list ∧ (B.iobufs k).ref = 0 := by
    intro B hB
    rcases unref_mem p a k A hA hr i hidx with ⟨c, _⟩ | ⟨B2, c, g1, _, _, _, _, _, g7, _⟩
    · rw [c] at hB; cases hB
    · rw [c] at hB
      injection hB with hB
      subst hB
      exact ⟨by rw [g1, hpl], g7⟩
  refine ⟨key, ?_⟩
  intro o ps idx a2 k2 q2 hg ha2
  subst ha2
  unfold __iobuf_get at hg
  cases hsel : __iobuf_select_arena o (iobuf_unref p (.carved a2 k)).2 ps idx with
  | mk r q1 =>
    rw [hsel] at hg
    cases r with
    | none => cases hg
    | some a3 =>
      dsimp only at hg
      have hm := select_arena_mem o (iobuf_unref p (.carved a2 k)).2 ps idx a3
        (by rw [hsel])
      rw [hsel] at hm
      dsimp only at hm
      cases hq1 : q1.mem a3 with
      | none => rw [hq1] at hg; cases hg
      | some B =>
        rw [hq1] at hg
        dsimp only at hg
        cases hpl2 : B.passive_list with
        | nil => rw [hpl2] at hg; cases hg
        | cons k3 rest =>
          rw [hpl2] at hg
          dsimp only at hg
          injection hg with hg1 hg2
          injection hg1 with hg1
          injection hg1 with hg3 hg4
          subst hg3
          subst hg4
          rcases hm with hm | hm
          · rw [hq1] at hm
            have := (key B hm.symm).1
            rw [hpl2] at this
            injection this
          · rw [hnx] at hm
            omega

/-- C30, instance: slot 7 of arena 6 is handed out, returned, and handed out again. -/
theorem C30_lifo_witness :
    Reachable 131072 demo_pool_get ∧ ((arena_at demo_pool_get 6).iobufs 7).ref = 1 ∧
    (__iobuf_get (env_ok 0 0) (iobuf_unref demo_pool_get (.carved 6 7)).2 262144 6).1 =
      some (6, 7) ∧
    ∀ B, (iobuf_unref demo_pool_get (.carved 6 7)).2.mem 6 = some B →
      B.passive_list = 7 :: (arena_at demo_pool_get 6).passive_list ∧ (B.iobufs 7).ref = 0 :=
  ⟨demo_pool_get_reachable, by decide, by decide,
    (C30_lifo 131072 demo_pool_get demo_pool_get_reachable 6 7 (arena_at demo_pool_get 6) rfl
      (by decide) (by decide)).1⟩

/-- C27 (as stated, refuted): after three hand-outs of 1 MiB on the fresh pool, arena 7
is full and on `filled[7]` and the new arena 9 is on `arenas[7]` with one buffer
outstanding.  The return of that buffer drains arena 9 while arena 7, of the same
class, exists in the pool; arena 9 is not destroyed: it is kept on `purge[7]` and
`arena_cnt` is unchanged. -/
theorem C27_counterexample :
    Reachable 131072 (get_1m 3 demo_pool) ∧
    (get_1m 3 demo_pool).filled 7 = [7] ∧ (get_1m 3 demo_pool).arenas 7 = [9] ∧
    (arena_at (get_1m 3 demo_pool) 9).active_list = [1] ∧
    ((arena_at (get_1m 3 demo_pool) 9).iobufs 1).ref = 1 ∧
    (arena_at (iobuf_unref (get_1m 3 demo_pool) (.carved 9 1)).2 9).active_cnt = 0 ∧
    ((iobuf_unref (get_1m 3 demo_pool) (.carved 9 1)).2.mem 9).isSome = true ∧
    (iobuf_unref (get_1m 3 demo_pool) (.carved 9 1)).2.purge 7 = [9] ∧
    (iobuf_unref (get_1m 3 demo_pool) (.carved 9 1)).2.filled 7 = [7] ∧
    (iobuf_unref (get_1m 3 demo_pool) (.carved 9 1)).2.arena_cnt =
      (get_1m 3 demo_pool).arena_cnt :=
  ⟨get_1m_3_reachable, by decide, by decide, by decide, by decide, by decide, by decide,
    by decide, by decide, by decide⟩

/-- C27 (amended): on a reachable pool, let the return of buffer `k` drain arena `a`,
which is linked on `arenas[i]` and has `k` as its only outstanding buffer.  The arena is
moved to `purge[i]`.  If it was the only arena on `arenas[i]` it is kept there, not
destroyed, and `arena_cnt` is unchanged, whatever arenas of the class are on
`filled[i]` or `purge[i]`.  If `arenas[i]` holds another arena, the drained arena is
destroyed: it is on no list of the class, its object is freed, it is off `all_arenas`
and `arena_cnt` drops by 1. -/
theorem C27_drain_rule (S : Nat) (p : iobuf_pool) (hp : Reachable S p) (i : Nat)
    (hi : i < IOBUF_ARENA_MAX_INDEX) (a k : Nat) (ha : a ∈ p.arenas i) (A : iobuf_arena)
    (hA : p.mem a = some A) (hal : A.active_list = [k]) (hr : (A.iobufs k).ref = 1) :
    (p.arenas i = [a] →
      (iobuf_unref p (.carved a k)).2.arenas i = [] ∧
      (iobuf_unref p (.carved a k)).2.purge i = p.purge i ++ [a] ∧
      (iobuf_unref p (.carved a k)).2.filled i = p.filled i ∧
      (iobuf_unref p (.carved a k)).2.arena_cnt = p.arena_cnt ∧
      ∃ B, (iobuf_unref p (.carved a k)).2.mem a = some B ∧ B.active_cnt = 0 ∧
        B.passive_cnt = A.passive_cnt + 1) ∧
    (p.arenas i ≠ [a] →
      (iobuf_unref p (.carved a k)).2.arenas i = (p.arenas i).erase a ∧
      (iobuf_unref p (.carved a k)).2.purge i = p.purge i ∧
      (iobuf_unref p (.carved a k)).2.filled i = p.filled i ∧
      a ∉ (iobuf_unref p (.carved a k)).2.arenas i ∧
      a ∉ (iobuf_unref p (.carved a k)).2.purge i ∧
      a ∉ (iobuf_unref p (.carved a k)).2.filled i ∧
      (iobuf_unref p (.carved a k)).2.arena_cnt = p.arena_cnt - 1 ∧
      (iobuf_unref p (.carved a k)).2.all_arenas = p.all_arenas.erase a ∧
      (iobuf_unref p (.carved a k)).2.mem a = none) := by
  have hinv := reachable_inv hp
  obtain ⟨g1, g2⟩ := unref_drain hinv i hi a k ha A hA hal hr
  refine ⟨fun h => ?_, fun h => ?_⟩
  · obtain ⟨c1, c2, c3, c4, _, B, c6, _, _, c9, c10, _⟩ := g1 h
    exact ⟨c1, c2, c3, c4, B, c6, c10, c9⟩
  · obtain ⟨c1, _, c3, c4, c5, c6, c7⟩ := g2 h
    have hnp : a ∉ p.purge i := hinv.excl i i hi hi a ha
    have hnf : a ∉ p.filled i := by
      intro hc2
      obtain ⟨B, hB, _, h0, _⟩ := hinv.filled_ok i hi a hc2
      obtain ⟨B2, hB2, _, hpos⟩ := hinv.arenas_ok i hi a ha
      rw [hB] at hB2
      injection hB2 with hB2
      subst hB2
      omega
    refine ⟨c1, c3, c4, ?_, ?_, ?_, c5, c6, c7⟩
    · rw [c1]
      exact fun hc2 => ((mem_erase_nodup (hinv.nodup i).1 a a).1 hc2).1 rfl
    · rw [c3]; exact hnp
    · rw [c4]; exact hnf

/-- C27 (amended), instance: the return that drains arena 9 while arena 7 is full. -/
theorem C27_drain_rule_witness :
    Reachable 131072 (get_1m 3 demo_pool) ∧ 9 ∈ (get_1m 3 demo_pool).arenas 7 ∧
    (get_1m 3 demo_pool).arenas 7 = [9] ∧
    (iobuf_unref (get_1m 3 demo_pool) (.carved 9 1)).2.purge 7 =
      (get_1m 3 demo_pool).purge 7 ++ [9] ∧
    (iobuf_unref (get_1m 3 demo_pool) (.carved 9 1)).2.arena_cnt =
      (get_1m 3 demo_pool).arena_cnt :=
  ⟨get_1m_3_reachable, by decide, by decide,
    ((C27_drain_rule 131072 (get_1m 3 demo_pool) get_1m_3_reachable 7 (by decide) 9 1
      (by decide) (arena_at (get_1m 3 demo_pool) 9) rfl (by decide) (by decide)).1
        (by decide)).2.1,
    ((C27_drain_rule 131072 (get_1m 3 demo_pool) get_1m_3_reachable 7 (by decide) 9 1
      (by decide) (arena_at (get_1m 3 demo_pool) 9) rfl (by decide) (by decide)).1
        (by decide)).2.2.2.1⟩

/-- C10: pruning holdback and resurrection.  On a reachable pool let `a` be the only
arena of the fixed class `i` (`arenas[i] = [a]`, `filled[i]` and `purge[i]` empty) with
exactly one buffer `k` outstanding, held once.  Dropping that reference moves the arena
to `purge[i]` without destroying it (`arena_cnt` is unchanged).  The next hand-out for
class `i` is then served from arena `a` itself: the arena is back on `arenas[i]`,
`purge[i]` is empty and no arena is allocated (`arena_cnt`, `all_arenas` and the set of
arena objects are as before). -/
theorem C10_holdback_resurrect (S : Nat) (p : iobuf_pool) (hp : Reachable S p) (i : Nat)
    (hi : i < IOBUF_ARENA_MAX_INDEX) (a k : Nat) (A : iobuf_arena)
    (h1 : p.arenas i = [a]) (h2 : p.filled i = []) (h3 : p.purge i = [])
    (hA : p.mem a = some A) (hal : A.active_list = [k]) (hr : (A.iobufs k).ref = 1)
    (o : alloc_env) :
    ((iobuf_unref p (.carved a k)).2.arenas i = [] ∧
      (iobuf_unref p (.carved a k)).2.purge i = [a] ∧
      (iobuf_unref p (.carved a k)).2.filled i = [] ∧
      (iobuf_unref p (.carved a k)).2.arena_cnt = p.arena_cnt ∧
      ∃ B, (iobuf_unref p (.carved a k)).2.mem a = some B ∧ B.active_cnt = 0 ∧
        B.passive_cnt = B.page_count) ∧
    ((__iobuf_get o (iobuf_unref p (.carved a k)).2 (config_pagesize i) i).1 = some (a, k) ∧
      (__iobuf_get o (iobuf_unref p (.carved a k)).2 (config_pagesize i) i).2.arenas i = [a] ∧
      (__iobuf_get o (iobuf_unref p (.carved a k)).2 (config_pagesize i) i).2.purge i = [] ∧
      (__iobuf_get o (iobuf_unref p (.carved a k)).2 (config_pagesize i) i).2.filled i = [] ∧
      (__iobuf_get o (iobuf_unref p (.carved a k)).2 (config_pagesize i) i).2.arena_cnt =
        p.arena_cnt ∧
      (__iobuf_get o (iobuf_unref p (.carved a k)).2 (config_pagesize i) i).2.all_arenas =
        p.all_arenas ∧
      (__iobuf_get o (iobuf_unref p (.carved a k)).2 (config_pagesize i) i).2.next_obj =
        p.next_obj) ∧
    (∀ n, S < n → smallest_class n i →
      (iobuf_get2 S o (iobuf_unref p (.carved a k)).2 n).1 = some (.carved a k)) := by
  have hinv := reachable_inv hp
  have ha : a ∈ p.arenas i := by rw [h1]; exact List.mem_singleton_self a
  obtain ⟨A0, hA0, hc, hpos⟩ := hinv.arenas_ok i hi a ha
  rw [hA] at hA0
  injection hA0 with hA0
  subst hA0
  obtain ⟨c1, c2, c3, c4, c5, B, c6, c7, c8, c9, c10, c11, c12, c13⟩ :=
    (unref_drain hinv i hi a k ha A hA hal hr).1 h1
  have hqinv : pool_inv (iobuf_unref p (.carved a k)).2 :=
    pool_inv_unref hinv (.carved a k) ⟨A, hA, by
      have := ((hinv.mem_ok a A hA).active_ref k (by rw [hal]; exact List.mem_singleton_self k)).1
      exact this, by omega⟩
  have hBsum := (hqinv.mem_ok a B c6).sum
  rw [h3, List.nil_append] at c2
  rw [h2] at c3
  have hpl : B.passive_list = k :: B.passive_list.erase k := by
    rw [c7, List.erase_cons_head]
  obtain ⟨g1, g2, g3, g4, g5, g6, g7, _⟩ :=
    get_resurrect o (iobuf_unref p (.carved a k)).2 (config_pagesize i) i a k [] B c1 c2 c6 hpl
      (by rw [c9]; omega)
  refine ⟨⟨c1, c2, c3, c4, B, c6, c10, by omega⟩,
    ⟨g1, g2, g3, by rw [g4, c3]; rfl, by rw [g5, c4], by rw [g6, c5],
      by rw [g7, unref_next_obj]⟩, ?_⟩
  intro n hS hsc
  have hn0 : n ≠ 0 := by
    intro h0
    rw [h0] at hS
    omega
  rcases get2_cases S o (iobuf_unref p (.carved a k)).2 n n (by rw [if_neg hn0]) with
    ⟨c, _⟩ | ⟨_, c, _⟩ | ⟨_, j, hsc2, e⟩
  · omega
  · have := hsc.2.1
    have := (config_pagesize_le i hi).1
    omega
  · have hj := smallest_class_unique hsc2 hsc
    subst hj
    rw [e]
    cases hget : __iobuf_get o (iobuf_unref p (.carved a k)).2 (config_pagesize j) j with
    | mk r q2 =>
      rw [hget] at g1
      dsimp only at g1
      subst g1
      rfl

/-- C10, instance: class 6 of the fresh pool after one hand-out (slot 7 of arena 6). -/
theorem C10_holdback_resurrect_witness :
    Reachable 131072 demo_pool_get ∧ demo_pool_get.arenas 6 = [6] ∧
    (arena_at demo_pool_get 6).active_list = [7] ∧
    (iobuf_unref demo_pool_get (.carved 6 7)).2.purge 6 = [6] ∧
    (iobuf_unref demo_pool_get (.carved 6 7)).2.arena_cnt = demo_pool_get.arena_cnt ∧
    (__iobuf_get (env_ok 0 0) (iobuf_unref demo_pool_get (.carved 6 7)).2
      (config_pagesize 6) 6).1 = some (6, 7) :=
  ⟨demo_pool_get_reachable, by decide, by decide,
    (C10_holdback_resurrect 131072 demo_pool_get demo_pool_get_reachable 6 (by decide) 6 7
      (arena_at demo_pool_get 6) (by decide) (by decide) (by decide) rfl (by decide)
      (by decide) (env_ok 0 0)).1.2.1,
    (C10_holdback_resurrect 131072 demo_pool_get demo_pool_get_reachable 6 (by decide) 6 7
      (arena_at demo_pool_get 6) (by decide) (by decide) (by decide) rfl (by decide)
      (by decide) (env_ok 0 0)).1.2.2.2.1,
    (C10_holdback_resurrect 131072 demo_pool_get demo_pool_get_reachable 6 (by decide) 6 7
      (arena_at demo_pool_get 6) (by decide) (by decide) (by decide) rfl (by decide)
      (by decide) (env_ok 0 0)).2.1.1⟩

/-- C19: the postcondition of `iobuf_pool_new`.  In the pool returned, every fixed
class `i` has empty `filled[i]` and `purge[i]`; when the pre-allocation of the class
succeeded, `arenas[i]` holds exactly one arena, with the page size and page count of the
table, `passive_cnt = page_count` and `active_cnt = 0`, and when it failed `arenas[i]`
is empty.  `arena_cnt` is the number of classes whose pre-allocation succeeded,
`arena_size` the sum of `page_size * num_pages` over exactly those classes and
`default_page_size` is 131072.  When the overflow arena is allocated it is the one
arena in slot `IOBUF_ARENA_MAX_INDEX`.  When all eight pre-allocations succeed,
`arena_cnt = 8` and `arena_size = 12976128`. -/
theorem C19_pool_new (o : Nat → alloc_env) (ok : Bool) (q : iobuf_pool)
    (h : iobuf_pool_new true o ok = some q) :
    (∀ i, i < IOBUF_ARENA_MAX_INDEX →
      q.filled i = [] ∧ q.purge i = [] ∧
      (alloc_succeeds (o i) = true →
        ∃ a A, q.arenas i = [a] ∧ q.mem a = some A ∧ A.page_size = config_pagesize i ∧
          A.page_count = config_num_pages i ∧ A.passive_cnt = A.page_count ∧
          A.active_cnt = 0) ∧
      (alloc_succeeds (o i) = false → q.arenas i = [])) ∧
    q.arena_cnt = ((classes_ok o (List.range IOBUF_ARENA_MAX_INDEX)).length : Int) ∧
    q.arena_size = classes_bytes (classes_ok o (List.range IOBUF_ARENA_MAX_INDEX)) ∧
    q.default_page_size = 131072 ∧
    (ok = true → ∃ s A, q.arenas IOBUF_ARENA_MAX_INDEX = [s] ∧ q.mem s = some A ∧
      A.page_size = 0x7fffffff ∧ A.page_count = 0) ∧
    (ok = false → q.arenas IOBUF_ARENA_MAX_INDEX = []) ∧
    ((∀ i, i < IOBUF_ARENA_MAX_INDEX → alloc_succeeds (o i) = true) →
      q.arena_cnt = 8 ∧ q.arena_size = 12976128) := by
  obtain ⟨i1, i2, i3, i4, i5, i6, i7⟩ := pool_new_loop_inv o
  have hbytes : classes_bytes (classes_ok o (List.range IOBUF_ARENA_MAX_INDEX)) % 2 ^ 64 =
      classes_bytes (classes_ok o (List.range IOBUF_ARENA_MAX_INDEX)) := by
    apply Nat.mod_eq_of_lt
    have := classes_bytes_le o (List.range IOBUF_ARENA_MAX_INDEX)
    rw [classes_bytes_all] at this
    omega
  have hq : q = { iobuf_create_stdalloc_arena ok (pool_new_loop o).1 with
      arena_size := (pool_new_loop o).2 } :=
    Option.some.inj (h.symm.trans (pool_new_eq o ok))
  generalize pool_new_loop o = s at hq i1 i2 i3 i4 i5 i6 i7
  have hdps : q.default_page_size = 131072 := by
    have := pool_new_default_page_size true o ok q h
    rw [this]
  have hmax : s.1.arenas IOBUF_ARENA_MAX_INDEX = [] :=
    i4 _ (fun hc => Nat.lt_irrefl _ (List.mem_range.1 hc))
  -- the fields of the pool after the overflow arena was added
  have hfl : q.filled = s.1.filled ∧ q.purge = s.1.purge ∧ q.arena_cnt = s.1.arena_cnt ∧
      q.arena_size = s.2 ∧
      (∀ i, i < IOBUF_ARENA_MAX_INDEX → q.arenas i = s.1.arenas i) ∧
      (∀ a A, s.1.mem a = some A → q.mem a = some A) := by
    rw [hq]
    unfold iobuf_create_stdalloc_arena
    by_cases hok : ok = false
    · rw [if_pos hok]
      exact ⟨rfl, rfl, rfl, rfl, fun _ _ => rfl, fun _ _ hA => hA⟩
    · rw [if_neg hok]
      refine ⟨rfl, rfl, rfl, rfl, fun i hi => ?_, fun a A hA => ?_⟩
      · have hne : i ≠ IOBUF_ARENA_MAX_INDEX := by omega
        simp [arenas_list_add_tail, set_arena, Function.update_noteq hne]
      · have hlt := live_lt_next i1 a A hA
        have hne : a ≠ s.1.next_obj := by omega
        simp [arenas_list_add_tail, set_arena, Function.update_noteq hne, hA]
  obtain ⟨f1, f2, f3, f4, f5, f6⟩ := hfl
  refine ⟨fun i hi => ⟨by rw [f1, i3], by rw [f2, i2], fun hc => ?_, fun hc => ?_⟩,
    by rw [f3, i6], by rw [f4, i7, hbytes], hdps, fun hok => ?_, fun hok => ?_, fun hall => ?_⟩
  · obtain ⟨a, A, l1, l2, l3, l4, l5⟩ := (i5 i (List.mem_range.2 hi)).1 hc
    exact ⟨a, A, by rw [f5 i hi, l1], f6 a A l2, l3.1, l3.2, l4, l5⟩
  · rw [f5 i hi]
    exact (i5 i (List.mem_range.2 hi)).2 hc
  · rw [hq]
    unfold iobuf_create_stdalloc_arena
    rw [if_neg (by rw [hok]; decide)]
    refine ⟨s.1.next_obj, _, ?_, Function.update_same _ _ _, rfl, rfl⟩
    simp [arenas_list_add_tail, set_arena, list_add_tail, hmax]
  · rw [hq]
    unfold iobuf_create_stdalloc_arena
    rw [if_pos hok]
    exact hmax
  · have hall2 : classes_ok o (List.range IOBUF_ARENA_MAX_INDEX) =
        List.range IOBUF_ARENA_MAX_INDEX := by
      unfold classes_ok
      exact List.filter_eq_self.2 (fun i hi => hall i (List.mem_range.1 hi))
    refine ⟨?_, ?_⟩
    · rw [f3, i6, hall2, List.length_range]
      rfl
    · rw [f4, i7, hbytes, hall2, classes_bytes_all]

/-- C19, instance: the pool created with every allocation succeeding. -/
theorem C19_pool_new_witness :
    iobuf_pool_new true demo_new_env true = some demo_pool ∧
    demo_pool.arena_cnt = 8 ∧ demo_pool.arena_size = 12976128 :=
  ⟨rfl, (C19_pool_new demo_new_env true demo_pool rfl).2.2.2.2.2.2 (fun _ _ => rfl)⟩

/-- C24: arena growth.  On a freshly created pool, for every fixed class `i` whose
pre-allocation succeeded, with `N` pages: `N` consecutive hand-outs
`__iobuf_get (pool, page_size_i, i)` with no return are all served from the initial
arena; before the `N`-th the arena is on `arenas[i]`, after the `N`-th it is on
`filled[i]` and `arenas[i]` is empty, and no arena was allocated.  The next hand-out,
when the allocator succeeds, allocates a second arena of `N` pages (a new object,
`arena_cnt` grows by 1) and is served from it. -/
theorem C24_arena_growth (o : Nat → alloc_env) (ok : Bool) (q : iobuf_pool)
    (h : iobuf_pool_new true o ok = some q) (i : Nat) (hi : i < IOBUF_ARENA_MAX_INDEX)
    (hok : alloc_succeeds (o i) = true) (e : alloc_env) :
    ∃ a, q.arenas i = [a] ∧
      (∀ x, x ∈ (iobuf_get_n e (config_pagesize i) i (config_num_pages i) q).1 →
        ∃ k, x = some (a, k)) ∧
      (iobuf_get_n e (config_pagesize i) i (config_num_pages i) q).1.length =
        config_num_pages i ∧
      (∀ n, n < config_num_pages i →
        (iobuf_get_n e (config_pagesize i) i n q).2.arenas i = [a] ∧
        (iobuf_get_n e (config_pagesize i) i n q).2.filled i = []) ∧
      (iobuf_get_n e (config_pagesize i) i (config_num_pages i) q).2.arenas i = [] ∧
      (iobuf_get_n e (config_pagesize i) i (config_num_pages i) q).2.filled i = [a] ∧
      (iobuf_get_n e (config_pagesize i) i (config_num_pages i) q).2.arena_cnt =
        q.arena_cnt ∧
      (alloc_succeeds e = true →
        ∃ b k B, b ≠ a ∧ q.mem b = none ∧
          (__iobuf_get e (iobuf_get_n e (config_pagesize i) i (config_num_pages i) q).2
            (config_pagesize i) i).1 = some (b, k) ∧
          (__iobuf_get e (iobuf_get_n e (config_pagesize i) i (config_num_pages i) q).2
            (config_pagesize i) i).2.mem b = some B ∧
          B.page_count = config_num_pages i ∧ B.page_size = config_pagesize i ∧
          (__iobuf_get e (iobuf_get_n e (config_pagesize i) i (config_num_pages i) q).2
            (config_pagesize i) i).2.arenas i = [b] ∧
          (__iobuf_get e (iobuf_get_n e (config_pagesize i) i (config_num_pages i) q).2
            (config_pagesize i) i).2.arena_cnt = q.arena_cnt + 1) := by
  obtain ⟨hinv, hf, hp, a, A, h1, hA, hc, hpc, hac⟩ := pool_new_class o ok q h i hi hok
  have hN := num_pages_gt_one i hi
  have hlen : A.passive_list.length = config_num_pages i := by
    have := (hinv.mem_ok a A hA).passive_len
    rw [hpc, hc.2] at this
    omega
  have hcnt : A.passive_cnt = (config_num_pages i : Int) := by rw [hpc, hc.2]
  obtain ⟨s1, s2, s3, s4, s5, s6, _, _, s9⟩ :=
    get_n_spec e (config_pagesize i) i a (config_num_pages i) (config_num_pages i) q A
      h1 hf hp hA hlen hcnt (le_refl _)
  obtain ⟨t1, t2⟩ := s9 rfl (by omega)
  refine ⟨a, h1, s1, s2, fun n hn => ?_, t1, t2, s3, fun he => ?_⟩
  · exact (get_n_spec e (config_pagesize i) i a n (config_num_pages i) q A
      h1 hf hp hA hlen hcnt (by omega)).2.2.2.2.2.2.2.1 hn
  · obtain ⟨g1, g2, g3, ⟨C, g4, g5, g6, _⟩, g7, _⟩ :=
      get_alloc e (iobuf_get_n e (config_pagesize i) i (config_num_pages i) q).2
        (config_pagesize i) i (config_num_pages i) rfl t1 s5 he hN
    rw [s4] at g1 g4 g7
    have hlt := live_lt_next hinv a A hA
    refine ⟨q.next_obj, config_num_pages i - 1, C, by omega, hinv.fresh _ (le_refl _), g1, g4,
      g5, ?_, g7, by rw [g2, s3]⟩
    rw [g6, pagesize_config i hi 0]

/-- C24, instance: class 7 (two pages of 1 MiB) of the pool created with every
allocation succeeding. -/
theorem C24_arena_growth_witness :
    iobuf_pool_new true demo_new_env true = some demo_pool ∧
    alloc_succeeds (demo_new_env 7) = true ∧
    ∃ a, demo_pool.arenas 7 = [a] ∧
      (iobuf_get_n (env_ok 268435456 0) (config_pagesize 7) 7 (config_num_pages 7)
        demo_pool).2.filled 7 = [a] ∧
      (iobuf_get_n (env_ok 268435456 0) (config_pagesize 7) 7 (config_num_pages 7)
        demo_pool).2.arenas 7 = [] :=
  ⟨rfl, rfl,
    match C24_arena_growth demo_new_env true demo_pool rfl 7 (by decide) rfl
      (env_ok 268435456 0) with
    | ⟨a, h1, _, _, _, h5, h6, _⟩ => ⟨a, h1, h6, h5⟩⟩

/-- C13 (as stated, refuted): the sum `page_size + align_size` is computed in `size_t`
and wraps.  With threshold 131072, for `n = 2 ^ 64 - 4096` and the power of two
`a = 4096` the request size is 0, `iobuf_get2` falls back to the default page size and
the small path returns a buffer of 131072 bytes: the `n` bytes from the data pointer do
not fit into the allocation. -/
theorem C13_counterexample :
    Reachable 131072 demo_pool ∧ 0 < 2 ^ 64 - 4096 ∧ 4096 = 2 ^ 12 ∧
    (iobuf_get_page_aligned 131072 (env_ok 0 4096) demo_pool (2 ^ 64 - 4096) 4096).1 =
      some (.heap ⟨none, 1, 4096, some 4096, 131072⟩) ∧
    ¬ (4096 + (2 ^ 64 - 4096) ≤ 4096 + 131072) :=
  ⟨demo_pool_reachable 131072, by decide, by decide, by decide, by decide⟩

/-- C13 (amended): alignment, when the sizes do not wrap.  On a reachable pool, for every
`n > 0` and every power of two `a` with `n + a + 4095 < 2 ^ 64`, a buffer returned by
`iobuf_get_page_aligned (pool, n, a)` has a data pointer divisible by `a`.  If it is
arena-backed, its saved pointer is the start `mem_base + k * page_size` of its page, a
page of the class chosen for `n + a`; the data pointer is less than `a` above that
start and the `n` bytes from it lie inside the page.  If it is a stand-alone buffer, its
saved pointer is the address `d` the allocator returned; on the small path
(`n + a ≤ S`, allocation of `n + a` bytes) the data pointer is less than `a` above `d`
and on the overflow path (allocation of `n + a + 4095` bytes) less than `a + 4095`
above `d`, and the `n` bytes from it lie inside the allocation. -/
theorem C13_alignment (S : Nat) (p : iobuf_pool) (hp : Reachable S p) (o : alloc_env)
    (n al : Nat) (hn : 0 < n) (hal : ∃ e, al = 2 ^ e) (hsum : n + al + 4095 < 2 ^ 64)
    (h : iobuf_ptr) (q : iobuf_pool)
    (hg : iobuf_get_page_aligned S o p n al = (some h, q)) :
    (∀ a k, h = .carved a k →
      ∃ A i, q.mem a = some A ∧ smallest_class (n + al) i ∧
        A.page_size = config_pagesize i ∧ k < A.page_count ∧
        (A.iobufs k).free_ptr = some (A.mem_base + k * A.page_size) ∧
        (A.iobufs k).ptr % al = 0 ∧
        A.mem_base + k * A.page_size ≤ (A.iobufs k).ptr ∧
        (A.iobufs k).ptr < A.mem_base + k * A.page_size + al ∧
        (A.iobufs k).ptr + n ≤ A.mem_base + k * A.page_size + A.page_size) ∧
    (∀ b, h = .heap b →
      ∃ d, o.data = some d ∧ b.free_ptr = some d ∧ b.ptr % al = 0 ∧ d ≤ b.ptr ∧
        (n + al ≤ S → b.ptr < d + al ∧ b.ptr + n ≤ d + (n + al)) ∧
        (S < n + al → b.ptr < d + (al + 4095) ∧ b.ptr + n ≤ d + (n + al + 4095))) := by
  obtain ⟨e, he⟩ := hal
  have hpos : 0 < al := by rw [he]; exact Nat.two_pow_pos e
  have hn0 : n ≠ 0 := by omega
  have hreq : ((if n = 0 then p.default_page_size else n) + al) % 2 ^ 64 = n + al := by
    rw [if_neg hn0]
    exact Nat.mod_eq_of_lt (by omega)
  have hreq0 : n + al ≠ 0 := by omega
  unfold iobuf_get_page_aligned at hg
  dsimp only at hg
  rw [hreq] at hg
  cases hg2 : iobuf_get2 S o p (n + al) with
  | mk r p1 =>
    rw [hg2] at hg
    cases r with
    | none => cases hg
    | some hd =>
      cases hd with
      | heap b0 =>
        dsimp only at hg
        injection hg with h1 h2
        injection h1 with h1
        subst h1 h2
        refine ⟨fun a k hc => (by cases hc), fun b hb => ?_⟩
        injection hb with hb
        subst hb
        obtain ⟨a1, a2, a3⟩ := align_buf_spec b0.ptr al hpos
        rcases get2_cases S o p (n + al) (n + al) (by rw [if_neg hreq0]) with
          ⟨c, e1⟩ | ⟨c, _, e1⟩ | ⟨_, i, _, e1⟩
        · rw [e1] at hg2
          injection hg2 with h3 _
          unfold iobuf_get_from_small at h3
          by_cases ho : o.iobuf = false
          · rw [if_pos ho] at h3; cases h3
          · rw [if_neg ho] at h3
            cases hd : o.data with
            | none => rw [hd] at h3; cases h3
            | some d =>
              rw [hd] at h3
              dsimp only [Option.map] at h3
              injection h3 with h3
              injection h3 with h3
              subst h3
              dsimp only at a1 a2 a3
              refine ⟨d, rfl, rfl, a1, a2, fun _ => ⟨a3, ?_⟩, fun hc => by omega⟩
              show GF_ALIGN_BUF d al + n ≤ d + (n + al)
              omega
        · rw [e1] at hg2
          injection hg2 with h3 _
          unfold iobuf_get_from_stdalloc at h3
          dsimp only at h3
          by_cases ho : o.iobuf = false
          · rw [if_pos ho] at h3; cases h3
          · rw [if_neg ho] at h3
            cases hd : o.data with
            | none => rw [hd] at h3; cases h3
            | some d =>
              rw [hd] at h3
              dsimp only [Option.map] at h3
              injection h3 with h3
              injection h3 with h3
              subst h3
              dsimp only at a1 a2 a3
              obtain ⟨b1, b2, b3⟩ := align_buf_spec d GF_IOBUF_ALIGN_SIZE (by decide)
              have hsz : GF_IOBUF_ALIGN_SIZE = 4096 := rfl
              rw [hsz] at b2 b3 a2 a3
              refine ⟨d, rfl, rfl, a1, ?_, fun hc => by omega, fun _ => ⟨?_, ?_⟩⟩
              · show d ≤ GF_ALIGN_BUF (GF_ALIGN_BUF d 4096) al
                omega
              · show GF_ALIGN_BUF (GF_ALIGN_BUF d 4096) al < d + (al + 4095)
                omega
              · show GF_ALIGN_BUF (GF_ALIGN_BUF d 4096) al + n ≤ d + (n + al + 4095)
                omega
        · rw [e1] at hg2
          cases hq : __iobuf_get o p (config_pagesize i) i with
          | mk r2 p2 =>
            rw [hq] at hg2
            cases r2 with
            | none => cases hg2
            | some ak => cases hg2
      | carved a k =>
        dsimp only at hg
        injection hg with h1 h2
        injection h1 with h1
        subst h1 h2
        refine ⟨fun a2 k2 hc => ?_, fun b hb => by cases hb⟩
        injection hc with hc1 hc2
        subst hc1 hc2
        obtain ⟨A, i, hA, hc, hi, hsc, hk, href, hfp, hptr⟩ := get2_slot_spec hp o (n + al) a k p1 hg2
        rw [if_neg hreq0] at hsc
        obtain ⟨A1, m0, _, _, _, _, m5, m6, m7, m8, _⟩ :=
          modify_iobuf_base p1 a k (iobuf_align al) A hA
        have hA1 : (modify_iobuf p1 a k (iobuf_align al)).mem a = some A1 := by
          rw [m0]
          exact Function.update_same _ _ _
        obtain ⟨a1, a2, a3⟩ := align_buf_spec (A.iobufs k).ptr al hpos
        have hps : n + al ≤ A.page_size := by rw [hc.1]; exact hsc.2.1
        refine ⟨A1, i, hA1, hsc, by rw [m5, hc.1], by rw [m6]; exact hk, ?_, ?_, ?_, ?_, ?_⟩
        · rw [m8, m5, m7]
          show (if (A.iobufs k).free_ptr.isSome then (A.iobufs k).free_ptr
            else some (A.iobufs k).ptr) = _
          rw [hfp, hptr]
          rfl
        · rw [m8]
          exact a1
        · rw [m8, m5, m7, ← hptr]
          exact a2
        · rw [m8, m5, m7, ← hptr]
          exact a3
        · rw [m8, m5, m7, ← hptr]
          show GF_ALIGN_BUF (A.iobufs k).ptr al + n ≤ _
          omega

/-- C13 (amended), instance: `iobuf_get_page_aligned (pool, 200000, 512)` on the fresh
pool with threshold 131072 is slot 7 of arena 6 (class 256 KiB, mapped at 117440512). -/
theorem C13_alignment_witness :
    Reachable 131072 demo_pool ∧ (0 : Nat) < 200000 ∧ (∃ e, 512 = 2 ^ e) ∧
    200000 + 512 + 4095 < 2 ^ 64 ∧
    ∃ A i, (iobuf_get_page_aligned 131072 (env_ok 0 0) demo_pool 200000 512).2.mem 6 = some A ∧
      smallest_class (200000 + 512) i ∧
      A.page_size = config_pagesize i ∧ 7 < A.page_count ∧
      (A.iobufs 7).free_ptr = some (A.mem_base + 7 * A.page_size) ∧
      (A.iobufs 7).ptr % 512 = 0 ∧
      A.mem_base + 7 * A.page_size ≤ (A.iobufs 7).ptr ∧
      (A.iobufs 7).ptr < A.mem_base + 7 * A.page_size + 512 ∧
      (A.iobufs 7).ptr + 200000 ≤ A.mem_base + 7 * A.page_size + A.page_size :=
  ⟨demo_pool_reachable 131072, by decide, ⟨9, by decide⟩, by decide,
    (C13_alignment 131072 demo_pool (demo_pool_reachable 131072) (env_ok 0 0) 200000 512
      (by decide) ⟨9, by decide⟩ (by decide) (.carved 6 7)
      (iobuf_get_page_aligned 131072 (env_ok 0 0) demo_pool 200000 512).2
      (Prod.ext (by decide) rfl)).1 6 7 rfl⟩

/-- C12: aligned round trip.  On a reachable pool, for every `n > 0` and power of two `a`
such that `n + a` selects a fixed class (`S < n + a ≤ 1 MiB`), and the same allocator
answers: `iobuf_get_page_aligned (pool, n, a)` returns the buffer that
`iobuf_get2 (pool, n + a)` returns, and `iobuf_unref` of that buffer after the one gives
exactly the pool state that `iobuf_unref` after the other gives.  The buffer is a slot
of an arena; after the aligned hand-out its saved pointer is its carve position, and
after the return (if the arena was not destroyed) its data pointer is back at the carve
position `mem_base + k * page_size` and its saved pointer is cleared. -/
theorem C12_aligned_round_trip (S : Nat) (p : iobuf_pool) (hp : Reachable S p)
    (o : alloc_env) (n al : Nat) (hn : 0 < n) (hal : ∃ e, al = 2 ^ e) (hS : S < n + al)
    (hmax : n + al ≤ 1048576) :
    (iobuf_get_page_aligned S o p n al).1 = (iobuf_get2 S o p (n + al)).1 ∧
    ∀ h, (iobuf_get2 S o p (n + al)).1 = some h →
      (iobuf_unref (iobuf_get_page_aligned S o p n al).2 h).2 =
        (iobuf_unref (iobuf_get2 S o p (n + al)).2 h).2 ∧
      ∃ a k, h = .carved a k ∧
        (∃ A, (iobuf_get_page_aligned S o p n al).2.mem a = some A ∧
          (A.iobufs k).free_ptr = some (A.mem_base + k * A.page_size) ∧
          (A.iobufs k).ptr = GF_ALIGN_BUF (A.mem_base + k * A.page_size) al) ∧
        ∀ B, (iobuf_unref (iobuf_get_page_aligned S o p n al).2 h).2.mem a = some B →
          (B.iobufs k).free_ptr = none ∧ (B.iobufs k).ptr = B.mem_base + k * B.page_size ∧
          (B.iobufs k).ref = 0 := by
  have hn0 : n ≠ 0 := by omega
  have hreq : ((if n = 0 then p.default_page_size else n) + al) % 2 ^ 64 = n + al := by
    rw [if_neg hn0]
    exact Nat.mod_eq_of_lt (by omega)
  have hA_eq : iobuf_get_page_aligned S o p n al =
      match iobuf_get2 S o p (n + al) with
      | (none, p1) => (none, p1)
      | (some (.heap b), p1) => (some (.heap (iobuf_align al b)), p1)
      | (some (.carved a k), p1) =>
        (some (.carved a k), modify_iobuf p1 a k (iobuf_align al)) := by
    unfold iobuf_get_page_aligned
    dsimp only
    rw [hreq]
    try rfl
  rw [hA_eq]
  cases hg : iobuf_get2 S o p (n + al) with
  | mk r p1 =>
    cases r with
    | none => exact ⟨rfl, fun h hc => by cases hc⟩
    | some hd =>
      obtain ⟨a, k, _, _, hcar, _⟩ := get2_arena_path hp o (n + al) hS hmax hd p1 hg
      subst hcar
      obtain ⟨A, i, hA, hc, hi, _, hk, href, hfp, hptr⟩ := get2_slot_spec hp o (n + al) a k p1 hg
      have hidx := arena_index_of_class hi hc
      refine ⟨rfl, fun h hh => ?_⟩
      injection hh with hh
      subst hh
      dsimp only
      have heq := unref_align_eq p1 a k A hA href hfp al i hidx
      refine ⟨heq, a, k, rfl, ?_, fun B hB => ?_⟩
      · refine ⟨arena_set_iobuf A k (iobuf_align al (A.iobufs k)), ?_, ?_, ?_⟩
        · rw [modify_iobuf_slot p1 a k _ A hA]
          exact Function.update_same _ _ _
        · show (Function.update A.iobufs k (iobuf_align al (A.iobufs k)) k).free_ptr = _
          rw [Function.update_same]
          simp [iobuf_align, hfp, hptr, arena_set_iobuf]
        · show (Function.update A.iobufs k (iobuf_align al (A.iobufs k)) k).ptr = _
          rw [Function.update_same]
          simp [iobuf_align, hptr, arena_set_iobuf]
      · rw [heq] at hB
        rcases unref_last_mem p1 a k A hA href i hidx a B hB with ⟨c, _⟩ |
          ⟨_, c2, _, c4, _, c6, c7, _, c9⟩
        · exact absurd rfl c
        · exact ⟨c6, by rw [c9 hfp, hptr, c2, c4], c7⟩

/-- C12, instance: `n = 200000`, `a = 512` on the fresh pool with threshold 131072. -/
theorem C12_aligned_round_trip_witness :
    Reachable 131072 demo_pool ∧ (0 : Nat) < 200000 ∧ (∃ e, 512 = 2 ^ e) ∧
    131072 < 200000 + 512 ∧ 200000 + 512 ≤ 1048576 ∧
    (iobuf_get2 131072 (env_ok 0 0) demo_pool (200000 + 512)).1 = some (.carved 6 7) ∧
    (iobuf_unref (iobuf_get_page_aligned 131072 (env_ok 0 0) demo_pool 200000 512).2
        (.carved 6 7)).2 =
      (iobuf_unref (iobuf_get2 131072 (env_ok 0 0) demo_pool (200000 + 512)).2
        (.carved 6 7)).2 :=
  ⟨demo_pool_reachable 131072, by decide, ⟨9, by decide⟩, by decide, by decide, by decide,
    ((C12_aligned_round_trip 131072 demo_pool (demo_pool_reachable 131072) (env_ok 0 0)
      200000 512 (by decide) ⟨9, by decide⟩ (by decide) (by decide)).2 (.carved 6 7)
      (by decide)).1⟩

end GlusterIobuf
